import Mathlib

/-!
# BGP peering-policy reconciliation (operator/pkg/bgpv2/bgpp.go)

A shallow embedding of the reconciliation of `CiliumBGPPeeringPolicy` into
BGP Advertisements, Peer Configs and Node Configs, together with theorems
about the key derivation, the upsert helpers and the garbage collection.

The file also embeds the prefix parser of the Go standard library that
`prefixToAddr` calls, and the translation of CIDR-group references in network
policies (pkg/policy/k8s/cilium_cidr_group.go).

Conventions of the embedding:

* a Go `string` is a Lean `String`, read as its sequence of runes;
* an `int64`/`int32` is an `Int` (no arithmetic is performed on them);
* a Go `error` is the sequence of the leaf errors it wraps: `nil` is `[]`
  and `errors.Join` concatenates;
* the API server behind the typed clients is an explicit state `σ` that
  every client call reads and replaces.
-/

namespace BGPv2

/-! ## Strings -/

/-- The function `unicode.ToLower`: on ASCII it adds `'a' - 'A'` to the
letters `'A'..'Z'` and leaves every other rune alone; above ASCII the Go
library consults its case tables, which are the parameter `caseTable`. -/
def unicodeToLower (caseTable : Char → Char) (r : Char) : Char :=
  if r.toNat ≤ 0x7F then
    if 'A'.toNat ≤ r.toNat ∧ r.toNat ≤ 'Z'.toNat then Char.ofNat (r.toNat + 32) else r
  else caseTable r

/-- The function `strings.ToLower`: every rune mapped to its lower case. -/
def ToLower (caseTable : Char → Char) (s : String) : String :=
  ⟨s.data.map (unicodeToLower caseTable)⟩

/-- The call `strings.ReplaceAll(s, old, new)` for a pattern and a
replacement of one rune each, the only form the package uses. -/
def ReplaceAll (s : String) (old new : Char) : String :=
  ⟨s.data.map (fun r => if r = old then new else r)⟩

/-- The verb `%d` of `fmt.Sprintf` on an `int64`: the decimal digits,
after a minus sign when the number is negative. -/
def formatInt (n : Int) : String :=
  match n with
  | Int.ofNat m => ⟨Nat.toDigits 10 m⟩
  | Int.negSucc m => ⟨'-' :: Nat.toDigits 10 (m + 1)⟩

/-! ## Key derivation -/

/-- Source: `instanceKeyFromBGPP`, `fmt.Sprintf("%s-%d", policyName, localASN)`. -/
def instanceKeyFromBGPP (policyName : String) (localASN : Int) : String :=
  policyName ++ "-" ++ formatInt localASN

/-- Source: `peerKeyFromBGPP`. -/
def peerKeyFromBGPP (caseTable : Char → Char) (policyName : String) (localASN : Int)
    (peerAddr : String) : String :=
  let peerAddr := ReplaceAll peerAddr '/' '-'
  let peerAddr := ReplaceAll peerAddr ':' '.'
  let key := instanceKeyFromBGPP policyName localASN ++ "-" ++ peerAddr
  ToLower caseTable key

/-- The characters of a resource name: lower-case letters, digits, `-` and `.`. -/
def isNameChar (c : Char) : Bool :=
  ('a'.toNat ≤ c.toNat && c.toNat ≤ 'z'.toNat) || ('0'.toNat ≤ c.toNat && c.toNat ≤ '9'.toNat)
    || c = '-' || c = '.'

/-- The characters of IPv4/IPv6 prefix notation: digits, hexadecimal letters
of either case, `.`, `:` and `/`. -/
def isCIDRChar (c : Char) : Bool :=
  ('0'.toNat ≤ c.toNat && c.toNat ≤ '9'.toNat) || ('a'.toNat ≤ c.toNat && c.toNat ≤ 'f'.toNat)
    || ('A'.toNat ≤ c.toNat && c.toNat ≤ 'F'.toNat) || c = '.' || c = ':' || c = '/'

/-- The substitution the specification describes for the address component:
every `/` becomes `-` and every `:` becomes `.`, all other runes stay. -/
def substituteAddr (s : String) : String :=
  ⟨s.data.map (fun r => if r = '/' then '-' else if r = ':' then '.' else r)⟩

/-- A rune that the key derivation leaves alone: it is none of `-`, `/`, `:`
and lower-casing does not change it. -/
def isStableRune (caseTable : Char → Char) (c : Char) : Prop :=
  c ≠ '-' ∧ c ≠ '/' ∧ c ≠ ':' ∧ unicodeToLower caseTable c = c

instance (caseTable : Char → Char) (c : Char) : Decidable (isStableRune caseTable c) := by
  unfold isStableRune
  infer_instance

/-- The ASCII half of `unicodeToLower`, free of the case table. -/
def asciiLower (r : Char) : Char :=
  if 'A'.toNat ≤ r.toNat ∧ r.toNat ≤ 'Z'.toNat then Char.ofNat (r.toNat + 32) else r

/-- The number a string of decimal digits denotes, read left to right. -/
def decodeDecimal (l : List Char) : Nat :=
  l.foldl (fun acc c => acc * 10 + (c.toNat - 48)) 0

/-! ## Errors -/

/-- The reason of an API status error, as far as the package tells reasons
apart. -/
inductive StatusReason where
  | NotFound
  | AlreadyExists
  | Other (code : Nat)
deriving DecidableEq

/-- One error that wraps no other: an API status error, or any other error
(a cancelled context, a transport failure). -/
inductive ErrorLeaf where
  | status (reason : StatusReason)
  | plain (msg : String)
deriving DecidableEq

/-- A Go `error`: the leaf errors it wraps, in depth-first order; `nil` is `[]`. -/
abbrev GoError := List ErrorLeaf

/-- The function `errors.Join` on two errors. -/
def errorsJoin (a b : GoError) : GoError := a ++ b

/-- The function `k8s_errors.ReasonForError`: the reason of the first API
status error found in the error. -/
def ReasonForError (err : GoError) : Option StatusReason :=
  err.findSome? (fun e => match e with
    | ErrorLeaf.status r => some r
    | ErrorLeaf.plain _ => none)

/-- The function `k8s_errors.IsNotFound`. -/
def IsNotFound (err : GoError) : Bool := ReasonForError err = some StatusReason.NotFound

/-- The function `k8s_errors.IsAlreadyExists`. -/
def IsAlreadyExists (err : GoError) : Bool :=
  ReasonForError err = some StatusReason.AlreadyExists

/-! ## API types (package `v2alpha1` and object metadata) -/

structure OwnerReference where
  APIVersion : String
  Kind : String
  Name : String
  UID : String
deriving DecidableEq

/-- Object metadata. A Go map is an association list in a canonical order of
its keys, so that `DeepEqual` on maps is equality. -/
structure ObjectMeta where
  Name : String
  UID : String
  ResourceVersion : String
  OwnerReferences : List OwnerReference
  Labels : List (String × String)
deriving DecidableEq

structure LabelSelectorRequirement where
  Key : String
  Operator : String
  Values : List String
deriving DecidableEq

structure LabelSelector where
  MatchLabels : List (String × String)
  MatchExpressions : List LabelSelectorRequirement
deriving DecidableEq

structure BGPCommunities where
  Standard : List String
  WellKnown : List String
  Large : List String
deriving DecidableEq

structure CiliumBGPAttributes where
  Community : Option BGPCommunities
  LocalPreference : Option Int
deriving DecidableEq

/-- One entry of an advertisement resource. -/
structure Advertisement where
  AdvertisementType : String
  Selector : Option LabelSelector
  Attributes : Option CiliumBGPAttributes
deriving DecidableEq

structure CiliumBGPAdvertisementSpec where
  Advertisements : List Advertisement
deriving DecidableEq

structure CiliumBGPAdvertisement extends ObjectMeta where
  Spec : CiliumBGPAdvertisementSpec
deriving DecidableEq

structure CiliumBGPPathAttributes where
  SelectorType : String
  Selector : Option LabelSelector
  Communities : Option BGPCommunities
  LocalPreference : Option Int
deriving DecidableEq

structure CiliumBGPNeighborGracefulRestart where
  Enabled : Bool
  RestartTimeSeconds : Option Int
deriving DecidableEq

structure CiliumBGPFamily where
  Afi : String
  Safi : String
deriving DecidableEq

/-- A neighbor of a virtual router, after `SetDefaults`: the pointers the
reconciliation dereferences (port, timers, multihop TTL) hold a value. -/
structure CiliumBGPNeighbor where
  PeerAddress : String
  PeerPort : Int
  PeerASN : Int
  AuthSecretRef : Option String
  EBGPMultihopTTL : Int
  ConnectRetryTimeSeconds : Int
  HoldTimeSeconds : Int
  KeepAliveTimeSeconds : Int
  GracefulRestart : Option CiliumBGPNeighborGracefulRestart
  Families : List CiliumBGPFamily
  AdvertisedPathAttributes : List CiliumBGPPathAttributes
deriving DecidableEq

/-- A virtual router, after `SetDefaults`: `ExportPodCIDR` holds a value. -/
structure CiliumBGPVirtualRouter where
  LocalASN : Int
  ExportPodCIDR : Bool
  PodIPPoolSelector : Option LabelSelector
  ServiceSelector : Option LabelSelector
  Neighbors : List CiliumBGPNeighbor
deriving DecidableEq

structure CiliumBGPPeeringPolicySpec where
  NodeSelector : Option LabelSelector
  VirtualRouters : List CiliumBGPVirtualRouter
deriving DecidableEq

structure CiliumBGPPeeringPolicy extends ObjectMeta where
  Spec : CiliumBGPPeeringPolicySpec
deriving DecidableEq

structure CiliumBGPTransport where
  PeerPort : Option Int
deriving DecidableEq

structure CiliumBGPTimers where
  ConnectRetryTimeSeconds : Option Int
  HoldTimeSeconds : Option Int
  KeepAliveTimeSeconds : Option Int
deriving DecidableEq

structure CiliumBGPFamilyWithAdverts extends CiliumBGPFamily where
  Advertisements : Option LabelSelector
deriving DecidableEq

structure CiliumBGPPeerConfigSpec where
  Transport : Option CiliumBGPTransport
  Timers : Option CiliumBGPTimers
  AuthSecretRef : Option String
  GracefulRestart : Option CiliumBGPNeighborGracefulRestart
  EBGPMultihop : Option Int
  Families : List CiliumBGPFamilyWithAdverts
deriving DecidableEq

structure CiliumBGPPeerConfig extends ObjectMeta where
  Spec : CiliumBGPPeerConfigSpec
deriving DecidableEq

structure PeerConfigReference where
  Group : String
  Kind : String
  Name : String
deriving DecidableEq

structure CiliumBGPNodePeer where
  Name : String
  PeerAddress : Option String
  PeerASN : Option Int
  PeerConfigRef : Option PeerConfigReference
deriving DecidableEq

structure CiliumBGPNodeInstance where
  Name : String
  LocalASN : Option Int
  Peers : List CiliumBGPNodePeer
deriving DecidableEq

structure CiliumBGPNodeSpec where
  BGPInstances : List CiliumBGPNodeInstance
deriving DecidableEq

structure CiliumBGPNodeConfig extends ObjectMeta where
  Spec : CiliumBGPNodeSpec
deriving DecidableEq

/-! ## Constants -/

/-- Source: `bgpPPAdvertisementLabel`. -/
def bgpPPAdvertisementLabel : String := "bgpPeeringPolicy.advertise"

/-- Modelled from the spec: the owner kind "peering policy"; the constant
`BGPPKindDefinition` is declared in the API package. -/
def BGPPKindDefinition : String := "CiliumBGPPeeringPolicy"

/-- Modelled from the spec: the kind of a PeerConfig; the constant
`BGPPCKindDefinition` is declared in the API package. -/
def BGPPCKindDefinition : String := "CiliumBGPPeerConfig"

/-- Modelled from the spec: the group of the derived resources; the constant
`CustomResourceDefinitionGroup` is declared in the API package. -/
def CustomResourceDefinitionGroup : String := "cilium.io"

/-- Modelled from the spec: the API version written into owner references,
`slim_core_v1.SchemeGroupVersion.String()`. -/
def SchemeGroupVersion : String := "v1"

/-- Modelled from the spec: the category tag of a self-subnet entry; the
constant `PodCIDRAdvert` is declared in the API package. -/
def PodCIDRAdvert : String := "PodCIDR"

/-- Modelled from the spec: the category tag of a service entry; the constant
`CiliumLoadBalancerIPAdvert` is declared in the API package. -/
def CiliumLoadBalancerIPAdvert : String := "CiliumLoadBalancerIP"

/-- Modelled from the spec: the category tag of an address-pool entry; the
constant `CiliumPodIPPoolAdvert` is declared in the API package. -/
def CiliumPodIPPoolAdvert : String := "CiliumPodIPPool"

/-- Modelled from the spec: the selector category "self-subnet" of a path
attribute set; the constant `PodCIDRSelectorName` is declared in the API package. -/
def PodCIDRSelectorName : String := "PodCIDR"

/-- Modelled from the spec: the selector category "service"; the constant
`CiliumLoadBalancerIPPoolSelectorName` is declared in the API package. -/
def CiliumLoadBalancerIPPoolSelectorName : String := "CiliumLoadBalancerIPPool"

/-- Modelled from the spec: the selector category "address-pool"; the constant
`CiliumPodIPPoolSelectorName` is declared in the API package. -/
def CiliumPodIPPoolSelectorName : String := "CiliumPodIPPool"

/-! ## Collaborators -/

/-- Modelled from the spec: the cache of one resource kind (`resource.Store`),
a read-only snapshot for the duration of a pass. `GetByKey` answers
`(object, found, error)`: `.error err` is a non-nil error, `.ok none` is
"not found", `.ok (some obj)` is a found object. In the source `GetByKey`
hands out a pointer to the cached object, and the assignment `prev.Spec = ...`
of an upsert helper, made just before its `Update`, writes the desired spec
into the cache as well. The snapshot of the model does not follow that write:
metadata and names in the cache are never written, so the two differ only in
the spec that a later lookup of the same key finds, and they agree on every
run in which no key is looked up again after such an assignment. -/
structure Store (T : Type) where
  GetByKey : String → Except GoError (Option T)
  List : List T

/-- Modelled from the spec: the typed client of one resource kind. Every call
reads the state `σ` of the API server and yields the state it leaves. The
object that `Create` and `Update` return next to the error is dropped by
every caller and is not part of the model. -/
structure Client (σ T : Type) where
  Create : T → σ → GoError × σ
  Update : T → σ → GoError × σ
  Delete : String → σ → GoError × σ
  Get : String → σ → Except GoError T × σ

/-- Source: `BGPResourceManager`, restricted to the fields `bgpp.go` uses. -/
structure BGPResourceManager (σ : Type) where
  peeringPolicyStore : Store CiliumBGPPeeringPolicy
  advertStore : Store CiliumBGPAdvertisement
  advertClient : Client σ CiliumBGPAdvertisement
  peerConfigStore : Store CiliumBGPPeerConfig
  peerConfigClient : Client σ CiliumBGPPeerConfig
  nodeConfigStore : Store CiliumBGPNodeConfig
  nodeConfigClient : Client σ CiliumBGPNodeConfig

/-! ## Advertisements -/

/-- Source: `getAttributes`. -/
def getAttributes (neigh : CiliumBGPNeighbor) (selectorType : String) :
    Option CiliumBGPAttributes :=
  match neigh.AdvertisedPathAttributes.find? (fun attr => attr.SelectorType = selectorType) with
  | some attr => some { Community := attr.Communities, LocalPreference := attr.LocalPreference }
  | none => none

/-- The body of the loop of `deleteStaleAdvertisement`, for one listed object. -/
def deleteStaleAdvertisementBody {σ : Type} (IsOwner : List OwnerReference → String → Bool)
    (b : BGPResourceManager σ) (expectedAdverts : List String) (bgppName : String)
    (acc : GoError × σ) (advert : CiliumBGPAdvertisement) : GoError × σ :=
  let exists_ := decide (advert.Name ∈ expectedAdverts)
  if !exists_ && IsOwner advert.OwnerReferences bgppName then
    let r := b.advertClient.Delete advert.Name acc.2
    if r.1 ≠ [] && !IsNotFound r.1 then (errorsJoin acc.1 r.1, r.2) else (acc.1, r.2)
  else acc

/-- Source: `deleteStaleAdvertisement`. The expected set is a list of names
used only for membership; `IsOwner` is declared elsewhere in the package. -/
def deleteStaleAdvertisement {σ : Type} (IsOwner : List OwnerReference → String → Bool)
    (b : BGPResourceManager σ) (expectedAdverts : List String) (bgppName : String)
    (s : σ) : GoError × σ :=
  b.advertStore.List.foldl (deleteStaleAdvertisementBody IsOwner b expectedAdverts bgppName)
    ([], s)

/-- The object `advert` that `updateAdvertisement` builds for creation. -/
def newAdvertisement (bgpp : CiliumBGPPeeringPolicy) (name : String)
    (adverts : List Advertisement) : CiliumBGPAdvertisement :=
  { Name := name
    UID := ""
    ResourceVersion := ""
    OwnerReferences :=
      [{ APIVersion := SchemeGroupVersion, Kind := BGPPKindDefinition,
         Name := bgpp.Name, UID := bgpp.UID }]
    Labels := [(bgpPPAdvertisementLabel, name)]
    Spec := { Advertisements := adverts } }

/-- Source: `updateAdvertisement`. The assignment `prev.Spec = advert.Spec` is
made on the object that is passed to `Update`; the cache keeps its snapshot
(see `Store`). -/
def updateAdvertisement {σ : Type} (b : BGPResourceManager σ) (bgpp : CiliumBGPPeeringPolicy)
    (name : String) (adverts : List Advertisement) (s : σ) : GoError × σ :=
  match b.advertStore.GetByKey name with
  | Except.error err => (err, s)
  | Except.ok found =>
    if adverts.length = 0 then
      match found with
      | none => ([], s)
      | some _ =>
        let r := b.advertClient.Delete name s
        if r.1 ≠ [] && !IsNotFound r.1 then (r.1, r.2) else ([], r.2)
    else
      let advert := newAdvertisement bgpp name adverts
      match found with
      | some prev =>
        if prev.Spec = advert.Spec then ([], s)
        else b.advertClient.Update { prev with Spec := advert.Spec } s
      | none =>
        let r := b.advertClient.Create advert s
        if r.1 ≠ [] && IsAlreadyExists r.1 then
          match b.advertClient.Get advert.Name r.2 with
          | (Except.error err, s₂) => (err, s₂)
          | (Except.ok prev, s₂) =>
            if prev.Spec ≠ advert.Spec then
              b.advertClient.Update { prev with Spec := advert.Spec } s₂
            else ([], s₂)
        else r

/-- The entry list that `reconcileBGPPAdvertisement` builds for one neighbor
of one virtual router (the body of its inner loop up to the key). -/
def neighborAdvertisements (vr : CiliumBGPVirtualRouter) (neigh : CiliumBGPNeighbor) :
    List Advertisement :=
  let advertisements : List Advertisement := []
  let advertisements :=
    if vr.ExportPodCIDR then
      advertisements ++ [{ AdvertisementType := PodCIDRAdvert, Selector := none,
                           Attributes := getAttributes neigh PodCIDRSelectorName }]
    else advertisements
  let advertisements :=
    if vr.ServiceSelector ≠ none then
      advertisements ++ [{ AdvertisementType := CiliumLoadBalancerIPAdvert,
                           Selector := vr.ServiceSelector,
                           Attributes := getAttributes neigh CiliumLoadBalancerIPPoolSelectorName }]
    else advertisements
  let advertisements :=
    if vr.PodIPPoolSelector ≠ none then
      advertisements ++ [{ AdvertisementType := CiliumPodIPPoolAdvert,
                           Selector := vr.PodIPPoolSelector,
                           Attributes := getAttributes neigh CiliumPodIPPoolSelectorName }]
    else advertisements
  advertisements

/-- The body of the inner loop of `reconcileBGPPAdvertisement`, for one
neighbor of the virtual router `vr`: the joined error, the expected names and
the state, before and after. -/
def reconcileBGPPAdvertisementBody {σ : Type} (caseTable : Char → Char)
    (b : BGPResourceManager σ) (bgpp : CiliumBGPPeeringPolicy) (vr : CiliumBGPVirtualRouter)
    (acc : GoError × List String × σ) (neigh : CiliumBGPNeighbor) :
    GoError × List String × σ :=
  let advertisements := neighborAdvertisements vr neigh
  let peerKey := peerKeyFromBGPP caseTable bgpp.Name vr.LocalASN neigh.PeerAddress
  let expectedAdvertisements := peerKey :: acc.2.1
  let r := updateAdvertisement b bgpp peerKey advertisements acc.2.2
  if r.1 ≠ [] then (errorsJoin acc.1 r.1, expectedAdvertisements, r.2)
  else (acc.1, expectedAdvertisements, r.2)

/-- The loops of `reconcileBGPPAdvertisement` over the virtual routers and
their neighbors. -/
def reconcileBGPPAdvertisementLoop {σ : Type} (caseTable : Char → Char)
    (b : BGPResourceManager σ) (bgpp : CiliumBGPPeeringPolicy) (s : σ) :
    GoError × List String × σ :=
  bgpp.Spec.VirtualRouters.foldl
    (fun acc vr => vr.Neighbors.foldl (reconcileBGPPAdvertisementBody caseTable b bgpp vr) acc)
    ([], [], s)

/-- Source: `reconcileBGPPAdvertisement`. -/
def reconcileBGPPAdvertisement {σ : Type} (caseTable : Char → Char)
    (IsOwner : List OwnerReference → String → Bool) (b : BGPResourceManager σ)
    (bgpp : CiliumBGPPeeringPolicy) (s : σ) : GoError × σ :=
  let r := reconcileBGPPAdvertisementLoop caseTable b bgpp s
  let cleanup := deleteStaleAdvertisement IsOwner b r.2.1 bgpp.Name r.2.2
  if cleanup.1 ≠ [] then (errorsJoin r.1 cleanup.1, cleanup.2) else (r.1, cleanup.2)

/-! ## Peer configs -/

/-- The body of the loop of `deleteStalePeerConfig`, for one listed object. -/
def deleteStalePeerConfigBody {σ : Type} (IsOwner : List OwnerReference → String → Bool)
    (b : BGPResourceManager σ) (expectedPeerConfigs : List String) (bgppName : String)
    (acc : GoError × σ) (peerConfig : CiliumBGPPeerConfig) : GoError × σ :=
  let exists_ := decide (peerConfig.Name ∈ expectedPeerConfigs)
  if !exists_ && IsOwner peerConfig.OwnerReferences bgppName then
    let r := b.peerConfigClient.Delete peerConfig.Name acc.2
    if r.1 ≠ [] && !IsNotFound r.1 then (errorsJoin acc.1 r.1, r.2) else (acc.1, r.2)
  else acc

/-- Source: `deleteStalePeerConfig`. -/
def deleteStalePeerConfig {σ : Type} (IsOwner : List OwnerReference → String → Bool)
    (b : BGPResourceManager σ) (expectedPeerConfigs : List String) (bgppName : String)
    (s : σ) : GoError × σ :=
  b.peerConfigStore.List.foldl
    (deleteStalePeerConfigBody IsOwner b expectedPeerConfigs bgppName) ([], s)

/-- The object `peerConfig` that `updatePeerConfig` builds for creation. -/
def newPeerConfig (bgpp : CiliumBGPPeeringPolicy) (name : String)
    (spec : CiliumBGPPeerConfigSpec) : CiliumBGPPeerConfig :=
  { Name := name
    UID := ""
    ResourceVersion := ""
    OwnerReferences :=
      [{ APIVersion := SchemeGroupVersion, Kind := BGPPKindDefinition,
         Name := bgpp.Name, UID := bgpp.UID }]
    Labels := []
    Spec := spec }

/-- Source: `updatePeerConfig`. The assignment `prev.Spec = peerConfig.Spec` is
made on the object that is passed to `Update`; the cache keeps its snapshot
(see `Store`). -/
def updatePeerConfig {σ : Type} (b : BGPResourceManager σ) (bgpp : CiliumBGPPeeringPolicy)
    (name : String) (spec : CiliumBGPPeerConfigSpec) (s : σ) : GoError × σ :=
  match b.peerConfigStore.GetByKey name with
  | Except.error err => (err, s)
  | Except.ok found =>
    let peerConfig := newPeerConfig bgpp name spec
    match found with
    | some prev =>
      if prev.Spec = peerConfig.Spec then ([], s)
      else b.peerConfigClient.Update { prev with Spec := peerConfig.Spec } s
    | none =>
      let r := b.peerConfigClient.Create peerConfig s
      if r.1 ≠ [] && IsAlreadyExists r.1 then
        match b.peerConfigClient.Get peerConfig.Name r.2 with
        | (Except.error err, s₂) => (err, s₂)
        | (Except.ok prev, s₂) =>
          if prev.Spec ≠ peerConfig.Spec then
            b.peerConfigClient.Update { prev with Spec := peerConfig.Spec } s₂
          else ([], s₂)
      else r

/-- The spec that `reconcileBGPPPeerConfig` builds for one neighbor of one
virtual router (the body of its inner loop up to the key). -/
def neighborPeerSpec (caseTable : Char → Char) (bgpp : CiliumBGPPeeringPolicy)
    (vr : CiliumBGPVirtualRouter) (neigh : CiliumBGPNeighbor) : CiliumBGPPeerConfigSpec :=
  let peerSpec : CiliumBGPPeerConfigSpec :=
    { Transport := some { PeerPort := some neigh.PeerPort }
      Timers := some { ConnectRetryTimeSeconds := some neigh.ConnectRetryTimeSeconds
                       HoldTimeSeconds := some neigh.HoldTimeSeconds
                       KeepAliveTimeSeconds := some neigh.KeepAliveTimeSeconds }
      GracefulRestart := neigh.GracefulRestart
      AuthSecretRef := neigh.AuthSecretRef
      EBGPMultihop := some neigh.EBGPMultihopTTL
      Families := [] }
  neigh.Families.foldl
    (fun (peerSpec : CiliumBGPPeerConfigSpec) fam =>
      { peerSpec with
        Families := peerSpec.Families ++
          [{ toCiliumBGPFamily := fam
             Advertisements := some
               { MatchLabels :=
                   [(bgpPPAdvertisementLabel,
                     peerKeyFromBGPP caseTable bgpp.Name vr.LocalASN neigh.PeerAddress)]
                 MatchExpressions := [] } }] })
    peerSpec

/-- The body of the inner loop of `reconcileBGPPPeerConfig`, for one neighbor
of the virtual router `vr`: the joined error, the expected names and the
state, before and after. -/
def reconcileBGPPPeerConfigBody {σ : Type} (caseTable : Char → Char)
    (b : BGPResourceManager σ) (bgpp : CiliumBGPPeeringPolicy) (vr : CiliumBGPVirtualRouter)
    (acc : GoError × List String × σ) (neigh : CiliumBGPNeighbor) :
    GoError × List String × σ :=
  let peerSpec := neighborPeerSpec caseTable bgpp vr neigh
  let peerConfigKey := peerKeyFromBGPP caseTable bgpp.Name vr.LocalASN neigh.PeerAddress
  let expectedPeerConfig := peerConfigKey :: acc.2.1
  let r := updatePeerConfig b bgpp peerConfigKey peerSpec acc.2.2
  if r.1 ≠ [] then (errorsJoin acc.1 r.1, expectedPeerConfig, r.2)
  else (acc.1, expectedPeerConfig, r.2)

/-- The loops of `reconcileBGPPPeerConfig` over the virtual routers and their
neighbors. -/
def reconcileBGPPPeerConfigLoop {σ : Type} (caseTable : Char → Char)
    (b : BGPResourceManager σ) (bgpp : CiliumBGPPeeringPolicy) (s : σ) :
    GoError × List String × σ :=
  bgpp.Spec.VirtualRouters.foldl
    (fun acc vr => vr.Neighbors.foldl (reconcileBGPPPeerConfigBody caseTable b bgpp vr) acc)
    ([], [], s)

/-- Source: `reconcileBGPPPeerConfig`. -/
def reconcileBGPPPeerConfig {σ : Type} (caseTable : Char → Char)
    (IsOwner : List OwnerReference → String → Bool) (b : BGPResourceManager σ)
    (bgpp : CiliumBGPPeeringPolicy) (s : σ) : GoError × σ :=
  let r := reconcileBGPPPeerConfigLoop caseTable b bgpp s
  let dErr := deleteStalePeerConfig IsOwner b r.2.1 bgpp.Name r.2.2
  if dErr.1 ≠ [] then (errorsJoin r.1 dErr.1, dErr.2) else (r.1, dErr.2)

/-! ## Node configs -/

/-- Source: `prefixToAddr`. The parameter `parsePrefix` is `netip.ParsePrefix`
followed by `Addr().String()`: the bare address of a well-formed prefix, or
the parse error. -/
def prefixToAddr (parsePrefix : String → Except GoError String) (cidr : String) :
    Except GoError String :=
  match parsePrefix cidr with
  | Except.error err => Except.error err
  | Except.ok addr => Except.ok addr

/-- Source: `peerConfigRefFromBGPP`. -/
def peerConfigRefFromBGPP (caseTable : Char → Char) (policyName : String) (localASN : Int)
    (peerAddr : String) : PeerConfigReference :=
  { Group := CustomResourceDefinitionGroup
    Kind := BGPPCKindDefinition
    Name := peerKeyFromBGPP caseTable policyName localASN peerAddr }

/-- Source: `nodeBGPInstancesFromBGPP`. -/
def nodeBGPInstancesFromBGPP (caseTable : Char → Char)
    (parsePrefix : String → Except GoError String) (bgpp : CiliumBGPPeeringPolicy) :
    List CiliumBGPNodeInstance :=
  bgpp.Spec.VirtualRouters.foldl
    (fun (res : List CiliumBGPNodeInstance) vr =>
      let inst : CiliumBGPNodeInstance :=
        { Name := instanceKeyFromBGPP bgpp.Name vr.LocalASN
          LocalASN := some vr.LocalASN
          Peers := [] }
      let inst := vr.Neighbors.foldl
        (fun (inst : CiliumBGPNodeInstance) neigh =>
          match prefixToAddr parsePrefix neigh.PeerAddress with
          | Except.error _ => inst
          | Except.ok peerAddr =>
            let peer : CiliumBGPNodePeer :=
              { Name := peerKeyFromBGPP caseTable bgpp.Name vr.LocalASN neigh.PeerAddress
                PeerAddress := some peerAddr
                PeerASN := some neigh.PeerASN
                PeerConfigRef := some
                  (peerConfigRefFromBGPP caseTable bgpp.Name vr.LocalASN neigh.PeerAddress) }
            { inst with Peers := inst.Peers ++ [peer] })
        inst
      res ++ [inst])
    []

/-- The object `nodeConfig` that `upsertBGPPNodeConfig` builds for creation. -/
def newNodeConfig (caseTable : Char → Char) (parsePrefix : String → Except GoError String)
    (bgpp : CiliumBGPPeeringPolicy) (nodeRef : String) : CiliumBGPNodeConfig :=
  { Name := nodeRef
    UID := ""
    ResourceVersion := ""
    OwnerReferences :=
      [{ APIVersion := SchemeGroupVersion, Kind := BGPPKindDefinition,
         Name := bgpp.Name, UID := bgpp.UID }]
    Labels := []
    Spec := { BGPInstances := nodeBGPInstancesFromBGPP caseTable parsePrefix bgpp } }

/-- Source: `upsertBGPPNodeConfig`. The assignment `prev.Spec = nodeConfig.Spec`
is made on the object that is passed to `Update`; the cache keeps its snapshot
(see `Store`). -/
def upsertBGPPNodeConfig {σ : Type} (caseTable : Char → Char)
    (parsePrefix : String → Except GoError String) (b : BGPResourceManager σ)
    (bgpp : CiliumBGPPeeringPolicy) (nodeRef : String) (s : σ) : GoError × σ :=
  match b.nodeConfigStore.GetByKey nodeRef with
  | Except.error err => (err, s)
  | Except.ok found =>
    let nodeConfig := newNodeConfig caseTable parsePrefix bgpp nodeRef
    match found with
    | some prev =>
      if prev.Spec = nodeConfig.Spec then ([], s)
      else b.nodeConfigClient.Update { prev with Spec := nodeConfig.Spec } s
    | none =>
      let r := b.nodeConfigClient.Create nodeConfig s
      if r.1 ≠ [] && IsAlreadyExists r.1 then
        match b.nodeConfigClient.Get nodeConfig.Name r.2 with
        | (Except.error err, s₂) => (err, s₂)
        | (Except.ok prev, s₂) =>
          if prev.Spec ≠ nodeConfig.Spec then
            b.nodeConfigClient.Update { prev with Spec := nodeConfig.Spec } s₂
          else ([], s₂)
      else r

/-- The body of the loop of `reconcileBGPPNodeConfig`, for one matching node. -/
def reconcileBGPPNodeConfigBody {σ : Type} (caseTable : Char → Char)
    (parsePrefix : String → Except GoError String) (b : BGPResourceManager σ)
    (bgpp : CiliumBGPPeeringPolicy) (acc : GoError × σ) (nodeRef : String) : GoError × σ :=
  let r := upsertBGPPNodeConfig caseTable parsePrefix b bgpp nodeRef acc.2
  if r.1 ≠ [] then (errorsJoin acc.1 r.1, r.2) else (acc.1, r.2)

/-- Source: `reconcileBGPPNodeConfig`. The methods `getMatchingNodes` and
`deleteStaleNodeConfigs` of the manager are declared in other files of the
package and are parameters here; the set of matching nodes is the list of its
members in the order in which the `range` loop visits them. -/
def reconcileBGPPNodeConfig {σ : Type} (caseTable : Char → Char)
    (parsePrefix : String → Except GoError String)
    (getMatchingNodes : Option LabelSelector → String → Except GoError (List String))
    (deleteStaleNodeConfigs : List String → String → σ → GoError × σ)
    (b : BGPResourceManager σ) (bgpp : CiliumBGPPeeringPolicy) (s : σ) : GoError × σ :=
  match getMatchingNodes bgpp.Spec.NodeSelector bgpp.Name with
  | Except.error err => (err, s)
  | Except.ok matchingNodes =>
    let r := matchingNodes.foldl (reconcileBGPPNodeConfigBody caseTable parsePrefix b bgpp)
      ([], s)
    let d := deleteStaleNodeConfigs matchingNodes bgpp.Name r.2
    if d.1 ≠ [] then (errorsJoin r.1 d.1, d.2) else (r.1, d.2)

/-! ## Policies -/

/-- Source: `reconcileBGPPeeringPolicy`. The method `SetDefaults` of the policy
is declared in the API package and is a parameter here. -/
def reconcileBGPPeeringPolicy {σ : Type} (caseTable : Char → Char)
    (IsOwner : List OwnerReference → String → Bool)
    (parsePrefix : String → Except GoError String)
    (SetDefaults : CiliumBGPPeeringPolicy → CiliumBGPPeeringPolicy)
    (getMatchingNodes : Option LabelSelector → String → Except GoError (List String))
    (deleteStaleNodeConfigs : List String → String → σ → GoError × σ)
    (b : BGPResourceManager σ) (bgpp : CiliumBGPPeeringPolicy) (s : σ) : GoError × σ :=
  let err : GoError := []
  let bgpp := SetDefaults bgpp
  let raErr := reconcileBGPPAdvertisement caseTable IsOwner b bgpp s
  let err := if raErr.1 ≠ [] then errorsJoin err raErr.1 else err
  let rpErr := reconcileBGPPPeerConfig caseTable IsOwner b bgpp raErr.2
  let err := if rpErr.1 ≠ [] then errorsJoin err rpErr.1 else err
  let rnErr := reconcileBGPPNodeConfig caseTable parsePrefix getMatchingNodes
    deleteStaleNodeConfigs b bgpp rpErr.2
  let err := if rnErr.1 ≠ [] then errorsJoin err rnErr.1 else err
  (err, rnErr.2)

/-- The body of the loop of `reconcileBGPPeeringPolicies`, for one policy. -/
def reconcileBGPPeeringPoliciesBody {σ : Type} (caseTable : Char → Char)
    (IsOwner : List OwnerReference → String → Bool)
    (parsePrefix : String → Except GoError String)
    (SetDefaults : CiliumBGPPeeringPolicy → CiliumBGPPeeringPolicy)
    (getMatchingNodes : Option LabelSelector → String → Except GoError (List String))
    (deleteStaleNodeConfigs : List String → String → σ → GoError × σ)
    (b : BGPResourceManager σ) (acc : GoError × σ) (bgpp : CiliumBGPPeeringPolicy) :
    GoError × σ :=
  let rpErr := reconcileBGPPeeringPolicy caseTable IsOwner parsePrefix SetDefaults
    getMatchingNodes deleteStaleNodeConfigs b bgpp acc.2
  if rpErr.1 ≠ [] then (errorsJoin acc.1 rpErr.1, rpErr.2) else (acc.1, rpErr.2)

/-- Source: `reconcileBGPPeeringPolicies`. -/
def reconcileBGPPeeringPolicies {σ : Type} (caseTable : Char → Char)
    (IsOwner : List OwnerReference → String → Bool)
    (parsePrefix : String → Except GoError String)
    (SetDefaults : CiliumBGPPeeringPolicy → CiliumBGPPeeringPolicy)
    (getMatchingNodes : Option LabelSelector → String → Except GoError (List String))
    (deleteStaleNodeConfigs : List String → String → σ → GoError × σ)
    (b : BGPResourceManager σ) (s : σ) : GoError × σ :=
  b.peeringPolicyStore.List.foldl
    (reconcileBGPPeeringPoliciesBody caseTable IsOwner parsePrefix SetDefaults
      getMatchingNodes deleteStaleNodeConfigs b)
    ([], s)

/-- Modelled from the spec: `deleteStaleNodeConfigs`, which is declared in
another file of the package: every listed NodeConfig whose name is not a
matching node and which the policy owns is deleted, and a `Delete` that
reports NotFound is a success. -/
def deleteStaleNodeConfigsModel {σ : Type} (IsOwner : List OwnerReference → String → Bool)
    (b : BGPResourceManager σ) (matchingNodes : List String) (bgppName : String) (s : σ) :
    GoError × σ :=
  b.nodeConfigStore.List.foldl
    (fun (acc : GoError × σ) nodeConfig =>
      if !decide (nodeConfig.Name ∈ matchingNodes)
          && IsOwner nodeConfig.OwnerReferences bgppName then
        let r := b.nodeConfigClient.Delete nodeConfig.Name acc.2
        if r.1 ≠ [] && !IsNotFound r.1 then (errorsJoin acc.1 r.1, r.2) else (acc.1, r.2)
      else acc)
    ([], s)

/-! ## Observation of the store calls -/

/-- One call on a typed client. -/
inductive Call (T : Type) where
  | Create (obj : T)
  | Update (obj : T)
  | Delete (name : String)
  | Get (name : String)

/-- One call on one of the three clients of the manager. -/
inductive StoreCall where
  | advert (c : Call CiliumBGPAdvertisement)
  | peerConfig (c : Call CiliumBGPPeerConfig)
  | nodeConfig (c : Call CiliumBGPNodeConfig)

/-- The error a `Get` answered with, `nil` when it found the object. -/
def getError {T : Type} (r : Except GoError T) : GoError :=
  match r with
  | Except.error err => err
  | Except.ok _ => []

/-- A client that behaves as `c` and appends every call it receives, with the
error the call returned, to a log kept next to the state. -/
def Client.recording {σ T : Type} (tag : Call T → StoreCall) (c : Client σ T) :
    Client (σ × List (StoreCall × GoError)) T where
  Create obj s :=
    ((c.Create obj s.1).1,
      ((c.Create obj s.1).2, s.2 ++ [(tag (Call.Create obj), (c.Create obj s.1).1)]))
  Update obj s :=
    ((c.Update obj s.1).1,
      ((c.Update obj s.1).2, s.2 ++ [(tag (Call.Update obj), (c.Update obj s.1).1)]))
  Delete name s :=
    ((c.Delete name s.1).1,
      ((c.Delete name s.1).2, s.2 ++ [(tag (Call.Delete name), (c.Delete name s.1).1)]))
  Get name s :=
    ((c.Get name s.1).1,
      ((c.Get name s.1).2, s.2 ++ [(tag (Call.Get name), getError (c.Get name s.1).1)]))

/-- The manager `b` with every client call logged. -/
def BGPResourceManager.recording {σ : Type} (b : BGPResourceManager σ) :
    BGPResourceManager (σ × List (StoreCall × GoError)) :=
  { peeringPolicyStore := b.peeringPolicyStore
    advertStore := b.advertStore
    advertClient := b.advertClient.recording StoreCall.advert
    peerConfigStore := b.peerConfigStore
    peerConfigClient := b.peerConfigClient.recording StoreCall.peerConfig
    nodeConfigStore := b.nodeConfigStore
    nodeConfigClient := b.nodeConfigClient.recording StoreCall.nodeConfig }

/-- The calls of a log, without the errors they returned. -/
def calls (log : List (StoreCall × GoError)) : List StoreCall := log.map Prod.fst

/-- Modelled from the spec: `IsOwner`, which is declared elsewhere in the
package: some owner back-reference is of the peering-policy kind and names
the policy. -/
def IsOwner (owners : List OwnerReference) (name : String) : Bool :=
  owners.any (fun owner => owner.Kind = BGPPKindDefinition && owner.Name = name)

/-! ## An in-memory resource store -/

/-- Modelled from the spec: the contents of the resource store, one listing
per derived kind. -/
structure APIServer where
  adverts : List CiliumBGPAdvertisement
  peerConfigs : List CiliumBGPPeerConfig
  nodeConfigs : List CiliumBGPNodeConfig

/-- Modelled from the spec: `create(object)`, which fails with AlreadyExists
when an object of that name is stored, and stores the object otherwise. -/
def memCreate {T : Type} (name : T → String) (obj : T) (l : List T) : GoError × List T :=
  if l.any (fun o => name o = name obj) then
    ([ErrorLeaf.status StatusReason.AlreadyExists], l)
  else ([], l ++ [obj])

/-- Modelled from the spec: `update(object)`, which replaces the stored object
of that name, and fails with NotFound when there is none. -/
def memUpdate {T : Type} (name : T → String) (obj : T) (l : List T) : GoError × List T :=
  if l.any (fun o => name o = name obj) then
    ([], l.map (fun o => if name o = name obj then obj else o))
  else ([ErrorLeaf.status StatusReason.NotFound], l)

/-- Modelled from the spec: `delete(key)`, which removes the stored object of
that name, and fails with NotFound when there is none. -/
def memDelete {T : Type} (name : T → String) (key : String) (l : List T) : GoError × List T :=
  if l.any (fun o => name o = key) then ([], l.filter (fun o => name o ≠ key))
  else ([ErrorLeaf.status StatusReason.NotFound], l)

/-- Modelled from the spec: `get(key)` on the authoritative store. -/
def memGet {T : Type} (name : T → String) (key : String) (l : List T) : Except GoError T :=
  match l.find? (fun o => name o = key) with
  | some o => Except.ok o
  | none => Except.error [ErrorLeaf.status StatusReason.NotFound]

/-- Modelled from the spec: a cache that is a snapshot of the listing `l`. -/
def snapshot {T : Type} (name : T → String) (l : List T) : Store T :=
  { GetByKey := fun key => Except.ok (l.find? (fun o => name o = key))
    List := l }

/-- The client of the Advertisement kind on the in-memory store. -/
def memAdvertClient : Client APIServer CiliumBGPAdvertisement :=
  { Create := fun obj s =>
      ((memCreate (fun o => o.Name) obj s.adverts).1,
        { s with adverts := (memCreate (fun o => o.Name) obj s.adverts).2 })
    Update := fun obj s =>
      ((memUpdate (fun o => o.Name) obj s.adverts).1,
        { s with adverts := (memUpdate (fun o => o.Name) obj s.adverts).2 })
    Delete := fun key s =>
      ((memDelete (fun o => o.Name) key s.adverts).1,
        { s with adverts := (memDelete (fun o => o.Name) key s.adverts).2 })
    Get := fun key s => (memGet (fun o => o.Name) key s.adverts, s) }

/-- The client of the PeerConfig kind on the in-memory store. -/
def memPeerConfigClient : Client APIServer CiliumBGPPeerConfig :=
  { Create := fun obj s =>
      ((memCreate (fun o => o.Name) obj s.peerConfigs).1,
        { s with peerConfigs := (memCreate (fun o => o.Name) obj s.peerConfigs).2 })
    Update := fun obj s =>
      ((memUpdate (fun o => o.Name) obj s.peerConfigs).1,
        { s with peerConfigs := (memUpdate (fun o => o.Name) obj s.peerConfigs).2 })
    Delete := fun key s =>
      ((memDelete (fun o => o.Name) key s.peerConfigs).1,
        { s with peerConfigs := (memDelete (fun o => o.Name) key s.peerConfigs).2 })
    Get := fun key s => (memGet (fun o => o.Name) key s.peerConfigs, s) }

/-- The client of the NodeConfig kind on the in-memory store. -/
def memNodeConfigClient : Client APIServer CiliumBGPNodeConfig :=
  { Create := fun obj s =>
      ((memCreate (fun o => o.Name) obj s.nodeConfigs).1,
        { s with nodeConfigs := (memCreate (fun o => o.Name) obj s.nodeConfigs).2 })
    Update := fun obj s =>
      ((memUpdate (fun o => o.Name) obj s.nodeConfigs).1,
        { s with nodeConfigs := (memUpdate (fun o => o.Name) obj s.nodeConfigs).2 })
    Delete := fun key s =>
      ((memDelete (fun o => o.Name) key s.nodeConfigs).1,
        { s with nodeConfigs := (memDelete (fun o => o.Name) key s.nodeConfigs).2 })
    Get := fun key s => (memGet (fun o => o.Name) key s.nodeConfigs, s) }

/-- The manager whose clients act on the in-memory store and whose caches are
snapshots of the listings of `cache`; its policy listing is empty. -/
def memManager (cache : APIServer) : BGPResourceManager APIServer :=
  { peeringPolicyStore := snapshot (fun o => o.Name) []
    advertStore := snapshot (fun o => o.Name) cache.adverts
    advertClient := memAdvertClient
    peerConfigStore := snapshot (fun o => o.Name) cache.peerConfigs
    peerConfigClient := memPeerConfigClient
    nodeConfigStore := snapshot (fun o => o.Name) cache.nodeConfigs
    nodeConfigClient := memNodeConfigClient }

/-! ## Properties of one upsert, in the words of the specification -/

/-- An upsert on a key present in the cache with the object `prev`: when the
cached spec equals the desired spec there is no store call and the result is
success; otherwise there is exactly one call, an `Update` of an object that
has the metadata of `prev` and the desired spec, whose result is returned. -/
def UpsertsCached {σ T S : Type} (client : Client σ T) (tag : Call T → StoreCall)
    (metaOf : T → ObjectMeta) (specOf : T → S) (prev : T) (desired : S) (s : σ)
    (r : GoError × (σ × List (StoreCall × GoError))) : Prop :=
  (specOf prev = desired → r = ([], (s, [])))
    ∧ (specOf prev ≠ desired →
        ∃ obj : T, metaOf obj = metaOf prev ∧ specOf obj = desired
          ∧ calls r.2.2 = [tag (Call.Update obj)]
          ∧ (r.1, r.2.1) = client.Update obj s)

/-- An upsert whose `Create` of `created` was answered AlreadyExists, leaving
the state `s₁`: the helper calls `Get`; when the fetched spec equals the
desired spec there is no further call and the result is success; otherwise
there is exactly one `Update`, of the fetched object with the desired spec,
whose result is returned. -/
def ResolvesConflict {σ T S : Type} (client : Client σ T) (tag : Call T → StoreCall)
    (metaOf : T → ObjectMeta) (specOf : T → S) (created : T) (name : String) (desired : S)
    (s₁ : σ) (r : GoError × (σ × List (StoreCall × GoError))) : Prop :=
  ∀ (fetched : T) (s₂ : σ), client.Get name s₁ = (Except.ok fetched, s₂) →
    (specOf fetched = desired →
        r.1 = [] ∧ r.2.1 = s₂ ∧ calls r.2.2 = [tag (Call.Create created), tag (Call.Get name)])
      ∧ (specOf fetched ≠ desired →
          ∃ obj : T, metaOf obj = metaOf fetched ∧ specOf obj = desired
            ∧ calls r.2.2 =
                [tag (Call.Create created), tag (Call.Get name), tag (Call.Update obj)]
            ∧ (r.1, r.2.1) = client.Update obj s₂)

/-! ## Two phases of one pass -/

/-- The pairs of a virtual router and one of its neighbors, in the order in
which the loops of the reconciliation visit them. -/
def neighborPairs (bgpp : CiliumBGPPeeringPolicy) :
    List (CiliumBGPVirtualRouter × CiliumBGPNeighbor) :=
  bgpp.Spec.VirtualRouters.flatMap (fun vr => vr.Neighbors.map (fun neigh => (vr, neigh)))

/-- The peer keys that a policy derives, one for each neighbor, in loop order. -/
def peerKeys (caseTable : Char → Char) (bgpp : CiliumBGPPeeringPolicy) : List String :=
  (neighborPairs bgpp).map
    (fun p => peerKeyFromBGPP caseTable bgpp.Name p.1.LocalASN p.2.PeerAddress)

/-- The advertisement phase and the peer-config phase of
`reconcileBGPPeeringPolicy`, in its order and with its joining of errors, on
a policy that has its defaults. -/
def reconcileDerived {σ : Type} (caseTable : Char → Char)
    (IsOwner : List OwnerReference → String → Bool) (b : BGPResourceManager σ)
    (bgpp : CiliumBGPPeeringPolicy) (s : σ) : GoError × σ :=
  let err : GoError := []
  let raErr := reconcileBGPPAdvertisement caseTable IsOwner b bgpp s
  let err := if raErr.1 ≠ [] then errorsJoin err raErr.1 else err
  let rpErr := reconcileBGPPPeerConfig caseTable IsOwner b bgpp raErr.2
  let err := if rpErr.1 ≠ [] then errorsJoin err rpErr.1 else err
  (err, rpErr.2)

/-! ## Resolver outputs, in the words of the specification -/

/-- The entry list of the specification for one neighbor of one virtual
router: the sub-list of self-subnet, service, address-pool entries, in that
order, that keeps the self-subnet entry when ExportPodCIDR is set, the service
entry when the service selector is present and the pool entry when the
pod-IP-pool selector is present. -/
def advertisementEntriesSpec (vr : CiliumBGPVirtualRouter) (neigh : CiliumBGPNeighbor) :
    List Advertisement :=
  ([(vr.ExportPodCIDR,
      ({ AdvertisementType := PodCIDRAdvert, Selector := none,
         Attributes := getAttributes neigh PodCIDRSelectorName } : Advertisement)),
    (vr.ServiceSelector.isSome,
      { AdvertisementType := CiliumLoadBalancerIPAdvert, Selector := vr.ServiceSelector,
        Attributes := getAttributes neigh CiliumLoadBalancerIPPoolSelectorName }),
    (vr.PodIPPoolSelector.isSome,
      { AdvertisementType := CiliumPodIPPoolAdvert, Selector := vr.PodIPPoolSelector,
        Attributes := getAttributes neigh CiliumPodIPPoolSelectorName })].filter
    (fun e => e.1)).map (fun e => e.2)

/-- The peers of the specification for one virtual router: one peer for each
neighbor whose address parses, in neighbor order, with the parsed address, the
peer ASN and the reference to the PeerConfig of the neighbor. -/
def nodePeersSpec (caseTable : Char → Char) (parsePrefix : String → Except GoError String)
    (policyName : String) (localASN : Int) (neighbors : List CiliumBGPNeighbor) :
    List CiliumBGPNodePeer :=
  neighbors.filterMap (fun neigh =>
    match prefixToAddr parsePrefix neigh.PeerAddress with
    | Except.error _ => none
    | Except.ok peerAddr =>
      some { Name := peerKeyFromBGPP caseTable policyName localASN neigh.PeerAddress
             PeerAddress := some peerAddr
             PeerASN := some neigh.PeerASN
             PeerConfigRef := some
               { Group := CustomResourceDefinitionGroup
                 Kind := BGPPCKindDefinition
                 Name := peerKeyFromBGPP caseTable policyName localASN neigh.PeerAddress } })

/-- The routing instances of the specification: one for each virtual router,
in order, with the router's ASN and the peers of `nodePeersSpec`. -/
def nodeInstancesSpec (caseTable : Char → Char) (parsePrefix : String → Except GoError String)
    (bgpp : CiliumBGPPeeringPolicy) : List CiliumBGPNodeInstance :=
  bgpp.Spec.VirtualRouters.map (fun vr =>
    { Name := instanceKeyFromBGPP bgpp.Name vr.LocalASN
      LocalASN := some vr.LocalASN
      Peers := nodePeersSpec caseTable parsePrefix bgpp.Name vr.LocalASN vr.Neighbors })

/-- Modelled from the spec: whether one requirement of a label selector holds
of a set of labels, with the operators of the Kubernetes label selector. -/
def requirementHolds (labels : List (String × String)) (r : LabelSelectorRequirement) : Bool :=
  if r.Operator = "In" then
    match labels.lookup r.Key with
    | some v => decide (v ∈ r.Values)
    | none => false
  else if r.Operator = "NotIn" then
    match labels.lookup r.Key with
    | some v => decide (v ∉ r.Values)
    | none => true
  else if r.Operator = "Exists" then (labels.lookup r.Key).isSome
  else if r.Operator = "DoesNotExist" then (labels.lookup r.Key).isNone
  else false

/-- Modelled from the spec: whether a label selector matches a set of labels:
every pair of its MatchLabels is among the labels and every requirement of
its MatchExpressions holds. -/
def selectorMatches (sel : LabelSelector) (labels : List (String × String)) : Bool :=
  sel.MatchLabels.all (fun kv => labels.lookup kv.1 = some kv.2)
    && sel.MatchExpressions.all (requirementHolds labels)

/-! ## Passes, in the words of the specification -/

/-- The per-policy reconciliations of the specification: every policy of the
listing is reconciled once, in list order, each from the state that the
reconciliation before it left, whatever that one returned. -/
def policyRuns {σ : Type} (reconcile : CiliumBGPPeeringPolicy → σ → GoError × σ) :
    List CiliumBGPPeeringPolicy → σ → List (GoError × σ)
  | [], _ => []
  | bgpp :: rest, s => reconcile bgpp s :: policyRuns reconcile rest (reconcile bgpp s).2

/-- A step on a state that carries the log of the store calls reports only
logged failures: it only appends to the log, and it returns nil when every call
of the log it leaves succeeded. -/
def ReportsOnlyLoggedFailures {σ : Type}
    (f : σ × List (StoreCall × GoError) → GoError × (σ × List (StoreCall × GoError))) : Prop :=
  ∀ s, (∃ new, (f s).2.2 = s.2 ++ new) ∧ ((∀ e ∈ (f s).2.2, e.2 = []) → (f s).1 = [])

/-! ## CIDR groups in network policies (pkg/policy/k8s/cilium_cidr_group.go) -/

/-- Modelled from the spec: the type `api.CIDRRule`, which is declared in
package `pkg/policy/api`, restricted to the fields that
`cilium_cidr_group.go` reads or writes. A `CIDR` and a `CIDRGroupRef` are
strings; an absent one is the empty string. -/
structure CIDRRule where
  Cidr : String
  CIDRGroupRef : String
  ExceptCIDRs : List String
deriving DecidableEq

/-- Modelled from the spec: the type `api.IngressRule`, restricted to the field
`FromCIDRSet`. -/
structure IngressRule where
  FromCIDRSet : List CIDRRule
deriving DecidableEq

/-- Modelled from the spec: the type `api.Rule`, restricted to the field
`Ingress`. -/
structure Rule where
  Ingress : List IngressRule
deriving DecidableEq

/-- Modelled from the spec: the type `types.SlimCNP`, restricted to the fields
`Spec` and `Specs`; a pointer to a rule is an `Option`, with `none` for nil. -/
structure SlimCNP where
  Spec : Option Rule
  Specs : List (Option Rule)
deriving DecidableEq

/-- The body of the loop of `translateSpec`, for one ingress entry. The map
`cidrsSets` is its lookup function: `none` for a key that is not found. -/
def translateIngress (cidrsSets : String → Option (List String)) (ingress : IngressRule) :
    IngressRule :=
  let split := ingress.FromCIDRSet.foldl
    (fun (acc : List CIDRRule × List CIDRRule) rule =>
      if rule.CIDRGroupRef = "" then (acc.1 ++ [rule], acc.2) else (acc.1, acc.2 ++ [rule]))
    ([], [])
  let oldRules := split.1
  let refRules := split.2
  let newRules := refRules.foldl
    (fun (newRules : List CIDRRule) refRule =>
      match cidrsSets refRule.CIDRGroupRef with
      | none => newRules
      | some cidrs =>
        if cidrs.length = 0 then newRules
        else
          cidrs.foldl
            (fun (newRules : List CIDRRule) cidr =>
              newRules ++ [{ Cidr := cidr, CIDRGroupRef := "",
                             ExceptCIDRs := refRule.ExceptCIDRs }])
            newRules)
    []
  { ingress with FromCIDRSet := oldRules ++ newRules }

/-- Source: `translateSpec`, which rewrites the rule in place: the result is
the rule it leaves. -/
def translateSpec (spec : Rule) (cidrsSets : String → Option (List String)) : Rule :=
  { spec with Ingress := spec.Ingress.map (translateIngress cidrsSets) }

/-- Source: `translateCIDRGroupRefs`; the result is the translated copy. -/
def translateCIDRGroupRefs (cnp : SlimCNP) (cidrsSets : String → Option (List String)) :
    SlimCNP :=
  { Spec := cnp.Spec.map (fun spec => translateSpec spec cidrsSets)
    Specs := cnp.Specs.map (fun spec => spec.map (fun spec => translateSpec spec cidrsSets)) }

/-- The CIDR rules of the claim on `translateSpec`: the rules without a
reference, unchanged and in their order, and then, for the rules with a
reference in their order, one rule for each CIDR that the map holds for the
reference, with the exceptions of the referencing rule and no reference. -/
def translatedRulesSpec (cidrsSets : String → Option (List String)) (rules : List CIDRRule) :
    List CIDRRule :=
  rules.filter (fun rule => rule.CIDRGroupRef = "")
    ++ (rules.filter (fun rule => rule.CIDRGroupRef ≠ "")).flatMap (fun refRule =>
        ((cidrsSets refRule.CIDRGroupRef).getD []).map (fun cidr =>
          { Cidr := cidr, CIDRGroupRef := "", ExceptCIDRs := refRule.ExceptCIDRs }))

/-- The type `netip.Addr`: an IPv4 address is its octets; of an IPv6 address
the model keeps the text that its method `String` renders for it without the zone,
and the zone. -/
inductive Addr where
  | v4 (fields : List Nat)
  | v6 (text : String) (zone : String)
deriving DecidableEq

/-- The state of the loop of `parseIPv4`: the octets stored so far (`pos` is
their number), the value and the number of digits of the current octet. -/
structure IPv4Scan where
  fields : List Nat
  val : Nat
  digLen : Nat
deriving DecidableEq

/-- The loop of `parseIPv4` from index `i` on, over the runes that are left;
`len` is the length of the string and `prev` the rune at index `i - 1`. -/
def parseIPv4Loop (len : Nat) : List Char → Nat → Char → IPv4Scan → Except GoError IPv4Scan
  | [], _, _, st => Except.ok st
  | c :: rest, i, prev, st =>
    if '0'.toNat ≤ c.toNat ∧ c.toNat ≤ '9'.toNat then
      if st.digLen = 1 ∧ st.val = 0 then
        Except.error [ErrorLeaf.plain "IPv4 field has octet with leading zero"]
      else
        let val := st.val * 10 + (c.toNat - '0'.toNat)
        if val > 255 then Except.error [ErrorLeaf.plain "IPv4 field has value >255"]
        else parseIPv4Loop len rest (i + 1) c { st with val := val, digLen := st.digLen + 1 }
    else if c = '.' then
      if i = 0 ∨ i = len - 1 ∨ prev = '.' then
        Except.error [ErrorLeaf.plain "IPv4 field must have at least one digit"]
      else if st.fields.length = 3 then
        Except.error [ErrorLeaf.plain "IPv4 address too long"]
      else parseIPv4Loop len rest (i + 1) c
        { fields := st.fields ++ [st.val], val := 0, digLen := 0 }
    else Except.error [ErrorLeaf.plain "unexpected character"]

/-- Modelled from the spec: the function `parseIPv4` of `net/netip`, which is
not among the sources. -/
def parseIPv4 (s : String) : Except GoError Addr :=
  match parseIPv4Loop s.data.length s.data 0 '.' { fields := [], val := 0, digLen := 0 } with
  | Except.error err => Except.error err
  | Except.ok st =>
    if st.fields.length < 3 then Except.error [ErrorLeaf.plain "IPv4 address too short"]
    else Except.ok (Addr.v4 (st.fields ++ [st.val]))

/-- The scan of `netip.ParseAddr` for the first of `.`, `:` and `%`. -/
def ParseAddrScan (parseIPv6 : String → Except GoError (String × String)) (s : String) :
    List Char → Except GoError Addr
  | [] => Except.error [ErrorLeaf.plain "unable to parse IP"]
  | c :: rest =>
    if c = '.' then parseIPv4 s
    else if c = ':' then
      match parseIPv6 s with
      | Except.error err => Except.error err
      | Except.ok ip => Except.ok (Addr.v6 ip.1 ip.2)
    else if c = '%' then Except.error [ErrorLeaf.plain "missing IPv6 address"]
    else ParseAddrScan parseIPv6 s rest

/-- Modelled from the spec: the function `netip.ParseAddr`, which is not among
the sources. Its IPv6 half is the parameter `parseIPv6`, which answers the
text of the parsed address and its zone; the function `parseIPv6` of the
library is modelled further down. -/
def ParseAddr (parseIPv6 : String → Except GoError (String × String)) (s : String) :
    Except GoError Addr :=
  ParseAddrScan parseIPv6 s s.data

/-- Modelled from the spec: the method `Addr.String`, which is not among the
sources, on an address without zone: the octets of an IPv4 address in decimal,
joined by `.`. -/
def addrString : Addr → String
  | Addr.v4 fields => ".".intercalate (fields.map (fun n => (⟨Nat.toDigits 10 n⟩ : String)))
  | Addr.v6 text _ => text

/-- The index of the last occurrence of the rune `c`, `none` when there is
none (`bytealg.LastIndexByteString`, which answers `-1` then). -/
def LastIndexByteString (c : Char) : List Char → Option Nat
  | [] => none
  | x :: xs =>
    match LastIndexByteString c xs with
    | some i => some (i + 1)
    | none => if x = c then some 0 else none

/-- The call `strconv.Atoi(bitsStr)` behind the guard of `ParsePrefix` against
a sign or a leading zero: the decimal value of a string of digits, and an
error for every other string and for a value above the largest `int`. -/
def parseBits (bitsStr : List Char) : Except GoError Nat :=
  let guarded : Bool :=
    match bitsStr with
    | c :: _ :: _ => decide (c.toNat < '1'.toNat ∨ c.toNat > '9'.toNat)
    | _ => false
  if guarded then Except.error [ErrorLeaf.plain "bad bits after slash"]
  else if bitsStr = [] ∨ ¬ (∀ c ∈ bitsStr, '0'.toNat ≤ c.toNat ∧ c.toNat ≤ '9'.toNat) then
    Except.error [ErrorLeaf.plain "bad bits after slash"]
  else if decodeDecimal bitsStr > 9223372036854775807 then
    Except.error [ErrorLeaf.plain "bad bits after slash"]
  else Except.ok (decodeDecimal bitsStr)

/-- Modelled from the spec: the function `netip.ParsePrefix`, which is not
among the sources: the address and the prefix length of a well-formed CIDR,
and a parse error for every other string. -/
def ParsePrefix (parseIPv6 : String → Except GoError (String × String)) (s : String) :
    Except GoError (Addr × Nat) :=
  match LastIndexByteString '/' s.data with
  | none => Except.error [ErrorLeaf.plain "no slash"]
  | some i =>
    match ParseAddr parseIPv6 ⟨s.data.take i⟩ with
    | Except.error err => Except.error err
    | Except.ok ip =>
      match ip with
      | Addr.v6 text zone =>
        if zone ≠ "" then
          Except.error [ErrorLeaf.plain "IPv6 zones cannot be present in a prefix"]
        else
          match parseBits (s.data.drop (i + 1)) with
          | Except.error err => Except.error err
          | Except.ok bits =>
            if bits > 128 then Except.error [ErrorLeaf.plain "prefix length out of range"]
            else Except.ok (Addr.v6 text zone, bits)
      | Addr.v4 fields =>
        match parseBits (s.data.drop (i + 1)) with
        | Except.error err => Except.error err
        | Except.ok bits =>
          if bits > 32 then Except.error [ErrorLeaf.plain "prefix length out of range"]
          else Except.ok (Addr.v4 fields, bits)

/-- Modelled from the spec: the parser that `prefixToAddr` runs, which is
`netip.ParsePrefix` and on success `prefix.Addr().String()`. -/
def netipPrefixAddr (parseIPv6 : String → Except GoError (String × String)) (cidr : String) :
    Except GoError String :=
  match ParsePrefix parseIPv6 cidr with
  | Except.error err => Except.error err
  | Except.ok pfx => Except.ok (addrString pfx.1)

/-- An IPv4 address in canonical dotted-quad form: the four octets in decimal
without leading zeros, joined by `.`. -/
def dottedQuad (a b c d : Nat) : String :=
  ⟨Nat.toDigits 10 a ++ '.' :: (Nat.toDigits 10 b ++ '.' :: (Nat.toDigits 10 c
    ++ '.' :: Nat.toDigits 10 d))⟩

/-- The steps of the loop of `parseIPv4` over the digits of one octet, on the
value and the digit count alone; `none` when a step fails. -/
def scanOctet : Nat × Nat → List Char → Option (Nat × Nat)
  | st, [] => some st
  | st, c :: rest =>
    if st.2 = 1 ∧ st.1 = 0 then none
    else if st.1 * 10 + (c.toNat - '0'.toNat) > 255 then none
    else scanOctet (st.1 * 10 + (c.toNat - '0'.toNat), st.2 + 1) rest

/-- A decimal digit. -/
def isDigitRune (c : Char) : Bool := decide ('0'.toNat ≤ c.toNat ∧ c.toNat ≤ '9'.toNat)

instance {ε α : Type} [DecidableEq ε] [DecidableEq α] : DecidableEq (Except ε α) :=
  fun x y =>
    match x, y with
    | Except.ok a, Except.ok b =>
      if h : a = b then isTrue (by rw [h]) else isFalse (fun h2 => h (by cases h2; rfl))
    | Except.error a, Except.error b =>
      if h : a = b then isTrue (by rw [h]) else isFalse (fun h2 => h (by cases h2; rfl))
    | Except.ok _, Except.error _ => isFalse (fun h => by cases h)
    | Except.error _, Except.ok _ => isFalse (fun h => by cases h)

/-! ## Failures and cancellation -/

/-- An error that no helper absorbs: it is not nil, and it is neither NotFound
nor AlreadyExists, as the error of a cancelled context is. -/
def IsHardFailure (err : GoError) : Prop :=
  err ≠ [] ∧ IsNotFound err = false ∧ IsAlreadyExists err = false

/-- A step on a state that carries the log of the store calls reports every
hard failure: it only appends to the log, and the error of every call it
appends that is a hard failure is a segment of the error it returns. -/
def ReportsEveryFailure {σ : Type}
    (f : σ × List (StoreCall × GoError) → GoError × (σ × List (StoreCall × GoError))) : Prop :=
  ∀ s, ∃ new, (f s).2.2 = s.2 ++ new ∧ ∀ e ∈ new, IsHardFailure e.2 → e.2 <:+: (f s).1

/-- A change of a state that carries the log of the store calls only appends to
the log. -/
def AppendsToLog {σ : Type}
    (F : σ × List (StoreCall × GoError) → σ × List (StoreCall × GoError)) : Prop :=
  ∀ s, ∃ new, (F s).2 = s.2 ++ new

/-- A change of a state that carries the log of the store calls issues the
call `c`: from every state it only appends to the log, and `c` is among the
calls it appends, whatever the calls before it returned. -/
def IssuesCall {σ : Type}
    (F : σ × List (StoreCall × GoError) → σ × List (StoreCall × GoError))
    (c : StoreCall) : Prop :=
  ∀ s, ∃ new, (F s).2 = s.2 ++ new ∧ c ∈ calls new

/-- The calls that an upsert helper may issue when it is invoked for the name
`k` with the object `built` for creation and the desired spec `desired`: a
`Create` of `built`, a `Get` of `k`, a `Delete` of `k`, or an `Update` of an
object that the cache or a `Get` answered for `k`, with its spec replaced by
`desired`. -/
def IsUpsertCallFor {σ T S : Type} (store : Store T) (client : Client σ T)
    (withSpec : T → S → T) (k : String) (built : T) (desired : S) : Call T → Prop
  | Call.Create obj => obj = built
  | Call.Get name => name = k
  | Call.Delete name => name = k
  | Call.Update obj =>
    ∃ prev, obj = withSpec prev desired
      ∧ (store.GetByKey k = Except.ok (some prev) ∨ ∃ s, (client.Get k s).1 = Except.ok prev)

/-! ## The IPv6 half of the parser (package `net/netip`, Go 1.22) -/

/-- The value of a hexadecimal digit, `none` for every other rune. -/
def hexDigitValue (c : Char) : Option Nat :=
  if '0'.toNat ≤ c.toNat ∧ c.toNat ≤ '9'.toNat then some (c.toNat - '0'.toNat)
  else if 'a'.toNat ≤ c.toNat ∧ c.toNat ≤ 'f'.toNat then some (c.toNat - 'a'.toNat + 10)
  else if 'A'.toNat ≤ c.toNat ∧ c.toNat ≤ 'F'.toNat then some (c.toNat - 'A'.toNat + 10)
  else none

/-- The inner loop of `parseIPv6` over the hexadecimal digits of one group,
from the offset `off` with the value `acc`: the offset of the first rune that
is no hexadecimal digit, and the value of the group. The value is at most
`0xFFFF` before every shift, so that the 32-bit arithmetic of the library
never wraps. -/
def parseIPv6Hex : List Char → Nat → Nat → Except GoError (Nat × Nat)
  | [], off, acc => Except.ok (off, acc)
  | c :: rest, off, acc =>
    match hexDigitValue c with
    | none => Except.ok (off, acc)
    | some d =>
      if off > 3 then Except.error [ErrorLeaf.plain "each group must have 4 or less digits"]
      else if acc * 16 + d > 65535 then
        Except.error [ErrorLeaf.plain "IPv6 field has value >=2^16"]
      else parseIPv6Hex rest (off + 1) (acc * 16 + d)

/-- The state of the outer loop of `parseIPv6`: what is left of the string,
the number `i` of bytes stored, the bytes stored, and the position of the
ellipsis `::` (`none` for the `-1` of the library). -/
structure IPv6Scan where
  s : List Char
  i : Nat
  ip : List Nat
  ellipsis : Option Nat
deriving DecidableEq

/-- The outer loop `for i < 16` of `parseIPv6`. The first argument bounds the
iterations that are left: the loop is entered with `i = 0` and the bound 8,
and every iteration that continues adds 2 to `i`, so that the bound is used up
exactly when `i` reaches 16. -/
def parseIPv6Loop : Nat → IPv6Scan → Except GoError IPv6Scan
  | 0, st => Except.ok st
  | n + 1, st =>
    if ¬ st.i < 16 then Except.ok st
    else
      match parseIPv6Hex st.s 0 0 with
      | Except.error err => Except.error err
      | Except.ok (off, acc) =>
        if off = 0 then
          Except.error
            [ErrorLeaf.plain "each colon-separated field must have at least one digit"]
        else
          match st.s.drop off with
          | [] =>
            Except.ok { s := [], i := st.i + 2, ip := st.ip ++ [acc / 256, acc % 256],
                        ellipsis := st.ellipsis }
          | c :: rest =>
            if c = '.' then
              if st.ellipsis = none ∧ st.i ≠ 12 then
                Except.error [ErrorLeaf.plain
                  "embedded IPv4 address must replace the final 2 fields of the address"]
              else if st.i + 4 > 16 then
                Except.error [ErrorLeaf.plain
                  "too many hex fields to fit an embedded IPv4 at the end of the address"]
              else
                match parseIPv4 ⟨st.s⟩ with
                | Except.error err => Except.error err
                | Except.ok (Addr.v4 fields) =>
                  Except.ok { s := [], i := st.i + 4, ip := st.ip ++ fields,
                              ellipsis := st.ellipsis }
                | Except.ok (Addr.v6 _ _) =>
                  Except.error [ErrorLeaf.plain "unexpected character"]
            else if c ≠ ':' then
              Except.error [ErrorLeaf.plain "unexpected character, want colon"]
            else
              match rest with
              | [] => Except.error [ErrorLeaf.plain "colon must be followed by more characters"]
              | c₂ :: rest₂ =>
                if c₂ = ':' then
                  if st.ellipsis ≠ none then
                    Except.error [ErrorLeaf.plain "multiple :: in address"]
                  else if rest₂ = [] then
                    Except.ok { s := [], i := st.i + 2, ip := st.ip ++ [acc / 256, acc % 256],
                                ellipsis := some (st.i + 2) }
                  else
                    parseIPv6Loop n
                      { s := rest₂, i := st.i + 2, ip := st.ip ++ [acc / 256, acc % 256],
                        ellipsis := some (st.i + 2) }
                else
                  parseIPv6Loop n
                    { s := c₂ :: rest₂, i := st.i + 2, ip := st.ip ++ [acc / 256, acc % 256],
                      ellipsis := st.ellipsis }

/-- Modelled from the spec: the function `parseIPv6` of `net/netip`, which is
not among the sources: the zone is split off at the first `%`, a leading `::`
is taken, the loop reads the groups, and the ellipsis is expanded to the
missing bytes. The parameter `string6` is the method `Addr.String` on the 16
bytes of an IPv6 address; the model answers the text it renders and the zone. -/
def parseIPv6 (string6 : List Nat → String) (input : String) :
    Except GoError (String × String) :=
  let s := input.data.takeWhile (fun c => c ≠ '%')
  let zone := (input.data.dropWhile (fun c => c ≠ '%')).drop 1
  if '%' ∈ input.data ∧ zone = [] then
    Except.error [ErrorLeaf.plain "zone must be a non-empty string"]
  else
    let lead : Option Nat × List Char :=
      match s with
      | c₁ :: c₂ :: rest => if c₁ = ':' ∧ c₂ = ':' then (some 0, rest) else (none, s)
      | _ => (none, s)
    if lead.1 ≠ none ∧ lead.2 = [] then Except.ok (string6 (List.replicate 16 0), ⟨zone⟩)
    else
      match parseIPv6Loop 8 { s := lead.2, i := 0, ip := [], ellipsis := lead.1 } with
      | Except.error err => Except.error err
      | Except.ok st =>
        if st.s ≠ [] then Except.error [ErrorLeaf.plain "trailing garbage after address"]
        else if st.i < 16 then
          match st.ellipsis with
          | none => Except.error [ErrorLeaf.plain "address string too short"]
          | some e =>
            Except.ok
              (string6 (st.ip.take e ++ List.replicate (16 - st.i) 0 ++ st.ip.drop e), ⟨zone⟩)
        else if st.ellipsis ≠ none then
          Except.error
            [ErrorLeaf.plain "the :: must expand to at least one field of zeros"]
        else Except.ok (string6 st.ip, ⟨zone⟩)

/-! ## Well-formed CIDRs, in the words of the specification

A CIDR is an address, a `/` and a prefix length. The address is an IPv4
address in dotted-quad form with a prefix length of at most 32, or an IPv6
address in the text form of RFC 4291 (section 2.2) with a prefix length of at
most 128; numbers are written in decimal without leading zeros. These
definitions do not follow the parser. -/

/-- A hexadecimal digit, of either case. -/
def isHexDigit (c : Char) : Bool :=
  ('0'.toNat ≤ c.toNat && c.toNat ≤ '9'.toNat) || ('a'.toNat ≤ c.toNat && c.toNat ≤ 'f'.toNat)
    || ('A'.toNat ≤ c.toNat && c.toNat ≤ 'F'.toNat)

/-- The text of an IPv4 address: four octets of at most 255, in decimal
without leading zeros, joined by `.`. -/
def IsDottedQuad (t : List Char) : Prop :=
  ∃ a b c d : Nat, a ≤ 255 ∧ b ≤ 255 ∧ c ≤ 255 ∧ d ≤ 255 ∧ t = (dottedQuad a b c d).data

/-- One group of an IPv6 address: one to four hexadecimal digits. -/
def IsHexGroup (g : List Char) : Prop :=
  1 ≤ g.length ∧ g.length ≤ 4 ∧ ∀ c ∈ g, isHexDigit c = true

/-- The pieces of an address joined by `:`. -/
def joinColon : List (List Char) → List Char
  | [] => []
  | g :: rest =>
    match rest with
    | [] => g
    | _ :: _ => g ++ ':' :: joinColon rest

/-- The text of an IPv6 address without zone (RFC 4291, section 2.2): groups
of hexadecimal digits joined by `:`, of which the last two may be written as
one dotted quad; either eight groups in all, or at most seven with one `::`
that stands for the groups of zeros that are left out. -/
def IsIPv6Text (t : List Char) : Prop :=
  ∃ (pre post : List (List Char)) (quad : Option (List Char)),
    (∀ g ∈ pre, IsHexGroup g) ∧ (∀ g ∈ post, IsHexGroup g)
      ∧ (∀ q, quad = some q → IsDottedQuad q)
      ∧ ((pre = [] ∧ t = joinColon (post ++ quad.toList)
          ∧ post.length + 2 * quad.toList.length = 8)
        ∨ (t = joinColon pre ++ ':' :: ':' :: joinColon (post ++ quad.toList)
          ∧ pre.length + post.length + 2 * quad.toList.length ≤ 7))

/-- A well-formed CIDR: an IPv4 address, `/` and a prefix length of at most
32, or an IPv6 address, `/` and a prefix length of at most 128, the prefix
length in decimal without leading zeros. -/
def WellFormedCIDR (cidr : String) : Prop :=
  ∃ (addr : List Char) (bits : Nat),
    cidr.data = addr ++ '/' :: Nat.toDigits 10 bits
      ∧ ((IsDottedQuad addr ∧ bits ≤ 32) ∨ (IsIPv6Text addr ∧ bits ≤ 128))

/-! ## Example data -/

/-- A neighbor at `10.0.0.5/32`, peer ASN 200, port 179. -/
def exampleNeighbor : CiliumBGPNeighbor :=
  { PeerAddress := "10.0.0.5/32"
    PeerPort := 179
    PeerASN := 200
    AuthSecretRef := none
    EBGPMultihopTTL := 1
    ConnectRetryTimeSeconds := 120
    HoldTimeSeconds := 90
    KeepAliveTimeSeconds := 30
    GracefulRestart := none
    Families := [{ Afi := "ipv4", Safi := "unicast" }]
    AdvertisedPathAttributes := [] }

/-- A virtual router of ASN 100 that exports the pod CIDR to `exampleNeighbor`. -/
def exampleRouter : CiliumBGPVirtualRouter :=
  { LocalASN := 100
    ExportPodCIDR := true
    PodIPPoolSelector := none
    ServiceSelector := none
    Neighbors := [exampleNeighbor] }

/-- The policy `rack` with the one virtual router `exampleRouter`. -/
def examplePolicy : CiliumBGPPeeringPolicy :=
  { Name := "rack"
    UID := "uid-rack"
    ResourceVersion := "1"
    OwnerReferences := []
    Labels := []
    Spec := { NodeSelector := none, VirtualRouters := [exampleRouter] } }

/-- The self-subnet entry of `examplePolicy` for its neighbor. -/
def exampleEntry : Advertisement :=
  { AdvertisementType := PodCIDRAdvert, Selector := none, Attributes := none }

/-- Metadata of an object named `name` that another party created: no owner
reference, no label. -/
def foreignMeta (name : String) : ObjectMeta :=
  { Name := name, UID := "uid-foreign", ResourceVersion := "7", OwnerReferences := [],
    Labels := [] }

/-- A store that holds, under the peer key of `examplePolicy` and under the
node name `node-1`, objects that another party created with empty specs. -/
def exampleForeignStore : APIServer :=
  { adverts := [{ toObjectMeta := foreignMeta "rack-100-10.0.0.5-32",
                  Spec := { Advertisements := [] } }]
    peerConfigs := [{ toObjectMeta := foreignMeta "rack-100-10.0.0.5-32",
                      Spec := { Transport := none, Timers := none, AuthSecretRef := none,
                                GracefulRestart := none, EBGPMultihop := none,
                                Families := [] } }]
    nodeConfigs := [{ toObjectMeta := foreignMeta "node-1", Spec := { BGPInstances := [] } }] }

/-- The store that holds nothing. -/
def emptyStore : APIServer := { adverts := [], peerConfigs := [], nodeConfigs := [] }

/-- A stand-in for the prefix parser in examples: it accepts every string and
answers the text before the first `/`. -/
def exampleParsePrefix (cidr : String) : Except GoError String :=
  Except.ok ⟨cidr.data.takeWhile (fun c => c ≠ '/')⟩

/-- The policy `rack` with one virtual router of ASN 100 that advertises
nothing (ExportPodCIDR disabled, no selector) to its neighbor `10.0.0.5/32`. -/
def quietPolicy : CiliumBGPPeeringPolicy :=
  { Name := "rack"
    UID := "uid-rack"
    ResourceVersion := "1"
    OwnerReferences := []
    Labels := []
    Spec := { NodeSelector := none
              VirtualRouters := [{ exampleRouter with ExportPodCIDR := false }] } }

/-- An Advertisement named as the peer key of `quietPolicy` whose one owner
reference names the policy `other`. -/
def otherOwnedAdvertisement : CiliumBGPAdvertisement :=
  { Name := "rack-100-10.0.0.5-32"
    UID := "uid-adv"
    ResourceVersion := "3"
    OwnerReferences := [{ APIVersion := SchemeGroupVersion, Kind := BGPPKindDefinition,
                          Name := "other", UID := "uid-other" }]
    Labels := [(bgpPPAdvertisementLabel, "rack-100-10.0.0.5-32")]
    Spec := { Advertisements := [exampleEntry] } }

/-- A store that holds `otherOwnedAdvertisement` and nothing else. -/
def otherOwnedStore : APIServer :=
  { adverts := [otherOwnedAdvertisement], peerConfigs := [], nodeConfigs := [] }

/-- The policy `rack` with two virtual routers of ASN 100 that both list the
peer `10.0.0.5/32`: the first is `exampleRouter`, which advertises the pod
CIDR, the second advertises nothing. Both derive the peer key
`rack-100-10.0.0.5-32`, with the same PeerConfig spec and with the entry lists
`[exampleEntry]` and `[]`. -/
def twinPolicy : CiliumBGPPeeringPolicy :=
  { examplePolicy with
    Spec := { NodeSelector := none
              VirtualRouters := [exampleRouter, { exampleRouter with ExportPodCIDR := false }] } }

/-- The owner reference that the helpers write for the policy `rack`. -/
def rackOwner : OwnerReference :=
  { APIVersion := SchemeGroupVersion, Kind := BGPPKindDefinition, Name := "rack",
    UID := "uid-rack" }

/-- A store that holds what `twinPolicy` derives through its first virtual
router: the Advertisement of its peer key with the entry list `[exampleEntry]`,
and the PeerConfig of that key. -/
def twinStore : APIServer :=
  { adverts := [newAdvertisement twinPolicy "rack-100-10.0.0.5-32" [exampleEntry]]
    peerConfigs :=
      [newPeerConfig twinPolicy "rack-100-10.0.0.5-32"
        (neighborPeerSpec id twinPolicy exampleRouter exampleNeighbor)]
    nodeConfigs := [] }

/-- A store that holds one Advertisement owned by the policy `rack` under a
name that `examplePolicy` does not derive. -/
def staleStore : APIServer :=
  { adverts := [{ Name := "rack-100-10.0.0.9-32", UID := "uid-old", ResourceVersion := "2",
                  OwnerReferences := [rackOwner],
                  Labels := [(bgpPPAdvertisementLabel, "rack-100-10.0.0.9-32")],
                  Spec := { Advertisements := [exampleEntry] } }]
    peerConfigs := []
    nodeConfigs := [] }

/-- A stand-in for the prefix parser in examples that, as `netip.ParsePrefix`
does, rejects a string without `/`; of every other string it answers the text
before the first `/`. -/
def slashParsePrefix (cidr : String) : Except GoError String :=
  if '/' ∈ cidr.data then Except.ok ⟨cidr.data.takeWhile (fun c => c ≠ '/')⟩
  else Except.error [ErrorLeaf.plain "no slash in the prefix"]

/-- The policy `rack` whose one virtual router lists, before `exampleNeighbor`,
a neighbor with the peer address `bogus`, which is no prefix. -/
def mixedPolicy : CiliumBGPPeeringPolicy :=
  { examplePolicy with
    Spec := { NodeSelector := none
              VirtualRouters :=
                [{ exampleRouter with
                   Neighbors := [{ exampleNeighbor with PeerAddress := "bogus" },
                                 exampleNeighbor] }] } }

/-- One pass of `reconcileBGPPeeringPolicy` for `mixedPolicy`, which is taken
as defaulted already, on the empty store with empty caches, every call logged;
the node matcher answers the one node `node-1`. -/
def mixedPass : GoError × (APIServer × List (StoreCall × GoError)) :=
  reconcileBGPPeeringPolicy id IsOwner slashParsePrefix id
    (fun _ _ => Except.ok ["node-1"])
    (deleteStaleNodeConfigsModel IsOwner (memManager emptyStore).recording)
    (memManager emptyStore).recording mixedPolicy (emptyStore, [])

/-- The parser that `prefixToAddr` runs, with an IPv6 half that rejects every
string; no example below has an address with a colon. -/
def ipv4OnlyPrefixAddr : String → Except GoError String :=
  netipPrefixAddr (fun _ => Except.error [ErrorLeaf.plain "unable to parse IP"])

/-- The policy `rack` whose one virtual router lists, before `exampleNeighbor`
at `10.0.0.5/32`, a neighbor with the peer address `10.0.0.5-32`, which has no
`/` and derives the same peer key. -/
def aliasPolicy : CiliumBGPPeeringPolicy :=
  { examplePolicy with
    Spec := { NodeSelector := none
              VirtualRouters :=
                [{ exampleRouter with
                   Neighbors := [{ exampleNeighbor with PeerAddress := "10.0.0.5-32" },
                                 exampleNeighbor] }] } }

/-! # Theorems -/

/-! ## Lemmas on strings and keys -/

theorem replaceAll_twice_eq (s : String) :
    ReplaceAll (ReplaceAll s '/' '-') ':' '.' = substituteAddr s := by
  simp only [ReplaceAll, substituteAddr, List.map_map]
  congr 1
  apply List.map_congr_left
  intro r _
  by_cases h1 : r = '/'
  · subst h1; decide
  · simp [Function.comp, h1]

theorem peerKey_data (t : Char → Char) (p : String) (a : Int) (s : String) :
    (peerKeyFromBGPP t p a s).data =
      (p.data ++ '-' :: (formatInt a).data ++ '-' :: (substituteAddr s).data).map
        (unicodeToLower t) := by
  simp only [peerKeyFromBGPP, instanceKeyFromBGPP, replaceAll_twice_eq, ToLower,
    String.data_append]
  simp

theorem unicodeToLower_ascii (t : Char → Char) (c : Char) (h : c.toNat ≤ 127) :
    unicodeToLower t c = asciiLower c := by
  simp [unicodeToLower, asciiLower, h]

theorem ascii_cases (P : Char → Prop) (h : ∀ n : Fin 128, P (Char.ofNat n)) (c : Char)
    (hc : c.toNat ≤ 127) : P c := by
  have := h ⟨c.toNat, by omega⟩
  simpa [Char.ofNat_toNat] using this

theorem isNameChar_ascii (c : Char) (h : isNameChar c = true) : c.toNat ≤ 127 := by
  simp only [isNameChar, Bool.or_eq_true, Bool.and_eq_true, decide_eq_true_eq] at h
  rcases h with ((⟨_, h⟩ | ⟨_, h⟩) | h) | h
  · have : 'z'.toNat = 122 := by decide
    omega
  · have : '9'.toNat = 57 := by decide
    omega
  · subst h; decide
  · subst h; decide

theorem isCIDRChar_ascii (c : Char) (h : isCIDRChar c = true) : c.toNat ≤ 127 := by
  simp only [isCIDRChar, Bool.or_eq_true, Bool.and_eq_true, decide_eq_true_eq] at h
  rcases h with ((((⟨_, h⟩ | ⟨_, h⟩) | ⟨_, h⟩) | h) | h) | h
  · have : '9'.toNat = 57 := by decide
    omega
  · have : 'f'.toNat = 102 := by decide
    omega
  · have : 'F'.toNat = 70 := by decide
    omega
  · subst h; decide
  · subst h; decide
  · subst h; decide

set_option maxRecDepth 100000 in
theorem nameChar_lower_table :
    ∀ n : Fin 128, isNameChar (Char.ofNat n) = true →
      isNameChar (asciiLower (Char.ofNat n)) = true := by
  decide

set_option maxRecDepth 100000 in
theorem cidrChar_lower_table :
    ∀ n : Fin 128, isCIDRChar (Char.ofNat n) = true →
      isNameChar (asciiLower
        (if Char.ofNat n = '/' then '-' else if Char.ofNat n = ':' then '.' else Char.ofNat n))
        = true := by
  decide

theorem nameChar_lower (t : Char → Char) (c : Char) (h : isNameChar c = true) :
    isNameChar (unicodeToLower t c) = true := by
  have hc := isNameChar_ascii c h
  rw [unicodeToLower_ascii t c hc]
  exact ascii_cases (fun c => isNameChar c = true → isNameChar (asciiLower c) = true)
    nameChar_lower_table c hc h

theorem cidrChar_lower (t : Char → Char) (c : Char) (h : isCIDRChar c = true) :
    isNameChar (unicodeToLower t
      (if c = '/' then '-' else if c = ':' then '.' else c)) = true := by
  have hc := isCIDRChar_ascii c h
  have hs : (if c = '/' then '-' else if c = ':' then '.' else c).toNat ≤ 127 := by
    split
    · decide
    · split
      · decide
      · exact hc
  rw [unicodeToLower_ascii t _ hs]
  exact ascii_cases (fun c => isCIDRChar c = true → isNameChar (asciiLower
    (if c = '/' then '-' else if c = ':' then '.' else c)) = true)
    cidrChar_lower_table c hc h

theorem digitChar_isNameChar : ∀ k : Fin 10, isNameChar (Nat.digitChar k) = true := by
  decide

theorem toDigitsCore_nameChars (fuel : Nat) :
    ∀ (n : Nat) (ds : List Char), (∀ c ∈ ds, isNameChar c = true) →
      ∀ c ∈ Nat.toDigitsCore 10 fuel n ds, isNameChar c = true := by
  induction fuel with
  | zero => intro n ds h; simpa [Nat.toDigitsCore] using h
  | succ f ih =>
    intro n ds h
    have hd : isNameChar (Nat.digitChar (n % 10)) = true :=
      digitChar_isNameChar ⟨n % 10, Nat.mod_lt _ (by decide)⟩
    have hds : ∀ c ∈ Nat.digitChar (n % 10) :: ds, isNameChar c = true := by
      intro c hc
      rcases List.mem_cons.mp hc with rfl | hc
      · exact hd
      · exact h c hc
    simp only [Nat.toDigitsCore]
    split
    · exact hds
    · exact ih _ _ hds

theorem formatInt_nameChars (a : Int) : ∀ c ∈ (formatInt a).data, isNameChar c = true := by
  cases a with
  | ofNat m =>
    exact toDigitsCore_nameChars _ _ _ (by simp)
  | negSucc m =>
    intro c hc
    simp only [formatInt] at hc
    rcases List.mem_cons.mp hc with rfl | hc
    · decide
    · exact toDigitsCore_nameChars _ _ _ (by simp) c hc

theorem digitChar_value : ∀ k : Fin 10, (Nat.digitChar k).toNat - 48 = k := by
  decide

theorem digitChar_ne_dash : ∀ k : Fin 10, Nat.digitChar k ≠ '-' := by
  decide

theorem toDigitsCore_append (fuel : Nat) :
    ∀ (n : Nat) (ds : List Char),
      Nat.toDigitsCore 10 fuel n ds = Nat.toDigitsCore 10 fuel n [] ++ ds := by
  induction fuel with
  | zero => intro n ds; simp [Nat.toDigitsCore]
  | succ f ih =>
    intro n ds
    simp only [Nat.toDigitsCore]
    split
    · simp
    · rw [ih _ (_ :: ds), ih _ [_]]
      simp

theorem decodeDecimal_snoc (l : List Char) (c : Char) :
    decodeDecimal (l ++ [c]) = decodeDecimal l * 10 + (c.toNat - 48) := by
  simp [decodeDecimal, List.foldl_append]

theorem decode_toDigitsCore (fuel : Nat) :
    ∀ n : Nat, n < fuel → decodeDecimal (Nat.toDigitsCore 10 fuel n []) = n := by
  induction fuel with
  | zero => intro n h; omega
  | succ f ih =>
    intro n h
    have hv : (Nat.digitChar (n % 10)).toNat - 48 = n % 10 :=
      digitChar_value ⟨n % 10, Nat.mod_lt _ (by decide)⟩
    simp only [Nat.toDigitsCore]
    split
    · rename_i h0
      simp only [decodeDecimal, List.foldl_cons, List.foldl_nil, hv]
      omega
    · rename_i h0
      rw [toDigitsCore_append, decodeDecimal_snoc, hv, ih (n / 10) (by omega)]
      omega

theorem toDigitsCore_no_dash (fuel : Nat) :
    ∀ (n : Nat) (ds : List Char), '-' ∉ ds → '-' ∉ Nat.toDigitsCore 10 fuel n ds := by
  induction fuel with
  | zero => intro n ds h; simpa [Nat.toDigitsCore] using h
  | succ f ih =>
    intro n ds h
    have hd : Nat.digitChar (n % 10) ≠ '-' :=
      digitChar_ne_dash ⟨n % 10, Nat.mod_lt _ (by decide)⟩
    have hds : '-' ∉ Nat.digitChar (n % 10) :: ds := by
      intro hc
      rcases List.mem_cons.mp hc with h1 | h1
      · exact hd h1.symm
      · exact h h1
    simp only [Nat.toDigitsCore]
    split
    · exact hds
    · exact ih _ _ hds

theorem formatInt_nonneg_data (a : Int) (h : 0 ≤ a) :
    (formatInt a).data = Nat.toDigits 10 a.toNat := by
  obtain ⟨m, rfl⟩ := Int.eq_ofNat_of_zero_le h
  rfl

/-- Splitting at the last separator is unambiguous. -/
theorem split_last_unique {α : Type} (a : α) (l₁ l₂ r₁ r₂ : List α)
    (h₁ : a ∉ r₁) (h₂ : a ∉ r₂) (h : l₁ ++ a :: r₁ = l₂ ++ a :: r₂) :
    l₁ = l₂ ∧ r₁ = r₂ := by
  rcases List.append_eq_append_iff.mp h with ⟨m, hm, hr⟩ | ⟨m, hm, hr⟩
  · cases m with
    | nil => simp at hm hr; exact ⟨hm.symm, hr⟩
    | cons x m =>
      simp only [List.cons_append, List.cons.injEq] at hr
      exact absurd (by rw [hr.2]; simp) h₁
  · cases m with
    | nil => simp at hm hr; exact ⟨hm, hr.symm⟩
    | cons x m =>
      simp only [List.cons_append, List.cons.injEq] at hr
      exact absurd (by rw [hr.2]; simp) h₂

/-! ## Key derivation: claims -/

/-- C1: the peer key is the lower-casing of the whole string
`p ++ "-" ++ decimal a ++ "-" ++ s'`, where `s'` is the peer address with every
`/` replaced by `-` and every `:` replaced by `.`; equivalently it is the
lower-casing of the instance key joined to `s'` by `-`. -/
theorem C1_peerKey_is_lowercased_join (caseTable : Char → Char) (p : String) (a : Int)
    (s : String) :
    peerKeyFromBGPP caseTable p a s
        = ToLower caseTable (p ++ "-" ++ formatInt a ++ "-" ++ substituteAddr s)
      ∧ peerKeyFromBGPP caseTable p a s
        = ToLower caseTable (instanceKeyFromBGPP p a ++ "-" ++ substituteAddr s) := by
  constructor <;> simp only [peerKeyFromBGPP, instanceKeyFromBGPP, replaceAll_twice_eq]

/-- C3: for a policy name over lower-case letters, digits, `-` and `.`, a
non-negative ASN and a peer CIDR over the characters of prefix notation, both
the peer key and the instance key consist only of lower-case letters, digits,
`-` and `.`. -/
theorem C3_keys_use_legal_characters (caseTable : Char → Char) (p : String) (a : Int)
    (s : String) (hp : ∀ c ∈ p.data, isNameChar c = true) (_ha : 0 ≤ a)
    (hs : ∀ c ∈ s.data, isCIDRChar c = true) :
    (∀ c ∈ (peerKeyFromBGPP caseTable p a s).data, isNameChar c = true)
      ∧ (∀ c ∈ (instanceKeyFromBGPP p a).data, isNameChar c = true) := by
  have hdash : isNameChar '-' = true := by decide
  constructor
  · intro c hc
    rw [peerKey_data] at hc
    obtain ⟨d, hd, rfl⟩ := List.mem_map.mp hc
    simp only [List.mem_append, List.mem_cons, substituteAddr, List.mem_map] at hd
    rcases hd with (hd | rfl | hd) | rfl | ⟨e, he, rfl⟩
    · exact nameChar_lower _ _ (hp d hd)
    · exact nameChar_lower _ _ hdash
    · exact nameChar_lower _ _ (formatInt_nameChars a d hd)
    · exact nameChar_lower _ _ hdash
    · exact cidrChar_lower _ _ (hs e he)
  · intro c hc
    simp only [instanceKeyFromBGPP, String.data_append, List.mem_append] at hc
    rcases hc with (hc | hc) | hc
    · exact hp c hc
    · have : c = '-' := by simpa using hc
      subst this; exact hdash
    · exact formatInt_nameChars a c hc

/-- Witness of C3 at the policy `rack-1.a`, ASN 65001 and the IPv6 prefix
`FE80::1/128`. -/
theorem C3_keys_use_legal_characters_witness :
    (∀ c ∈ ("rack-1.a" : String).data, isNameChar c = true) ∧ (0 : Int) ≤ 65001
      ∧ (∀ c ∈ ("FE80::1/128" : String).data, isCIDRChar c = true)
      ∧ (∀ c ∈ (peerKeyFromBGPP id "rack-1.a" 65001 "FE80::1/128").data, isNameChar c = true)
      ∧ (∀ c ∈ (instanceKeyFromBGPP "rack-1.a" 65001).data, isNameChar c = true) :=
  ⟨by decide, by decide, by decide,
    C3_keys_use_legal_characters id "rack-1.a" 65001 "FE80::1/128"
      (by decide) (by decide) (by decide)⟩

/-- C4, refuted as stated: the two IPv6 prefixes `FE80::1/128` and `fe80::1/128`
differ, yet under one policy and ASN they derive the same peer key, whatever
the case table. -/
theorem C4_counterexample :
    (("rack", 65001, "FE80::1/128") : String × Int × String) ≠ ("rack", 65001, "fe80::1/128")
      ∧ (∀ caseTable : Char → Char,
          peerKeyFromBGPP caseTable "rack" 65001 "FE80::1/128" = "rack-65001-fe80..1-128"
          ∧ peerKeyFromBGPP caseTable "rack" 65001 "fe80::1/128" = "rack-65001-fe80..1-128") := by
  refine ⟨by decide, fun t => ⟨rfl, rfl⟩⟩

set_option maxRecDepth 100000 in
theorem nameChar_fixed_table :
    ∀ n : Fin 128, isNameChar (Char.ofNat n) = true → asciiLower (Char.ofNat n) = Char.ofNat n := by
  decide

theorem nameChar_fixed (t : Char → Char) (c : Char) (h : isNameChar c = true) :
    unicodeToLower t c = c := by
  have hc := isNameChar_ascii c h
  rw [unicodeToLower_ascii t c hc]
  exact ascii_cases (fun c => isNameChar c = true → asciiLower c = c)
    nameChar_fixed_table c hc h

theorem map_fixed {α : Type} (f : α → α) (l : List α) (h : ∀ c ∈ l, f c = c) : l.map f = l := by
  induction l with
  | nil => rfl
  | cons x xs ih =>
    simp only [List.map_cons, List.cons.injEq]
    exact ⟨h x (by simp), ih (fun c hc => h c (by simp [hc]))⟩

theorem stable_no_dash (t : Char → Char) (l : List Char) (h : ∀ c ∈ l, isStableRune t c) :
    '-' ∉ l := fun hm => (h _ hm).1 rfl

/-- The runes of the key of a triple in canonical form. -/
theorem peerKey_data_canonical (t : Char → Char) (p : String) (a : Int) (X Y : String)
    (hp : ToLower t p = p) (ha : 0 ≤ a)
    (hX : ∀ c ∈ X.data, isStableRune t c) (hY : ∀ c ∈ Y.data, isStableRune t c) :
    (peerKeyFromBGPP t p a (X ++ "/" ++ Y)).data =
      ((p.data ++ '-' :: Nat.toDigits 10 a.toNat) ++ '-' :: X.data) ++ '-' :: Y.data := by
  have hp1 : p.data.map (unicodeToLower t) = p.data := by
    have := congrArg String.data hp
    simpa [ToLower] using this
  have hD : (Nat.toDigits 10 a.toNat).map (unicodeToLower t) = Nat.toDigits 10 a.toNat :=
    map_fixed _ _ (fun c hc => nameChar_fixed t c
      (toDigitsCore_nameChars _ _ _ (by simp) c hc))
  have hsub : ∀ l : List Char, (∀ c ∈ l, isStableRune t c) →
      l.map (fun r => if r = '/' then '-' else if r = ':' then '.' else r) = l := by
    intro l hl
    apply map_fixed
    intro c hc
    have := hl c hc
    simp [this.2.1, this.2.2.1]
  have hlow : ∀ l : List Char, (∀ c ∈ l, isStableRune t c) →
      l.map (unicodeToLower t) = l :=
    fun l hl => map_fixed _ _ (fun c hc => (hl c hc).2.2.2)
  have hdash : unicodeToLower t '-' = '-' := nameChar_fixed t _ (by decide)
  have hslash : ("/" : String).data = ['/'] := rfl
  rw [peerKey_data, formatInt_nonneg_data a ha]
  simp only [substituteAddr, String.data_append, hslash, List.map_append, List.map_cons,
    List.map_nil, hp1, hD, hsub X.data hX, hsub Y.data hY, hlow X.data hX, hlow Y.data hY, hdash]
  simp [hdash]

/-- C4, amended: among triples in canonical form (a policy name that
lower-casing leaves unchanged, a non-negative ASN, and a peer address `X/Y`
whose parts `X` and `Y` contain none of `-`, `/`, `:` and no rune that
lower-casing changes, as in IPv4 prefix notation) distinct triples derive
distinct peer keys. -/
theorem C4_peerKey_injective_on_canonical (caseTable : Char → Char) (p p' : String)
    (a a' : Int) (X Y X' Y' : String)
    (hp : ToLower caseTable p = p) (hp' : ToLower caseTable p' = p')
    (ha : 0 ≤ a) (ha' : 0 ≤ a')
    (hX : ∀ c ∈ X.data, isStableRune caseTable c) (hY : ∀ c ∈ Y.data, isStableRune caseTable c)
    (hX' : ∀ c ∈ X'.data, isStableRune caseTable c)
    (hY' : ∀ c ∈ Y'.data, isStableRune caseTable c)
    (hne : (p, a, X ++ "/" ++ Y) ≠ (p', a', X' ++ "/" ++ Y')) :
    peerKeyFromBGPP caseTable p a (X ++ "/" ++ Y)
      ≠ peerKeyFromBGPP caseTable p' a' (X' ++ "/" ++ Y') := by
  intro h
  apply hne
  have hk := congrArg String.data h
  rw [peerKey_data_canonical caseTable p a X Y hp ha hX hY,
    peerKey_data_canonical caseTable p' a' X' Y' hp' ha' hX' hY'] at hk
  obtain ⟨hk1, hYY⟩ := split_last_unique '-' _ _ _ _
    (stable_no_dash caseTable _ hY) (stable_no_dash caseTable _ hY') hk
  obtain ⟨hk2, hXX⟩ := split_last_unique '-' _ _ _ _
    (stable_no_dash caseTable _ hX) (stable_no_dash caseTable _ hX') hk1
  obtain ⟨hpp, hDD⟩ := split_last_unique '-' _ _ _ _
    (toDigitsCore_no_dash _ _ _ (by simp)) (toDigitsCore_no_dash _ _ _ (by simp)) hk2
  have hnat : a.toNat = a'.toNat := by
    have := congrArg decodeDecimal hDD
    rw [decode_toDigitsCore _ _ (Nat.lt_succ_self _),
      decode_toDigitsCore _ _ (Nat.lt_succ_self _)] at this
    exact this
  have haa : a = a' := by
    rw [← Int.toNat_of_nonneg ha, ← Int.toNat_of_nonneg ha', hnat]
  have hp_eq : p = p' := String.ext hpp
  have hX_eq : X = X' := String.ext hXX
  have hY_eq : Y = Y' := String.ext hYY
  rw [haa, hp_eq, hX_eq, hY_eq]

/-- Witness of the amended C4: under the policy `rack` and ASN 65001 the
prefixes `10.0.0.5/32` and `10.0.0.6/32` derive distinct keys. -/
theorem C4_peerKey_injective_on_canonical_witness :
    peerKeyFromBGPP id "rack" 65001 ("10.0.0.5" ++ "/" ++ "32")
      ≠ peerKeyFromBGPP id "rack" 65001 ("10.0.0.6" ++ "/" ++ "32") :=
  C4_peerKey_injective_on_canonical id "rack" "rack" 65001 65001 "10.0.0.5" "32" "10.0.0.6" "32"
    (by decide) (by decide) (by decide) (by decide) (by decide) (by decide) (by decide)
    (by decide) (by decide)

/-! ## Garbage collection -/

/-- The calls of a garbage-collection loop: one `Delete` for each listed
object that satisfies the condition of the loop, in list order. -/
theorem foldl_gc_calls {σ T : Type} (c : Client σ T) (tag : Call T → StoreCall)
    (P : T → Bool) (name : T → String) (l : List T) :
    ∀ acc : GoError × (σ × List (StoreCall × GoError)),
      calls (l.foldl
        (fun (acc : GoError × (σ × List (StoreCall × GoError))) o =>
          if P o then
            let r := (c.recording tag).Delete (name o) acc.2
            if r.1 ≠ [] && !IsNotFound r.1 then (errorsJoin acc.1 r.1, r.2) else (acc.1, r.2)
          else acc) acc).2.2 =
        calls acc.2.2 ++ (l.filter P).map (fun o => tag (Call.Delete (name o))) := by
  induction l with
  | nil => intro acc; simp
  | cons o l ih =>
    intro acc
    rw [List.foldl_cons, ih]
    by_cases hP : P o = true
    · simp only [hP, if_true, List.filter_cons]
      split <;> simp [Client.recording, calls]
    · simp [hP, List.filter_cons]

theorem deleteStaleAdvertisement_calls {σ : Type} (IsOwner : List OwnerReference → String → Bool)
    (b : BGPResourceManager σ) (E : List String) (n : String)
    (s : σ × List (StoreCall × GoError)) :
    calls (deleteStaleAdvertisement IsOwner b.recording E n s).2.2 =
      calls s.2 ++
        (b.advertStore.List.filter
          (fun o => !decide (o.Name ∈ E) && IsOwner o.OwnerReferences n)).map
          (fun o => StoreCall.advert (Call.Delete o.Name)) :=
  foldl_gc_calls b.advertClient StoreCall.advert
    (fun o => !decide (o.Name ∈ E) && IsOwner o.OwnerReferences n) (fun o => o.Name)
    b.advertStore.List ([], s)

theorem deleteStalePeerConfig_calls {σ : Type} (IsOwner : List OwnerReference → String → Bool)
    (b : BGPResourceManager σ) (E : List String) (n : String)
    (s : σ × List (StoreCall × GoError)) :
    calls (deleteStalePeerConfig IsOwner b.recording E n s).2.2 =
      calls s.2 ++
        (b.peerConfigStore.List.filter
          (fun o => !decide (o.Name ∈ E) && IsOwner o.OwnerReferences n)).map
          (fun o => StoreCall.peerConfig (Call.Delete o.Name)) :=
  foldl_gc_calls b.peerConfigClient StoreCall.peerConfig
    (fun o => !decide (o.Name ∈ E) && IsOwner o.OwnerReferences n) (fun o => o.Name)
    b.peerConfigStore.List ([], s)

/-- C9: the stale-resource deletion issues one `Delete` for each listed
object whose name is not expected and which `IsOwner` attributes to the
policy, in list order, and nothing else; in particular no `Delete` for an
expected name. This holds for Advertisements and for PeerConfigs. -/
theorem C9_stale_deletion_is_exact {σ : Type} (IsOwner : List OwnerReference → String → Bool)
    (b : BGPResourceManager σ) (E : List String) (n : String) (s : σ) :
    (calls (deleteStaleAdvertisement IsOwner b.recording E n (s, [])).2.2 =
        (b.advertStore.List.filter
          (fun o => decide (o.Name ∉ E ∧ IsOwner o.OwnerReferences n = true))).map
          (fun o => StoreCall.advert (Call.Delete o.Name)))
      ∧ (calls (deleteStalePeerConfig IsOwner b.recording E n (s, [])).2.2 =
        (b.peerConfigStore.List.filter
          (fun o => decide (o.Name ∉ E ∧ IsOwner o.OwnerReferences n = true))).map
          (fun o => StoreCall.peerConfig (Call.Delete o.Name)))
      ∧ (∀ name ∈ E,
          StoreCall.advert (Call.Delete name) ∉
            calls (deleteStaleAdvertisement IsOwner b.recording E n (s, [])).2.2
          ∧ StoreCall.peerConfig (Call.Delete name) ∉
            calls (deleteStalePeerConfig IsOwner b.recording E n (s, [])).2.2) := by
  have hA := deleteStaleAdvertisement_calls IsOwner b E n (s, [])
  have hP := deleteStalePeerConfig_calls IsOwner b E n (s, [])
  have e1 : ∀ o : CiliumBGPAdvertisement,
      (!decide (o.Name ∈ E) && IsOwner o.OwnerReferences n)
        = decide (o.Name ∉ E ∧ IsOwner o.OwnerReferences n = true) := by
    intro o; by_cases h : o.Name ∈ E <;> simp [h]
  have e2 : ∀ o : CiliumBGPPeerConfig,
      (!decide (o.Name ∈ E) && IsOwner o.OwnerReferences n)
        = decide (o.Name ∉ E ∧ IsOwner o.OwnerReferences n = true) := by
    intro o; by_cases h : o.Name ∈ E <;> simp [h]
  simp only [e1, calls, List.map_nil, List.nil_append] at hA
  simp only [e2, calls, List.map_nil, List.nil_append] at hP
  refine ⟨hA, hP, ?_⟩
  intro name hname
  simp only [calls] at hA hP ⊢
  rw [hA, hP]
  constructor
  · intro hm
    obtain ⟨o, ho, heq⟩ := List.mem_map.mp hm
    have hn : o.Name = name := by injection heq with h1; injection h1
    have := (List.mem_filter.mp ho).2
    simp only [decide_eq_true_eq] at this
    exact this.1 (hn ▸ hname)
  · intro hm
    obtain ⟨o, ho, heq⟩ := List.mem_map.mp hm
    have hn : o.Name = name := by injection heq with h1; injection h1
    have := (List.mem_filter.mp ho).2
    simp only [decide_eq_true_eq] at this
    exact this.1 (hn ▸ hname)

/-! ## The upsert helpers -/

@[simp] theorem newAdvertisement_Spec (bgpp : CiliumBGPPeeringPolicy) (name : String)
    (adverts : List Advertisement) :
    (newAdvertisement bgpp name adverts).Spec = { Advertisements := adverts } := rfl

@[simp] theorem newAdvertisement_Name (bgpp : CiliumBGPPeeringPolicy) (name : String)
    (adverts : List Advertisement) : (newAdvertisement bgpp name adverts).Name = name := rfl

@[simp] theorem newPeerConfig_Spec (bgpp : CiliumBGPPeeringPolicy) (name : String)
    (spec : CiliumBGPPeerConfigSpec) : (newPeerConfig bgpp name spec).Spec = spec := rfl

@[simp] theorem newPeerConfig_Name (bgpp : CiliumBGPPeeringPolicy) (name : String)
    (spec : CiliumBGPPeerConfigSpec) : (newPeerConfig bgpp name spec).Name = name := rfl

@[simp] theorem newNodeConfig_Spec (caseTable : Char → Char)
    (parsePrefix : String → Except GoError String) (bgpp : CiliumBGPPeeringPolicy)
    (nodeRef : String) :
    (newNodeConfig caseTable parsePrefix bgpp nodeRef).Spec
      = { BGPInstances := nodeBGPInstancesFromBGPP caseTable parsePrefix bgpp } := rfl

@[simp] theorem newNodeConfig_Name (caseTable : Char → Char)
    (parsePrefix : String → Except GoError String) (bgpp : CiliumBGPPeeringPolicy)
    (nodeRef : String) : (newNodeConfig caseTable parsePrefix bgpp nodeRef).Name = nodeRef := rfl

/-- C10: with no advertisement entry for a peer key, `updateAdvertisement`
makes no store call and succeeds when the key is absent from the cache; when
the key is present it issues exactly one call, a `Delete` of that key, leaves
the state that `Delete` leaves, and succeeds when the `Delete` succeeds or
reports NotFound (and returns its error otherwise). -/
theorem C10_empty_entry_list {σ : Type} (b : BGPResourceManager σ)
    (bgpp : CiliumBGPPeeringPolicy) (name : String) (s : σ) :
    (b.advertStore.GetByKey name = Except.ok none →
        updateAdvertisement b.recording bgpp name [] (s, []) = ([], (s, [])))
      ∧ (∀ prev, b.advertStore.GetByKey name = Except.ok (some prev) →
          calls (updateAdvertisement b.recording bgpp name [] (s, [])).2.2
              = [StoreCall.advert (Call.Delete name)]
            ∧ (updateAdvertisement b.recording bgpp name [] (s, [])).2.1
              = (b.advertClient.Delete name s).2
            ∧ (((b.advertClient.Delete name s).1 = []
                  ∨ IsNotFound (b.advertClient.Delete name s).1 = true) →
                (updateAdvertisement b.recording bgpp name [] (s, [])).1 = [])
            ∧ (¬ ((b.advertClient.Delete name s).1 = []
                  ∨ IsNotFound (b.advertClient.Delete name s).1 = true) →
                (updateAdvertisement b.recording bgpp name [] (s, [])).1
                  = (b.advertClient.Delete name s).1)) := by
  constructor
  · intro h
    have h' : b.recording.advertStore.GetByKey name = Except.ok none := h
    simp [updateAdvertisement, h']
  · intro prev h
    have h' : b.recording.advertStore.GetByKey name = Except.ok (some prev) := h
    simp only [updateAdvertisement, h', List.length_nil, if_true]
    by_cases hd : (b.advertClient.Delete name s).1 = []
    · simp [BGPResourceManager.recording, Client.recording, calls, hd]
    · by_cases hn : IsNotFound (b.advertClient.Delete name s).1 = true
      · simp [BGPResourceManager.recording, Client.recording, calls, hd, hn]
      · simp [BGPResourceManager.recording, Client.recording, calls, hd, hn]

theorem updateAdvertisement_cached {σ : Type} (b : BGPResourceManager σ)
    (bgpp : CiliumBGPPeeringPolicy) (name : String) (adverts : List Advertisement)
    (prev : CiliumBGPAdvertisement) (s : σ)
    (hc : b.advertStore.GetByKey name = Except.ok (some prev)) (hne : adverts ≠ []) :
    UpsertsCached b.advertClient StoreCall.advert (fun o => o.toObjectMeta) (fun o => o.Spec)
      prev { Advertisements := adverts } s
      (updateAdvertisement b.recording bgpp name adverts (s, [])) := by
  have hc' : b.recording.advertStore.GetByKey name = Except.ok (some prev) := hc
  have hlen : ¬ adverts.length = 0 := by
    intro h; exact hne (List.length_eq_zero.mp h)
  constructor
  · intro heq
    simp only [updateAdvertisement, hc', hlen, if_false]
    simp only [] at heq
    simp [heq]
  · intro hneq
    refine ⟨{ prev with Spec := { Advertisements := adverts } }, rfl, rfl, ?_, ?_⟩
    · simp only [updateAdvertisement, hc', hlen, if_false]
      simp only [] at hneq
      simp [hneq, BGPResourceManager.recording, Client.recording, calls]
    · simp only [updateAdvertisement, hc', hlen, if_false]
      simp only [] at hneq
      simp [hneq, BGPResourceManager.recording, Client.recording]

theorem updatePeerConfig_cached {σ : Type} (b : BGPResourceManager σ)
    (bgpp : CiliumBGPPeeringPolicy) (name : String) (spec : CiliumBGPPeerConfigSpec)
    (prev : CiliumBGPPeerConfig) (s : σ)
    (hc : b.peerConfigStore.GetByKey name = Except.ok (some prev)) :
    UpsertsCached b.peerConfigClient StoreCall.peerConfig (fun o => o.toObjectMeta)
      (fun o => o.Spec) prev spec s
      (updatePeerConfig b.recording bgpp name spec (s, [])) := by
  have hc' : b.recording.peerConfigStore.GetByKey name = Except.ok (some prev) := hc
  constructor
  · intro heq
    simp only [updatePeerConfig, hc']
    simp only [] at heq
    simp [heq]
  · intro hneq
    refine ⟨{ prev with Spec := spec }, rfl, rfl, ?_, ?_⟩
    · simp only [updatePeerConfig, hc']
      simp only [] at hneq
      simp [hneq, BGPResourceManager.recording, Client.recording, calls]
    · simp only [updatePeerConfig, hc']
      simp only [] at hneq
      simp [hneq, BGPResourceManager.recording, Client.recording]

theorem upsertBGPPNodeConfig_cached {σ : Type} (caseTable : Char → Char)
    (parsePrefix : String → Except GoError String) (b : BGPResourceManager σ)
    (bgpp : CiliumBGPPeeringPolicy) (nodeRef : String)
    (prev : CiliumBGPNodeConfig) (s : σ)
    (hc : b.nodeConfigStore.GetByKey nodeRef = Except.ok (some prev)) :
    UpsertsCached b.nodeConfigClient StoreCall.nodeConfig (fun o => o.toObjectMeta)
      (fun o => o.Spec) prev
      { BGPInstances := nodeBGPInstancesFromBGPP caseTable parsePrefix bgpp } s
      (upsertBGPPNodeConfig caseTable parsePrefix b.recording bgpp nodeRef (s, [])) := by
  have hc' : b.recording.nodeConfigStore.GetByKey nodeRef = Except.ok (some prev) := hc
  constructor
  · intro heq
    simp only [upsertBGPPNodeConfig, hc']
    simp only [] at heq
    simp [heq]
  · intro hneq
    refine ⟨{ prev with
      Spec := { BGPInstances := nodeBGPInstancesFromBGPP caseTable parsePrefix bgpp } },
      rfl, rfl, ?_, ?_⟩
    · simp only [upsertBGPPNodeConfig, hc']
      simp only [] at hneq
      simp [hneq, BGPResourceManager.recording, Client.recording, calls]
    · simp only [upsertBGPPNodeConfig, hc']
      simp only [] at hneq
      simp [hneq, BGPResourceManager.recording, Client.recording]

/-- C8, amended: for each of the three upsert helpers, each on its own
hypothesis (`updateAdvertisement` with a non-empty entry list,
`updatePeerConfig`, `upsertBGPPNodeConfig`), when the key is present in the
cache: if the cached spec equals the desired spec the helper makes no store
call and succeeds; otherwise it makes exactly one call, an `Update` (no
`Create`) of an object that equals the cached object in all of its metadata
(name, owner references, labels) and carries the desired spec, and it returns
the result of that `Update`. -/
theorem C8_cached_key_update_replaces_spec_only {σ : Type} (caseTable : Char → Char)
    (parsePrefix : String → Except GoError String) (b : BGPResourceManager σ)
    (bgpp : CiliumBGPPeeringPolicy) (s : σ) :
    (∀ (name : String) (adverts : List Advertisement) (prev : CiliumBGPAdvertisement),
        b.advertStore.GetByKey name = Except.ok (some prev) → adverts ≠ [] →
        UpsertsCached b.advertClient StoreCall.advert (fun o => o.toObjectMeta)
          (fun o => o.Spec) prev { Advertisements := adverts } s
          (updateAdvertisement b.recording bgpp name adverts (s, [])))
      ∧ (∀ (name : String) (spec : CiliumBGPPeerConfigSpec) (prev : CiliumBGPPeerConfig),
        b.peerConfigStore.GetByKey name = Except.ok (some prev) →
        UpsertsCached b.peerConfigClient StoreCall.peerConfig (fun o => o.toObjectMeta)
          (fun o => o.Spec) prev spec s
          (updatePeerConfig b.recording bgpp name spec (s, [])))
      ∧ (∀ (nodeRef : String) (prev : CiliumBGPNodeConfig),
        b.nodeConfigStore.GetByKey nodeRef = Except.ok (some prev) →
        UpsertsCached b.nodeConfigClient StoreCall.nodeConfig (fun o => o.toObjectMeta)
          (fun o => o.Spec) prev
          { BGPInstances := nodeBGPInstancesFromBGPP caseTable parsePrefix bgpp } s
          (upsertBGPPNodeConfig caseTable parsePrefix b.recording bgpp nodeRef (s, []))) :=
  ⟨fun name adverts prev hc hne => updateAdvertisement_cached b bgpp name adverts prev s hc hne,
    fun name spec prev hc => updatePeerConfig_cached b bgpp name spec prev s hc,
    fun nodeRef prev hc =>
      upsertBGPPNodeConfig_cached caseTable parsePrefix b bgpp nodeRef prev s hc⟩

theorem ne_nil_of_isAlreadyExists (e : GoError) (h : IsAlreadyExists e = true) : e ≠ [] := by
  intro he
  subst he
  simp [IsAlreadyExists, ReasonForError] at h

theorem updateAdvertisement_conflict {σ : Type} (b : BGPResourceManager σ)
    (bgpp : CiliumBGPPeeringPolicy) (name : String) (adverts : List Advertisement) (s : σ)
    (hc : b.advertStore.GetByKey name = Except.ok none) (hne : adverts ≠ [])
    (hex : IsAlreadyExists
      (b.advertClient.Create (newAdvertisement bgpp name adverts) s).1 = true) :
    ResolvesConflict b.advertClient StoreCall.advert (fun o => o.toObjectMeta) (fun o => o.Spec)
      (newAdvertisement bgpp name adverts) name { Advertisements := adverts }
      (b.advertClient.Create (newAdvertisement bgpp name adverts) s).2
      (updateAdvertisement b.recording bgpp name adverts (s, [])) := by
  have hc' : b.recording.advertStore.GetByKey name = Except.ok none := hc
  have hlen : ¬ adverts.length = 0 := by
    intro h; exact hne (List.length_eq_zero.mp h)
  have hnil := ne_nil_of_isAlreadyExists _ hex
  have hname : (newAdvertisement bgpp name adverts).Name = name := rfl
  have hspec : (newAdvertisement bgpp name adverts).Spec = { Advertisements := adverts } := rfl
  intro fetched s₂ hget
  have hg1 := congrArg Prod.fst hget
  have hg2 := congrArg Prod.snd hget
  simp only [] at hg1 hg2
  constructor
  · intro heq
    simp only [] at heq
    simp [updateAdvertisement, hc, hlen, BGPResourceManager.recording, Client.recording,
      calls, hex, hnil, hname, hspec, hg1, hg2, heq]
  · intro hneq
    simp only [] at hneq
    refine ⟨{ fetched with Spec := { Advertisements := adverts } }, rfl, rfl, ?_, ?_⟩
    · simp [updateAdvertisement, hc, hlen, BGPResourceManager.recording, Client.recording,
        calls, hex, hnil, hname, hspec, hg1, hg2, hneq]
    · simp [updateAdvertisement, hc, hlen, BGPResourceManager.recording, Client.recording,
        hex, hnil, hname, hspec, hg1, hg2, hneq]

theorem updatePeerConfig_conflict {σ : Type} (b : BGPResourceManager σ)
    (bgpp : CiliumBGPPeeringPolicy) (name : String) (spec : CiliumBGPPeerConfigSpec) (s : σ)
    (hc : b.peerConfigStore.GetByKey name = Except.ok none)
    (hex : IsAlreadyExists
      (b.peerConfigClient.Create (newPeerConfig bgpp name spec) s).1 = true) :
    ResolvesConflict b.peerConfigClient StoreCall.peerConfig (fun o => o.toObjectMeta)
      (fun o => o.Spec) (newPeerConfig bgpp name spec) name spec
      (b.peerConfigClient.Create (newPeerConfig bgpp name spec) s).2
      (updatePeerConfig b.recording bgpp name spec (s, [])) := by
  have hnil := ne_nil_of_isAlreadyExists _ hex
  intro fetched s₂ hget
  have hg1 := congrArg Prod.fst hget
  have hg2 := congrArg Prod.snd hget
  simp only [] at hg1 hg2
  constructor
  · intro heq
    simp only [] at heq
    simp [updatePeerConfig, hc, BGPResourceManager.recording, Client.recording,
      calls, hex, hnil, hg1, hg2, heq]
  · intro hneq
    simp only [] at hneq
    refine ⟨{ fetched with Spec := spec }, rfl, rfl, ?_, ?_⟩
    · simp [updatePeerConfig, hc, BGPResourceManager.recording, Client.recording,
        calls, hex, hnil, hg1, hg2, hneq]
    · simp [updatePeerConfig, hc, BGPResourceManager.recording, Client.recording,
        hex, hnil, hg1, hg2, hneq]

theorem upsertBGPPNodeConfig_conflict {σ : Type} (caseTable : Char → Char)
    (parsePrefix : String → Except GoError String) (b : BGPResourceManager σ)
    (bgpp : CiliumBGPPeeringPolicy) (nodeRef : String) (s : σ)
    (hc : b.nodeConfigStore.GetByKey nodeRef = Except.ok none)
    (hex : IsAlreadyExists
      (b.nodeConfigClient.Create (newNodeConfig caseTable parsePrefix bgpp nodeRef) s).1 = true) :
    ResolvesConflict b.nodeConfigClient StoreCall.nodeConfig (fun o => o.toObjectMeta)
      (fun o => o.Spec) (newNodeConfig caseTable parsePrefix bgpp nodeRef) nodeRef
      { BGPInstances := nodeBGPInstancesFromBGPP caseTable parsePrefix bgpp }
      (b.nodeConfigClient.Create (newNodeConfig caseTable parsePrefix bgpp nodeRef) s).2
      (upsertBGPPNodeConfig caseTable parsePrefix b.recording bgpp nodeRef (s, [])) := by
  have hnil := ne_nil_of_isAlreadyExists _ hex
  intro fetched s₂ hget
  have hg1 := congrArg Prod.fst hget
  have hg2 := congrArg Prod.snd hget
  simp only [] at hg1 hg2
  constructor
  · intro heq
    simp only [] at heq
    simp [upsertBGPPNodeConfig, hc, BGPResourceManager.recording, Client.recording,
      calls, hex, hnil, hg1, hg2, heq]
  · intro hneq
    simp only [] at hneq
    refine ⟨{ fetched with
      Spec := { BGPInstances := nodeBGPInstancesFromBGPP caseTable parsePrefix bgpp } },
      rfl, rfl, ?_, ?_⟩
    · simp [upsertBGPPNodeConfig, hc, BGPResourceManager.recording, Client.recording,
        calls, hex, hnil, hg1, hg2, hneq]
    · simp [upsertBGPPNodeConfig, hc, BGPResourceManager.recording, Client.recording,
        hex, hnil, hg1, hg2, hneq]

/-! ## The in-memory store -/

theorem find_of_filter_singleton {T : Type} (p : T → Bool) (o : T) :
    ∀ l : List T, l.filter p = [o] → l.find? p = some o := by
  intro l
  induction l with
  | nil => intro h; simp at h
  | cons x xs ih =>
    intro h
    by_cases hx : p x = true
    · simp only [List.filter_cons, hx, if_true, List.cons.injEq] at h
      rw [← h.1]
      simp [List.find?_cons, hx]
    · simp only [List.filter_cons, hx] at h
      simp only [List.find?_cons, hx]
      exact ih h

theorem any_of_filter_singleton {T : Type} (p : T → Bool) (o : T) (l : List T)
    (h : l.filter p = [o]) : l.any p = true := by
  have := find_of_filter_singleton p o l h
  have hm := List.mem_of_find?_eq_some this
  have hp := List.find?_some this
  exact List.any_eq_true.mpr ⟨o, hm, hp⟩

theorem filter_map_replace {T : Type} (name : T → String) (obj : T) :
    ∀ l : List T,
      (l.map (fun x => if name x = name obj then obj else x)).filter
          (fun x => decide (name x = name obj))
        = (l.filter (fun x => decide (name x = name obj))).map (fun _ => obj) := by
  intro l
  induction l with
  | nil => rfl
  | cons x xs ih =>
    by_cases hx : name x = name obj
    · simp [List.filter_cons, hx, ih]
    · simp [List.filter_cons, hx, ih]

theorem name_of_filter_singleton {T : Type} (name : T → String) (k : String) (o : T)
    (l : List T) (h : l.filter (fun x => decide (name x = k)) = [o]) : name o = k := by
  have hm : o ∈ l.filter (fun x => decide (name x = k)) := by rw [h]; simp
  simpa using (List.mem_filter.mp hm).2

theorem memCreate_exists {T : Type} (name : T → String) (obj o : T) (l : List T)
    (h : l.filter (fun x => decide (name x = name obj)) = [o]) :
    memCreate name obj l = ([ErrorLeaf.status StatusReason.AlreadyExists], l) := by
  simp [memCreate, any_of_filter_singleton _ o l h]

theorem memGet_exists {T : Type} (name : T → String) (k : String) (o : T) (l : List T)
    (h : l.filter (fun x => decide (name x = k)) = [o]) :
    memGet name k l = Except.ok o := by
  simp [memGet, find_of_filter_singleton _ o l h]

theorem memUpdate_exists {T : Type} (name : T → String) (obj o : T) (l : List T)
    (h : l.filter (fun x => decide (name x = name obj)) = [o]) :
    (memUpdate name obj l).1 = []
      ∧ (memUpdate name obj l).2.filter (fun x => decide (name x = name obj)) = [obj] := by
  simp [memUpdate, any_of_filter_singleton _ o l h, filter_map_replace, h]

theorem isAlreadyExists_leaf :
    IsAlreadyExists [ErrorLeaf.status StatusReason.AlreadyExists] = true := by
  decide

theorem updateAdvertisement_mem_conflict (cache S : APIServer) (bgpp : CiliumBGPPeeringPolicy)
    (name : String) (adverts : List Advertisement) (o : CiliumBGPAdvertisement)
    (hne : adverts ≠ [])
    (hcache : cache.adverts.find? (fun x => decide (x.Name = name)) = none)
    (hstore : S.adverts.filter (fun x => decide (x.Name = name)) = [o]) :
    (updateAdvertisement (memManager cache) bgpp name adverts S).1 = []
      ∧ ∃ o', (updateAdvertisement (memManager cache) bgpp name adverts S).2.adverts.filter
            (fun x => decide (x.Name = name)) = [o']
          ∧ o'.Spec = { Advertisements := adverts } := by
  have hlen : ¬ adverts.length = 0 := by
    intro h; exact hne (List.length_eq_zero.mp h)
  have hname := name_of_filter_singleton (fun x : CiliumBGPAdvertisement => x.Name) name o _ hstore
  have hC := memCreate_exists (fun x : CiliumBGPAdvertisement => x.Name)
    (newAdvertisement bgpp name adverts) o S.adverts hstore
  have hG := memGet_exists (fun x : CiliumBGPAdvertisement => x.Name) name o S.adverts hstore
  by_cases hs : o.Spec = { Advertisements := adverts }
  · refine ⟨?_, o, ?_, hs⟩
    · simp [updateAdvertisement, memManager, snapshot, memAdvertClient, hcache, hlen, hC, hG,
        isAlreadyExists_leaf, hs]
    · simp [updateAdvertisement, memManager, snapshot, memAdvertClient, hcache, hlen, hC, hG,
        isAlreadyExists_leaf, hs, hstore]
  · have hU := memUpdate_exists (fun x : CiliumBGPAdvertisement => x.Name)
      { o with Spec := { Advertisements := adverts } } o S.adverts
      (by simpa [hname] using hstore)
    simp only [hname] at hU
    refine ⟨?_, { o with Spec := { Advertisements := adverts } }, ?_, rfl⟩
    · simp [updateAdvertisement, memManager, snapshot, memAdvertClient, hcache, hlen, hC, hG,
        isAlreadyExists_leaf, hs, hU.1]
    · simp [updateAdvertisement, memManager, snapshot, memAdvertClient, hcache, hlen, hC, hG,
        isAlreadyExists_leaf, hs, hU.2]

theorem updatePeerConfig_mem_conflict (cache S : APIServer) (bgpp : CiliumBGPPeeringPolicy)
    (name : String) (spec : CiliumBGPPeerConfigSpec) (o : CiliumBGPPeerConfig)
    (hcache : cache.peerConfigs.find? (fun x => decide (x.Name = name)) = none)
    (hstore : S.peerConfigs.filter (fun x => decide (x.Name = name)) = [o]) :
    (updatePeerConfig (memManager cache) bgpp name spec S).1 = []
      ∧ ∃ o', (updatePeerConfig (memManager cache) bgpp name spec S).2.peerConfigs.filter
            (fun x => decide (x.Name = name)) = [o']
          ∧ o'.Spec = spec := by
  have hname := name_of_filter_singleton (fun x : CiliumBGPPeerConfig => x.Name) name o _ hstore
  have hC := memCreate_exists (fun x : CiliumBGPPeerConfig => x.Name)
    (newPeerConfig bgpp name spec) o S.peerConfigs hstore
  have hG := memGet_exists (fun x : CiliumBGPPeerConfig => x.Name) name o S.peerConfigs hstore
  by_cases hs : o.Spec = spec
  · refine ⟨?_, o, ?_, hs⟩
    · simp [updatePeerConfig, memManager, snapshot, memPeerConfigClient, hcache, hC, hG,
        isAlreadyExists_leaf, hs]
    · simp [updatePeerConfig, memManager, snapshot, memPeerConfigClient, hcache, hC, hG,
        isAlreadyExists_leaf, hs, hstore]
  · have hU := memUpdate_exists (fun x : CiliumBGPPeerConfig => x.Name)
      { o with Spec := spec } o S.peerConfigs (by simpa [hname] using hstore)
    simp only [hname] at hU
    refine ⟨?_, { o with Spec := spec }, ?_, rfl⟩
    · simp [updatePeerConfig, memManager, snapshot, memPeerConfigClient, hcache, hC, hG,
        isAlreadyExists_leaf, hs, hU.1]
    · simp [updatePeerConfig, memManager, snapshot, memPeerConfigClient, hcache, hC, hG,
        isAlreadyExists_leaf, hs, hU.2]

theorem upsertBGPPNodeConfig_mem_conflict (caseTable : Char → Char)
    (parsePrefix : String → Except GoError String) (cache S : APIServer)
    (bgpp : CiliumBGPPeeringPolicy) (nodeRef : String) (o : CiliumBGPNodeConfig)
    (hcache : cache.nodeConfigs.find? (fun x => decide (x.Name = nodeRef)) = none)
    (hstore : S.nodeConfigs.filter (fun x => decide (x.Name = nodeRef)) = [o]) :
    (upsertBGPPNodeConfig caseTable parsePrefix (memManager cache) bgpp nodeRef S).1 = []
      ∧ ∃ o', (upsertBGPPNodeConfig caseTable parsePrefix (memManager cache) bgpp nodeRef
            S).2.nodeConfigs.filter (fun x => decide (x.Name = nodeRef)) = [o']
          ∧ o'.Spec = { BGPInstances := nodeBGPInstancesFromBGPP caseTable parsePrefix bgpp } := by
  have hname := name_of_filter_singleton (fun x : CiliumBGPNodeConfig => x.Name) nodeRef o _ hstore
  have hC := memCreate_exists (fun x : CiliumBGPNodeConfig => x.Name)
    (newNodeConfig caseTable parsePrefix bgpp nodeRef) o S.nodeConfigs hstore
  have hG := memGet_exists (fun x : CiliumBGPNodeConfig => x.Name) nodeRef o S.nodeConfigs hstore
  by_cases hs : o.Spec = { BGPInstances := nodeBGPInstancesFromBGPP caseTable parsePrefix bgpp }
  · refine ⟨?_, o, ?_, hs⟩
    · simp [upsertBGPPNodeConfig, memManager, snapshot, memNodeConfigClient, hcache, hC, hG,
        isAlreadyExists_leaf, hs]
    · simp [upsertBGPPNodeConfig, memManager, snapshot, memNodeConfigClient, hcache, hC, hG,
        isAlreadyExists_leaf, hs, hstore]
  · have hU := memUpdate_exists (fun x : CiliumBGPNodeConfig => x.Name)
      { o with Spec := { BGPInstances := nodeBGPInstancesFromBGPP caseTable parsePrefix bgpp } }
      o S.nodeConfigs (by simpa [hname] using hstore)
    simp only [hname] at hU
    refine ⟨?_, { o with
      Spec := { BGPInstances := nodeBGPInstancesFromBGPP caseTable parsePrefix bgpp } }, ?_, rfl⟩
    · simp [upsertBGPPNodeConfig, memManager, snapshot, memNodeConfigClient, hcache, hC, hG,
        isAlreadyExists_leaf, hs, hU.1]
    · simp [upsertBGPPNodeConfig, memManager, snapshot, memNodeConfigClient, hcache, hC, hG,
        isAlreadyExists_leaf, hs, hU.2]

/-- C7: in each of the three upsert helpers, each on its own hypothesis
(`updateAdvertisement` with a non-empty entry list, `updatePeerConfig`,
`upsertBGPPNodeConfig`), when the key is absent from the cache and `Create` is
answered AlreadyExists, the helper calls `Get`; if the fetched spec equals the
desired spec it succeeds without an `Update`, otherwise it issues exactly one
`Update`, of the fetched object with the desired spec, and returns its result.
And for each helper, on a store that keeps what is written to it and holds
exactly one object at the key, the helper succeeds and the store then holds
exactly one object at the key, with the desired spec. -/
theorem C7_conflict_convergence {σ : Type} (caseTable : Char → Char)
    (parsePrefix : String → Except GoError String) (b : BGPResourceManager σ)
    (bgpp : CiliumBGPPeeringPolicy) (s : σ) (cache S : APIServer) :
    (∀ (name : String) (adverts : List Advertisement),
        b.advertStore.GetByKey name = Except.ok none → adverts ≠ [] →
        IsAlreadyExists (b.advertClient.Create (newAdvertisement bgpp name adverts) s).1 = true →
        ResolvesConflict b.advertClient StoreCall.advert (fun o => o.toObjectMeta)
          (fun o => o.Spec) (newAdvertisement bgpp name adverts) name
          { Advertisements := adverts }
          (b.advertClient.Create (newAdvertisement bgpp name adverts) s).2
          (updateAdvertisement b.recording bgpp name adverts (s, [])))
      ∧ (∀ (name : String) (spec : CiliumBGPPeerConfigSpec),
        b.peerConfigStore.GetByKey name = Except.ok none →
        IsAlreadyExists (b.peerConfigClient.Create (newPeerConfig bgpp name spec) s).1 = true →
        ResolvesConflict b.peerConfigClient StoreCall.peerConfig (fun o => o.toObjectMeta)
          (fun o => o.Spec) (newPeerConfig bgpp name spec) name spec
          (b.peerConfigClient.Create (newPeerConfig bgpp name spec) s).2
          (updatePeerConfig b.recording bgpp name spec (s, [])))
      ∧ (∀ (nodeRef : String),
        b.nodeConfigStore.GetByKey nodeRef = Except.ok none →
        IsAlreadyExists (b.nodeConfigClient.Create
          (newNodeConfig caseTable parsePrefix bgpp nodeRef) s).1 = true →
        ResolvesConflict b.nodeConfigClient StoreCall.nodeConfig (fun o => o.toObjectMeta)
          (fun o => o.Spec) (newNodeConfig caseTable parsePrefix bgpp nodeRef) nodeRef
          { BGPInstances := nodeBGPInstancesFromBGPP caseTable parsePrefix bgpp }
          (b.nodeConfigClient.Create (newNodeConfig caseTable parsePrefix bgpp nodeRef) s).2
          (upsertBGPPNodeConfig caseTable parsePrefix b.recording bgpp nodeRef (s, [])))
      ∧ (∀ (name : String) (adverts : List Advertisement) (o : CiliumBGPAdvertisement),
        adverts ≠ [] →
        cache.adverts.find? (fun x => decide (x.Name = name)) = none →
        S.adverts.filter (fun x => decide (x.Name = name)) = [o] →
        (updateAdvertisement (memManager cache) bgpp name adverts S).1 = []
          ∧ ∃ o', (updateAdvertisement (memManager cache) bgpp name adverts S).2.adverts.filter
                (fun x => decide (x.Name = name)) = [o']
              ∧ o'.Spec = { Advertisements := adverts })
      ∧ (∀ (name : String) (spec : CiliumBGPPeerConfigSpec) (o : CiliumBGPPeerConfig),
        cache.peerConfigs.find? (fun x => decide (x.Name = name)) = none →
        S.peerConfigs.filter (fun x => decide (x.Name = name)) = [o] →
        (updatePeerConfig (memManager cache) bgpp name spec S).1 = []
          ∧ ∃ o', (updatePeerConfig (memManager cache) bgpp name spec S).2.peerConfigs.filter
                (fun x => decide (x.Name = name)) = [o']
              ∧ o'.Spec = spec)
      ∧ (∀ (nodeRef : String) (o : CiliumBGPNodeConfig),
        cache.nodeConfigs.find? (fun x => decide (x.Name = nodeRef)) = none →
        S.nodeConfigs.filter (fun x => decide (x.Name = nodeRef)) = [o] →
        (upsertBGPPNodeConfig caseTable parsePrefix (memManager cache) bgpp nodeRef S).1 = []
          ∧ ∃ o', (upsertBGPPNodeConfig caseTable parsePrefix (memManager cache) bgpp nodeRef
                S).2.nodeConfigs.filter (fun x => decide (x.Name = nodeRef)) = [o']
              ∧ o'.Spec
                = { BGPInstances := nodeBGPInstancesFromBGPP caseTable parsePrefix bgpp }) :=
  ⟨fun name adverts hc hne hx => updateAdvertisement_conflict b bgpp name adverts s hc hne hx,
    fun name spec hc hx => updatePeerConfig_conflict b bgpp name spec s hc hx,
    fun nodeRef hc hx =>
      upsertBGPPNodeConfig_conflict caseTable parsePrefix b bgpp nodeRef s hc hx,
    fun name adverts o hne hc hs =>
      updateAdvertisement_mem_conflict cache S bgpp name adverts o hne hc hs,
    fun name spec o hc hs => updatePeerConfig_mem_conflict cache S bgpp name spec o hc hs,
    fun nodeRef o hc hs =>
      upsertBGPPNodeConfig_mem_conflict caseTable parsePrefix cache S bgpp nodeRef o hc hs⟩

/-- Witness of C7: the cache is empty while the store already holds, under the
peer key of `examplePolicy` and under `node-1`, objects with other specs. For
each helper the `Create` is answered AlreadyExists, the conflict is resolved,
and the store ends with one object at the key, with the desired spec. -/
theorem C7_conflict_convergence_witness :
    (ResolvesConflict memAdvertClient StoreCall.advert (fun o => o.toObjectMeta)
        (fun o => o.Spec)
        (newAdvertisement examplePolicy "rack-100-10.0.0.5-32" [exampleEntry])
        "rack-100-10.0.0.5-32" { Advertisements := [exampleEntry] }
        (memAdvertClient.Create
          (newAdvertisement examplePolicy "rack-100-10.0.0.5-32" [exampleEntry])
          exampleForeignStore).2
        (updateAdvertisement (memManager emptyStore).recording examplePolicy
          "rack-100-10.0.0.5-32" [exampleEntry] (exampleForeignStore, []))
      ∧ ResolvesConflict memPeerConfigClient StoreCall.peerConfig (fun o => o.toObjectMeta)
        (fun o => o.Spec)
        (newPeerConfig examplePolicy "rack-100-10.0.0.5-32"
          (neighborPeerSpec id examplePolicy exampleRouter exampleNeighbor))
        "rack-100-10.0.0.5-32" (neighborPeerSpec id examplePolicy exampleRouter exampleNeighbor)
        (memPeerConfigClient.Create
          (newPeerConfig examplePolicy "rack-100-10.0.0.5-32"
            (neighborPeerSpec id examplePolicy exampleRouter exampleNeighbor))
          exampleForeignStore).2
        (updatePeerConfig (memManager emptyStore).recording examplePolicy
          "rack-100-10.0.0.5-32"
          (neighborPeerSpec id examplePolicy exampleRouter exampleNeighbor)
          (exampleForeignStore, []))
      ∧ ResolvesConflict memNodeConfigClient StoreCall.nodeConfig (fun o => o.toObjectMeta)
        (fun o => o.Spec) (newNodeConfig id exampleParsePrefix examplePolicy "node-1") "node-1"
        { BGPInstances := nodeBGPInstancesFromBGPP id exampleParsePrefix examplePolicy }
        (memNodeConfigClient.Create (newNodeConfig id exampleParsePrefix examplePolicy "node-1")
          exampleForeignStore).2
        (upsertBGPPNodeConfig id exampleParsePrefix (memManager emptyStore).recording
          examplePolicy "node-1" (exampleForeignStore, [])))
      ∧ ((updateAdvertisement (memManager emptyStore) examplePolicy "rack-100-10.0.0.5-32"
            [exampleEntry] exampleForeignStore).1 = []
        ∧ ∃ o', (updateAdvertisement (memManager emptyStore) examplePolicy
              "rack-100-10.0.0.5-32" [exampleEntry] exampleForeignStore).2.adverts.filter
              (fun x => decide (x.Name = "rack-100-10.0.0.5-32")) = [o']
            ∧ o'.Spec = { Advertisements := [exampleEntry] })
      ∧ ((updatePeerConfig (memManager emptyStore) examplePolicy "rack-100-10.0.0.5-32"
            (neighborPeerSpec id examplePolicy exampleRouter exampleNeighbor)
            exampleForeignStore).1 = []
        ∧ ∃ o', (updatePeerConfig (memManager emptyStore) examplePolicy
              "rack-100-10.0.0.5-32"
              (neighborPeerSpec id examplePolicy exampleRouter exampleNeighbor)
              exampleForeignStore).2.peerConfigs.filter
              (fun x => decide (x.Name = "rack-100-10.0.0.5-32")) = [o']
            ∧ o'.Spec = neighborPeerSpec id examplePolicy exampleRouter exampleNeighbor)
      ∧ ((upsertBGPPNodeConfig id exampleParsePrefix (memManager emptyStore) examplePolicy
            "node-1" exampleForeignStore).1 = []
        ∧ ∃ o', (upsertBGPPNodeConfig id exampleParsePrefix (memManager emptyStore)
              examplePolicy "node-1" exampleForeignStore).2.nodeConfigs.filter
              (fun x => decide (x.Name = "node-1")) = [o']
            ∧ o'.Spec
              = { BGPInstances := nodeBGPInstancesFromBGPP id exampleParsePrefix examplePolicy }) :=
  have h := C7_conflict_convergence id exampleParsePrefix (memManager emptyStore) examplePolicy
    exampleForeignStore emptyStore exampleForeignStore
  ⟨⟨h.1 "rack-100-10.0.0.5-32" [exampleEntry] rfl (by decide) rfl,
      h.2.1 "rack-100-10.0.0.5-32"
        (neighborPeerSpec id examplePolicy exampleRouter exampleNeighbor) rfl rfl,
      h.2.2.1 "node-1" rfl rfl⟩,
    h.2.2.2.1 "rack-100-10.0.0.5-32" [exampleEntry]
      { toObjectMeta := foreignMeta "rack-100-10.0.0.5-32", Spec := { Advertisements := [] } }
      (by decide) rfl rfl,
    h.2.2.2.2.1 "rack-100-10.0.0.5-32"
      (neighborPeerSpec id examplePolicy exampleRouter exampleNeighbor)
      { toObjectMeta := foreignMeta "rack-100-10.0.0.5-32",
        Spec := { Transport := none, Timers := none, AuthSecretRef := none,
                  GracefulRestart := none, EBGPMultihop := none, Families := [] } }
      rfl rfl,
    h.2.2.2.2.2 "node-1"
      { toObjectMeta := foreignMeta "node-1", Spec := { BGPInstances := [] } } rfl rfl⟩

/-- Witness of the amended C8: the cache holds, under the peer key of
`examplePolicy` and under `node-1`, objects of another party with other specs;
the upsert of each helper is one `Update` that keeps the metadata of the
cached object. -/
theorem C8_cached_key_update_replaces_spec_only_witness :
    (UpsertsCached memAdvertClient StoreCall.advert (fun o => o.toObjectMeta) (fun o => o.Spec)
        { toObjectMeta := foreignMeta "rack-100-10.0.0.5-32", Spec := { Advertisements := [] } }
        { Advertisements := [exampleEntry] } exampleForeignStore
        (updateAdvertisement (memManager exampleForeignStore).recording examplePolicy
          "rack-100-10.0.0.5-32" [exampleEntry] (exampleForeignStore, []))
      ∧ UpsertsCached memPeerConfigClient StoreCall.peerConfig (fun o => o.toObjectMeta)
        (fun o => o.Spec)
        { toObjectMeta := foreignMeta "rack-100-10.0.0.5-32",
          Spec := { Transport := none, Timers := none, AuthSecretRef := none,
                    GracefulRestart := none, EBGPMultihop := none, Families := [] } }
        (neighborPeerSpec id examplePolicy exampleRouter exampleNeighbor) exampleForeignStore
        (updatePeerConfig (memManager exampleForeignStore).recording examplePolicy
          "rack-100-10.0.0.5-32"
          (neighborPeerSpec id examplePolicy exampleRouter exampleNeighbor)
          (exampleForeignStore, []))
      ∧ UpsertsCached memNodeConfigClient StoreCall.nodeConfig (fun o => o.toObjectMeta)
        (fun o => o.Spec)
        { toObjectMeta := foreignMeta "node-1", Spec := { BGPInstances := [] } }
        { BGPInstances := nodeBGPInstancesFromBGPP id exampleParsePrefix examplePolicy }
        exampleForeignStore
        (upsertBGPPNodeConfig id exampleParsePrefix (memManager exampleForeignStore).recording
          examplePolicy "node-1" (exampleForeignStore, [])))
      ∧ calls (updateAdvertisement (memManager exampleForeignStore).recording examplePolicy
          "rack-100-10.0.0.5-32" [exampleEntry] (exampleForeignStore, [])).2.2
        = [StoreCall.advert (Call.Update
            { toObjectMeta := foreignMeta "rack-100-10.0.0.5-32",
              Spec := { Advertisements := [exampleEntry] } })]
      ∧ calls (updatePeerConfig (memManager exampleForeignStore).recording examplePolicy
          "rack-100-10.0.0.5-32"
          (neighborPeerSpec id examplePolicy exampleRouter exampleNeighbor)
          (exampleForeignStore, [])).2.2
        = [StoreCall.peerConfig (Call.Update
            { toObjectMeta := foreignMeta "rack-100-10.0.0.5-32",
              Spec := neighborPeerSpec id examplePolicy exampleRouter exampleNeighbor })] :=
  have h := C8_cached_key_update_replaces_spec_only id exampleParsePrefix
    (memManager exampleForeignStore) examplePolicy exampleForeignStore
  ⟨⟨h.1 "rack-100-10.0.0.5-32" [exampleEntry] _ rfl (by decide),
      h.2.1 "rack-100-10.0.0.5-32"
        (neighborPeerSpec id examplePolicy exampleRouter exampleNeighbor) _ rfl,
      h.2.2 "node-1" _ rfl⟩, rfl, rfl⟩

/-- C8, refuted as stated: `updateAdvertisement` is one of the upsert helpers,
and with the empty entry list on a key present in the cache it neither stays
silent nor updates. When the cached spec equals the desired spec (both hold
the empty entry list) it issues a `Delete` where the claim has no store call;
when the cached spec differs (it holds `exampleEntry`) it issues a `Delete`
where the claim has one `Update`. -/
theorem C8_counterexample :
    ((memManager exampleForeignStore).advertStore.GetByKey "rack-100-10.0.0.5-32"
          = Except.ok (some { toObjectMeta := foreignMeta "rack-100-10.0.0.5-32",
                              Spec := { Advertisements := [] } })
        ∧ (updateAdvertisement (memManager exampleForeignStore).recording examplePolicy
            "rack-100-10.0.0.5-32" [] (exampleForeignStore, [])).2.2
          = [(StoreCall.advert (Call.Delete "rack-100-10.0.0.5-32"), [])])
      ∧ ((memManager otherOwnedStore).advertStore.GetByKey "rack-100-10.0.0.5-32"
          = Except.ok (some otherOwnedAdvertisement)
        ∧ otherOwnedAdvertisement.Spec ≠ { Advertisements := [] }
        ∧ (updateAdvertisement (memManager otherOwnedStore).recording quietPolicy
            "rack-100-10.0.0.5-32" [] (otherOwnedStore, [])).2.2
          = [(StoreCall.advert (Call.Delete "rack-100-10.0.0.5-32"), [])]) :=
  ⟨⟨rfl, rfl⟩, rfl, by decide, rfl⟩

/-- Witness of C10: with the key of `examplePolicy` absent from the cache there
is no call; with the key present there is one `Delete` of that key. -/
theorem C10_empty_entry_list_witness :
    updateAdvertisement (memManager emptyStore).recording examplePolicy
        "rack-100-10.0.0.5-32" [] (exampleForeignStore, []) = ([], (exampleForeignStore, []))
      ∧ calls (updateAdvertisement (memManager exampleForeignStore).recording examplePolicy
          "rack-100-10.0.0.5-32" [] (exampleForeignStore, [])).2.2
        = [StoreCall.advert (Call.Delete "rack-100-10.0.0.5-32")] :=
  ⟨(C10_empty_entry_list (memManager emptyStore) examplePolicy "rack-100-10.0.0.5-32"
      exampleForeignStore).1 rfl,
    ((C10_empty_entry_list (memManager exampleForeignStore) examplePolicy
      "rack-100-10.0.0.5-32" exampleForeignStore).2 _ rfl).1⟩

/-! ## The end-to-end scenario -/

theorem stable_of_nameChars (t : Char → Char) (l : List Char)
    (h : ∀ c ∈ l, isNameChar c = true ∧ c ≠ '-') : ∀ c ∈ l, isStableRune t c := by
  intro c hc
  obtain ⟨h1, h2⟩ := h c hc
  refine ⟨h2, ?_, ?_, nameChar_fixed t c h1⟩
  · rintro rfl; exact absurd h1 (by decide)
  · rintro rfl; exact absurd h1 (by decide)

theorem peerKey_scenario (t : Char → Char) (p : String) (hp : ToLower t p = p) :
    peerKeyFromBGPP t p 100 "10.0.0.5/32" = p ++ "-100-10.0.0.5-32" := by
  have hsplit : ("10.0.0.5/32" : String) = "10.0.0.5" ++ "/" ++ "32" := by decide
  apply String.ext
  rw [hsplit, peerKey_data_canonical t p 100 "10.0.0.5" "32" hp (by decide)
    (stable_of_nameChars t _ (by decide)) (stable_of_nameChars t _ (by decide))]
  have h1 : Nat.toDigits 10 (100 : Int).toNat = ['1', '0', '0'] := by decide
  have h2 : ("10.0.0.5" : String).data = ['1', '0', '.', '0', '.', '0', '.', '5'] := rfl
  have h3 : ("32" : String).data = ['3', '2'] := rfl
  have h4 : ("-100-10.0.0.5-32" : String).data
      = ['-', '1', '0', '0', '-', '1', '0', '.', '0', '.', '0', '.', '5', '-', '3', '2'] := rfl
  rw [String.data_append, h1, h2, h3, h4]
  simp

/-- C2, refuted as stated: for the policy `rack` of the scenario the one
Advertisement that the advertisement phase creates on an empty store is named
`rack-100-10.0.0.5-32`, which is not `rack-100-10.0.0.5`. -/
theorem C2_counterexample :
    calls (reconcileBGPPAdvertisement id IsOwner (memManager emptyStore).recording
        examplePolicy (emptyStore, [])).2.2
        = [StoreCall.advert (Call.Create
            (newAdvertisement examplePolicy "rack-100-10.0.0.5-32" [exampleEntry]))]
      ∧ (newAdvertisement examplePolicy "rack-100-10.0.0.5-32" [exampleEntry]).Name
        ≠ "rack" ++ "-100-10.0.0.5"
      ∧ peerKeyFromBGPP id "rack" 100 "10.0.0.5/32" ≠ "rack" ++ "-100-10.0.0.5" := by
  refine ⟨rfl, by decide, by decide⟩

theorem scenario_loop {σ : Type} (t : Char → Char) (b : BGPResourceManager σ)
    (bgpp : CiliumBGPPeeringPolicy) (vr : CiliumBGPVirtualRouter) (neigh : CiliumBGPNeighbor)
    (s : σ) (hp : ToLower t bgpp.Name = bgpp.Name)
    (hvr : bgpp.Spec.VirtualRouters = [vr]) (hasn : vr.LocalASN = 100)
    (hexp : vr.ExportPodCIDR = true) (hsvc : vr.ServiceSelector = none)
    (hpool : vr.PodIPPoolSelector = none) (hn : vr.Neighbors = [neigh])
    (haddr : neigh.PeerAddress = "10.0.0.5/32") :
    reconcileBGPPAdvertisementLoop t b bgpp s =
      ((updateAdvertisement b bgpp (bgpp.Name ++ "-100-10.0.0.5-32")
          [{ AdvertisementType := PodCIDRAdvert, Selector := none,
             Attributes := getAttributes neigh PodCIDRSelectorName }] s).1,
        [bgpp.Name ++ "-100-10.0.0.5-32"],
        (updateAdvertisement b bgpp (bgpp.Name ++ "-100-10.0.0.5-32")
          [{ AdvertisementType := PodCIDRAdvert, Selector := none,
             Attributes := getAttributes neigh PodCIDRSelectorName }] s).2) := by
  simp only [reconcileBGPPAdvertisementLoop, hvr, hn, List.foldl_cons, List.foldl_nil,
    reconcileBGPPAdvertisementBody, neighborAdvertisements, hexp, hsvc, hpool, hasn, haddr,
    peerKey_scenario t bgpp.Name hp]
  by_cases hr : (updateAdvertisement b bgpp (bgpp.Name ++ "-100-10.0.0.5-32")
          [{ AdvertisementType := PodCIDRAdvert, Selector := none,
             Attributes := getAttributes neigh PodCIDRSelectorName }] s).1 = []
  · simp [hr]
  · simp [hr, errorsJoin]

/-- C2, amended: for every policy whose name lower-casing leaves unchanged and
that has exactly one virtual router (local ASN 100, ExportPodCIDR enabled, no
service selector, no pod-IP-pool selector) with exactly one neighbor of peer
address `10.0.0.5/32` (peer ASN 200, port 179), the advertisement phase makes
exactly one upsert: its key is the policy name followed by `-100-10.0.0.5-32`
and its entry list is the single self-subnet (PodCIDR) entry with absent
selector. On an empty cache and an empty store the phase issues exactly one
call, the `Create` of that Advertisement, and succeeds. -/
theorem C2_scenario_upserts_one_advertisement {σ : Type} (caseTable : Char → Char)
    (IsOwner : List OwnerReference → String → Bool) (b : BGPResourceManager σ)
    (bgpp : CiliumBGPPeeringPolicy) (vr : CiliumBGPVirtualRouter) (neigh : CiliumBGPNeighbor)
    (s : σ) (hp : ToLower caseTable bgpp.Name = bgpp.Name)
    (hvr : bgpp.Spec.VirtualRouters = [vr]) (hasn : vr.LocalASN = 100)
    (hexp : vr.ExportPodCIDR = true) (hsvc : vr.ServiceSelector = none)
    (hpool : vr.PodIPPoolSelector = none) (hn : vr.Neighbors = [neigh])
    (haddr : neigh.PeerAddress = "10.0.0.5/32") (_hpeer : neigh.PeerASN = 200)
    (_hport : neigh.PeerPort = 179) :
    reconcileBGPPAdvertisementLoop caseTable b bgpp s =
        ((updateAdvertisement b bgpp (bgpp.Name ++ "-100-10.0.0.5-32")
            [{ AdvertisementType := PodCIDRAdvert, Selector := none,
               Attributes := getAttributes neigh PodCIDRSelectorName }] s).1,
          [bgpp.Name ++ "-100-10.0.0.5-32"],
          (updateAdvertisement b bgpp (bgpp.Name ++ "-100-10.0.0.5-32")
            [{ AdvertisementType := PodCIDRAdvert, Selector := none,
               Attributes := getAttributes neigh PodCIDRSelectorName }] s).2)
      ∧ calls (reconcileBGPPAdvertisement caseTable IsOwner (memManager emptyStore).recording
          bgpp (emptyStore, [])).2.2
        = [StoreCall.advert (Call.Create
            (newAdvertisement bgpp (bgpp.Name ++ "-100-10.0.0.5-32")
              [{ AdvertisementType := PodCIDRAdvert, Selector := none,
                 Attributes := getAttributes neigh PodCIDRSelectorName }]))]
      ∧ reconcileBGPPAdvertisement caseTable IsOwner (memManager emptyStore) bgpp emptyStore
        = ([], { emptyStore with
            adverts := [newAdvertisement bgpp (bgpp.Name ++ "-100-10.0.0.5-32")
              [{ AdvertisementType := PodCIDRAdvert, Selector := none,
                 Attributes := getAttributes neigh PodCIDRSelectorName }]] }) := by
  refine ⟨scenario_loop caseTable b bgpp vr neigh s hp hvr hasn hexp hsvc hpool hn haddr, ?_, ?_⟩
  · simp only [reconcileBGPPAdvertisement,
      scenario_loop caseTable _ bgpp vr neigh _ hp hvr hasn hexp hsvc hpool hn haddr]
    simp [updateAdvertisement, deleteStaleAdvertisement, memManager, snapshot, emptyStore,
      BGPResourceManager.recording, Client.recording, memAdvertClient, memCreate, calls,
      IsAlreadyExists, ReasonForError]
  · simp only [reconcileBGPPAdvertisement,
      scenario_loop caseTable _ bgpp vr neigh _ hp hvr hasn hexp hsvc hpool hn haddr]
    simp [updateAdvertisement, deleteStaleAdvertisement, memManager, snapshot, emptyStore,
      memAdvertClient, memCreate, IsAlreadyExists, ReasonForError]

/-- Witness of the amended C2 at the policy `rack`. -/
theorem C2_scenario_upserts_one_advertisement_witness :
    calls (reconcileBGPPAdvertisement id IsOwner (memManager emptyStore).recording
        examplePolicy (emptyStore, [])).2.2
      = [StoreCall.advert (Call.Create
          (newAdvertisement examplePolicy ("rack" ++ "-100-10.0.0.5-32")
            [{ AdvertisementType := PodCIDRAdvert, Selector := none,
               Attributes := getAttributes exampleNeighbor PodCIDRSelectorName }]))] :=
  (C2_scenario_upserts_one_advertisement id IsOwner (memManager emptyStore) examplePolicy
    exampleRouter exampleNeighbor emptyStore (by decide) rfl rfl rfl rfl rfl rfl rfl rfl rfl).2.1

/-! ## Ownership -/

/-- C5, evaluated at a failing input: the cache and the store hold an
Advertisement whose name is the peer key of `quietPolicy` and whose only owner
reference names the policy `other`; `quietPolicy` has no entry for the peer,
and its advertisement phase, whatever the ownership test, issues a `Delete` of
that name, which removes the object from the store. -/
theorem C5_empty_entry_list_deletes_unowned :
    IsOwner otherOwnedAdvertisement.OwnerReferences quietPolicy.Name = false
      ∧ ∀ isOwner : List OwnerReference → String → Bool,
        calls (reconcileBGPPAdvertisement id isOwner (memManager otherOwnedStore).recording
            quietPolicy (otherOwnedStore, [])).2.2
            = [StoreCall.advert (Call.Delete otherOwnedAdvertisement.Name)]
          ∧ (reconcileBGPPAdvertisement id isOwner (memManager otherOwnedStore)
              quietPolicy otherOwnedStore).2.adverts = [] := by
  refine ⟨by decide, fun isOwner => ⟨rfl, rfl⟩⟩

/-! ## Loops -/

theorem foldl_neighborPairs {β : Type}
    (f : β → CiliumBGPVirtualRouter → CiliumBGPNeighbor → β)
    (vrs : List CiliumBGPVirtualRouter) :
    ∀ acc : β,
      vrs.foldl (fun acc vr => vr.Neighbors.foldl (fun acc n => f acc vr n) acc) acc
        = (vrs.flatMap (fun vr => vr.Neighbors.map (fun n => (vr, n)))).foldl
            (fun acc p => f acc p.1 p.2) acc := by
  induction vrs with
  | nil => intro acc; rfl
  | cons vr vrs ih =>
    intro acc
    simp only [List.foldl_cons, List.flatMap_cons, List.foldl_append, List.foldl_map]
    exact ih _

/-- The body shared by the two upsert loops, over an arbitrary upsert. -/
theorem foldl_upsert_parts {σ X : Type} (key : X → String) (upd : X → σ → GoError × σ)
    (xs : List X) :
    ∀ acc : GoError × List String × σ,
      (xs.foldl (fun (acc : GoError × List String × σ) x =>
          if (upd x acc.2.2).1 ≠ [] then
            (errorsJoin acc.1 (upd x acc.2.2).1, key x :: acc.2.1, (upd x acc.2.2).2)
          else (acc.1, key x :: acc.2.1, (upd x acc.2.2).2)) acc).2.2
          = xs.foldl (fun s x => (upd x s).2) acc.2.2
        ∧ (xs.foldl (fun (acc : GoError × List String × σ) x =>
          if (upd x acc.2.2).1 ≠ [] then
            (errorsJoin acc.1 (upd x acc.2.2).1, key x :: acc.2.1, (upd x acc.2.2).2)
          else (acc.1, key x :: acc.2.1, (upd x acc.2.2).2)) acc).2.1
          = (xs.map key).reverse ++ acc.2.1 := by
  induction xs with
  | nil => intro acc; simp
  | cons x xs ih =>
    intro acc
    simp only [List.foldl_cons, List.map_cons, List.reverse_cons, List.append_assoc,
      List.singleton_append]
    by_cases h : (upd x acc.2.2).1 = []
    · simp only [h, ne_eq, not_true_eq_false, if_false]
      exact ih _
    · simp only [h, ne_eq, not_false_eq_true, if_true]
      exact ih _

/-- An upsert loop all of whose upserts leave the state alone and succeed. -/
theorem foldl_upsert_noop {σ X : Type} (key : X → String) (upd : X → σ → GoError × σ)
    (s : σ) (xs : List X) (h : ∀ x ∈ xs, upd x s = ([], s)) :
    ∀ (e : GoError) (E : List String),
      xs.foldl (fun (acc : GoError × List String × σ) x =>
          if (upd x acc.2.2).1 ≠ [] then
            (errorsJoin acc.1 (upd x acc.2.2).1, key x :: acc.2.1, (upd x acc.2.2).2)
          else (acc.1, key x :: acc.2.1, (upd x acc.2.2).2)) (e, E, s)
        = (e, (xs.map key).reverse ++ E, s) := by
  induction xs with
  | nil => intro e E; simp
  | cons x xs ih =>
    intro e E
    have hx := h x (by simp)
    simp only [List.foldl_cons, hx, ne_eq, not_true_eq_false, if_false, List.map_cons,
      List.reverse_cons, List.append_assoc, List.singleton_append]
    exact ih (fun y hy => h y (by simp [hy])) e (key x :: E)

/-- The state a loop of upserts reaches, when every upsert changes only the
objects of its own key and the keys are pairwise distinct: each key is left
as its own upsert left it, and every other name is untouched. -/
theorem foldl_upsert_invariant {σ X T β : Type} (F : σ → String → List T) (R : σ → β)
    (key : X → String) (step : X → σ → σ) (G : List T → X → Prop) (F₀ : String → List T)
    (h1 : ∀ x s n, F s (key x) = F₀ (key x) → n ≠ key x → F (step x s) n = F s n)
    (h2 : ∀ x s, F s (key x) = F₀ (key x) → G (F (step x s) (key x)) x)
    (h3 : ∀ x s, F s (key x) = F₀ (key x) → R (step x s) = R s)
    (xs : List X) :
    ∀ s : σ, (∀ x ∈ xs, F s (key x) = F₀ (key x)) → (xs.map key).Nodup →
      (∀ x ∈ xs, G (F (xs.foldl (fun s x => step x s) s) (key x)) x)
        ∧ (∀ n, n ∉ xs.map key → F (xs.foldl (fun s x => step x s) s) n = F s n)
        ∧ R (xs.foldl (fun s x => step x s) s) = R s := by
  induction xs with
  | nil => intro s _ _; simp
  | cons x xs ih =>
    intro s hs hnd
    rw [List.map_cons, List.nodup_cons] at hnd
    have hx := hs x (by simp)
    have hs1 : ∀ y ∈ xs, F (step x s) (key y) = F₀ (key y) := by
      intro y hy
      have hne : key y ≠ key x := by
        intro heq
        exact hnd.1 (heq ▸ List.mem_map_of_mem key hy)
      rw [h1 x s (key y) hx hne]
      exact hs y (by simp [hy])
    obtain ⟨ihG, ihF, ihR⟩ := ih (step x s) hs1 hnd.2
    simp only [List.foldl_cons]
    refine ⟨?_, ?_, ?_⟩
    · intro y hy
      rcases List.mem_cons.mp hy with rfl | hy
      · rw [ihF (key y) hnd.1]
        exact h2 y s hx
      · exact ihG y hy
    · intro n hn
      simp only [List.map_cons, List.mem_cons, not_or] at hn
      rw [ihF n hn.2, h1 x s n hx hn.1]
    · rw [ihR, h3 x s hx]

/-! ## The in-memory store, name by name -/

theorem any_eq_false_of_filter_nil {T : Type} (p : T → Bool) (l : List T)
    (h : l.filter p = []) : l.any p = false := by
  rw [List.filter_eq_nil_iff] at h
  rw [Bool.eq_false_iff]
  intro ha
  obtain ⟨x, hx, hpx⟩ := List.any_eq_true.mp ha
  exact h x hx hpx

theorem any_eq_true_of_filter_cons {T : Type} (p : T → Bool) (l : List T) (o : T)
    (rest : List T) (h : l.filter p = o :: rest) : l.any p = true := by
  have hm : o ∈ l.filter p := by rw [h]; simp
  have := List.mem_filter.mp hm
  exact List.any_eq_true.mpr ⟨o, this.1, this.2⟩

theorem find_of_filter_nil {T : Type} (p : T → Bool) :
    ∀ l : List T, l.filter p = [] → l.find? p = none := by
  intro l h
  rw [List.filter_eq_nil_iff] at h
  exact List.find?_eq_none.mpr (fun x hx => h x hx)

theorem find_of_filter_cons {T : Type} (p : T → Bool) (o : T) (rest : List T) :
    ∀ l : List T, l.filter p = o :: rest → l.find? p = some o := by
  intro l
  induction l with
  | nil => intro h; simp at h
  | cons x xs ih =>
    intro h
    by_cases hx : p x = true
    · simp only [List.filter_cons, hx, if_true, List.cons.injEq] at h
      rw [← h.1]
      simp [List.find?_cons, hx]
    · simp only [List.filter_cons, hx] at h
      simp only [List.find?_cons, hx]
      exact ih h

theorem filter_of_find_none {T : Type} (p : T → Bool) (l : List T)
    (h : l.find? p = none) : l.filter p = [] := by
  rw [List.filter_eq_nil_iff]
  intro x hx
  exact List.find?_eq_none.mp h x hx

theorem filter_of_find_some {T : Type} (p : T → Bool) (o : T) :
    ∀ l : List T, l.find? p = some o → ∃ rest, l.filter p = o :: rest := by
  intro l
  induction l with
  | nil => intro h; simp at h
  | cons x xs ih =>
    intro h
    by_cases hx : p x = true
    · simp only [List.find?_cons, hx, Option.some.injEq] at h
      subst h
      exact ⟨xs.filter p, by simp [List.filter_cons, hx]⟩
    · simp only [List.find?_cons, hx] at h
      obtain ⟨rest, hr⟩ := ih h
      exact ⟨rest, by simp [List.filter_cons, hx, hr]⟩

theorem memDelete_filter_other {T : Type} (name : T → String) (k n : String) (l : List T)
    (h : n ≠ k) :
    (memDelete name k l).2.filter (fun o => decide (name o = n))
      = l.filter (fun o => decide (name o = n)) := by
  unfold memDelete
  split
  · simp only [List.filter_filter]
    apply List.filter_congr
    intro x _
    by_cases hx : name x = n
    · simp [hx, h]
    · simp [hx]
  · rfl

theorem memDelete_filter_self {T : Type} (name : T → String) (k : String) (l : List T) :
    (memDelete name k l).2.filter (fun o => decide (name o = k)) = [] := by
  unfold memDelete
  split
  · simp [List.filter_filter]
  · rename_i h
    rw [List.filter_eq_nil_iff]
    intro x hx hpx
    exact h (List.any_eq_true.mpr ⟨x, hx, hpx⟩)

theorem filter_map_replace_other {T : Type} (name : T → String) (obj : T) (n : String)
    (h : n ≠ name obj) :
    ∀ l : List T,
      (l.map (fun o => if name o = name obj then obj else o)).filter
          (fun o => decide (name o = n))
        = l.filter (fun o => decide (name o = n)) := by
  intro l
  induction l with
  | nil => rfl
  | cons x xs ih =>
    by_cases hx : name x = name obj
    · have hxn : ¬ name x = n := fun e => h (e ▸ hx)
      have hon : ¬ name obj = n := fun e => h e.symm
      simp [List.filter_cons, hx, hxn, hon, ih]
    · simp [List.filter_cons, hx, ih]

theorem memUpdate_filter_other {T : Type} (name : T → String) (obj : T) (n : String)
    (l : List T) (h : n ≠ name obj) :
    (memUpdate name obj l).2.filter (fun o => decide (name o = n))
      = l.filter (fun o => decide (name o = n)) := by
  unfold memUpdate
  split
  · exact filter_map_replace_other name obj n h l
  · rfl

theorem memUpdate_filter_self {T : Type} (name : T → String) (obj o : T) (rest : List T)
    (l : List T) (h : l.filter (fun x => decide (name x = name obj)) = o :: rest) :
    (memUpdate name obj l).2.filter (fun x => decide (name x = name obj))
      = obj :: rest.map (fun _ => obj) := by
  simp [memUpdate, any_eq_true_of_filter_cons _ l o rest h, filter_map_replace, h]

theorem memCreate_filter_other {T : Type} (name : T → String) (obj : T) (n : String)
    (l : List T) (h : n ≠ name obj) :
    (memCreate name obj l).2.filter (fun o => decide (name o = n))
      = l.filter (fun o => decide (name o = n)) := by
  unfold memCreate
  split
  · rfl
  · have hon : ¬ name obj = n := fun e => h e.symm
    simp [List.filter_append, List.filter_cons, hon]

theorem memCreate_fresh {T : Type} (name : T → String) (obj : T) (l : List T)
    (h : l.filter (fun x => decide (name x = name obj)) = []) :
    memCreate name obj l = ([], l ++ [obj])
      ∧ (l ++ [obj]).filter (fun x => decide (name x = name obj)) = [obj] := by
  simp [memCreate, any_eq_false_of_filter_nil _ l h, List.filter_append, h]

theorem updateAdvertisement_mem_step (C S : APIServer) (bgpp : CiliumBGPPeeringPolicy)
    (k : String) (e : List Advertisement)
    (hagree : S.adverts.filter (fun o => decide (o.Name = k))
      = C.adverts.filter (fun o => decide (o.Name = k))) :
    (updateAdvertisement (memManager C) bgpp k e S).2.peerConfigs = S.peerConfigs
      ∧ (updateAdvertisement (memManager C) bgpp k e S).2.nodeConfigs = S.nodeConfigs
      ∧ (∀ n, n ≠ k →
        (updateAdvertisement (memManager C) bgpp k e S).2.adverts.filter
            (fun o => decide (o.Name = n))
          = S.adverts.filter (fun o => decide (o.Name = n)))
      ∧ (e = [] → (updateAdvertisement (memManager C) bgpp k e S).2.adverts.filter
            (fun o => decide (o.Name = k)) = [])
      ∧ (e ≠ [] → ∃ o rest, (updateAdvertisement (memManager C) bgpp k e S).2.adverts.filter
            (fun o => decide (o.Name = k)) = o :: rest ∧ o.Spec = { Advertisements := e }) := by
  cases hfind : C.adverts.find? (fun o => decide (o.Name = k)) with
  | none =>
    have hC := filter_of_find_none _ _ hfind
    have hS : S.adverts.filter (fun o => decide (o.Name = k)) = [] := by rw [hagree, hC]
    by_cases he : e = []
    · subst he
      simp [updateAdvertisement, memManager, snapshot, hfind, hS]
    · have hlen : ¬ e.length = 0 := fun h => he (List.length_eq_zero.mp h)
      have hcr := memCreate_fresh (fun o : CiliumBGPAdvertisement => o.Name)
        (newAdvertisement bgpp k e) S.adverts (by simpa using hS)
      have hres : updateAdvertisement (memManager C) bgpp k e S
          = ([], { S with adverts := S.adverts ++ [newAdvertisement bgpp k e] }) := by
        simp [updateAdvertisement, memManager, snapshot, memAdvertClient, hfind, hlen, hcr.1]
      rw [hres]
      refine ⟨rfl, rfl, ?_, fun h => absurd h he, fun _ => ⟨newAdvertisement bgpp k e, [], ?_, rfl⟩⟩
      · intro n hn
        have hnn : ¬ k = n := fun h => hn h.symm
        simp [List.filter_append, List.filter_cons, hnn]
      · simpa using hcr.2
  | some prev =>
    obtain ⟨rest, hC⟩ := filter_of_find_some _ _ _ hfind
    have hS : S.adverts.filter (fun o => decide (o.Name = k)) = prev :: rest := by
      rw [hagree, hC]
    have hname : prev.Name = k := by
      have := List.find?_some hfind
      simpa using this
    by_cases he : e = []
    · subst he
      have hres : (updateAdvertisement (memManager C) bgpp k [] S).2
          = { S with adverts := (memDelete (fun o : CiliumBGPAdvertisement => o.Name) k
              S.adverts).2 } := by
        simp only [updateAdvertisement, memManager, snapshot, memAdvertClient, hfind,
          List.length_nil, if_true]
        split <;> rfl
      rw [hres]
      refine ⟨rfl, rfl, ?_, fun _ => memDelete_filter_self _ k _, fun h => absurd rfl h⟩
      intro n hn
      exact memDelete_filter_other _ k n _ hn
    · have hlen : ¬ e.length = 0 := fun h => he (List.length_eq_zero.mp h)
      by_cases hs : prev.Spec = { Advertisements := e }
      · have hres : updateAdvertisement (memManager C) bgpp k e S = ([], S) := by
          simp [updateAdvertisement, memManager, snapshot, hfind, hlen, hs]
        rw [hres]
        exact ⟨rfl, rfl, fun _ _ => rfl, fun h => absurd h he, fun _ => ⟨prev, rest, hS, hs⟩⟩
      · have hres : (updateAdvertisement (memManager C) bgpp k e S).2
            = { S with adverts := (memUpdate (fun o : CiliumBGPAdvertisement => o.Name)
                { prev with Spec := { Advertisements := e } } S.adverts).2 } := by
          simp [updateAdvertisement, memManager, snapshot, memAdvertClient, hfind, hlen, hs]
        rw [hres]
        refine ⟨rfl, rfl, ?_, fun h => absurd h he, fun _ =>
          ⟨{ prev with Spec := { Advertisements := e } }, rest.map (fun _ => { prev with Spec := { Advertisements := e } }), ?_, rfl⟩⟩
        · intro n hn
          exact memUpdate_filter_other _ _ n _ (by simpa [hname] using hn)
        · have := memUpdate_filter_self (fun o : CiliumBGPAdvertisement => o.Name)
            { prev with Spec := { Advertisements := e } } prev rest S.adverts
            (by simpa [hname] using hS)
          simpa [hname] using this

theorem updatePeerConfig_mem_step (C S : APIServer) (bgpp : CiliumBGPPeeringPolicy)
    (k : String) (spec : CiliumBGPPeerConfigSpec)
    (hagree : S.peerConfigs.filter (fun o => decide (o.Name = k))
      = C.peerConfigs.filter (fun o => decide (o.Name = k))) :
    (updatePeerConfig (memManager C) bgpp k spec S).2.adverts = S.adverts
      ∧ (updatePeerConfig (memManager C) bgpp k spec S).2.nodeConfigs = S.nodeConfigs
      ∧ (∀ n, n ≠ k →
        (updatePeerConfig (memManager C) bgpp k spec S).2.peerConfigs.filter
            (fun o => decide (o.Name = n))
          = S.peerConfigs.filter (fun o => decide (o.Name = n)))
      ∧ (∃ o rest, (updatePeerConfig (memManager C) bgpp k spec S).2.peerConfigs.filter
            (fun o => decide (o.Name = k)) = o :: rest ∧ o.Spec = spec) := by
  cases hfind : C.peerConfigs.find? (fun o => decide (o.Name = k)) with
  | none =>
    have hC := filter_of_find_none _ _ hfind
    have hS : S.peerConfigs.filter (fun o => decide (o.Name = k)) = [] := by rw [hagree, hC]
    have hcr := memCreate_fresh (fun o : CiliumBGPPeerConfig => o.Name)
      (newPeerConfig bgpp k spec) S.peerConfigs (by simpa using hS)
    have hres : updatePeerConfig (memManager C) bgpp k spec S
        = ([], { S with peerConfigs := S.peerConfigs ++ [newPeerConfig bgpp k spec] }) := by
      simp [updatePeerConfig, memManager, snapshot, memPeerConfigClient, hfind, hcr.1]
    rw [hres]
    refine ⟨rfl, rfl, ?_, ⟨newPeerConfig bgpp k spec, [], ?_, rfl⟩⟩
    · intro n hn
      have hnn : ¬ k = n := fun h => hn h.symm
      simp [List.filter_append, List.filter_cons, hnn]
    · simpa using hcr.2
  | some prev =>
    obtain ⟨rest, hC⟩ := filter_of_find_some _ _ _ hfind
    have hS : S.peerConfigs.filter (fun o => decide (o.Name = k)) = prev :: rest := by
      rw [hagree, hC]
    have hname : prev.Name = k := by
      have := List.find?_some hfind
      simpa using this
    by_cases hs : prev.Spec = spec
    · have hres : updatePeerConfig (memManager C) bgpp k spec S = ([], S) := by
        simp [updatePeerConfig, memManager, snapshot, hfind, hs]
      rw [hres]
      exact ⟨rfl, rfl, fun _ _ => rfl, ⟨prev, rest, hS, hs⟩⟩
    · have hres : (updatePeerConfig (memManager C) bgpp k spec S).2
          = { S with peerConfigs := (memUpdate (fun o : CiliumBGPPeerConfig => o.Name)
              { prev with Spec := spec } S.peerConfigs).2 } := by
        simp [updatePeerConfig, memManager, snapshot, memPeerConfigClient, hfind, hs]
      rw [hres]
      refine ⟨rfl, rfl, ?_,
        ⟨{ prev with Spec := spec }, rest.map (fun _ => { prev with Spec := spec }), ?_, rfl⟩⟩
      · intro n hn
        exact memUpdate_filter_other _ _ n _ (by simpa [hname] using hn)
      · have := memUpdate_filter_self (fun o : CiliumBGPPeerConfig => o.Name)
          { prev with Spec := spec } prev rest S.peerConfigs (by simpa [hname] using hS)
        simpa [hname] using this

/-- The state a garbage-collection loop reaches on the in-memory store: every
name is either emptied or untouched, and the names of the listed objects that
satisfy the condition of the loop are emptied. -/
theorem foldl_gc_mem {σ T : Type} (F : σ → String → List T) (del : String → σ → GoError × σ)
    (name : T → String) (P : T → Bool)
    (hother : ∀ k s n, n ≠ k → F (del k s).2 n = F s n)
    (hself : ∀ k s, F (del k s).2 k = [])
    (l : List T) :
    ∀ acc : GoError × σ,
      (∀ n, F (l.foldl (fun (acc : GoError × σ) o =>
            if P o then
              if (del (name o) acc.2).1 ≠ [] && !IsNotFound (del (name o) acc.2).1 then
                (errorsJoin acc.1 (del (name o) acc.2).1, (del (name o) acc.2).2)
              else (acc.1, (del (name o) acc.2).2)
            else acc) acc).2 n = [] ∨
          F (l.foldl (fun (acc : GoError × σ) o =>
            if P o then
              if (del (name o) acc.2).1 ≠ [] && !IsNotFound (del (name o) acc.2).1 then
                (errorsJoin acc.1 (del (name o) acc.2).1, (del (name o) acc.2).2)
              else (acc.1, (del (name o) acc.2).2)
            else acc) acc).2 n = F acc.2 n)
        ∧ (∀ o ∈ l, P o = true →
          F (l.foldl (fun (acc : GoError × σ) o =>
            if P o then
              if (del (name o) acc.2).1 ≠ [] && !IsNotFound (del (name o) acc.2).1 then
                (errorsJoin acc.1 (del (name o) acc.2).1, (del (name o) acc.2).2)
              else (acc.1, (del (name o) acc.2).2)
            else acc) acc).2 (name o) = [])
        ∧ (∀ n, (∀ o ∈ l, P o = true → name o ≠ n) →
          F (l.foldl (fun (acc : GoError × σ) o =>
            if P o then
              if (del (name o) acc.2).1 ≠ [] && !IsNotFound (del (name o) acc.2).1 then
                (errorsJoin acc.1 (del (name o) acc.2).1, (del (name o) acc.2).2)
              else (acc.1, (del (name o) acc.2).2)
            else acc) acc).2 n = F acc.2 n) := by
  induction l with
  | nil => intro acc; simp
  | cons x xs ih =>
    intro acc
    simp only [List.foldl_cons]
    by_cases hP : P x = true
    · have hstep : ∀ (a : GoError × σ),
          (if P x = true then
            if (del (name x) a.2).1 ≠ [] && !IsNotFound (del (name x) a.2).1 then
              (errorsJoin a.1 (del (name x) a.2).1, (del (name x) a.2).2)
            else (a.1, (del (name x) a.2).2)
          else a).2 = (del (name x) a.2).2 := by
        intro a
        simp only [hP, if_true]
        split <;> rfl
      obtain ⟨ih1, ih2, ih3⟩ := ih (if P x = true then
            if (del (name x) acc.2).1 ≠ [] && !IsNotFound (del (name x) acc.2).1 then
              (errorsJoin acc.1 (del (name x) acc.2).1, (del (name x) acc.2).2)
            else (acc.1, (del (name x) acc.2).2)
          else acc)
      rw [hstep acc] at ih1 ih3
      refine ⟨?_, ?_, ?_⟩
      · intro n
        rcases ih1 n with h | h
        · exact Or.inl h
        · by_cases hn : n = name x
          · left; rw [h, hn]; exact hself _ _
          · right; rw [h]; exact hother _ _ _ hn
      · intro o ho hPo
        rcases List.mem_cons.mp ho with rfl | ho
        · rcases ih1 (name o) with h | h
          · exact h
          · rw [h]; exact hself _ _
        · exact ih2 o ho hPo
      · intro n hn
        rw [ih3 n (fun o ho hPo => hn o (by simp [ho]) hPo)]
        exact hother _ _ _ (fun h => hn x (by simp) hP h.symm)
    · have hstep : ∀ (a : GoError × σ),
          (if P x = true then
            if (del (name x) a.2).1 ≠ [] && !IsNotFound (del (name x) a.2).1 then
              (errorsJoin a.1 (del (name x) a.2).1, (del (name x) a.2).2)
            else (a.1, (del (name x) a.2).2)
          else a) = a := by
        intro a
        simp [hP]
      rw [hstep acc]
      obtain ⟨ih1, ih2, ih3⟩ := ih acc
      refine ⟨ih1, ?_, ?_⟩
      · intro o ho hPo
        rcases List.mem_cons.mp ho with rfl | ho
        · exact absurd hPo hP
        · exact ih2 o ho hPo
      · intro n hn
        exact ih3 n (fun o ho hPo => hn o (by simp [ho]) hPo)


/-! ## Idempotence -/

theorem foldl_gc_frame {σ T β : Type} (R : σ → β) (del : String → σ → GoError × σ)
    (name : T → String) (P : T → Bool) (hR : ∀ k s, R (del k s).2 = R s) (l : List T) :
    ∀ acc : GoError × σ,
      R (l.foldl (fun (acc : GoError × σ) o =>
          if P o then
            if (del (name o) acc.2).1 ≠ [] && !IsNotFound (del (name o) acc.2).1 then
              (errorsJoin acc.1 (del (name o) acc.2).1, (del (name o) acc.2).2)
            else (acc.1, (del (name o) acc.2).2)
          else acc) acc).2 = R acc.2 := by
  induction l with
  | nil => intro acc; rfl
  | cons x xs ih =>
    intro acc
    simp only [List.foldl_cons]
    rw [ih]
    by_cases hP : P x = true
    · simp only [hP, if_true]
      split <;> exact hR _ _
    · simp [hP]

theorem foldl_gc_noop {σ T : Type} (del : String → σ → GoError × σ)
    (name : T → String) (P : T → Bool) (l : List T) (h : ∀ o ∈ l, P o = false) :
    ∀ acc : GoError × σ,
      l.foldl (fun (acc : GoError × σ) o =>
          if P o then
            if (del (name o) acc.2).1 ≠ [] && !IsNotFound (del (name o) acc.2).1 then
              (errorsJoin acc.1 (del (name o) acc.2).1, (del (name o) acc.2).2)
            else (acc.1, (del (name o) acc.2).2)
          else acc) acc = acc := by
  induction l with
  | nil => intro acc; rfl
  | cons x xs ih =>
    intro acc
    simp only [List.foldl_cons, h x (by simp), Bool.false_eq_true, if_false]
    exact ih (fun o ho => h o (by simp [ho])) acc

theorem advertLoop_eq {σ : Type} (t : Char → Char) (b : BGPResourceManager σ)
    (bgpp : CiliumBGPPeeringPolicy) (s : σ) :
    reconcileBGPPAdvertisementLoop t b bgpp s
      = (neighborPairs bgpp).foldl
          (fun (acc : GoError × List String × σ) p =>
            if (updateAdvertisement b bgpp
                (peerKeyFromBGPP t bgpp.Name p.1.LocalASN p.2.PeerAddress)
                (neighborAdvertisements p.1 p.2) acc.2.2).1 ≠ [] then
              (errorsJoin acc.1 (updateAdvertisement b bgpp
                (peerKeyFromBGPP t bgpp.Name p.1.LocalASN p.2.PeerAddress)
                (neighborAdvertisements p.1 p.2) acc.2.2).1,
                peerKeyFromBGPP t bgpp.Name p.1.LocalASN p.2.PeerAddress :: acc.2.1,
                (updateAdvertisement b bgpp
                (peerKeyFromBGPP t bgpp.Name p.1.LocalASN p.2.PeerAddress)
                (neighborAdvertisements p.1 p.2) acc.2.2).2)
            else (acc.1, peerKeyFromBGPP t bgpp.Name p.1.LocalASN p.2.PeerAddress :: acc.2.1,
                (updateAdvertisement b bgpp
                (peerKeyFromBGPP t bgpp.Name p.1.LocalASN p.2.PeerAddress)
                (neighborAdvertisements p.1 p.2) acc.2.2).2))
          ([], [], s) :=
  foldl_neighborPairs (fun acc vr n => reconcileBGPPAdvertisementBody t b bgpp vr acc n)
    bgpp.Spec.VirtualRouters ([], [], s)

theorem peerConfigLoop_eq {σ : Type} (t : Char → Char) (b : BGPResourceManager σ)
    (bgpp : CiliumBGPPeeringPolicy) (s : σ) :
    reconcileBGPPPeerConfigLoop t b bgpp s
      = (neighborPairs bgpp).foldl
          (fun (acc : GoError × List String × σ) p =>
            if (updatePeerConfig b bgpp
                (peerKeyFromBGPP t bgpp.Name p.1.LocalASN p.2.PeerAddress)
                (neighborPeerSpec t bgpp p.1 p.2) acc.2.2).1 ≠ [] then
              (errorsJoin acc.1 (updatePeerConfig b bgpp
                (peerKeyFromBGPP t bgpp.Name p.1.LocalASN p.2.PeerAddress)
                (neighborPeerSpec t bgpp p.1 p.2) acc.2.2).1,
                peerKeyFromBGPP t bgpp.Name p.1.LocalASN p.2.PeerAddress :: acc.2.1,
                (updatePeerConfig b bgpp
                (peerKeyFromBGPP t bgpp.Name p.1.LocalASN p.2.PeerAddress)
                (neighborPeerSpec t bgpp p.1 p.2) acc.2.2).2)
            else (acc.1, peerKeyFromBGPP t bgpp.Name p.1.LocalASN p.2.PeerAddress :: acc.2.1,
                (updatePeerConfig b bgpp
                (peerKeyFromBGPP t bgpp.Name p.1.LocalASN p.2.PeerAddress)
                (neighborPeerSpec t bgpp p.1 p.2) acc.2.2).2))
          ([], [], s) :=
  foldl_neighborPairs (fun acc vr n => reconcileBGPPPeerConfigBody t b bgpp vr acc n)
    bgpp.Spec.VirtualRouters ([], [], s)


theorem advertPhase_state {σ : Type} (t : Char → Char)
    (isOwner : List OwnerReference → String → Bool) (b : BGPResourceManager σ)
    (bgpp : CiliumBGPPeeringPolicy) (s : σ) :
    (reconcileBGPPAdvertisement t isOwner b bgpp s).2
      = (deleteStaleAdvertisement isOwner b (peerKeys t bgpp).reverse bgpp.Name
          ((neighborPairs bgpp).foldl
            (fun s p => (updateAdvertisement b bgpp
              (peerKeyFromBGPP t bgpp.Name p.1.LocalASN p.2.PeerAddress)
              (neighborAdvertisements p.1 p.2) s).2) s)).2 := by
  obtain ⟨hst, hE⟩ := foldl_upsert_parts
    (fun p : CiliumBGPVirtualRouter × CiliumBGPNeighbor =>
      peerKeyFromBGPP t bgpp.Name p.1.LocalASN p.2.PeerAddress)
    (fun p s => updateAdvertisement b bgpp
      (peerKeyFromBGPP t bgpp.Name p.1.LocalASN p.2.PeerAddress)
      (neighborAdvertisements p.1 p.2) s)
    (neighborPairs bgpp) ([], [], s)
  simp only [List.append_nil] at hE hst
  simp only [reconcileBGPPAdvertisement, advertLoop_eq, hst, hE, peerKeys]
  split <;> rfl

theorem peerConfigPhase_state {σ : Type} (t : Char → Char)
    (isOwner : List OwnerReference → String → Bool) (b : BGPResourceManager σ)
    (bgpp : CiliumBGPPeeringPolicy) (s : σ) :
    (reconcileBGPPPeerConfig t isOwner b bgpp s).2
      = (deleteStalePeerConfig isOwner b (peerKeys t bgpp).reverse bgpp.Name
          ((neighborPairs bgpp).foldl
            (fun s p => (updatePeerConfig b bgpp
              (peerKeyFromBGPP t bgpp.Name p.1.LocalASN p.2.PeerAddress)
              (neighborPeerSpec t bgpp p.1 p.2) s).2) s)).2 := by
  obtain ⟨hst, hE⟩ := foldl_upsert_parts
    (fun p : CiliumBGPVirtualRouter × CiliumBGPNeighbor =>
      peerKeyFromBGPP t bgpp.Name p.1.LocalASN p.2.PeerAddress)
    (fun p s => updatePeerConfig b bgpp
      (peerKeyFromBGPP t bgpp.Name p.1.LocalASN p.2.PeerAddress)
      (neighborPeerSpec t bgpp p.1 p.2) s)
    (neighborPairs bgpp) ([], [], s)
  simp only [List.append_nil] at hE hst
  simp only [reconcileBGPPPeerConfig, peerConfigLoop_eq, hst, hE, peerKeys]
  split <;> rfl

theorem deleteStaleAdvertisement_mem (isOwner : List OwnerReference → String → Bool)
    (C : APIServer) (E : List String) (name : String) (S : APIServer) :
    (∀ n, (deleteStaleAdvertisement isOwner (memManager C) E name S).2.adverts.filter
          (fun o => decide (o.Name = n)) = []
        ∨ (deleteStaleAdvertisement isOwner (memManager C) E name S).2.adverts.filter
          (fun o => decide (o.Name = n)) = S.adverts.filter (fun o => decide (o.Name = n)))
      ∧ (∀ o ∈ C.adverts, o.Name ∉ E → isOwner o.OwnerReferences name = true →
          (deleteStaleAdvertisement isOwner (memManager C) E name S).2.adverts.filter
            (fun x => decide (x.Name = o.Name)) = [])
      ∧ (∀ n ∈ E, (deleteStaleAdvertisement isOwner (memManager C) E name S).2.adverts.filter
          (fun o => decide (o.Name = n)) = S.adverts.filter (fun o => decide (o.Name = n)))
      ∧ (deleteStaleAdvertisement isOwner (memManager C) E name S).2.peerConfigs
          = S.peerConfigs := by
  obtain ⟨g1, g2, g3⟩ := foldl_gc_mem
    (fun (S : APIServer) n => S.adverts.filter (fun o => decide (o.Name = n)))
    (fun k s => memAdvertClient.Delete k s) (fun o : CiliumBGPAdvertisement => o.Name)
    (fun o => !decide (o.Name ∈ E) && isOwner o.OwnerReferences name)
    (fun k s n hn => memDelete_filter_other _ k n _ hn)
    (fun k s => memDelete_filter_self _ k _)
    C.adverts ([], S)
  have gR := foldl_gc_frame (fun (S : APIServer) => S.peerConfigs)
    (fun k s => memAdvertClient.Delete k s) (fun o : CiliumBGPAdvertisement => o.Name)
    (fun o => !decide (o.Name ∈ E) && isOwner o.OwnerReferences name)
    (fun k s => rfl) C.adverts ([], S)
  refine ⟨g1, ?_, ?_, gR⟩
  · intro o ho hE hown
    exact g2 o ho (by simp [hE, hown])
  · intro n hn
    exact g3 n (by
      intro o _ hPo hname
      simp only [Bool.and_eq_true, Bool.not_eq_true', decide_eq_false_iff_not] at hPo
      exact hPo.1 (hname ▸ hn))

theorem advertLoop_mem (t : Char → Char) (bgpp : CiliumBGPPeeringPolicy) (C S : APIServer)
    (hS : S.adverts = C.adverts) (hnd : (peerKeys t bgpp).Nodup) :
    (∀ p ∈ neighborPairs bgpp,
        (neighborAdvertisements p.1 p.2 = [] →
          ((neighborPairs bgpp).foldl
            (fun s p => (updateAdvertisement (memManager C) bgpp
              (peerKeyFromBGPP t bgpp.Name p.1.LocalASN p.2.PeerAddress)
              (neighborAdvertisements p.1 p.2) s).2) S).adverts.filter
            (fun o => decide (o.Name = peerKeyFromBGPP t bgpp.Name p.1.LocalASN p.2.PeerAddress))
            = [])
        ∧ (neighborAdvertisements p.1 p.2 ≠ [] → ∃ o rest,
          ((neighborPairs bgpp).foldl
            (fun s p => (updateAdvertisement (memManager C) bgpp
              (peerKeyFromBGPP t bgpp.Name p.1.LocalASN p.2.PeerAddress)
              (neighborAdvertisements p.1 p.2) s).2) S).adverts.filter
            (fun o => decide (o.Name = peerKeyFromBGPP t bgpp.Name p.1.LocalASN p.2.PeerAddress))
            = o :: rest ∧ o.Spec = { Advertisements := neighborAdvertisements p.1 p.2 }))
      ∧ (∀ n, n ∉ peerKeys t bgpp →
          ((neighborPairs bgpp).foldl
            (fun s p => (updateAdvertisement (memManager C) bgpp
              (peerKeyFromBGPP t bgpp.Name p.1.LocalASN p.2.PeerAddress)
              (neighborAdvertisements p.1 p.2) s).2) S).adverts.filter
            (fun o => decide (o.Name = n)) = C.adverts.filter (fun o => decide (o.Name = n)))
      ∧ ((neighborPairs bgpp).foldl
            (fun s p => (updateAdvertisement (memManager C) bgpp
              (peerKeyFromBGPP t bgpp.Name p.1.LocalASN p.2.PeerAddress)
              (neighborAdvertisements p.1 p.2) s).2) S).peerConfigs = S.peerConfigs := by
  obtain ⟨hG, hF, hR⟩ := foldl_upsert_invariant
    (fun (S : APIServer) n => S.adverts.filter (fun o => decide (o.Name = n)))
    (fun (S : APIServer) => S.peerConfigs)
    (fun p : CiliumBGPVirtualRouter × CiliumBGPNeighbor =>
      peerKeyFromBGPP t bgpp.Name p.1.LocalASN p.2.PeerAddress)
    (fun p s => (updateAdvertisement (memManager C) bgpp
      (peerKeyFromBGPP t bgpp.Name p.1.LocalASN p.2.PeerAddress)
      (neighborAdvertisements p.1 p.2) s).2)
    (fun l p => (neighborAdvertisements p.1 p.2 = [] → l = [])
      ∧ (neighborAdvertisements p.1 p.2 ≠ [] → ∃ o rest, l = o :: rest
          ∧ o.Spec = { Advertisements := neighborAdvertisements p.1 p.2 }))
    (fun n => C.adverts.filter (fun o => decide (o.Name = n)))
    (fun x s n hag hn => (updateAdvertisement_mem_step C s bgpp _ _ hag).2.2.1 n hn)
    (fun x s hag => (updateAdvertisement_mem_step C s bgpp _ _ hag).2.2.2)
    (fun x s hag => (updateAdvertisement_mem_step C s bgpp _ _ hag).1)
    (neighborPairs bgpp) S (fun x _ => by simp only [hS]) hnd
  refine ⟨hG, ?_, hR⟩
  intro n hn
  have := hF n hn
  simp only [hS] at this
  exact this

theorem advertPhase_mem (t : Char → Char) (isOwner : List OwnerReference → String → Bool)
    (bgpp : CiliumBGPPeeringPolicy) (C S : APIServer) (hS : S.adverts = C.adverts)
    (hnd : (peerKeys t bgpp).Nodup) :
    (∀ p ∈ neighborPairs bgpp,
        (neighborAdvertisements p.1 p.2 = [] →
          (reconcileBGPPAdvertisement t isOwner (memManager C) bgpp S).2.adverts.filter
            (fun o => decide (o.Name = peerKeyFromBGPP t bgpp.Name p.1.LocalASN p.2.PeerAddress))
            = [])
        ∧ (neighborAdvertisements p.1 p.2 ≠ [] → ∃ o rest,
          (reconcileBGPPAdvertisement t isOwner (memManager C) bgpp S).2.adverts.filter
            (fun o => decide (o.Name = peerKeyFromBGPP t bgpp.Name p.1.LocalASN p.2.PeerAddress))
            = o :: rest ∧ o.Spec = { Advertisements := neighborAdvertisements p.1 p.2 }))
      ∧ (∀ o ∈ (reconcileBGPPAdvertisement t isOwner (memManager C) bgpp S).2.adverts,
          o.Name ∉ peerKeys t bgpp → isOwner o.OwnerReferences bgpp.Name = false)
      ∧ (reconcileBGPPAdvertisement t isOwner (memManager C) bgpp S).2.peerConfigs
          = S.peerConfigs := by
  rw [advertPhase_state]
  obtain ⟨hG, hF, hR⟩ := advertLoop_mem t bgpp C S hS hnd
  generalize (neighborPairs bgpp).foldl
      (fun s p => (updateAdvertisement (memManager C) bgpp
        (peerKeyFromBGPP t bgpp.Name p.1.LocalASN p.2.PeerAddress)
        (neighborAdvertisements p.1 p.2) s).2) S = Sl at hG hF hR ⊢
  obtain ⟨g1, g2, g3, gR⟩ := deleteStaleAdvertisement_mem isOwner C
    (peerKeys t bgpp).reverse bgpp.Name Sl
  generalize (deleteStaleAdvertisement isOwner (memManager C) (peerKeys t bgpp).reverse
    bgpp.Name Sl).2 = Sf at g1 g2 g3 gR ⊢
  refine ⟨?_, ?_, gR.trans hR⟩
  · intro p hp
    have hkey : peerKeyFromBGPP t bgpp.Name p.1.LocalASN p.2.PeerAddress
        ∈ (peerKeys t bgpp).reverse :=
      List.mem_reverse.mpr (List.mem_map_of_mem _ hp)
    rw [g3 _ hkey]
    exact hG p hp
  · intro o ho hname
    by_contra hown
    have hown' : isOwner o.OwnerReferences bgpp.Name = true := by simpa using hown
    have hmem : o ∈ Sf.adverts.filter (fun x => decide (x.Name = o.Name)) :=
      List.mem_filter.mpr ⟨ho, by simp⟩
    rcases g1 o.Name with h | h
    · rw [h] at hmem
      simp at hmem
    · have hoC : o ∈ C.adverts := by
        rw [h, hF o.Name hname] at hmem
        exact (List.mem_filter.mp hmem).1
      rw [g2 o hoC (fun hm => hname (List.mem_reverse.mp hm)) hown'] at hmem
      simp at hmem

theorem deleteStalePeerConfig_mem (isOwner : List OwnerReference → String → Bool)
    (C : APIServer) (E : List String) (name : String) (S : APIServer) :
    (∀ n, (deleteStalePeerConfig isOwner (memManager C) E name S).2.peerConfigs.filter
          (fun o => decide (o.Name = n)) = []
        ∨ (deleteStalePeerConfig isOwner (memManager C) E name S).2.peerConfigs.filter
          (fun o => decide (o.Name = n)) = S.peerConfigs.filter (fun o => decide (o.Name = n)))
      ∧ (∀ o ∈ C.peerConfigs, o.Name ∉ E → isOwner o.OwnerReferences name = true →
          (deleteStalePeerConfig isOwner (memManager C) E name S).2.peerConfigs.filter
            (fun x => decide (x.Name = o.Name)) = [])
      ∧ (∀ n ∈ E, (deleteStalePeerConfig isOwner (memManager C) E name S).2.peerConfigs.filter
          (fun o => decide (o.Name = n)) = S.peerConfigs.filter (fun o => decide (o.Name = n)))
      ∧ (deleteStalePeerConfig isOwner (memManager C) E name S).2.adverts
          = S.adverts := by
  obtain ⟨g1, g2, g3⟩ := foldl_gc_mem
    (fun (S : APIServer) n => S.peerConfigs.filter (fun o => decide (o.Name = n)))
    (fun k s => memPeerConfigClient.Delete k s) (fun o : CiliumBGPPeerConfig => o.Name)
    (fun o => !decide (o.Name ∈ E) && isOwner o.OwnerReferences name)
    (fun k s n hn => memDelete_filter_other _ k n _ hn)
    (fun k s => memDelete_filter_self _ k _)
    C.peerConfigs ([], S)
  have gR := foldl_gc_frame (fun (S : APIServer) => S.adverts)
    (fun k s => memPeerConfigClient.Delete k s) (fun o : CiliumBGPPeerConfig => o.Name)
    (fun o => !decide (o.Name ∈ E) && isOwner o.OwnerReferences name)
    (fun k s => rfl) C.peerConfigs ([], S)
  refine ⟨g1, ?_, ?_, gR⟩
  · intro o ho hE hown
    exact g2 o ho (by simp [hE, hown])
  · intro n hn
    exact g3 n (by
      intro o _ hPo hname
      simp only [Bool.and_eq_true, Bool.not_eq_true', decide_eq_false_iff_not] at hPo
      exact hPo.1 (hname ▸ hn))


theorem peerConfigLoop_mem (t : Char → Char) (bgpp : CiliumBGPPeeringPolicy) (C S : APIServer)
    (hS : S.peerConfigs = C.peerConfigs) (hnd : (peerKeys t bgpp).Nodup) :
    (∀ p ∈ neighborPairs bgpp, ∃ o rest,
          ((neighborPairs bgpp).foldl
            (fun s p => (updatePeerConfig (memManager C) bgpp
              (peerKeyFromBGPP t bgpp.Name p.1.LocalASN p.2.PeerAddress)
              (neighborPeerSpec t bgpp p.1 p.2) s).2) S).peerConfigs.filter
            (fun o => decide (o.Name = peerKeyFromBGPP t bgpp.Name p.1.LocalASN p.2.PeerAddress))
            = o :: rest ∧ o.Spec = neighborPeerSpec t bgpp p.1 p.2)
      ∧ (∀ n, n ∉ peerKeys t bgpp →
          ((neighborPairs bgpp).foldl
            (fun s p => (updatePeerConfig (memManager C) bgpp
              (peerKeyFromBGPP t bgpp.Name p.1.LocalASN p.2.PeerAddress)
              (neighborPeerSpec t bgpp p.1 p.2) s).2) S).peerConfigs.filter
            (fun o => decide (o.Name = n)) = C.peerConfigs.filter (fun o => decide (o.Name = n)))
      ∧ ((neighborPairs bgpp).foldl
            (fun s p => (updatePeerConfig (memManager C) bgpp
              (peerKeyFromBGPP t bgpp.Name p.1.LocalASN p.2.PeerAddress)
              (neighborPeerSpec t bgpp p.1 p.2) s).2) S).adverts = S.adverts := by
  obtain ⟨hG, hF, hR⟩ := foldl_upsert_invariant
    (fun (S : APIServer) n => S.peerConfigs.filter (fun o => decide (o.Name = n)))
    (fun (S : APIServer) => S.adverts)
    (fun p : CiliumBGPVirtualRouter × CiliumBGPNeighbor =>
      peerKeyFromBGPP t bgpp.Name p.1.LocalASN p.2.PeerAddress)
    (fun p s => (updatePeerConfig (memManager C) bgpp
      (peerKeyFromBGPP t bgpp.Name p.1.LocalASN p.2.PeerAddress)
      (neighborPeerSpec t bgpp p.1 p.2) s).2)
    (fun l p => ∃ o rest, l = o :: rest ∧ o.Spec = neighborPeerSpec t bgpp p.1 p.2)
    (fun n => C.peerConfigs.filter (fun o => decide (o.Name = n)))
    (fun x s n hag hn => (updatePeerConfig_mem_step C s bgpp _ _ hag).2.2.1 n hn)
    (fun x s hag => (updatePeerConfig_mem_step C s bgpp _ _ hag).2.2.2)
    (fun x s hag => (updatePeerConfig_mem_step C s bgpp _ _ hag).1)
    (neighborPairs bgpp) S (fun x _ => by simp only [hS]) hnd
  refine ⟨hG, ?_, hR⟩
  intro n hn
  have := hF n hn
  simp only [hS] at this
  exact this

theorem peerConfigPhase_mem (t : Char → Char) (isOwner : List OwnerReference → String → Bool)
    (bgpp : CiliumBGPPeeringPolicy) (C S : APIServer) (hS : S.peerConfigs = C.peerConfigs)
    (hnd : (peerKeys t bgpp).Nodup) :
    (∀ p ∈ neighborPairs bgpp, ∃ o rest,
          (reconcileBGPPPeerConfig t isOwner (memManager C) bgpp S).2.peerConfigs.filter
            (fun o => decide (o.Name = peerKeyFromBGPP t bgpp.Name p.1.LocalASN p.2.PeerAddress))
            = o :: rest ∧ o.Spec = neighborPeerSpec t bgpp p.1 p.2)
      ∧ (∀ o ∈ (reconcileBGPPPeerConfig t isOwner (memManager C) bgpp S).2.peerConfigs,
          o.Name ∉ peerKeys t bgpp → isOwner o.OwnerReferences bgpp.Name = false)
      ∧ (reconcileBGPPPeerConfig t isOwner (memManager C) bgpp S).2.adverts = S.adverts := by
  rw [peerConfigPhase_state]
  obtain ⟨hG, hF, hR⟩ := peerConfigLoop_mem t bgpp C S hS hnd
  generalize (neighborPairs bgpp).foldl
      (fun s p => (updatePeerConfig (memManager C) bgpp
        (peerKeyFromBGPP t bgpp.Name p.1.LocalASN p.2.PeerAddress)
        (neighborPeerSpec t bgpp p.1 p.2) s).2) S = Sl at hG hF hR ⊢
  obtain ⟨g1, g2, g3, gR⟩ := deleteStalePeerConfig_mem isOwner C
    (peerKeys t bgpp).reverse bgpp.Name Sl
  generalize (deleteStalePeerConfig isOwner (memManager C) (peerKeys t bgpp).reverse
    bgpp.Name Sl).2 = Sf at g1 g2 g3 gR ⊢
  refine ⟨?_, ?_, gR.trans hR⟩
  · intro p hp
    have hkey : peerKeyFromBGPP t bgpp.Name p.1.LocalASN p.2.PeerAddress
        ∈ (peerKeys t bgpp).reverse :=
      List.mem_reverse.mpr (List.mem_map_of_mem _ hp)
    rw [g3 _ hkey]
    exact hG p hp
  · intro o ho hname
    by_contra hown
    have hown' : isOwner o.OwnerReferences bgpp.Name = true := by simpa using hown
    have hmem : o ∈ Sf.peerConfigs.filter (fun x => decide (x.Name = o.Name)) :=
      List.mem_filter.mpr ⟨ho, by simp⟩
    rcases g1 o.Name with h | h
    · rw [h] at hmem
      simp at hmem
    · have hoC : o ∈ C.peerConfigs := by
        rw [h, hF o.Name hname] at hmem
        exact (List.mem_filter.mp hmem).1
      rw [g2 o hoC (fun hm => hname (List.mem_reverse.mp hm)) hown'] at hmem
      simp at hmem

/-! ## The second pass -/

theorem updateAdvertisement_settled {σ : Type} (b : BGPResourceManager σ)
    (bgpp : CiliumBGPPeeringPolicy) (k : String) (e : List Advertisement) (s : σ)
    (l : List CiliumBGPAdvertisement)
    (hget : b.advertStore.GetByKey k = Except.ok (l.find? (fun o => decide (o.Name = k))))
    (h0 : e = [] → l.filter (fun o => decide (o.Name = k)) = [])
    (h1 : e ≠ [] → ∃ o rest, l.filter (fun o => decide (o.Name = k)) = o :: rest
      ∧ o.Spec = { Advertisements := e }) :
    updateAdvertisement b bgpp k e s = ([], s) := by
  by_cases he : e = []
  · have hf := find_of_filter_nil _ _ (h0 he)
    subst he
    simp [updateAdvertisement, hget, hf]
  · obtain ⟨o, rest, hfl, hspec⟩ := h1 he
    have hf := find_of_filter_cons _ o rest _ hfl
    have hlen : ¬ e.length = 0 := fun h => he (List.length_eq_zero.mp h)
    simp [updateAdvertisement, hget, hf, hlen, hspec]

theorem updatePeerConfig_settled {σ : Type} (b : BGPResourceManager σ)
    (bgpp : CiliumBGPPeeringPolicy) (k : String) (spec : CiliumBGPPeerConfigSpec) (s : σ)
    (l : List CiliumBGPPeerConfig)
    (hget : b.peerConfigStore.GetByKey k = Except.ok (l.find? (fun o => decide (o.Name = k))))
    (h1 : ∃ o rest, l.filter (fun o => decide (o.Name = k)) = o :: rest ∧ o.Spec = spec) :
    updatePeerConfig b bgpp k spec s = ([], s) := by
  obtain ⟨o, rest, hfl, hspec⟩ := h1
  have hf := find_of_filter_cons _ o rest _ hfl
  simp [updatePeerConfig, hget, hf, hspec]



theorem advertPhase_settled {σ : Type} (t : Char → Char)
    (isOwner : List OwnerReference → String → Bool) (b : BGPResourceManager σ)
    (bgpp : CiliumBGPPeeringPolicy) (s : σ) (l : List CiliumBGPAdvertisement)
    (hstore : b.advertStore = snapshot (fun o => o.Name) l)
    (hG : ∀ p ∈ neighborPairs bgpp,
      (neighborAdvertisements p.1 p.2 = [] →
        l.filter (fun o => decide
          (o.Name = peerKeyFromBGPP t bgpp.Name p.1.LocalASN p.2.PeerAddress)) = [])
      ∧ (neighborAdvertisements p.1 p.2 ≠ [] → ∃ o rest,
        l.filter (fun o => decide
          (o.Name = peerKeyFromBGPP t bgpp.Name p.1.LocalASN p.2.PeerAddress)) = o :: rest
        ∧ o.Spec = { Advertisements := neighborAdvertisements p.1 p.2 }))
    (hown : ∀ o ∈ l, o.Name ∉ peerKeys t bgpp → isOwner o.OwnerReferences bgpp.Name = false) :
    reconcileBGPPAdvertisement t isOwner b bgpp s = ([], s) := by
  have hget : ∀ k, b.advertStore.GetByKey k
      = Except.ok (l.find? (fun o => decide (o.Name = k))) := by
    intro k; rw [hstore]; rfl
  have hlist : b.advertStore.List = l := by rw [hstore]; rfl
  have hloop := foldl_upsert_noop
    (fun p : CiliumBGPVirtualRouter × CiliumBGPNeighbor =>
      peerKeyFromBGPP t bgpp.Name p.1.LocalASN p.2.PeerAddress)
    (fun p s => updateAdvertisement b bgpp
      (peerKeyFromBGPP t bgpp.Name p.1.LocalASN p.2.PeerAddress)
      (neighborAdvertisements p.1 p.2) s)
    s (neighborPairs bgpp)
    (fun p hp => updateAdvertisement_settled b bgpp _ _ s l (hget _) (hG p hp).1 (hG p hp).2)
    [] []
  have hgc : deleteStaleAdvertisement isOwner b (peerKeys t bgpp).reverse bgpp.Name s
      = ([], s) := by
    have := foldl_gc_noop (fun k s => b.advertClient.Delete k s)
      (fun o : CiliumBGPAdvertisement => o.Name)
      (fun o => !decide (o.Name ∈ (peerKeys t bgpp).reverse)
        && isOwner o.OwnerReferences bgpp.Name) l
      (by
        intro o ho
        by_cases hm : o.Name ∈ peerKeys t bgpp
        · simp [hm]
        · simp [hown o ho hm])
      ([], s)
    rw [← hlist] at this
    exact this
  simp only [List.append_nil] at hloop
  simp only [reconcileBGPPAdvertisement, advertLoop_eq, hloop]
  simp only [peerKeys] at hgc
  simp [hgc]

theorem peerConfigPhase_settled {σ : Type} (t : Char → Char)
    (isOwner : List OwnerReference → String → Bool) (b : BGPResourceManager σ)
    (bgpp : CiliumBGPPeeringPolicy) (s : σ) (l : List CiliumBGPPeerConfig)
    (hstore : b.peerConfigStore = snapshot (fun o => o.Name) l)
    (hG : ∀ p ∈ neighborPairs bgpp, ∃ o rest,
        l.filter (fun o => decide
          (o.Name = peerKeyFromBGPP t bgpp.Name p.1.LocalASN p.2.PeerAddress)) = o :: rest
        ∧ o.Spec = neighborPeerSpec t bgpp p.1 p.2)
    (hown : ∀ o ∈ l, o.Name ∉ peerKeys t bgpp → isOwner o.OwnerReferences bgpp.Name = false) :
    reconcileBGPPPeerConfig t isOwner b bgpp s = ([], s) := by
  have hget : ∀ k, b.peerConfigStore.GetByKey k
      = Except.ok (l.find? (fun o => decide (o.Name = k))) := by
    intro k; rw [hstore]; rfl
  have hlist : b.peerConfigStore.List = l := by rw [hstore]; rfl
  have hloop := foldl_upsert_noop
    (fun p : CiliumBGPVirtualRouter × CiliumBGPNeighbor =>
      peerKeyFromBGPP t bgpp.Name p.1.LocalASN p.2.PeerAddress)
    (fun p s => updatePeerConfig b bgpp
      (peerKeyFromBGPP t bgpp.Name p.1.LocalASN p.2.PeerAddress)
      (neighborPeerSpec t bgpp p.1 p.2) s)
    s (neighborPairs bgpp)
    (fun p hp => updatePeerConfig_settled b bgpp _ _ s l (hget _) (hG p hp))
    [] []
  have hgc : deleteStalePeerConfig isOwner b (peerKeys t bgpp).reverse bgpp.Name s
      = ([], s) := by
    have := foldl_gc_noop (fun k s => b.peerConfigClient.Delete k s)
      (fun o : CiliumBGPPeerConfig => o.Name)
      (fun o => !decide (o.Name ∈ (peerKeys t bgpp).reverse)
        && isOwner o.OwnerReferences bgpp.Name) l
      (by
        intro o ho
        by_cases hm : o.Name ∈ peerKeys t bgpp
        · simp [hm]
        · simp [hown o ho hm])
      ([], s)
    rw [← hlist] at this
    exact this
  simp only [List.append_nil] at hloop
  simp only [reconcileBGPPPeerConfig, peerConfigLoop_eq, hloop]
  simp only [peerKeys] at hgc
  simp [hgc]

/-- C6, amended: on a store that keeps exactly what is written to it, for
every policy whose derived peer keys are pairwise distinct, if the cache read
by the first pass equals the store contents at its start and the cache read by
the second pass equals the store contents left by the first pass, then
reconciling the same policy a second time issues no store call for
Advertisements or PeerConfigs (no `Create`, no `Update`, no `Delete`, no
`Get`), returns no error and leaves the store as it was. -/
theorem C6_idempotent_on_distinct_keys (caseTable : Char → Char)
    (isOwner : List OwnerReference → String → Bool) (bgpp : CiliumBGPPeeringPolicy)
    (S₀ : APIServer) (hnd : (peerKeys caseTable bgpp).Nodup) :
    reconcileDerived caseTable isOwner
        (memManager (reconcileDerived caseTable isOwner (memManager S₀) bgpp S₀).2).recording
        bgpp ((reconcileDerived caseTable isOwner (memManager S₀) bgpp S₀).2, [])
      = ([], ((reconcileDerived caseTable isOwner (memManager S₀) bgpp S₀).2, [])) := by
  obtain ⟨a1, a2, a3⟩ := advertPhase_mem caseTable isOwner bgpp S₀ S₀ rfl hnd
  obtain ⟨p1, p2, p3⟩ := peerConfigPhase_mem caseTable isOwner bgpp S₀
    (reconcileBGPPAdvertisement caseTable isOwner (memManager S₀) bgpp S₀).2 a3 hnd
  have hS1 : (reconcileDerived caseTable isOwner (memManager S₀) bgpp S₀).2
      = (reconcileBGPPPeerConfig caseTable isOwner (memManager S₀) bgpp
          (reconcileBGPPAdvertisement caseTable isOwner (memManager S₀) bgpp S₀).2).2 := rfl
  rw [hS1]
  generalize (reconcileBGPPPeerConfig caseTable isOwner (memManager S₀) bgpp
    (reconcileBGPPAdvertisement caseTable isOwner (memManager S₀) bgpp S₀).2).2 = S₁
    at p1 p2 p3 ⊢
  rw [← p3] at a1 a2
  have hA := advertPhase_settled caseTable isOwner (memManager S₁).recording bgpp
    (S₁, ([] : List (StoreCall × GoError))) S₁.adverts rfl a1 a2
  have hP := peerConfigPhase_settled caseTable isOwner (memManager S₁).recording bgpp
    (S₁, ([] : List (StoreCall × GoError))) S₁.peerConfigs rfl p1 p2
  simp [reconcileDerived, hA, hP]


/-- Witness of the amended C6 at `examplePolicy` on a store that holds objects
of another party under its peer key: the first pass updates both, the second
pass is silent. -/
theorem C6_idempotent_on_distinct_keys_witness :
    (peerKeys id examplePolicy).Nodup
      ∧ calls (reconcileDerived id IsOwner (memManager exampleForeignStore).recording
          examplePolicy (exampleForeignStore, [])).2.2
        = [StoreCall.advert (Call.Update
            { toObjectMeta := foreignMeta "rack-100-10.0.0.5-32",
              Spec := { Advertisements := [exampleEntry] } }),
           StoreCall.peerConfig (Call.Update
            { toObjectMeta := foreignMeta "rack-100-10.0.0.5-32",
              Spec := neighborPeerSpec id examplePolicy exampleRouter exampleNeighbor })]
      ∧ reconcileDerived id IsOwner
          (memManager (reconcileDerived id IsOwner (memManager exampleForeignStore)
            examplePolicy exampleForeignStore).2).recording
          examplePolicy
          ((reconcileDerived id IsOwner (memManager exampleForeignStore) examplePolicy
            exampleForeignStore).2, [])
        = ([], ((reconcileDerived id IsOwner (memManager exampleForeignStore) examplePolicy
            exampleForeignStore).2, [])) :=
  ⟨by decide, rfl,
    C6_idempotent_on_distinct_keys id IsOwner examplePolicy exampleForeignStore (by decide)⟩

/-- C6, refuted as stated, in two ways. First, `twinPolicy` derives one peer
key twice, with the entry list `[exampleEntry]` and with the empty entry list:
on `twinStore`, read through a cache that equals it, the first pass issues one
`Delete` of the Advertisement of that key, which succeeds, and the second
pass, reading the store the first pass left, issues a `Create` of that
Advertisement; no helper assigns a spec to a cached object in either pass.
Second, `examplePolicy` on a store that holds a stale Advertisement of the
policy which the first cache does not list: every call of the first pass
succeeds, and the second pass, reading the store the first pass left, issues a
`Delete`. -/
theorem C6_counterexample :
    ((reconcileDerived id IsOwner (memManager twinStore).recording twinPolicy
          (twinStore, [])).2.2
          = [(StoreCall.advert (Call.Delete "rack-100-10.0.0.5-32"), [])]
        ∧ calls (reconcileDerived id IsOwner
            (memManager (reconcileDerived id IsOwner (memManager twinStore) twinPolicy
              twinStore).2).recording
            twinPolicy
            ((reconcileDerived id IsOwner (memManager twinStore) twinPolicy twinStore).2,
              [])).2.2
          = [StoreCall.advert (Call.Create
              (newAdvertisement twinPolicy "rack-100-10.0.0.5-32" [exampleEntry]))])
      ∧ ((∀ e ∈ (reconcileDerived id IsOwner (memManager emptyStore).recording examplePolicy
          (staleStore, [])).2.2, e.2 = [])
        ∧ calls (reconcileDerived id IsOwner
            (memManager (reconcileDerived id IsOwner (memManager emptyStore) examplePolicy
              staleStore).2).recording
            examplePolicy
            ((reconcileDerived id IsOwner (memManager emptyStore) examplePolicy staleStore).2,
              [])).2.2
          = [StoreCall.advert (Call.Delete "rack-100-10.0.0.9-32")]) := by
  refine ⟨⟨rfl, rfl⟩, ⟨by decide, rfl⟩⟩

theorem getAttributes_eq_none_iff (neigh : CiliumBGPNeighbor) (c : String) :
    getAttributes neigh c = none
      ↔ ∀ attr ∈ neigh.AdvertisedPathAttributes, attr.SelectorType ≠ c := by
  unfold getAttributes
  cases h : neigh.AdvertisedPathAttributes.find? (fun attr => decide (attr.SelectorType = c)) with
  | none =>
    simp only [true_iff]
    intro attr hattr
    have := List.find?_eq_none.mp h attr hattr
    simpa using this
  | some a =>
    have hm := List.mem_of_find?_eq_some h
    have hp : a.SelectorType = c := by simpa using List.find?_some h
    constructor
    · intro hn; cases hn
    · intro hall; exact absurd hp (hall a hm)

theorem find_first_match {α : Type} (p : α → Bool) (pre post : List α) (a : α)
    (hpre : ∀ x ∈ pre, p x = false) (ha : p a = true) :
    (pre ++ a :: post).find? p = some a := by
  induction pre with
  | nil => simp [List.find?_cons, ha]
  | cons x xs ih =>
    have hx := hpre x (by simp)
    simp only [List.cons_append, List.find?_cons, hx]
    exact ih (fun y hy => hpre y (by simp [hy]))

theorem exists_first_match {α : Type} (p : α → Bool) :
    ∀ l : List α, (∃ x ∈ l, p x = true) →
      ∃ pre a post, l = pre ++ a :: post ∧ (∀ x ∈ pre, p x = false) ∧ p a = true := by
  intro l
  induction l with
  | nil => rintro ⟨x, hx, _⟩; simp at hx
  | cons y ys ih =>
    rintro ⟨x, hx, hpx⟩
    by_cases hy : p y = true
    · exact ⟨[], y, ys, rfl, by simp, hy⟩
    · have hx' : x ∈ ys := by
        rcases List.mem_cons.mp hx with rfl | h
        · exact absurd hpx hy
        · exact h
      obtain ⟨pre, a, post, hl, hpre, ha⟩ := ih ⟨x, hx', hpx⟩
      refine ⟨y :: pre, a, post, by simp [hl], ?_, ha⟩
      intro z hz
      rcases List.mem_cons.mp hz with rfl | h
      · simpa using hy
      · exact hpre z h

/-- C16: `getAttributes` returns absent iff no entry of the neighbor's list has
the requested category; otherwise it returns the communities and local
preference of the first entry of that category in list order, whatever later
entries of the category hold. -/
theorem C16_getAttributes_first_match (neigh : CiliumBGPNeighbor) (c : String) :
    (getAttributes neigh c = none
        ↔ ∀ attr ∈ neigh.AdvertisedPathAttributes, attr.SelectorType ≠ c)
      ∧ (∀ pre a post, neigh.AdvertisedPathAttributes = pre ++ a :: post →
          (∀ x ∈ pre, x.SelectorType ≠ c) → a.SelectorType = c →
          getAttributes neigh c
            = some { Community := a.Communities, LocalPreference := a.LocalPreference })
      ∧ ((∃ attr ∈ neigh.AdvertisedPathAttributes, attr.SelectorType = c) →
          ∃ pre a post, neigh.AdvertisedPathAttributes = pre ++ a :: post
            ∧ (∀ x ∈ pre, x.SelectorType ≠ c) ∧ a.SelectorType = c
            ∧ getAttributes neigh c
              = some { Community := a.Communities, LocalPreference := a.LocalPreference }) := by
  have h2 : ∀ pre a post, neigh.AdvertisedPathAttributes = pre ++ a :: post →
      (∀ x ∈ pre, x.SelectorType ≠ c) → a.SelectorType = c →
      getAttributes neigh c
        = some { Community := a.Communities, LocalPreference := a.LocalPreference } := by
    intro pre a post hl hpre ha
    have := find_first_match (fun attr : CiliumBGPPathAttributes => decide (attr.SelectorType = c))
      pre post a (fun x hx => by simpa using hpre x hx) (by simpa using ha)
    simp only [getAttributes, hl, this]
  refine ⟨getAttributes_eq_none_iff neigh c, h2, ?_⟩
  rintro ⟨attr, hattr, hc⟩
  obtain ⟨pre, a, post, hl, hpre, ha⟩ := exists_first_match
    (fun attr : CiliumBGPPathAttributes => decide (attr.SelectorType = c))
    neigh.AdvertisedPathAttributes ⟨attr, hattr, by simpa using hc⟩
  have hpre' : ∀ x ∈ pre, x.SelectorType ≠ c := fun x hx => by simpa using hpre x hx
  have ha' : a.SelectorType = c := by simpa using ha
  exact ⟨pre, a, post, hl, hpre', ha', h2 pre a post hl hpre' ha'⟩

/-! ## Resolvers -/

/-- C17: the entry list built for a neighbor is the sub-list of self-subnet,
service and address-pool entries, in that order, with the self-subnet entry
present iff ExportPodCIDR is set, the service entry iff the service selector
is present and the pool entry iff the pod-IP-pool selector is present; the
self-subnet entry has no selector, the other two carry the router's selector,
and the attributes of each entry are those that `getAttributes` selects for
its category, absent when the neighbor has no entry of the category. It is
the list that the loop of `reconcileBGPPAdvertisement` hands to
`updateAdvertisement`. -/
theorem C17_advertisement_entry_list {σ : Type} (caseTable : Char → Char)
    (b : BGPResourceManager σ) (bgpp : CiliumBGPPeeringPolicy) (vr : CiliumBGPVirtualRouter)
    (neigh : CiliumBGPNeighbor) (acc : GoError × List String × σ) :
    neighborAdvertisements vr neigh = advertisementEntriesSpec vr neigh
      ∧ (reconcileBGPPAdvertisementBody caseTable b bgpp vr acc neigh).2.2
        = (updateAdvertisement b bgpp
            (peerKeyFromBGPP caseTable bgpp.Name vr.LocalASN neigh.PeerAddress)
            (advertisementEntriesSpec vr neigh) acc.2.2).2
      ∧ (∀ c, (∀ attr ∈ neigh.AdvertisedPathAttributes, attr.SelectorType ≠ c) →
          getAttributes neigh c = none) := by
  have h1 : neighborAdvertisements vr neigh = advertisementEntriesSpec vr neigh := by
    unfold neighborAdvertisements advertisementEntriesSpec
    cases vr.ExportPodCIDR <;> cases vr.ServiceSelector <;> cases vr.PodIPPoolSelector <;> rfl
  refine ⟨h1, ?_, fun c hc => (getAttributes_eq_none_iff neigh c).mpr hc⟩
  simp only [reconcileBGPPAdvertisementBody, h1]
  split <;> rfl

theorem neighborPeerSpec_families_aux (k : String) (fams : List CiliumBGPFamily) :
    ∀ spec : CiliumBGPPeerConfigSpec,
      fams.foldl
        (fun (peerSpec : CiliumBGPPeerConfigSpec) fam =>
          { peerSpec with
            Families := peerSpec.Families ++
              [{ toCiliumBGPFamily := fam
                 Advertisements := some
                   { MatchLabels := [(bgpPPAdvertisementLabel, k)]
                     MatchExpressions := [] } }] })
        spec
      = { spec with
          Families := spec.Families ++ fams.map (fun fam =>
            { toCiliumBGPFamily := fam
              Advertisements := some
                { MatchLabels := [(bgpPPAdvertisementLabel, k)]
                  MatchExpressions := [] } }) } := by
  induction fams with
  | nil => intro spec; simp
  | cons f fs ih =>
    intro spec
    rw [List.foldl_cons, ih]
    simp

theorem neighborPeerSpec_eq (caseTable : Char → Char) (bgpp : CiliumBGPPeeringPolicy)
    (vr : CiliumBGPVirtualRouter) (neigh : CiliumBGPNeighbor) :
    neighborPeerSpec caseTable bgpp vr neigh
      = { Transport := some { PeerPort := some neigh.PeerPort }
          Timers := some { ConnectRetryTimeSeconds := some neigh.ConnectRetryTimeSeconds
                           HoldTimeSeconds := some neigh.HoldTimeSeconds
                           KeepAliveTimeSeconds := some neigh.KeepAliveTimeSeconds }
          GracefulRestart := neigh.GracefulRestart
          AuthSecretRef := neigh.AuthSecretRef
          EBGPMultihop := some neigh.EBGPMultihopTTL
          Families := neigh.Families.map (fun fam =>
            { toCiliumBGPFamily := fam
              Advertisements := some
                { MatchLabels := [(bgpPPAdvertisementLabel,
                    peerKeyFromBGPP caseTable bgpp.Name vr.LocalASN neigh.PeerAddress)]
                  MatchExpressions := [] } }) } := by
  unfold neighborPeerSpec
  simp only []
  rw [neighborPeerSpec_families_aux]
  simp

/-- C19: the PeerConfig spec built for a neighbor has the neighbor's peer
port, connect-retry, hold and keepalive times and multihop TTL, the neighbor's
graceful-restart setting and auth-secret reference, and one family entry for
each address family of the neighbor, in the same order and with the same
family value. It is the spec that the loop of `reconcileBGPPPeerConfig` hands
to `updatePeerConfig`. -/
theorem C19_peer_config_spec {σ : Type} (caseTable : Char → Char)
    (b : BGPResourceManager σ) (bgpp : CiliumBGPPeeringPolicy) (vr : CiliumBGPVirtualRouter)
    (neigh : CiliumBGPNeighbor) (acc : GoError × List String × σ) :
    (neighborPeerSpec caseTable bgpp vr neigh).Transport = some { PeerPort := some neigh.PeerPort }
      ∧ (neighborPeerSpec caseTable bgpp vr neigh).Timers
        = some { ConnectRetryTimeSeconds := some neigh.ConnectRetryTimeSeconds
                 HoldTimeSeconds := some neigh.HoldTimeSeconds
                 KeepAliveTimeSeconds := some neigh.KeepAliveTimeSeconds }
      ∧ (neighborPeerSpec caseTable bgpp vr neigh).EBGPMultihop = some neigh.EBGPMultihopTTL
      ∧ (neighborPeerSpec caseTable bgpp vr neigh).GracefulRestart = neigh.GracefulRestart
      ∧ (neighborPeerSpec caseTable bgpp vr neigh).AuthSecretRef = neigh.AuthSecretRef
      ∧ (neighborPeerSpec caseTable bgpp vr neigh).Families.map (fun f => f.toCiliumBGPFamily)
        = neigh.Families
      ∧ (neighborPeerSpec caseTable bgpp vr neigh).Families.length = neigh.Families.length
      ∧ (reconcileBGPPPeerConfigBody caseTable b bgpp vr acc neigh).2.2
        = (updatePeerConfig b bgpp
            (peerKeyFromBGPP caseTable bgpp.Name vr.LocalASN neigh.PeerAddress)
            (neighborPeerSpec caseTable bgpp vr neigh) acc.2.2).2 := by
  rw [neighborPeerSpec_eq]
  refine ⟨rfl, rfl, rfl, rfl, rfl, ?_, ?_, ?_⟩
  · simp only [List.map_map]
    exact List.map_id'' (fun _ => rfl) _
  · simp
  · simp only [reconcileBGPPPeerConfigBody, neighborPeerSpec_eq]
    split <;> rfl

theorem nodePeers_foldl (caseTable : Char → Char)
    (parsePrefix : String → Except GoError String) (policyName : String) (localASN : Int)
    (neighbors : List CiliumBGPNeighbor) :
    ∀ inst : CiliumBGPNodeInstance,
      neighbors.foldl
        (fun (inst : CiliumBGPNodeInstance) neigh =>
          match prefixToAddr parsePrefix neigh.PeerAddress with
          | Except.error _ => inst
          | Except.ok peerAddr =>
            let peer : CiliumBGPNodePeer :=
              { Name := peerKeyFromBGPP caseTable policyName localASN neigh.PeerAddress
                PeerAddress := some peerAddr
                PeerASN := some neigh.PeerASN
                PeerConfigRef := some
                  (peerConfigRefFromBGPP caseTable policyName localASN neigh.PeerAddress) }
            { inst with Peers := inst.Peers ++ [peer] })
        inst
      = { inst with
          Peers := inst.Peers
            ++ nodePeersSpec caseTable parsePrefix policyName localASN neighbors } := by
  induction neighbors with
  | nil => intro inst; simp [nodePeersSpec]
  | cons n ns ih =>
    intro inst
    rw [List.foldl_cons, ih]
    cases h : prefixToAddr parsePrefix n.PeerAddress with
    | error e => simp [nodePeersSpec, List.filterMap_cons, h]
    | ok a => simp [nodePeersSpec, List.filterMap_cons, h, peerConfigRefFromBGPP]

theorem nodeInstances_foldl (caseTable : Char → Char)
    (parsePrefix : String → Except GoError String) (bgpp : CiliumBGPPeeringPolicy)
    (vrs : List CiliumBGPVirtualRouter) :
    ∀ res : List CiliumBGPNodeInstance,
      vrs.foldl
        (fun (res : List CiliumBGPNodeInstance) vr =>
          let inst : CiliumBGPNodeInstance :=
            { Name := instanceKeyFromBGPP bgpp.Name vr.LocalASN
              LocalASN := some vr.LocalASN
              Peers := [] }
          let inst := vr.Neighbors.foldl
            (fun (inst : CiliumBGPNodeInstance) neigh =>
              match prefixToAddr parsePrefix neigh.PeerAddress with
              | Except.error _ => inst
              | Except.ok peerAddr =>
                let peer : CiliumBGPNodePeer :=
                  { Name := peerKeyFromBGPP caseTable bgpp.Name vr.LocalASN neigh.PeerAddress
                    PeerAddress := some peerAddr
                    PeerASN := some neigh.PeerASN
                    PeerConfigRef := some
                      (peerConfigRefFromBGPP caseTable bgpp.Name vr.LocalASN neigh.PeerAddress) }
                { inst with Peers := inst.Peers ++ [peer] })
            inst
          res ++ [inst])
        res
      = res ++ vrs.map (fun vr =>
          { Name := instanceKeyFromBGPP bgpp.Name vr.LocalASN
            LocalASN := some vr.LocalASN
            Peers := nodePeersSpec caseTable parsePrefix bgpp.Name vr.LocalASN vr.Neighbors }) := by
  induction vrs with
  | nil => intro res; simp
  | cons vr vrs ih =>
    intro res
    rw [List.foldl_cons, ih]
    simp only [nodePeers_foldl, List.nil_append, List.map_cons, List.append_assoc,
      List.singleton_append]

/-- C14: `nodeBGPInstancesFromBGPP` returns one routing instance for each
virtual router, in order, with the router's ASN; its peers are, in neighbor
order, the neighbors whose address `prefixToAddr` parses, each with the parsed
address, the neighbor's peer ASN and a PeerConfig reference named by
`peerKeyFromBGPP`; a neighbor whose address does not parse contributes no
peer and leaves the peers of the other neighbors as they are. -/
theorem C14_node_instances (caseTable : Char → Char)
    (parsePrefix : String → Except GoError String) (bgpp : CiliumBGPPeeringPolicy) :
    nodeBGPInstancesFromBGPP caseTable parsePrefix bgpp
        = nodeInstancesSpec caseTable parsePrefix bgpp
      ∧ (nodeBGPInstancesFromBGPP caseTable parsePrefix bgpp).length
        = bgpp.Spec.VirtualRouters.length
      ∧ (nodeBGPInstancesFromBGPP caseTable parsePrefix bgpp).map (fun i => i.LocalASN)
        = bgpp.Spec.VirtualRouters.map (fun vr => some vr.LocalASN)
      ∧ (∀ (name : String) (asn : Int) (pre post : List CiliumBGPNeighbor)
          (neigh : CiliumBGPNeighbor) (err : GoError),
          prefixToAddr parsePrefix neigh.PeerAddress = Except.error err →
          nodePeersSpec caseTable parsePrefix name asn (pre ++ neigh :: post)
            = nodePeersSpec caseTable parsePrefix name asn (pre ++ post)) := by
  have h1 : nodeBGPInstancesFromBGPP caseTable parsePrefix bgpp
      = nodeInstancesSpec caseTable parsePrefix bgpp := by
    have h := nodeInstances_foldl caseTable parsePrefix bgpp bgpp.Spec.VirtualRouters []
    simp only [List.nil_append] at h
    exact h
  refine ⟨h1, ?_, ?_, ?_⟩
  · rw [h1]; simp [nodeInstancesSpec]
  · rw [h1]; simp [nodeInstancesSpec, List.map_map, Function.comp]
  · intro name asn pre post neigh err herr
    simp [nodePeersSpec, List.filterMap_append, List.filterMap_cons, herr]

/-! ## Errors of the garbage collection -/

/-- The error of a garbage-collection loop: the errors of its `Delete` calls
that are neither nil nor NotFound, joined in the order of the calls. -/
theorem foldl_gc_errors {σ T : Type} (c : Client σ T) (tag : Call T → StoreCall)
    (P : T → Bool) (name : T → String) (l : List T) :
    ∀ acc : GoError × (σ × List (StoreCall × GoError)),
      ∃ new : List (StoreCall × GoError),
        (l.foldl
          (fun (acc : GoError × (σ × List (StoreCall × GoError))) o =>
            if P o then
              let r := (c.recording tag).Delete (name o) acc.2
              if r.1 ≠ [] && !IsNotFound r.1 then (errorsJoin acc.1 r.1, r.2) else (acc.1, r.2)
            else acc) acc).2.2 = acc.2.2 ++ new
        ∧ (l.foldl
          (fun (acc : GoError × (σ × List (StoreCall × GoError))) o =>
            if P o then
              let r := (c.recording tag).Delete (name o) acc.2
              if r.1 ≠ [] && !IsNotFound r.1 then (errorsJoin acc.1 r.1, r.2) else (acc.1, r.2)
            else acc) acc).1
          = acc.1 ++ (new.filter (fun e => decide (e.2 ≠ []) && !IsNotFound e.2)).flatMap
              Prod.snd := by
  induction l with
  | nil => intro acc; exact ⟨[], by simp, by simp⟩
  | cons o l ih =>
    intro acc
    rw [List.foldl_cons]
    by_cases hP : P o = true
    · simp only [hP, if_true]
      by_cases hbad : (decide ((c.Delete (name o) acc.2.1).1 ≠ [])
          && !IsNotFound (c.Delete (name o) acc.2.1).1) = true
      · have hstep : (if (decide (((c.recording tag).Delete (name o) acc.2).1 ≠ [])
              && !IsNotFound ((c.recording tag).Delete (name o) acc.2).1) = true then
            (errorsJoin acc.1 ((c.recording tag).Delete (name o) acc.2).1,
              ((c.recording tag).Delete (name o) acc.2).2)
            else (acc.1, ((c.recording tag).Delete (name o) acc.2).2))
            = (acc.1 ++ (c.Delete (name o) acc.2.1).1,
                ((c.Delete (name o) acc.2.1).2,
                  acc.2.2 ++ [(tag (Call.Delete (name o)), (c.Delete (name o) acc.2.1).1)])) := by
          simp only [Client.recording, hbad, if_true, errorsJoin]
        simp only [] at hstep ⊢
        rw [hstep]
        obtain ⟨new, h1, h2⟩ := ih (acc.1 ++ (c.Delete (name o) acc.2.1).1,
          ((c.Delete (name o) acc.2.1).2,
            acc.2.2 ++ [(tag (Call.Delete (name o)), (c.Delete (name o) acc.2.1).1)]))
        refine ⟨(tag (Call.Delete (name o)), (c.Delete (name o) acc.2.1).1) :: new, ?_, ?_⟩
        · rw [h1]; simp
        · rw [h2]
          simp only [List.filter_cons, hbad, if_true, List.flatMap_cons, List.append_assoc]
      · have hstep : (if (decide (((c.recording tag).Delete (name o) acc.2).1 ≠ [])
              && !IsNotFound ((c.recording tag).Delete (name o) acc.2).1) = true then
            (errorsJoin acc.1 ((c.recording tag).Delete (name o) acc.2).1,
              ((c.recording tag).Delete (name o) acc.2).2)
            else (acc.1, ((c.recording tag).Delete (name o) acc.2).2))
            = (acc.1,
                ((c.Delete (name o) acc.2.1).2,
                  acc.2.2 ++ [(tag (Call.Delete (name o)), (c.Delete (name o) acc.2.1).1)])) := by
          simp only [Client.recording, hbad, if_false, Bool.false_eq_true]
        simp only [] at hstep ⊢
        rw [hstep]
        obtain ⟨new, h1, h2⟩ := ih (acc.1,
          ((c.Delete (name o) acc.2.1).2,
            acc.2.2 ++ [(tag (Call.Delete (name o)), (c.Delete (name o) acc.2.1).1)]))
        refine ⟨(tag (Call.Delete (name o)), (c.Delete (name o) acc.2.1).1) :: new, ?_, ?_⟩
        · rw [h1]; simp
        · rw [h2]
          simp only [List.filter_cons, hbad, Bool.false_eq_true, if_false]
    · simp only [hP, Bool.false_eq_true, if_false]
      exact ih acc

theorem filter_bad_eq_nil (log : List (StoreCall × GoError))
    (h : ∀ e ∈ log, e.2 = [] ∨ IsNotFound e.2 = true) :
    log.filter (fun e => decide (e.2 ≠ []) && !IsNotFound e.2) = [] := by
  rw [List.filter_eq_nil_iff]
  intro e he
  rcases h e he with h0 | h1
  · simp [h0]
  · simp [h1]

/-- C11: the error that `deleteStaleAdvertisement` and `deleteStalePeerConfig`
return is the join, in call order, of exactly those errors of their `Delete`
calls that are neither nil nor NotFound; so it is nil whenever every `Delete`
succeeds or reports NotFound. -/
theorem C11_not_found_on_delete_is_success {σ : Type}
    (IsOwner : List OwnerReference → String → Bool) (b : BGPResourceManager σ)
    (E : List String) (n : String) (s : σ) :
    ((deleteStaleAdvertisement IsOwner b.recording E n (s, [])).1
        = ((deleteStaleAdvertisement IsOwner b.recording E n (s, [])).2.2.filter
            (fun e => decide (e.2 ≠ []) && !IsNotFound e.2)).flatMap Prod.snd
      ∧ ((∀ e ∈ (deleteStaleAdvertisement IsOwner b.recording E n (s, [])).2.2,
            e.2 = [] ∨ IsNotFound e.2 = true) →
          (deleteStaleAdvertisement IsOwner b.recording E n (s, [])).1 = []))
      ∧ ((deleteStalePeerConfig IsOwner b.recording E n (s, [])).1
        = ((deleteStalePeerConfig IsOwner b.recording E n (s, [])).2.2.filter
            (fun e => decide (e.2 ≠ []) && !IsNotFound e.2)).flatMap Prod.snd
      ∧ ((∀ e ∈ (deleteStalePeerConfig IsOwner b.recording E n (s, [])).2.2,
            e.2 = [] ∨ IsNotFound e.2 = true) →
          (deleteStalePeerConfig IsOwner b.recording E n (s, [])).1 = [])) := by
  obtain ⟨newA, hA1, hA2⟩ := foldl_gc_errors b.advertClient StoreCall.advert
    (fun o => !decide (o.Name ∈ E) && IsOwner o.OwnerReferences n) (fun o => o.Name)
    b.advertStore.List ([], (s, []))
  obtain ⟨newP, hP1, hP2⟩ := foldl_gc_errors b.peerConfigClient StoreCall.peerConfig
    (fun o => !decide (o.Name ∈ E) && IsOwner o.OwnerReferences n) (fun o => o.Name)
    b.peerConfigStore.List ([], (s, []))
  have hA1' : (deleteStaleAdvertisement IsOwner b.recording E n (s, [])).2.2 = newA := hA1
  have hA2' : (deleteStaleAdvertisement IsOwner b.recording E n (s, [])).1
      = (newA.filter (fun e => decide (e.2 ≠ []) && !IsNotFound e.2)).flatMap Prod.snd := hA2
  have hP1' : (deleteStalePeerConfig IsOwner b.recording E n (s, [])).2.2 = newP := hP1
  have hP2' : (deleteStalePeerConfig IsOwner b.recording E n (s, [])).1
      = (newP.filter (fun e => decide (e.2 ≠ []) && !IsNotFound e.2)).flatMap Prod.snd := hP2
  rw [hA1', hP1']
  refine ⟨⟨hA2', fun h => ?_⟩, ⟨hP2', fun h => ?_⟩⟩
  · rw [hA2', filter_bad_eq_nil newA h]; rfl
  · rw [hP2', filter_bad_eq_nil newP h]; rfl

/-! ## Built objects -/

theorem updateAdvertisement_creates {σ : Type} (b : BGPResourceManager σ)
    (bgpp : CiliumBGPPeeringPolicy) (name : String) (adverts : List Advertisement) (s : σ) :
    ∀ obj, StoreCall.advert (Call.Create obj)
        ∈ calls (updateAdvertisement b.recording bgpp name adverts (s, [])).2.2 →
      obj = newAdvertisement bgpp name adverts := by
  intro obj
  cases hget : b.advertStore.GetByKey name with
  | error e => simp [updateAdvertisement, BGPResourceManager.recording, hget, calls]
  | ok found =>
    by_cases hlen : adverts.length = 0
    · cases found with
      | none => simp [updateAdvertisement, BGPResourceManager.recording, hget, hlen, calls]
      | some prev =>
        simp only [updateAdvertisement, BGPResourceManager.recording, hget, hlen, if_true]
        split <;> simp [Client.recording, calls]
    · cases found with
      | some prev =>
        simp only [updateAdvertisement, BGPResourceManager.recording, hget, hlen, if_false]
        split <;> simp [Client.recording, calls]
      | none =>
        by_cases hnil : (b.advertClient.Create (newAdvertisement bgpp name adverts) s).1 = []
        · simp [updateAdvertisement, BGPResourceManager.recording, Client.recording, hget,
            hlen, hnil, calls]
        · by_cases hex : IsAlreadyExists
              (b.advertClient.Create (newAdvertisement bgpp name adverts) s).1 = true
          · cases hg : (b.advertClient.Get name
                (b.advertClient.Create (newAdvertisement bgpp name adverts) s).2).1 with
            | error e =>
              simp [updateAdvertisement, BGPResourceManager.recording, Client.recording, hget,
                hlen, hnil, hex, hg, calls]
            | ok prev =>
              by_cases hs : prev.Spec = { Advertisements := adverts }
              · simp [updateAdvertisement, BGPResourceManager.recording, Client.recording,
                  hget, hlen, hnil, hex, hg, hs, calls]
              · simp [updateAdvertisement, BGPResourceManager.recording, Client.recording,
                  hget, hlen, hnil, hex, hg, hs, calls]
          · simp [updateAdvertisement, BGPResourceManager.recording, Client.recording, hget,
              hlen, hnil, hex, calls]

theorem updatePeerConfig_creates {σ : Type} (b : BGPResourceManager σ)
    (bgpp : CiliumBGPPeeringPolicy) (name : String) (spec : CiliumBGPPeerConfigSpec) (s : σ) :
    ∀ obj, StoreCall.peerConfig (Call.Create obj)
        ∈ calls (updatePeerConfig b.recording bgpp name spec (s, [])).2.2 →
      obj = newPeerConfig bgpp name spec := by
  intro obj
  cases hget : b.peerConfigStore.GetByKey name with
  | error e => simp [updatePeerConfig, BGPResourceManager.recording, hget, calls]
  | ok found =>
    cases found with
    | some prev =>
      simp only [updatePeerConfig, BGPResourceManager.recording, hget]
      split <;> simp [Client.recording, calls]
    | none =>
      by_cases hnil : (b.peerConfigClient.Create (newPeerConfig bgpp name spec) s).1 = []
      · simp [updatePeerConfig, BGPResourceManager.recording, Client.recording, hget,
          hnil, calls]
      · by_cases hex : IsAlreadyExists
            (b.peerConfigClient.Create (newPeerConfig bgpp name spec) s).1 = true
        · cases hg : (b.peerConfigClient.Get name
              (b.peerConfigClient.Create (newPeerConfig bgpp name spec) s).2).1 with
          | error e =>
            simp [updatePeerConfig, BGPResourceManager.recording, Client.recording, hget,
              hnil, hex, hg, calls]
          | ok prev =>
            by_cases hs : prev.Spec = spec
            · simp [updatePeerConfig, BGPResourceManager.recording, Client.recording,
                hget, hnil, hex, hg, hs, calls]
            · simp [updatePeerConfig, BGPResourceManager.recording, Client.recording,
                hget, hnil, hex, hg, hs, calls]
        · simp [updatePeerConfig, BGPResourceManager.recording, Client.recording, hget,
            hnil, hex, calls]

theorem upsertBGPPNodeConfig_creates {σ : Type} (caseTable : Char → Char)
    (parsePrefix : String → Except GoError String) (b : BGPResourceManager σ)
    (bgpp : CiliumBGPPeeringPolicy) (nodeRef : String) (s : σ) :
    ∀ obj, StoreCall.nodeConfig (Call.Create obj)
        ∈ calls (upsertBGPPNodeConfig caseTable parsePrefix b.recording bgpp nodeRef (s, [])).2.2 →
      obj = newNodeConfig caseTable parsePrefix bgpp nodeRef := by
  intro obj
  cases hget : b.nodeConfigStore.GetByKey nodeRef with
  | error e => simp [upsertBGPPNodeConfig, BGPResourceManager.recording, hget, calls]
  | ok found =>
    cases found with
    | some prev =>
      simp only [upsertBGPPNodeConfig, BGPResourceManager.recording, hget]
      split <;> simp [Client.recording, calls]
    | none =>
      by_cases hnil : (b.nodeConfigClient.Create
          (newNodeConfig caseTable parsePrefix bgpp nodeRef) s).1 = []
      · simp [upsertBGPPNodeConfig, BGPResourceManager.recording, Client.recording, hget,
          hnil, calls]
      · by_cases hex : IsAlreadyExists (b.nodeConfigClient.Create
            (newNodeConfig caseTable parsePrefix bgpp nodeRef) s).1 = true
        · cases hg : (b.nodeConfigClient.Get nodeRef (b.nodeConfigClient.Create
              (newNodeConfig caseTable parsePrefix bgpp nodeRef) s).2).1 with
          | error e =>
            simp [upsertBGPPNodeConfig, BGPResourceManager.recording, Client.recording, hget,
              hnil, hex, hg, calls]
          | ok prev =>
            by_cases hs : prev.Spec
                = { BGPInstances := nodeBGPInstancesFromBGPP caseTable parsePrefix bgpp }
            · simp [upsertBGPPNodeConfig, BGPResourceManager.recording, Client.recording,
                hget, hnil, hex, hg, hs, calls]
            · simp [upsertBGPPNodeConfig, BGPResourceManager.recording, Client.recording,
                hget, hnil, hex, hg, hs, calls]
        · simp [upsertBGPPNodeConfig, BGPResourceManager.recording, Client.recording, hget,
            hnil, hex, calls]

/-- C20: every object that the three helpers pass to `Create` is the object
built from the reconciling policy, and that object carries exactly one owner
reference, of the peering-policy kind, with the name and the UID of the
reconciling policy. -/
theorem C20_created_objects_have_one_owner {σ : Type} (caseTable : Char → Char)
    (parsePrefix : String → Except GoError String) (b : BGPResourceManager σ)
    (bgpp : CiliumBGPPeeringPolicy) (name nodeRef : String) (adverts : List Advertisement)
    (spec : CiliumBGPPeerConfigSpec) (s : σ) :
    (∀ obj, StoreCall.advert (Call.Create obj)
          ∈ calls (updateAdvertisement b.recording bgpp name adverts (s, [])).2.2 →
        ∃ ref, obj.OwnerReferences = [ref] ∧ ref.Kind = BGPPKindDefinition
          ∧ ref.Name = bgpp.Name ∧ ref.UID = bgpp.UID)
      ∧ (∀ obj, StoreCall.peerConfig (Call.Create obj)
          ∈ calls (updatePeerConfig b.recording bgpp name spec (s, [])).2.2 →
        ∃ ref, obj.OwnerReferences = [ref] ∧ ref.Kind = BGPPKindDefinition
          ∧ ref.Name = bgpp.Name ∧ ref.UID = bgpp.UID)
      ∧ (∀ obj, StoreCall.nodeConfig (Call.Create obj)
          ∈ calls (upsertBGPPNodeConfig caseTable parsePrefix b.recording bgpp nodeRef
              (s, [])).2.2 →
        ∃ ref, obj.OwnerReferences = [ref] ∧ ref.Kind = BGPPKindDefinition
          ∧ ref.Name = bgpp.Name ∧ ref.UID = bgpp.UID)
      ∧ (newAdvertisement bgpp name adverts).OwnerReferences
        = [{ APIVersion := SchemeGroupVersion, Kind := BGPPKindDefinition,
             Name := bgpp.Name, UID := bgpp.UID }]
      ∧ (newPeerConfig bgpp name spec).OwnerReferences
        = [{ APIVersion := SchemeGroupVersion, Kind := BGPPKindDefinition,
             Name := bgpp.Name, UID := bgpp.UID }]
      ∧ (newNodeConfig caseTable parsePrefix bgpp nodeRef).OwnerReferences
        = [{ APIVersion := SchemeGroupVersion, Kind := BGPPKindDefinition,
             Name := bgpp.Name, UID := bgpp.UID }] := by
  refine ⟨?_, ?_, ?_, rfl, rfl, rfl⟩
  · intro obj h
    rw [updateAdvertisement_creates b bgpp name adverts s obj h]
    exact ⟨_, rfl, rfl, rfl, rfl⟩
  · intro obj h
    rw [updatePeerConfig_creates b bgpp name spec s obj h]
    exact ⟨_, rfl, rfl, rfl, rfl⟩
  · intro obj h
    rw [upsertBGPPNodeConfig_creates caseTable parsePrefix b bgpp nodeRef s obj h]
    exact ⟨_, rfl, rfl, rfl, rfl⟩

/-! ## Pairing of Advertisements and PeerConfigs -/

theorem advertLoop_expected {σ : Type} (t : Char → Char) (b : BGPResourceManager σ)
    (bgpp : CiliumBGPPeeringPolicy) (s : σ) :
    (reconcileBGPPAdvertisementLoop t b bgpp s).2.1 = (peerKeys t bgpp).reverse := by
  obtain ⟨_, hE⟩ := foldl_upsert_parts
    (fun p : CiliumBGPVirtualRouter × CiliumBGPNeighbor =>
      peerKeyFromBGPP t bgpp.Name p.1.LocalASN p.2.PeerAddress)
    (fun p s => updateAdvertisement b bgpp
      (peerKeyFromBGPP t bgpp.Name p.1.LocalASN p.2.PeerAddress)
      (neighborAdvertisements p.1 p.2) s)
    (neighborPairs bgpp) ([], [], s)
  simp only [List.append_nil] at hE
  rw [advertLoop_eq, hE, peerKeys]

theorem peerConfigLoop_expected {σ : Type} (t : Char → Char) (b : BGPResourceManager σ)
    (bgpp : CiliumBGPPeeringPolicy) (s : σ) :
    (reconcileBGPPPeerConfigLoop t b bgpp s).2.1 = (peerKeys t bgpp).reverse := by
  obtain ⟨_, hE⟩ := foldl_upsert_parts
    (fun p : CiliumBGPVirtualRouter × CiliumBGPNeighbor =>
      peerKeyFromBGPP t bgpp.Name p.1.LocalASN p.2.PeerAddress)
    (fun p s => updatePeerConfig b bgpp
      (peerKeyFromBGPP t bgpp.Name p.1.LocalASN p.2.PeerAddress)
      (neighborPeerSpec t bgpp p.1 p.2) s)
    (neighborPairs bgpp) ([], [], s)
  simp only [List.append_nil] at hE
  rw [peerConfigLoop_eq, hE, peerKeys]

/-! ## Passes -/

theorem policyRuns_length {σ : Type}
    (reconcile : CiliumBGPPeeringPolicy → σ → GoError × σ) :
    ∀ (l : List CiliumBGPPeeringPolicy) (s : σ), (policyRuns reconcile l s).length = l.length := by
  intro l
  induction l with
  | nil => intro s; rfl
  | cons p ps ih => intro s; simp [policyRuns, ih]

theorem foldl_policies {σ : Type} (reconcile : CiliumBGPPeeringPolicy → σ → GoError × σ) :
    ∀ (l : List CiliumBGPPeeringPolicy) (acc : GoError × σ),
      l.foldl (fun (acc : GoError × σ) bgpp =>
          if (reconcile bgpp acc.2).1 ≠ [] then
            (errorsJoin acc.1 (reconcile bgpp acc.2).1, (reconcile bgpp acc.2).2)
          else (acc.1, (reconcile bgpp acc.2).2)) acc
        = (acc.1 ++ (policyRuns reconcile l acc.2).flatMap Prod.fst,
            ((policyRuns reconcile l acc.2).getLast?.map Prod.snd).getD acc.2) := by
  intro l
  induction l with
  | nil => intro acc; simp [policyRuns]
  | cons p ps ih =>
    intro acc
    rw [List.foldl_cons, ih]
    have hlast : ((policyRuns reconcile (p :: ps) acc.2).getLast?.map Prod.snd).getD acc.2
        = ((policyRuns reconcile ps (reconcile p acc.2).2).getLast?.map Prod.snd).getD
            (reconcile p acc.2).2 := by
      simp only [policyRuns]
      cases h : policyRuns reconcile ps (reconcile p acc.2).2 with
      | nil => simp
      | cons r rs =>
        rw [List.getLast?_cons_cons, List.getLast?_eq_getLast _ (List.cons_ne_nil r rs)]
        rfl
    rw [hlast]
    by_cases he : (reconcile p acc.2).1 = []
    · simp [he, policyRuns, List.flatMap_cons]
    · simp [he, policyRuns, List.flatMap_cons, errorsJoin]

/-- C12: `reconcileBGPPeeringPolicies` reconciles every policy of the listing
of the policy store once, in list order, each from the state the one before
left and whatever the earlier ones returned; its error is the join of the
per-policy errors in list order, so it is nil iff every per-policy
reconciliation returned nil; the state it leaves is the state the last
reconciliation left. -/
theorem C12_all_policies_reconciled_errors_joined {σ : Type} (caseTable : Char → Char)
    (IsOwner : List OwnerReference → String → Bool)
    (parsePrefix : String → Except GoError String)
    (SetDefaults : CiliumBGPPeeringPolicy → CiliumBGPPeeringPolicy)
    (getMatchingNodes : Option LabelSelector → String → Except GoError (List String))
    (deleteStaleNodeConfigs : List String → String → σ → GoError × σ)
    (b : BGPResourceManager σ) (s : σ) :
    (reconcileBGPPeeringPolicies caseTable IsOwner parsePrefix SetDefaults getMatchingNodes
        deleteStaleNodeConfigs b s).1
        = (policyRuns (reconcileBGPPeeringPolicy caseTable IsOwner parsePrefix SetDefaults
            getMatchingNodes deleteStaleNodeConfigs b) b.peeringPolicyStore.List s).flatMap
            Prod.fst
      ∧ (reconcileBGPPeeringPolicies caseTable IsOwner parsePrefix SetDefaults getMatchingNodes
        deleteStaleNodeConfigs b s).2
        = ((policyRuns (reconcileBGPPeeringPolicy caseTable IsOwner parsePrefix SetDefaults
            getMatchingNodes deleteStaleNodeConfigs b) b.peeringPolicyStore.List s).getLast?.map
            Prod.snd).getD s
      ∧ (policyRuns (reconcileBGPPeeringPolicy caseTable IsOwner parsePrefix SetDefaults
            getMatchingNodes deleteStaleNodeConfigs b) b.peeringPolicyStore.List s).length
        = b.peeringPolicyStore.List.length
      ∧ ((reconcileBGPPeeringPolicies caseTable IsOwner parsePrefix SetDefaults getMatchingNodes
            deleteStaleNodeConfigs b s).1 = []
        ↔ ∀ r ∈ policyRuns (reconcileBGPPeeringPolicy caseTable IsOwner parsePrefix SetDefaults
            getMatchingNodes deleteStaleNodeConfigs b) b.peeringPolicyStore.List s, r.1 = []) := by
  have h : reconcileBGPPeeringPolicies caseTable IsOwner parsePrefix SetDefaults
      getMatchingNodes deleteStaleNodeConfigs b s
      = (([] : GoError) ++ (policyRuns (reconcileBGPPeeringPolicy caseTable IsOwner parsePrefix
            SetDefaults getMatchingNodes deleteStaleNodeConfigs b)
            b.peeringPolicyStore.List s).flatMap Prod.fst,
          ((policyRuns (reconcileBGPPeeringPolicy caseTable IsOwner parsePrefix SetDefaults
            getMatchingNodes deleteStaleNodeConfigs b) b.peeringPolicyStore.List s).getLast?.map
            Prod.snd).getD s) :=
    foldl_policies (reconcileBGPPeeringPolicy caseTable IsOwner parsePrefix SetDefaults
      getMatchingNodes deleteStaleNodeConfigs b) b.peeringPolicyStore.List ([], s)
  rw [List.nil_append] at h
  refine ⟨by rw [h], by rw [h], policyRuns_length _ _ _, ?_⟩
  rw [h]
  simp only [List.flatMap_eq_nil_iff]

/-- C13: `reconcileBGPPeeringPolicy` applies the defaults and then runs the
advertisement phase, the peer-config phase and the node-config phase once
each, in that order, each from the state the phase before left and whatever
that phase returned; its error is the join of the three phase errors, so it is
nil iff all three are nil; an error of the node matcher is the error of the
node-config phase, which then leaves the state alone. -/
theorem C13_phases_run_independently {σ : Type} (caseTable : Char → Char)
    (IsOwner : List OwnerReference → String → Bool)
    (parsePrefix : String → Except GoError String)
    (SetDefaults : CiliumBGPPeeringPolicy → CiliumBGPPeeringPolicy)
    (getMatchingNodes : Option LabelSelector → String → Except GoError (List String))
    (deleteStaleNodeConfigs : List String → String → σ → GoError × σ)
    (b : BGPResourceManager σ) (bgpp : CiliumBGPPeeringPolicy) (s : σ) :
    let p := SetDefaults bgpp
    let ra := reconcileBGPPAdvertisement caseTable IsOwner b p s
    let rp := reconcileBGPPPeerConfig caseTable IsOwner b p ra.2
    let rn := reconcileBGPPNodeConfig caseTable parsePrefix getMatchingNodes
      deleteStaleNodeConfigs b p rp.2
    reconcileBGPPeeringPolicy caseTable IsOwner parsePrefix SetDefaults getMatchingNodes
        deleteStaleNodeConfigs b bgpp s
        = (errorsJoin (errorsJoin ra.1 rp.1) rn.1, rn.2)
      ∧ ((reconcileBGPPeeringPolicy caseTable IsOwner parsePrefix SetDefaults getMatchingNodes
          deleteStaleNodeConfigs b bgpp s).1 = []
        ↔ ra.1 = [] ∧ rp.1 = [] ∧ rn.1 = [])
      ∧ (∀ err, getMatchingNodes p.Spec.NodeSelector p.Name = Except.error err →
          rn = (err, rp.2)) := by
  intro p ra rp rn
  have h : reconcileBGPPeeringPolicy caseTable IsOwner parsePrefix SetDefaults getMatchingNodes
      deleteStaleNodeConfigs b bgpp s = (errorsJoin (errorsJoin ra.1 rp.1) rn.1, rn.2) := by
    simp only [reconcileBGPPeeringPolicy, errorsJoin]
    by_cases h1 : ra.1 = [] <;> by_cases h2 : rp.1 = [] <;> by_cases h3 : rn.1 = [] <;>
      simp [ra, rp, rn, p, h1, h2, h3] <;> simp_all [ra, rp, rn, p]
  refine ⟨h, ?_, ?_⟩
  · rw [h]
    simp [errorsJoin, and_assoc]
  · intro err herr
    simp only [rn, reconcileBGPPNodeConfig, herr]

/-! ## Failures that a pass reports -/

theorem updateAdvertisement_reports {σ : Type} (b : BGPResourceManager σ)
    (bgpp : CiliumBGPPeeringPolicy) (name : String) (adverts : List Advertisement)
    (hcache : ∀ k e, b.advertStore.GetByKey k ≠ Except.error e) :
    ReportsOnlyLoggedFailures (updateAdvertisement b.recording bgpp name adverts) := by
  intro sl
  obtain ⟨s, log⟩ := sl
  cases hget : b.advertStore.GetByKey name with
  | error e => exact absurd hget (hcache name e)
  | ok found =>
    by_cases hlen : adverts.length = 0
    · cases found with
      | none => simp [updateAdvertisement, BGPResourceManager.recording, hget, hlen]
      | some prev =>
        by_cases hnil : (b.advertClient.Delete name s).1 = []
        · simp [updateAdvertisement, BGPResourceManager.recording, Client.recording, hget,
            hlen, hnil]
        · by_cases hnf : IsNotFound (b.advertClient.Delete name s).1 = true
          · simp [updateAdvertisement, BGPResourceManager.recording, Client.recording, hget,
              hlen, hnil, hnf]
          · simp [updateAdvertisement, BGPResourceManager.recording, Client.recording, hget,
              hlen, hnil, hnf]
            exact ⟨_, _, Or.inr ⟨rfl, rfl⟩, hnil⟩
    · cases found with
      | some prev =>
        by_cases hs : prev.Spec = { Advertisements := adverts }
        · simp [updateAdvertisement, BGPResourceManager.recording, Client.recording, hget,
            hlen, hs]
        · simp [updateAdvertisement, BGPResourceManager.recording, Client.recording, hget,
            hlen, hs]
          intro h
          exact h _ _ (Or.inr ⟨rfl, rfl⟩)
      | none =>
        by_cases hnil : (b.advertClient.Create (newAdvertisement bgpp name adverts) s).1 = []
        · simp [updateAdvertisement, BGPResourceManager.recording, Client.recording, hget,
            hlen, hnil]
        · by_cases hex : IsAlreadyExists
              (b.advertClient.Create (newAdvertisement bgpp name adverts) s).1 = true
          · cases hg : (b.advertClient.Get name
                (b.advertClient.Create (newAdvertisement bgpp name adverts) s).2).1 with
            | error e =>
              simp [updateAdvertisement, BGPResourceManager.recording, Client.recording, hget,
                hlen, hnil, hex, hg]
              intro h
              exact h _ _ (Or.inr (Or.inr ⟨rfl, rfl⟩))
            | ok prev =>
              by_cases hs : prev.Spec = { Advertisements := adverts }
              · simp [updateAdvertisement, BGPResourceManager.recording, Client.recording,
                  hget, hlen, hnil, hex, hg, hs]
              · simp [updateAdvertisement, BGPResourceManager.recording, Client.recording,
                  hget, hlen, hnil, hex, hg, hs]
                intro h
                exact h _ _ (Or.inr (Or.inr (Or.inr ⟨rfl, rfl⟩)))
          · simp [updateAdvertisement, BGPResourceManager.recording, Client.recording, hget,
              hlen, hnil, hex]
            exact ⟨_, _, Or.inr ⟨rfl, rfl⟩, hnil⟩

theorem updatePeerConfig_reports {σ : Type} (b : BGPResourceManager σ)
    (bgpp : CiliumBGPPeeringPolicy) (name : String) (spec : CiliumBGPPeerConfigSpec)
    (hcache : ∀ k e, b.peerConfigStore.GetByKey k ≠ Except.error e) :
    ReportsOnlyLoggedFailures (updatePeerConfig b.recording bgpp name spec) := by
  intro sl
  obtain ⟨s, log⟩ := sl
  cases hget : b.peerConfigStore.GetByKey name with
  | error e => exact absurd hget (hcache name e)
  | ok found =>
    cases found with
    | some prev =>
      by_cases hs : prev.Spec = spec
      · simp [updatePeerConfig, BGPResourceManager.recording, Client.recording, hget, hs]
      · simp [updatePeerConfig, BGPResourceManager.recording, Client.recording, hget, hs]
        intro h
        exact h _ _ (Or.inr ⟨rfl, rfl⟩)
    | none =>
      by_cases hnil : (b.peerConfigClient.Create (newPeerConfig bgpp name spec) s).1 = []
      · simp [updatePeerConfig, BGPResourceManager.recording, Client.recording, hget, hnil]
      · by_cases hex : IsAlreadyExists
            (b.peerConfigClient.Create (newPeerConfig bgpp name spec) s).1 = true
        · cases hg : (b.peerConfigClient.Get name
              (b.peerConfigClient.Create (newPeerConfig bgpp name spec) s).2).1 with
          | error e =>
            simp [updatePeerConfig, BGPResourceManager.recording, Client.recording, hget,
              hnil, hex, hg]
            intro h
            exact h _ _ (Or.inr (Or.inr ⟨rfl, rfl⟩))
          | ok prev =>
            by_cases hs : prev.Spec = spec
            · simp [updatePeerConfig, BGPResourceManager.recording, Client.recording,
                hget, hnil, hex, hg, hs]
            · simp [updatePeerConfig, BGPResourceManager.recording, Client.recording,
                hget, hnil, hex, hg, hs]
              intro h
              exact h _ _ (Or.inr (Or.inr (Or.inr ⟨rfl, rfl⟩)))
        · simp [updatePeerConfig, BGPResourceManager.recording, Client.recording, hget,
            hnil, hex]
          exact ⟨_, _, Or.inr ⟨rfl, rfl⟩, hnil⟩

theorem upsertBGPPNodeConfig_reports {σ : Type} (caseTable : Char → Char)
    (parsePrefix : String → Except GoError String) (b : BGPResourceManager σ)
    (bgpp : CiliumBGPPeeringPolicy) (nodeRef : String)
    (hcache : ∀ k e, b.nodeConfigStore.GetByKey k ≠ Except.error e) :
    ReportsOnlyLoggedFailures
      (upsertBGPPNodeConfig caseTable parsePrefix b.recording bgpp nodeRef) := by
  intro sl
  obtain ⟨s, log⟩ := sl
  cases hget : b.nodeConfigStore.GetByKey nodeRef with
  | error e => exact absurd hget (hcache nodeRef e)
  | ok found =>
    cases found with
    | some prev =>
      by_cases hs : prev.Spec
          = { BGPInstances := nodeBGPInstancesFromBGPP caseTable parsePrefix bgpp }
      · simp [upsertBGPPNodeConfig, BGPResourceManager.recording, Client.recording, hget, hs]
      · simp [upsertBGPPNodeConfig, BGPResourceManager.recording, Client.recording, hget, hs]
        intro h
        exact h _ _ (Or.inr ⟨rfl, rfl⟩)
    | none =>
      by_cases hnil : (b.nodeConfigClient.Create
          (newNodeConfig caseTable parsePrefix bgpp nodeRef) s).1 = []
      · simp [upsertBGPPNodeConfig, BGPResourceManager.recording, Client.recording, hget,
          hnil]
      · by_cases hex : IsAlreadyExists (b.nodeConfigClient.Create
            (newNodeConfig caseTable parsePrefix bgpp nodeRef) s).1 = true
        · cases hg : (b.nodeConfigClient.Get nodeRef (b.nodeConfigClient.Create
              (newNodeConfig caseTable parsePrefix bgpp nodeRef) s).2).1 with
          | error e =>
            simp [upsertBGPPNodeConfig, BGPResourceManager.recording, Client.recording, hget,
              hnil, hex, hg]
            intro h
            exact h _ _ (Or.inr (Or.inr ⟨rfl, rfl⟩))
          | ok prev =>
            by_cases hs : prev.Spec
                = { BGPInstances := nodeBGPInstancesFromBGPP caseTable parsePrefix bgpp }
            · simp [upsertBGPPNodeConfig, BGPResourceManager.recording, Client.recording,
                hget, hnil, hex, hg, hs]
            · simp [upsertBGPPNodeConfig, BGPResourceManager.recording, Client.recording,
                hget, hnil, hex, hg, hs]
              intro h
              exact h _ _ (Or.inr (Or.inr (Or.inr ⟨rfl, rfl⟩)))
        · simp [upsertBGPPNodeConfig, BGPResourceManager.recording, Client.recording, hget,
            hnil, hex]
          exact ⟨_, _, Or.inr ⟨rfl, rfl⟩, hnil⟩

/-- A loop that joins the errors of steps which report only logged failures,
and collects a key per step: it only appends to the log, and it leaves the
joined error as it found it when every call of the log it leaves succeeded. -/
theorem foldl_upsert_reports {σ X : Type} (key : X → String)
    (upd : X → σ × List (StoreCall × GoError) → GoError × (σ × List (StoreCall × GoError)))
    (hupd : ∀ x, ReportsOnlyLoggedFailures (upd x)) (xs : List X) :
    ∀ acc : GoError × List String × (σ × List (StoreCall × GoError)),
      (∃ new, (xs.foldl (fun (acc : GoError × List String × (σ × List (StoreCall × GoError))) x =>
          if (upd x acc.2.2).1 ≠ [] then
            (errorsJoin acc.1 (upd x acc.2.2).1, key x :: acc.2.1, (upd x acc.2.2).2)
          else (acc.1, key x :: acc.2.1, (upd x acc.2.2).2)) acc).2.2.2 = acc.2.2.2 ++ new)
        ∧ ((∀ e ∈ (xs.foldl
            (fun (acc : GoError × List String × (σ × List (StoreCall × GoError))) x =>
          if (upd x acc.2.2).1 ≠ [] then
            (errorsJoin acc.1 (upd x acc.2.2).1, key x :: acc.2.1, (upd x acc.2.2).2)
          else (acc.1, key x :: acc.2.1, (upd x acc.2.2).2)) acc).2.2.2, e.2 = []) →
          (xs.foldl (fun (acc : GoError × List String × (σ × List (StoreCall × GoError))) x =>
          if (upd x acc.2.2).1 ≠ [] then
            (errorsJoin acc.1 (upd x acc.2.2).1, key x :: acc.2.1, (upd x acc.2.2).2)
          else (acc.1, key x :: acc.2.1, (upd x acc.2.2).2)) acc).1 = acc.1) := by
  induction xs with
  | nil => intro acc; exact ⟨⟨[], by simp⟩, fun _ => rfl⟩
  | cons x xs ih =>
    intro acc
    obtain ⟨⟨n₁, h₁⟩, herr⟩ := hupd x acc.2.2
    rw [List.foldl_cons]
    by_cases h : (upd x acc.2.2).1 = []
    · simp only [h, ne_eq, not_true_eq_false, if_false]
      obtain ⟨⟨n₂, h₂⟩, ih₂⟩ := ih (acc.1, key x :: acc.2.1, (upd x acc.2.2).2)
      refine ⟨⟨n₁ ++ n₂, ?_⟩, ih₂⟩
      rw [h₂, h₁, List.append_assoc]
    · simp only [h, ne_eq, not_false_eq_true, if_true]
      obtain ⟨⟨n₂, h₂⟩, _⟩ := ih (errorsJoin acc.1 (upd x acc.2.2).1, key x :: acc.2.1,
        (upd x acc.2.2).2)
      refine ⟨⟨n₁ ++ n₂, ?_⟩, fun hall => ?_⟩
      · rw [h₂, h₁, List.append_assoc]
      · refine absurd (herr fun e he => hall e ?_) h
        rw [h₂]
        exact List.mem_append_left _ he

/-- A loop that joins the errors of steps which report only logged failures. -/
theorem foldl_join_reports {σ X : Type}
    (upd : X → σ × List (StoreCall × GoError) → GoError × (σ × List (StoreCall × GoError)))
    (hupd : ∀ x, ReportsOnlyLoggedFailures (upd x)) (xs : List X) :
    ∀ acc : GoError × (σ × List (StoreCall × GoError)),
      (∃ new, (xs.foldl (fun (acc : GoError × (σ × List (StoreCall × GoError))) x =>
          if (upd x acc.2).1 ≠ [] then (errorsJoin acc.1 (upd x acc.2).1, (upd x acc.2).2)
          else (acc.1, (upd x acc.2).2)) acc).2.2 = acc.2.2 ++ new)
        ∧ ((∀ e ∈ (xs.foldl (fun (acc : GoError × (σ × List (StoreCall × GoError))) x =>
          if (upd x acc.2).1 ≠ [] then (errorsJoin acc.1 (upd x acc.2).1, (upd x acc.2).2)
          else (acc.1, (upd x acc.2).2)) acc).2.2, e.2 = []) →
          (xs.foldl (fun (acc : GoError × (σ × List (StoreCall × GoError))) x =>
          if (upd x acc.2).1 ≠ [] then (errorsJoin acc.1 (upd x acc.2).1, (upd x acc.2).2)
          else (acc.1, (upd x acc.2).2)) acc).1 = acc.1) := by
  induction xs with
  | nil => intro acc; exact ⟨⟨[], by simp⟩, fun _ => rfl⟩
  | cons x xs ih =>
    intro acc
    obtain ⟨⟨n₁, h₁⟩, herr⟩ := hupd x acc.2
    rw [List.foldl_cons]
    by_cases h : (upd x acc.2).1 = []
    · simp only [h, ne_eq, not_true_eq_false, if_false]
      obtain ⟨⟨n₂, h₂⟩, ih₂⟩ := ih (acc.1, (upd x acc.2).2)
      refine ⟨⟨n₁ ++ n₂, ?_⟩, ih₂⟩
      rw [h₂, h₁, List.append_assoc]
    · simp only [h, ne_eq, not_false_eq_true, if_true]
      obtain ⟨⟨n₂, h₂⟩, _⟩ := ih (errorsJoin acc.1 (upd x acc.2).1, (upd x acc.2).2)
      refine ⟨⟨n₁ ++ n₂, ?_⟩, fun hall => ?_⟩
      · rw [h₂, h₁, List.append_assoc]
      · refine absurd (herr fun e he => hall e ?_) h
        rw [h₂]
        exact List.mem_append_left _ he

/-- A garbage-collection loop reports only logged failures. -/
theorem foldl_gc_reports {σ T : Type} (c : Client σ T) (tag : Call T → StoreCall)
    (P : T → Bool) (name : T → String) (l : List T) :
    ReportsOnlyLoggedFailures (fun s =>
      l.foldl (fun (acc : GoError × (σ × List (StoreCall × GoError))) o =>
        if P o then
          let r := (c.recording tag).Delete (name o) acc.2
          if r.1 ≠ [] && !IsNotFound r.1 then (errorsJoin acc.1 r.1, r.2) else (acc.1, r.2)
        else acc) ([], s)) := by
  intro s
  obtain ⟨new, h1, h2⟩ := foldl_gc_errors c tag P name l ([], s)
  refine ⟨⟨new, h1⟩, fun hall => ?_⟩
  have hnew : new.filter (fun e => decide (e.2 ≠ []) && !IsNotFound e.2) = [] :=
    filter_bad_eq_nil new fun e he => Or.inl (hall e (by
      have hmem : e ∈ (([] : GoError), s).2.2 ++ new := List.mem_append_right _ he
      rw [← h1] at hmem
      exact hmem))
  exact h2.trans (by rw [hnew]; rfl)

/-- Two steps in a row, the second from the state the first left, with their
errors joined. -/
theorem reports_then {σ : Type} (s r : σ × List (StoreCall × GoError)) (e₁ : GoError)
    (g : σ × List (StoreCall × GoError) → GoError × (σ × List (StoreCall × GoError)))
    (hg : ReportsOnlyLoggedFailures g) (hpre : ∃ new, r.2 = s.2 ++ new)
    (herr : (∀ e ∈ r.2, e.2 = []) → e₁ = []) :
    (∃ new, (if (g r).1 ≠ [] then (errorsJoin e₁ (g r).1, (g r).2) else (e₁, (g r).2)).2.2
        = s.2 ++ new)
      ∧ ((∀ e ∈ (if (g r).1 ≠ [] then (errorsJoin e₁ (g r).1, (g r).2)
            else (e₁, (g r).2)).2.2, e.2 = []) →
          (if (g r).1 ≠ [] then (errorsJoin e₁ (g r).1, (g r).2) else (e₁, (g r).2)).1 = []) := by
  obtain ⟨n₁, h₁⟩ := hpre
  obtain ⟨⟨n₂, h₂⟩, hg₂⟩ := hg r
  have hst : (if (g r).1 ≠ [] then (errorsJoin e₁ (g r).1, (g r).2) else (e₁, (g r).2)).2
      = (g r).2 := by split <;> rfl
  rw [hst]
  refine ⟨⟨n₁ ++ n₂, by rw [h₂, h₁, List.append_assoc]⟩, fun hall => ?_⟩
  have hg0 := hg₂ hall
  have he0 : e₁ = [] := herr fun e he => hall e (by rw [h₂]; exact List.mem_append_left _ he)
  simp [hg0, he0]

theorem deleteStaleNodeConfigsModel_reports {σ : Type}
    (isOwner : List OwnerReference → String → Bool) (b : BGPResourceManager σ)
    (matchingNodes : List String) (bgppName : String) :
    ReportsOnlyLoggedFailures
      (deleteStaleNodeConfigsModel isOwner b.recording matchingNodes bgppName) :=
  foldl_gc_reports b.nodeConfigClient StoreCall.nodeConfig
    (fun o => !decide (o.Name ∈ matchingNodes) && isOwner o.OwnerReferences bgppName)
    (fun o => o.Name) b.nodeConfigStore.List

theorem reconcileBGPPAdvertisement_reports {σ : Type} (t : Char → Char)
    (isOwner : List OwnerReference → String → Bool) (b : BGPResourceManager σ)
    (bgpp : CiliumBGPPeeringPolicy)
    (hcache : ∀ k e, b.advertStore.GetByKey k ≠ Except.error e) :
    ReportsOnlyLoggedFailures (reconcileBGPPAdvertisement t isOwner b.recording bgpp) := by
  intro s
  have hloop := foldl_upsert_reports
    (fun p : CiliumBGPVirtualRouter × CiliumBGPNeighbor =>
      peerKeyFromBGPP t bgpp.Name p.1.LocalASN p.2.PeerAddress)
    (fun p s => updateAdvertisement b.recording bgpp
      (peerKeyFromBGPP t bgpp.Name p.1.LocalASN p.2.PeerAddress)
      (neighborAdvertisements p.1 p.2) s)
    (fun p => updateAdvertisement_reports b bgpp _ _ hcache)
    (neighborPairs bgpp) ([], [], s)
  rw [← advertLoop_eq] at hloop
  exact reports_then s (reconcileBGPPAdvertisementLoop t b.recording bgpp s).2.2
    (reconcileBGPPAdvertisementLoop t b.recording bgpp s).1
    (deleteStaleAdvertisement isOwner b.recording
      (reconcileBGPPAdvertisementLoop t b.recording bgpp s).2.1 bgpp.Name)
    (foldl_gc_reports b.advertClient StoreCall.advert
      (fun o => !decide (o.Name ∈ (reconcileBGPPAdvertisementLoop t b.recording bgpp s).2.1)
        && isOwner o.OwnerReferences bgpp.Name)
      (fun o => o.Name) b.advertStore.List)
    hloop.1 hloop.2

theorem reconcileBGPPPeerConfig_reports {σ : Type} (t : Char → Char)
    (isOwner : List OwnerReference → String → Bool) (b : BGPResourceManager σ)
    (bgpp : CiliumBGPPeeringPolicy)
    (hcache : ∀ k e, b.peerConfigStore.GetByKey k ≠ Except.error e) :
    ReportsOnlyLoggedFailures (reconcileBGPPPeerConfig t isOwner b.recording bgpp) := by
  intro s
  have hloop := foldl_upsert_reports
    (fun p : CiliumBGPVirtualRouter × CiliumBGPNeighbor =>
      peerKeyFromBGPP t bgpp.Name p.1.LocalASN p.2.PeerAddress)
    (fun p s => updatePeerConfig b.recording bgpp
      (peerKeyFromBGPP t bgpp.Name p.1.LocalASN p.2.PeerAddress)
      (neighborPeerSpec t bgpp p.1 p.2) s)
    (fun p => updatePeerConfig_reports b bgpp _ _ hcache)
    (neighborPairs bgpp) ([], [], s)
  rw [← peerConfigLoop_eq] at hloop
  exact reports_then s (reconcileBGPPPeerConfigLoop t b.recording bgpp s).2.2
    (reconcileBGPPPeerConfigLoop t b.recording bgpp s).1
    (deleteStalePeerConfig isOwner b.recording
      (reconcileBGPPPeerConfigLoop t b.recording bgpp s).2.1 bgpp.Name)
    (foldl_gc_reports b.peerConfigClient StoreCall.peerConfig
      (fun o => !decide (o.Name ∈ (reconcileBGPPPeerConfigLoop t b.recording bgpp s).2.1)
        && isOwner o.OwnerReferences bgpp.Name)
      (fun o => o.Name) b.peerConfigStore.List)
    hloop.1 hloop.2

theorem reconcileBGPPNodeConfig_reports {σ : Type} (t : Char → Char)
    (parsePrefix : String → Except GoError String)
    (getMatchingNodes : Option LabelSelector → String → Except GoError (List String))
    (deleteStaleNodeConfigs : List String → String → σ × List (StoreCall × GoError) →
      GoError × (σ × List (StoreCall × GoError)))
    (b : BGPResourceManager σ) (bgpp : CiliumBGPPeeringPolicy)
    (hcache : ∀ k e, b.nodeConfigStore.GetByKey k ≠ Except.error e)
    (hmatch : ∀ e, getMatchingNodes bgpp.Spec.NodeSelector bgpp.Name ≠ Except.error e)
    (hstale : ∀ nodes name, ReportsOnlyLoggedFailures (deleteStaleNodeConfigs nodes name)) :
    ReportsOnlyLoggedFailures (reconcileBGPPNodeConfig t parsePrefix getMatchingNodes
      deleteStaleNodeConfigs b.recording bgpp) := by
  intro s
  cases hm : getMatchingNodes bgpp.Spec.NodeSelector bgpp.Name with
  | error e => exact absurd hm (hmatch e)
  | ok nodes =>
    have hloop := foldl_join_reports
      (fun nodeRef s => upsertBGPPNodeConfig t parsePrefix b.recording bgpp nodeRef s)
      (fun nodeRef => upsertBGPPNodeConfig_reports t parsePrefix b bgpp nodeRef hcache)
      nodes ([], s)
    have hgoal := reports_then s
      (nodes.foldl (reconcileBGPPNodeConfigBody t parsePrefix b.recording bgpp) ([], s)).2
      (nodes.foldl (reconcileBGPPNodeConfigBody t parsePrefix b.recording bgpp) ([], s)).1
      (deleteStaleNodeConfigs nodes bgpp.Name) (hstale nodes bgpp.Name) hloop.1 hloop.2
    simp only [reconcileBGPPNodeConfig, hm]
    exact hgoal

theorem reconcileBGPPeeringPolicy_join {σ : Type} (t : Char → Char)
    (isOwner : List OwnerReference → String → Bool)
    (parsePrefix : String → Except GoError String)
    (SetDefaults : CiliumBGPPeeringPolicy → CiliumBGPPeeringPolicy)
    (getMatchingNodes : Option LabelSelector → String → Except GoError (List String))
    (deleteStaleNodeConfigs : List String → String → σ → GoError × σ)
    (b : BGPResourceManager σ) (bgpp : CiliumBGPPeeringPolicy) (s : σ) :
    reconcileBGPPeeringPolicy t isOwner parsePrefix SetDefaults getMatchingNodes
        deleteStaleNodeConfigs b bgpp s
      = ((reconcileBGPPAdvertisement t isOwner b (SetDefaults bgpp) s).1
          ++ (reconcileBGPPPeerConfig t isOwner b (SetDefaults bgpp)
              (reconcileBGPPAdvertisement t isOwner b (SetDefaults bgpp) s).2).1
          ++ (reconcileBGPPNodeConfig t parsePrefix getMatchingNodes deleteStaleNodeConfigs b
              (SetDefaults bgpp)
              (reconcileBGPPPeerConfig t isOwner b (SetDefaults bgpp)
                (reconcileBGPPAdvertisement t isOwner b (SetDefaults bgpp) s).2).2).1,
        (reconcileBGPPNodeConfig t parsePrefix getMatchingNodes deleteStaleNodeConfigs b
            (SetDefaults bgpp)
            (reconcileBGPPPeerConfig t isOwner b (SetDefaults bgpp)
              (reconcileBGPPAdvertisement t isOwner b (SetDefaults bgpp) s).2).2).2) := by
  simp only [reconcileBGPPeeringPolicy, errorsJoin]
  generalize reconcileBGPPAdvertisement t isOwner b (SetDefaults bgpp) s = ra
  generalize reconcileBGPPPeerConfig t isOwner b (SetDefaults bgpp) ra.2 = rp
  generalize reconcileBGPPNodeConfig t parsePrefix getMatchingNodes deleteStaleNodeConfigs b
    (SetDefaults bgpp) rp.2 = rn
  by_cases h1 : ra.1 = [] <;> by_cases h2 : rp.1 = [] <;> by_cases h3 : rn.1 = [] <;>
    simp [h1, h2, h3]

theorem reconcileBGPPeeringPolicy_reports {σ : Type} (t : Char → Char)
    (isOwner : List OwnerReference → String → Bool)
    (parsePrefix : String → Except GoError String)
    (SetDefaults : CiliumBGPPeeringPolicy → CiliumBGPPeeringPolicy)
    (getMatchingNodes : Option LabelSelector → String → Except GoError (List String))
    (deleteStaleNodeConfigs : List String → String → σ × List (StoreCall × GoError) →
      GoError × (σ × List (StoreCall × GoError)))
    (b : BGPResourceManager σ) (bgpp : CiliumBGPPeeringPolicy)
    (hA : ∀ k e, b.advertStore.GetByKey k ≠ Except.error e)
    (hP : ∀ k e, b.peerConfigStore.GetByKey k ≠ Except.error e)
    (hN : ∀ k e, b.nodeConfigStore.GetByKey k ≠ Except.error e)
    (hmatch : ∀ e, getMatchingNodes (SetDefaults bgpp).Spec.NodeSelector (SetDefaults bgpp).Name
      ≠ Except.error e)
    (hstale : ∀ nodes name, ReportsOnlyLoggedFailures (deleteStaleNodeConfigs nodes name)) :
    ReportsOnlyLoggedFailures (reconcileBGPPeeringPolicy t isOwner parsePrefix SetDefaults
      getMatchingNodes deleteStaleNodeConfigs b.recording bgpp) := by
  intro s
  rw [reconcileBGPPeeringPolicy_join]
  obtain ⟨⟨n₁, h₁⟩, e₁⟩ := reconcileBGPPAdvertisement_reports t isOwner b (SetDefaults bgpp) hA s
  obtain ⟨⟨n₂, h₂⟩, e₂⟩ := reconcileBGPPPeerConfig_reports t isOwner b (SetDefaults bgpp) hP
    (reconcileBGPPAdvertisement t isOwner b.recording (SetDefaults bgpp) s).2
  obtain ⟨⟨n₃, h₃⟩, e₃⟩ := reconcileBGPPNodeConfig_reports t parsePrefix getMatchingNodes
    deleteStaleNodeConfigs b (SetDefaults bgpp) hN hmatch hstale
    (reconcileBGPPPeerConfig t isOwner b.recording (SetDefaults bgpp)
      (reconcileBGPPAdvertisement t isOwner b.recording (SetDefaults bgpp) s).2).2
  refine ⟨⟨n₁ ++ n₂ ++ n₃, ?_⟩, fun hall => ?_⟩
  · show (reconcileBGPPNodeConfig t parsePrefix getMatchingNodes deleteStaleNodeConfigs
      b.recording (SetDefaults bgpp) _).2.2 = _
    rw [h₃, h₂, h₁]
    simp only [List.append_assoc]
  · have hall' : ∀ e ∈ (reconcileBGPPNodeConfig t parsePrefix getMatchingNodes
        deleteStaleNodeConfigs b.recording (SetDefaults bgpp)
        (reconcileBGPPPeerConfig t isOwner b.recording (SetDefaults bgpp)
          (reconcileBGPPAdvertisement t isOwner b.recording (SetDefaults bgpp) s).2).2).2.2,
        e.2 = [] := hall
    have z₃ := e₃ hall'
    have z₂ := e₂ fun e he => hall' e (by rw [h₃]; exact List.mem_append_left _ he)
    have z₁ := e₁ fun e he => hall' e (by
      rw [h₃, h₂]; exact List.mem_append_left _ (List.mem_append_left _ he))
    show _ ++ _ ++ _ = []
    rw [z₁, z₂, z₃]
    rfl

/-- C15, refuted as stated: `mixedPolicy` has exactly one neighbor whose peer
address does not parse; in its pass every store call succeeds and the node
matcher answers, and the pass returns nil, not an error with one failure. The
neighbor is skipped silently: the NodeConfig of `node-1` holds the one peer
`10.0.0.5`. -/
theorem C15_counterexample :
    (mixedPolicy.Spec.VirtualRouters.flatMap (fun vr => vr.Neighbors.filter (fun n =>
        !(prefixToAddr slashParsePrefix n.PeerAddress).toBool))).map
        (fun n => n.PeerAddress) = ["bogus"]
      ∧ (∀ e ∈ mixedPass.2.2, e.2 = [])
      ∧ mixedPass.1 = []
      ∧ mixedPass.2.2.length = 5
      ∧ mixedPass.2.1.nodeConfigs.map (fun o => (o.Name, o.Spec.BGPInstances.map
          (fun i => i.Peers.map (fun p => p.PeerAddress))))
        = [("node-1", [[some "10.0.0.5"]])] := by
  refine ⟨by decide, by decide, by decide, by decide, by decide⟩

/-- C15, amended: a pass of `reconcileBGPPeeringPolicy` returns nil whenever no
cache lookup fails, the node matcher answers, and every call the pass makes on
a client succeeds, whether or not the peer addresses of the neighbors parse:
a neighbor whose address does not parse adds no error to the pass. The
collaborator `deleteStaleNodeConfigs` is any step that only appends to the log
and returns nil when every logged call succeeded. -/
theorem C15_unparsable_neighbor_adds_no_error {σ : Type} (caseTable : Char → Char)
    (IsOwner : List OwnerReference → String → Bool)
    (parsePrefix : String → Except GoError String)
    (SetDefaults : CiliumBGPPeeringPolicy → CiliumBGPPeeringPolicy)
    (getMatchingNodes : Option LabelSelector → String → Except GoError (List String))
    (deleteStaleNodeConfigs : List String → String → σ × List (StoreCall × GoError) →
      GoError × (σ × List (StoreCall × GoError)))
    (b : BGPResourceManager σ) (bgpp : CiliumBGPPeeringPolicy) (s : σ)
    (hA : ∀ k e, b.advertStore.GetByKey k ≠ Except.error e)
    (hP : ∀ k e, b.peerConfigStore.GetByKey k ≠ Except.error e)
    (hN : ∀ k e, b.nodeConfigStore.GetByKey k ≠ Except.error e)
    (hmatch : ∀ e, getMatchingNodes (SetDefaults bgpp).Spec.NodeSelector (SetDefaults bgpp).Name
      ≠ Except.error e)
    (hstale : ∀ nodes name, ReportsOnlyLoggedFailures (deleteStaleNodeConfigs nodes name))
    (hcalls : ∀ e ∈ (reconcileBGPPeeringPolicy caseTable IsOwner parsePrefix SetDefaults
        getMatchingNodes deleteStaleNodeConfigs b.recording bgpp (s, [])).2.2, e.2 = []) :
    (reconcileBGPPeeringPolicy caseTable IsOwner parsePrefix SetDefaults getMatchingNodes
        deleteStaleNodeConfigs b.recording bgpp (s, [])).1 = [] :=
  (reconcileBGPPeeringPolicy_reports caseTable IsOwner parsePrefix SetDefaults getMatchingNodes
    deleteStaleNodeConfigs b bgpp hA hP hN hmatch hstale (s, [])).2 hcalls

/-- Witness of the amended C15 at `mixedPolicy`, one of whose two neighbors has
a peer address that does not parse: every call of the pass succeeds, and the
pass returns nil. -/
theorem C15_unparsable_neighbor_adds_no_error_witness :
    (∃ err, prefixToAddr slashParsePrefix "bogus" = Except.error err)
      ∧ (∀ e ∈ mixedPass.2.2, e.2 = [])
      ∧ mixedPass.1 = [] :=
  ⟨⟨_, rfl⟩, by decide,
    C15_unparsable_neighbor_adds_no_error id IsOwner slashParsePrefix id
      (fun _ _ => Except.ok ["node-1"])
      (deleteStaleNodeConfigsModel IsOwner (memManager emptyStore).recording)
      (memManager emptyStore) mixedPolicy emptyStore
      (by simp [memManager, snapshot]) (by simp [memManager, snapshot])
      (by simp [memManager, snapshot]) (by simp)
      (fun nodes name => deleteStaleNodeConfigsModel_reports IsOwner (memManager emptyStore)
        nodes name)
      (by decide)⟩

/-! ## The routing-instance key -/

theorem isNameChar_not_upper : ∀ n : Fin 128,
    isNameChar (Char.ofNat n) = true → (Char.ofNat n).isUpper = false := by
  decide

theorem nameChar_not_upper (c : Char) (h : isNameChar c = true) : c.isUpper = false :=
  ascii_cases (fun c => isNameChar c = true → c.isUpper = false) isNameChar_not_upper c
    (isNameChar_ascii c h) h

theorem instanceKey_data (p : String) (a : Int) :
    (instanceKeyFromBGPP p a).data = p.data ++ '-' :: (formatInt a).data := by
  simp [instanceKeyFromBGPP, String.data_append]

/-- C21: for every policy name that is a resource name (lower-case letters,
digits, `-` and `.`, the characters of a Kubernetes object name) and every
local ASN, `instanceKeyFromBGPP` is the policy name joined to the decimal ASN
by `-`, and the key contains no uppercase letter: each of its characters is a
lower-case letter, a digit, `-` or `.`, and lower-casing the key changes
nothing. The function itself does not lower-case; the characters it adds to
the name are `-` and decimal digits. -/
theorem C21_instanceKey_is_lowercase_join (caseTable : Char → Char) (p : String) (a : Int)
    (hp : ∀ c ∈ p.data, isNameChar c = true) :
    instanceKeyFromBGPP p a = p ++ "-" ++ formatInt a
      ∧ (instanceKeyFromBGPP p a).data = p.data ++ '-' :: (formatInt a).data
      ∧ (∀ c ∈ (instanceKeyFromBGPP p a).data, isNameChar c = true ∧ c.isUpper = false)
      ∧ ToLower caseTable (instanceKeyFromBGPP p a) = instanceKeyFromBGPP p a := by
  have hkey : ∀ c ∈ (instanceKeyFromBGPP p a).data, isNameChar c = true := by
    intro c hc
    rw [instanceKey_data] at hc
    rcases List.mem_append.mp hc with hc | hc
    · exact hp c hc
    · rcases List.mem_cons.mp hc with rfl | hc
      · decide
      · exact formatInt_nameChars a c hc
  refine ⟨rfl, instanceKey_data p a, fun c hc => ⟨hkey c hc, nameChar_not_upper c (hkey c hc)⟩, ?_⟩
  have hmap : (instanceKeyFromBGPP p a).data.map (unicodeToLower caseTable)
      = (instanceKeyFromBGPP p a).data := by
    conv_rhs => rw [← List.map_id (instanceKeyFromBGPP p a).data]
    exact List.map_congr_left (fun c hc => nameChar_fixed caseTable c (hkey c hc))
  show (⟨(instanceKeyFromBGPP p a).data.map (unicodeToLower caseTable)⟩ : String)
    = instanceKeyFromBGPP p a
  rw [hmap]

/-- Witness of C21 at the policy `rack-1.a` and the ASN 65001: the key is
`rack-1.a-65001`. -/
theorem C21_instanceKey_is_lowercase_join_witness :
    (∀ c ∈ ("rack-1.a" : String).data, isNameChar c = true)
      ∧ instanceKeyFromBGPP "rack-1.a" 65001 = "rack-1.a-65001"
      ∧ (∀ c ∈ (instanceKeyFromBGPP "rack-1.a" 65001).data,
          isNameChar c = true ∧ c.isUpper = false) :=
  ⟨by decide, by decide,
    (C21_instanceKey_is_lowercase_join id "rack-1.a" 65001 (by decide)).2.2.1⟩

/-! ## CIDR groups -/

theorem split_foldl (rules : List CIDRRule) :
    ∀ acc : List CIDRRule × List CIDRRule,
      rules.foldl
        (fun (acc : List CIDRRule × List CIDRRule) rule =>
          if rule.CIDRGroupRef = "" then (acc.1 ++ [rule], acc.2) else (acc.1, acc.2 ++ [rule]))
        acc
      = (acc.1 ++ rules.filter (fun rule => rule.CIDRGroupRef = ""),
          acc.2 ++ rules.filter (fun rule => rule.CIDRGroupRef ≠ "")) := by
  induction rules with
  | nil => intro acc; simp
  | cons r rs ih =>
    intro acc
    rw [List.foldl_cons, ih]
    by_cases h : r.CIDRGroupRef = "" <;> simp [h, List.filter_cons]

theorem cidrs_foldl (ex : List String) (cidrs : List String) :
    ∀ acc : List CIDRRule,
      cidrs.foldl
        (fun (newRules : List CIDRRule) cidr =>
          newRules ++ [{ Cidr := cidr, CIDRGroupRef := "", ExceptCIDRs := ex }])
        acc
      = acc ++ cidrs.map (fun cidr => { Cidr := cidr, CIDRGroupRef := "", ExceptCIDRs := ex }) := by
  induction cidrs with
  | nil => intro acc; simp
  | cons c cs ih => intro acc; rw [List.foldl_cons, ih]; simp

theorem refRules_foldl (m : String → Option (List String)) (refRules : List CIDRRule) :
    ∀ acc : List CIDRRule,
      refRules.foldl
        (fun (newRules : List CIDRRule) refRule =>
          match m refRule.CIDRGroupRef with
          | none => newRules
          | some cidrs =>
            if cidrs.length = 0 then newRules
            else
              cidrs.foldl
                (fun (newRules : List CIDRRule) cidr =>
                  newRules ++ [{ Cidr := cidr, CIDRGroupRef := "",
                                 ExceptCIDRs := refRule.ExceptCIDRs }])
                newRules)
        acc
      = acc ++ refRules.flatMap (fun refRule =>
          ((m refRule.CIDRGroupRef).getD []).map (fun cidr =>
            { Cidr := cidr, CIDRGroupRef := "", ExceptCIDRs := refRule.ExceptCIDRs })) := by
  induction refRules with
  | nil => intro acc; simp
  | cons r rs ih =>
    intro acc
    rw [List.foldl_cons, ih, List.flatMap_cons]
    cases hm : m r.CIDRGroupRef with
    | none => simp
    | some cidrs =>
      by_cases hl : cidrs.length = 0
      · have : cidrs = [] := List.length_eq_zero.mp hl
        simp [this]
      · simp only [hl, if_false, cidrs_foldl, Option.getD_some, List.append_assoc]

theorem translateIngress_eq (m : String → Option (List String)) (ingress : IngressRule) :
    (translateIngress m ingress).FromCIDRSet = translatedRulesSpec m ingress.FromCIDRSet := by
  simp only [translateIngress, translatedRulesSpec, split_foldl, refRules_foldl,
    List.nil_append]

theorem refRules_drop (m : String → Option (List String)) (refRule : CIDRRule)
    (hnil : (m refRule.CIDRGroupRef).getD [] = []) (rules : List CIDRRule) :
    (rules.filter (fun rule => rule.CIDRGroupRef ≠ "")).flatMap (fun refRule =>
        ((m refRule.CIDRGroupRef).getD []).map (fun cidr =>
          ({ Cidr := cidr, CIDRGroupRef := "", ExceptCIDRs := refRule.ExceptCIDRs } : CIDRRule)))
      = ((rules.filter (fun rule => rule ≠ refRule)).filter
          (fun rule => rule.CIDRGroupRef ≠ "")).flatMap (fun refRule =>
        ((m refRule.CIDRGroupRef).getD []).map (fun cidr =>
          ({ Cidr := cidr, CIDRGroupRef := "", ExceptCIDRs := refRule.ExceptCIDRs } : CIDRRule))) := by
  induction rules with
  | nil => rfl
  | cons r rs ih =>
    by_cases hr : r = refRule
    · subst hr
      by_cases h0 : r.CIDRGroupRef = ""
      · simpa [List.filter_cons, h0] using ih
      · simpa [List.filter_cons, h0, hnil] using ih
    · by_cases h0 : r.CIDRGroupRef = ""
      · simpa [List.filter_cons, hr, h0] using ih
      · simpa [List.filter_cons, hr, h0] using ih

/-- C26: `translateSpec` rewrites the `FromCIDRSet` of every ingress entry to
the rules without a reference, unchanged and in their order, followed, for the
rules with a reference in their order, by one rule for each CIDR of the map
entry of the reference, in the order of the entry, with that CIDR, the
exceptions of the referencing rule and no reference; a reference that the map
lacks or maps to the empty list adds no rule. No rule of the output carries a
reference, and the output has as many rules as there are rules without a
reference plus the CIDRs of the map entries of the referencing rules.
`translateCIDRGroupRefs` applies it to `Spec` and to every non-nil entry of
`Specs`. -/
theorem C26_translateSpec_expands_references (spec : Rule)
    (cidrsSets : String → Option (List String)) (cnp : SlimCNP) :
    (translateSpec spec cidrsSets).Ingress.map (fun ingress => ingress.FromCIDRSet)
        = spec.Ingress.map (fun ingress => translatedRulesSpec cidrsSets ingress.FromCIDRSet)
      ∧ (∀ rules : List CIDRRule,
          (∀ rule ∈ translatedRulesSpec cidrsSets rules, rule.CIDRGroupRef = "")
          ∧ (translatedRulesSpec cidrsSets rules).length
            = (rules.filter (fun rule => rule.CIDRGroupRef = "")).length
              + ((rules.filter (fun rule => rule.CIDRGroupRef ≠ "")).map (fun refRule =>
                  ((cidrsSets refRule.CIDRGroupRef).getD []).length)).sum
          ∧ (∀ refRule ∈ rules, refRule.CIDRGroupRef ≠ "" →
              (cidrsSets refRule.CIDRGroupRef = none ∨ cidrsSets refRule.CIDRGroupRef = some []) →
              translatedRulesSpec cidrsSets rules
                = translatedRulesSpec cidrsSets (rules.filter (fun rule => rule ≠ refRule))))
      ∧ (translateCIDRGroupRefs cnp cidrsSets).Spec
        = cnp.Spec.map (fun spec => translateSpec spec cidrsSets)
      ∧ (translateCIDRGroupRefs cnp cidrsSets).Specs
        = cnp.Specs.map (fun spec => spec.map (fun spec => translateSpec spec cidrsSets)) := by
  refine ⟨?_, fun rules => ⟨?_, ?_, ?_⟩, rfl, rfl⟩
  · simp only [translateSpec, List.map_map]
    apply List.map_congr_left
    intro ingress _
    exact translateIngress_eq cidrsSets ingress
  · intro rule hrule
    simp only [translatedRulesSpec, List.mem_append, List.mem_filter, List.mem_flatMap,
      List.mem_map] at hrule
    rcases hrule with ⟨_, h⟩ | ⟨r, _, cidr, _, rfl⟩
    · simpa using h
    · rfl
  · simp only [translatedRulesSpec, List.length_append, List.length_flatMap, List.length_map,
      Function.comp_def]
  · intro refRule _ href hm
    have hnil : ((cidrsSets refRule.CIDRGroupRef).getD []) = [] := by
      rcases hm with h | h <;> simp [h]
    simp only [translatedRulesSpec]
    rw [← refRules_drop cidrsSets refRule hnil rules]
    congr 1
    rw [List.filter_filter]
    apply List.filter_congr
    intro r _
    by_cases hr : r = refRule
    · subst hr; simp [href]
    · simp [hr]

theorem parseIPv4Loop_digits (len : Nat) (rest : List Char) :
    ∀ (ds : List Char) (i : Nat) (prev : Char) (st : IPv4Scan) (v n : Nat),
      (∀ c ∈ ds, isDigitRune c = true) →
      scanOctet (st.val, st.digLen) ds = some (v, n) →
      parseIPv4Loop len (ds ++ rest) i prev st
        = parseIPv4Loop len rest (i + ds.length) (ds.getLast?.getD prev)
            { st with val := v, digLen := n } := by
  intro ds
  induction ds with
  | nil =>
    intro i prev st v n _ h
    simp only [scanOctet, Option.some.injEq, Prod.mk.injEq] at h
    obtain ⟨rfl, rfl⟩ := h
    simp
  | cons c cs ih =>
    intro i prev st v n hd h
    have hc : '0'.toNat ≤ c.toNat ∧ c.toNat ≤ '9'.toNat := by
      have := hd c (by simp)
      simpa [isDigitRune] using this
    simp only [scanOctet] at h
    by_cases hz : st.digLen = 1 ∧ st.val = 0
    · simp [hz] at h
    · simp only [hz, if_false] at h
      by_cases hv : st.val * 10 + (c.toNat - '0'.toNat) > 255
      · rw [if_pos hv] at h
        cases h
      · rw [if_neg hv] at h
        have hrec := ih (i + 1) c
          { st with val := st.val * 10 + (c.toNat - '0'.toNat), digLen := st.digLen + 1 } v n
          (fun x hx => hd x (by simp [hx])) h
        simp only [List.cons_append, parseIPv4Loop, hc, and_self, if_true, hz, if_false, hv]
        refine hrec.trans ?_
        have hlast : (c :: cs).getLast?.getD prev = cs.getLast?.getD c := by
          cases cs with
          | nil => rfl
          | cons x xs =>
            rw [List.getLast?_cons_cons, List.getLast?_eq_getLast _ (List.cons_ne_nil x xs)]
            rfl
        rw [hlast]
        simp only [List.length_cons]
        congr 1
        omega

set_option maxRecDepth 100000 in
theorem octet_table : ∀ n : Fin 256,
    (∀ c ∈ Nat.toDigits 10 n, isDigitRune c = true)
      ∧ Nat.toDigits 10 n ≠ []
      ∧ scanOctet (0, 0) (Nat.toDigits 10 n) = some (n.val, (Nat.toDigits 10 n).length) := by
  decide

theorem last_digit_ne_dot (ds : List Char) (prev : Char) (hne : ds ≠ [])
    (hd : ∀ c ∈ ds, isDigitRune c = true) : ds.getLast?.getD prev ≠ '.' := by
  rw [List.getLast?_eq_getLast _ hne, Option.getD_some]
  intro h
  have := hd _ (List.getLast_mem hne)
  rw [h] at this
  exact absurd this (by decide)

theorem parseIPv4Loop_octet_dot (len : Nat) (rest : List Char) (n : Nat) (hn : n ≤ 255)
    (i : Nat) (prev : Char) (f : List Nat) (hf : f.length ≠ 3)
    (hl : i + (Nat.toDigits 10 n).length + 1 < len) :
    parseIPv4Loop len (Nat.toDigits 10 n ++ '.' :: rest) i prev
        { fields := f, val := 0, digLen := 0 }
      = parseIPv4Loop len rest (i + (Nat.toDigits 10 n).length + 1) '.'
          { fields := f ++ [n], val := 0, digLen := 0 } := by
  obtain ⟨hd, hne, hscan⟩ := octet_table ⟨n, by omega⟩
  simp only [] at hd hne hscan
  rw [parseIPv4Loop_digits len ('.' :: rest) (Nat.toDigits 10 n) i prev
    { fields := f, val := 0, digLen := 0 } n (Nat.toDigits 10 n).length hd hscan]
  have hlen : (Nat.toDigits 10 n).length ≠ 0 := fun h => hne (List.length_eq_zero.mp h)
  have hi : ¬ (i + (Nat.toDigits 10 n).length = 0
      ∨ i + (Nat.toDigits 10 n).length = len - 1
      ∨ (Nat.toDigits 10 n).getLast?.getD prev = '.') := by
    intro h
    rcases h with h | h | h
    · omega
    · omega
    · exact last_digit_ne_dot _ prev hne hd h
  have hdot : ¬ ('0'.toNat ≤ '.'.toNat ∧ '.'.toNat ≤ '9'.toNat) := by decide
  simp only [parseIPv4Loop, hdot, if_false, if_true, hi, hf]

theorem parseIPv4Loop_octet_end (len : Nat) (n : Nat) (hn : n ≤ 255)
    (i : Nat) (prev : Char) (f : List Nat) :
    parseIPv4Loop len (Nat.toDigits 10 n) i prev { fields := f, val := 0, digLen := 0 }
      = Except.ok { fields := f, val := n, digLen := (Nat.toDigits 10 n).length } := by
  obtain ⟨hd, _, hscan⟩ := octet_table ⟨n, by omega⟩
  simp only [] at hd hscan
  have h := parseIPv4Loop_digits len [] (Nat.toDigits 10 n) i prev
    { fields := f, val := 0, digLen := 0 } n (Nat.toDigits 10 n).length hd hscan
  rw [List.append_nil] at h
  rw [h]
  rfl

theorem parseIPv4_dottedQuad (a b c d : Nat) (ha : a ≤ 255) (hb : b ≤ 255) (hc : c ≤ 255)
    (hd : d ≤ 255) : parseIPv4 (dottedQuad a b c d) = Except.ok (Addr.v4 [a, b, c, d]) := by
  have hlen : (dottedQuad a b c d).data.length
      = (Nat.toDigits 10 a).length + (Nat.toDigits 10 b).length + (Nat.toDigits 10 c).length
        + (Nat.toDigits 10 d).length + 3 := by
    simp only [dottedQuad, List.length_append, List.length_cons]
    omega
  have hdlen : (Nat.toDigits 10 d).length ≠ 0 :=
    fun h => (octet_table ⟨d, by omega⟩).2.1 (List.length_eq_zero.mp h)
  unfold parseIPv4
  rw [hlen]
  simp only [dottedQuad]
  rw [parseIPv4Loop_octet_dot _ _ a ha 0 '.' [] (by simp) (by omega),
    parseIPv4Loop_octet_dot _ _ b hb _ '.' _ (by simp) (by omega),
    parseIPv4Loop_octet_dot _ _ c hc _ '.' _ (by simp) (by omega),
    parseIPv4Loop_octet_end _ d hd]
  simp

theorem addrString_v4 (a b c d : Nat) : addrString (Addr.v4 [a, b, c, d]) = dottedQuad a b c d := by
  simp [addrString, dottedQuad, String.intercalate, String.intercalate.go, String.ext_iff]

theorem ParseAddrScan_digits (p6 : String → Except GoError (String × String)) (s : String)
    (rest : List Char) (ds : List Char) (hd : ∀ c ∈ ds, isDigitRune c = true) :
    ParseAddrScan p6 s (ds ++ '.' :: rest) = parseIPv4 s := by
  induction ds with
  | nil => simp [ParseAddrScan]
  | cons c cs ih =>
    have hc := hd c (by simp)
    have h1 : c ≠ '.' := by intro h; rw [h] at hc; exact absurd hc (by decide)
    have h2 : c ≠ ':' := by intro h; rw [h] at hc; exact absurd hc (by decide)
    have h3 : c ≠ '%' := by intro h; rw [h] at hc; exact absurd hc (by decide)
    simp only [List.cons_append, ParseAddrScan, h1, h2, h3, if_false]
    exact ih fun x hx => hd x (by simp [hx])

theorem ParseAddr_dottedQuad (p6 : String → Except GoError (String × String))
    (a b c d : Nat) (ha : a ≤ 255) (hb : b ≤ 255) (hc : c ≤ 255) (hd : d ≤ 255) :
    ParseAddr p6 (dottedQuad a b c d) = Except.ok (Addr.v4 [a, b, c, d]) := by
  unfold ParseAddr
  rw [← parseIPv4_dottedQuad a b c d ha hb hc hd]
  exact ParseAddrScan_digits p6 (dottedQuad a b c d) _ (Nat.toDigits 10 a)
    (octet_table ⟨a, by omega⟩).1

theorem LastIndexByteString_none (c : Char) (l : List Char) (h : c ∉ l) :
    LastIndexByteString c l = none := by
  induction l with
  | nil => rfl
  | cons x xs ih =>
    have hx : x ≠ c := fun hxc => h (by simp [hxc])
    have hxs : c ∉ xs := fun hm => h (by simp [hm])
    simp [LastIndexByteString, ih hxs, hx]

theorem LastIndexByteString_last (c : Char) (ys : List Char) (h : c ∉ ys) :
    ∀ xs : List Char, LastIndexByteString c (xs ++ c :: ys) = some xs.length := by
  intro xs
  induction xs with
  | nil => simp [LastIndexByteString, LastIndexByteString_none c ys h]
  | cons x xs ih => simp [LastIndexByteString, ih]

theorem digits_no_slash (n : Nat) (hn : n ≤ 255) : '/' ∉ Nat.toDigits 10 n := by
  intro h
  exact absurd ((octet_table ⟨n, by omega⟩).1 _ h) (by decide)

theorem dottedQuad_no_slash (a b c d : Nat) (ha : a ≤ 255) (hb : b ≤ 255) (hc : c ≤ 255)
    (hd : d ≤ 255) : '/' ∉ (dottedQuad a b c d).data := by
  simp only [dottedQuad, List.mem_append, List.mem_cons, not_or]
  exact ⟨digits_no_slash a ha, by decide, digits_no_slash b hb, by decide,
    digits_no_slash c hc, by decide, digits_no_slash d hd⟩

theorem take_before {α : Type} (l r : List α) (x : α) : (l ++ x :: r).take l.length = l := by
  simp

theorem drop_after {α : Type} (l r : List α) (x : α) : (l ++ x :: r).drop (l.length + 1) = r := by
  simp

theorem parseBits_table : ∀ n : Fin 129, parseBits (Nat.toDigits 10 n) = Except.ok n.val := by
  decide

theorem ParsePrefix_dottedQuad (p6 : String → Except GoError (String × String))
    (a b c d : Nat) (ha : a ≤ 255) (hb : b ≤ 255) (hc : c ≤ 255) (hd : d ≤ 255)
    (bits : Nat) (hbits : bits ≤ 32) :
    ParsePrefix p6 (dottedQuad a b c d ++ "/" ++ ⟨Nat.toDigits 10 bits⟩)
      = Except.ok (Addr.v4 [a, b, c, d], bits) := by
  have hdata : (dottedQuad a b c d ++ "/" ++ (⟨Nat.toDigits 10 bits⟩ : String)).data
      = (dottedQuad a b c d).data ++ '/' :: Nat.toDigits 10 bits := by
    simp [String.data_append]
  have hb0 : '/' ∉ Nat.toDigits 10 bits := digits_no_slash bits (by omega)
  have hpb : parseBits (Nat.toDigits 10 bits) = Except.ok bits := parseBits_table ⟨bits, by omega⟩
  have hle : ¬ bits > 32 := by omega
  unfold ParsePrefix
  rw [hdata, LastIndexByteString_last '/' _ hb0]
  simp only [take_before, drop_after]
  have htake : (⟨(dottedQuad a b c d).data⟩ : String) = dottedQuad a b c d := rfl
  rw [htake, ParseAddr_dottedQuad p6 a b c d ha hb hc hd]
  simp only [hpb, hle, if_false]

theorem not_mem_of_LastIndexByteString_none (c : Char) :
    ∀ l : List Char, LastIndexByteString c l = none → c ∉ l := by
  intro l
  induction l with
  | nil => intro _; simp
  | cons x xs ih =>
    intro h
    simp only [LastIndexByteString] at h
    cases hx : LastIndexByteString c xs with
    | some j => rw [hx] at h; simp at h
    | none =>
      rw [hx] at h
      by_cases hxc : x = c
      · simp [hxc] at h
      · intro hm
        rcases List.mem_cons.mp hm with h1 | h1
        · exact hxc h1.symm
        · exact ih hx h1

theorem LastIndexByteString_some (c : Char) :
    ∀ (l : List Char) (i : Nat), LastIndexByteString c l = some i →
      l = l.take i ++ c :: l.drop (i + 1) ∧ c ∉ l.drop (i + 1) := by
  intro l
  induction l with
  | nil => intro i h; simp [LastIndexByteString] at h
  | cons x xs ih =>
    intro i h
    simp only [LastIndexByteString] at h
    cases hx : LastIndexByteString c xs with
    | some j =>
      rw [hx] at h
      simp only [Option.some.injEq] at h
      subst h
      obtain ⟨h1, h2⟩ := ih j hx
      refine ⟨?_, by simpa using h2⟩
      simp only [List.take_succ_cons, List.drop_succ_cons, List.cons_append]
      rw [← h1]
    | none =>
      rw [hx] at h
      by_cases hxc : x = c
      · simp only [hxc, if_true, Option.some.injEq] at h
        subst h
        subst hxc
        refine ⟨by simp, ?_⟩
        simp only [Nat.zero_add, List.drop_succ_cons, List.drop_zero]
        exact not_mem_of_LastIndexByteString_none x xs hx
      · simp [hxc] at h

/-- C22: for every IPv4 address in canonical dotted-quad form, whose octets are
at most 255 and written without leading zeros, `prefixToAddr` of the address
followed by `/32` succeeds and returns the address string itself; the same
holds for every prefix length up to 32 in canonical decimal. -/
theorem C22_canonical_ipv4_prefix_gives_bare_address
    (parseIPv6 : String → Except GoError (String × String)) (a b c d : Nat)
    (ha : a ≤ 255) (hb : b ≤ 255) (hc : c ≤ 255) (hd : d ≤ 255) :
    prefixToAddr (netipPrefixAddr parseIPv6) (dottedQuad a b c d ++ "/32")
        = Except.ok (dottedQuad a b c d)
      ∧ ∀ bits, bits ≤ 32 →
        prefixToAddr (netipPrefixAddr parseIPv6)
            (dottedQuad a b c d ++ "/" ++ ⟨Nat.toDigits 10 bits⟩)
          = Except.ok (dottedQuad a b c d) := by
  have hall : ∀ bits, bits ≤ 32 →
      prefixToAddr (netipPrefixAddr parseIPv6)
          (dottedQuad a b c d ++ "/" ++ ⟨Nat.toDigits 10 bits⟩)
        = Except.ok (dottedQuad a b c d) := by
    intro bits hbits
    simp only [prefixToAddr, netipPrefixAddr,
      ParsePrefix_dottedQuad parseIPv6 a b c d ha hb hc hd bits hbits, addrString_v4]
  refine ⟨?_, hall⟩
  have h32 : dottedQuad a b c d ++ "/32"
      = dottedQuad a b c d ++ "/" ++ (⟨Nat.toDigits 10 32⟩ : String) := by
    rw [String.append_assoc]
    rfl
  rw [h32]
  exact hall 32 (by omega)

/-- Witness of C22 at `10.0.0.5`. -/
theorem C22_canonical_ipv4_prefix_gives_bare_address_witness :
    dottedQuad 10 0 0 5 = "10.0.0.5"
      ∧ prefixToAddr (netipPrefixAddr (fun _ => Except.error [])) ("10.0.0.5" ++ "/32")
        = Except.ok "10.0.0.5" :=
  ⟨by decide,
    (C22_canonical_ipv4_prefix_gives_bare_address (fun _ => Except.error []) 10 0 0 5
      (by decide) (by decide) (by decide) (by decide)).1⟩

/-! ## Failures that do not stop a pass -/

theorem infix_of_eq {α : Type} (l : List α) : l <:+: l := List.infix_refl l

theorem updateAdvertisement_surfaces {σ : Type} (b : BGPResourceManager σ)
    (bgpp : CiliumBGPPeeringPolicy) (name : String) (adverts : List Advertisement) :
    ReportsEveryFailure (updateAdvertisement b.recording bgpp name adverts) := by
  intro sl
  obtain ⟨s, log⟩ := sl
  cases hget : b.advertStore.GetByKey name with
  | error e =>
    exact ⟨[], by simp [updateAdvertisement, BGPResourceManager.recording, hget], by simp⟩
  | ok found =>
    by_cases hlen : adverts.length = 0
    · cases found with
      | none =>
        exact ⟨[], by simp [updateAdvertisement, BGPResourceManager.recording, hget, hlen],
          by simp⟩
      | some prev =>
        refine ⟨[(StoreCall.advert (Call.Delete name), (b.advertClient.Delete name s).1)],
          ?_, ?_⟩
        · simp only [updateAdvertisement, BGPResourceManager.recording, hget, hlen, if_true]
          split <;> rfl
        · intro e he hard
          simp only [List.mem_singleton] at he
          subst he
          obtain ⟨h1, h2, _⟩ := hard
          simp only [] at h1 h2
          simp [updateAdvertisement, BGPResourceManager.recording, Client.recording, hget,
            hlen, h1, h2]
    · cases found with
      | some prev =>
        by_cases hs : prev.Spec = { Advertisements := adverts }
        · exact ⟨[], by simp [updateAdvertisement, BGPResourceManager.recording, hget, hlen, hs],
            by simp⟩
        · refine ⟨[(StoreCall.advert (Call.Update { prev with Spec := { Advertisements := adverts } }),
            (b.advertClient.Update { prev with Spec := { Advertisements := adverts } } s).1)],
            ?_, ?_⟩
          · simp [updateAdvertisement, BGPResourceManager.recording, Client.recording, hget,
              hlen, hs]
          · intro e he _
            simp only [List.mem_singleton] at he
            subst he
            simp [updateAdvertisement, BGPResourceManager.recording, Client.recording, hget,
              hlen, hs]
      | none =>
        by_cases hnil : (b.advertClient.Create (newAdvertisement bgpp name adverts) s).1 = []
        · refine ⟨[(StoreCall.advert (Call.Create (newAdvertisement bgpp name adverts)),
            (b.advertClient.Create (newAdvertisement bgpp name adverts) s).1)], ?_, ?_⟩
          · simp [updateAdvertisement, BGPResourceManager.recording, Client.recording, hget,
              hlen, hnil]
          · intro e he hard
            simp only [List.mem_singleton] at he
            subst he
            exact absurd hnil hard.1
        · by_cases hex : IsAlreadyExists
              (b.advertClient.Create (newAdvertisement bgpp name adverts) s).1 = true
          · cases hg : (b.advertClient.Get name
                (b.advertClient.Create (newAdvertisement bgpp name adverts) s).2).1 with
            | error e =>
              refine ⟨[(StoreCall.advert (Call.Create (newAdvertisement bgpp name adverts)),
                  (b.advertClient.Create (newAdvertisement bgpp name adverts) s).1),
                (StoreCall.advert (Call.Get name), e)], ?_, ?_⟩
              · simp [updateAdvertisement, BGPResourceManager.recording, Client.recording, hget,
                  hlen, hnil, hex, hg, getError]
              · intro x hx hard
                simp only [List.mem_cons, List.mem_singleton, List.not_mem_nil, or_false] at hx
                rcases hx with rfl | rfl
                · have := hard.2.2
                  simp only [] at this
                  rw [hex] at this
                  cases this
                · simp [updateAdvertisement, BGPResourceManager.recording, Client.recording,
                    hget, hlen, hnil, hex, hg]
            | ok prev =>
              by_cases hs : prev.Spec = { Advertisements := adverts }
              · refine ⟨[(StoreCall.advert (Call.Create (newAdvertisement bgpp name adverts)),
                    (b.advertClient.Create (newAdvertisement bgpp name adverts) s).1),
                  (StoreCall.advert (Call.Get name), [])], ?_, ?_⟩
                · simp [updateAdvertisement, BGPResourceManager.recording, Client.recording,
                    hget, hlen, hnil, hex, hg, hs, getError]
                · intro x hx hard
                  simp only [List.mem_cons, List.mem_singleton, List.not_mem_nil, or_false] at hx
                  rcases hx with rfl | rfl
                  · have := hard.2.2
                    simp only [] at this
                    rw [hex] at this
                    cases this
                  · exact absurd rfl hard.1
              · refine ⟨[(StoreCall.advert (Call.Create (newAdvertisement bgpp name adverts)),
                    (b.advertClient.Create (newAdvertisement bgpp name adverts) s).1),
                  (StoreCall.advert (Call.Get name), []),
                  (StoreCall.advert (Call.Update
                      { prev with Spec := { Advertisements := adverts } }),
                    (b.advertClient.Update { prev with Spec := { Advertisements := adverts } }
                      (b.advertClient.Get name
                        (b.advertClient.Create (newAdvertisement bgpp name adverts) s).2).2).1)],
                  ?_, ?_⟩
                · simp [updateAdvertisement, BGPResourceManager.recording, Client.recording,
                    hget, hlen, hnil, hex, hg, hs, getError]
                · intro x hx hard
                  simp only [List.mem_cons, List.mem_singleton, List.not_mem_nil, or_false] at hx
                  rcases hx with rfl | rfl | rfl
                  · have := hard.2.2
                    simp only [] at this
                    rw [hex] at this
                    cases this
                  · exact absurd rfl hard.1
                  · simp [updateAdvertisement, BGPResourceManager.recording, Client.recording,
                      hget, hlen, hnil, hex, hg, hs]
          · refine ⟨[(StoreCall.advert (Call.Create (newAdvertisement bgpp name adverts)),
              (b.advertClient.Create (newAdvertisement bgpp name adverts) s).1)], ?_, ?_⟩
            · simp [updateAdvertisement, BGPResourceManager.recording, Client.recording, hget,
                hlen, hnil, hex]
            · intro e he _
              simp only [List.mem_singleton] at he
              subst he
              simp [updateAdvertisement, BGPResourceManager.recording, Client.recording, hget,
                hlen, hnil, hex]

theorem updatePeerConfig_surfaces {σ : Type} (b : BGPResourceManager σ)
    (bgpp : CiliumBGPPeeringPolicy) (name : String) (spec : CiliumBGPPeerConfigSpec) :
    ReportsEveryFailure (updatePeerConfig b.recording bgpp name spec) := by
  intro sl
  obtain ⟨s, log⟩ := sl
  cases hget : b.peerConfigStore.GetByKey name with
  | error e =>
    exact ⟨[], by simp [updatePeerConfig, BGPResourceManager.recording, hget], by simp⟩
  | ok found =>
    cases found with
    | some prev =>
      by_cases hs : prev.Spec = spec
      · exact ⟨[], by simp [updatePeerConfig, BGPResourceManager.recording, hget, hs],
          by simp⟩
      · refine ⟨[(StoreCall.peerConfig (Call.Update { prev with Spec := spec }),
          (b.peerConfigClient.Update { prev with Spec := spec } s).1)],
          ?_, ?_⟩
        · simp [updatePeerConfig, BGPResourceManager.recording, Client.recording, hget,
            hs]
        · intro e he _
          simp only [List.mem_singleton] at he
          subst he
          simp [updatePeerConfig, BGPResourceManager.recording, Client.recording, hget,
            hs]
    | none =>
      by_cases hnil : (b.peerConfigClient.Create (newPeerConfig bgpp name spec) s).1 = []
      · refine ⟨[(StoreCall.peerConfig (Call.Create (newPeerConfig bgpp name spec)),
          (b.peerConfigClient.Create (newPeerConfig bgpp name spec) s).1)], ?_, ?_⟩
        · simp [updatePeerConfig, BGPResourceManager.recording, Client.recording, hget,
            hnil]
        · intro e he hard
          simp only [List.mem_singleton] at he
          subst he
          exact absurd hnil hard.1
      · by_cases hex : IsAlreadyExists
            (b.peerConfigClient.Create (newPeerConfig bgpp name spec) s).1 = true
        · cases hg : (b.peerConfigClient.Get name
              (b.peerConfigClient.Create (newPeerConfig bgpp name spec) s).2).1 with
          | error e =>
            refine ⟨[(StoreCall.peerConfig (Call.Create (newPeerConfig bgpp name spec)),
                (b.peerConfigClient.Create (newPeerConfig bgpp name spec) s).1),
              (StoreCall.peerConfig (Call.Get name), e)], ?_, ?_⟩
            · simp [updatePeerConfig, BGPResourceManager.recording, Client.recording, hget,
                hnil, hex, hg, getError]
            · intro x hx hard
              simp only [List.mem_cons, List.mem_singleton, List.not_mem_nil, or_false] at hx
              rcases hx with rfl | rfl
              · have := hard.2.2
                simp only [] at this
                rw [hex] at this
                cases this
              · simp [updatePeerConfig, BGPResourceManager.recording, Client.recording,
                  hget, hnil, hex, hg]
          | ok prev =>
            by_cases hs : prev.Spec = spec
            · refine ⟨[(StoreCall.peerConfig (Call.Create (newPeerConfig bgpp name spec)),
                  (b.peerConfigClient.Create (newPeerConfig bgpp name spec) s).1),
                (StoreCall.peerConfig (Call.Get name), [])], ?_, ?_⟩
              · simp [updatePeerConfig, BGPResourceManager.recording, Client.recording,
                  hget, hnil, hex, hg, hs, getError]
              · intro x hx hard
                simp only [List.mem_cons, List.mem_singleton, List.not_mem_nil, or_false] at hx
                rcases hx with rfl | rfl
                · have := hard.2.2
                  simp only [] at this
                  rw [hex] at this
                  cases this
                · exact absurd rfl hard.1
            · refine ⟨[(StoreCall.peerConfig (Call.Create (newPeerConfig bgpp name spec)),
                  (b.peerConfigClient.Create (newPeerConfig bgpp name spec) s).1),
                (StoreCall.peerConfig (Call.Get name), []),
                (StoreCall.peerConfig (Call.Update
                    { prev with Spec := spec }),
                  (b.peerConfigClient.Update { prev with Spec := spec }
                    (b.peerConfigClient.Get name
                      (b.peerConfigClient.Create (newPeerConfig bgpp name spec) s).2).2).1)],
                ?_, ?_⟩
              · simp [updatePeerConfig, BGPResourceManager.recording, Client.recording,
                  hget, hnil, hex, hg, hs, getError]
              · intro x hx hard
                simp only [List.mem_cons, List.mem_singleton, List.not_mem_nil, or_false] at hx
                rcases hx with rfl | rfl | rfl
                · have := hard.2.2
                  simp only [] at this
                  rw [hex] at this
                  cases this
                · exact absurd rfl hard.1
                · simp [updatePeerConfig, BGPResourceManager.recording, Client.recording,
                    hget, hnil, hex, hg, hs]
        · refine ⟨[(StoreCall.peerConfig (Call.Create (newPeerConfig bgpp name spec)),
            (b.peerConfigClient.Create (newPeerConfig bgpp name spec) s).1)], ?_, ?_⟩
          · simp [updatePeerConfig, BGPResourceManager.recording, Client.recording, hget,
              hnil, hex]
          · intro e he _
            simp only [List.mem_singleton] at he
            subst he
            simp [updatePeerConfig, BGPResourceManager.recording, Client.recording, hget,
              hnil, hex]

theorem infix_flatMap_of_mem (log : List (StoreCall × GoError)) (e : StoreCall × GoError)
    (he : e ∈ log) : e.2 <:+: log.flatMap Prod.snd := by
  obtain ⟨pre, post, rfl⟩ := List.append_of_mem he
  exact ⟨pre.flatMap Prod.snd, post.flatMap Prod.snd, by simp [List.flatMap_append]⟩

/-- A garbage-collection loop reports every hard failure. -/
theorem foldl_gc_surfaces {σ T : Type} (c : Client σ T) (tag : Call T → StoreCall)
    (P : T → Bool) (name : T → String) (l : List T) :
    ReportsEveryFailure (fun s =>
      l.foldl (fun (acc : GoError × (σ × List (StoreCall × GoError))) o =>
        if P o then
          let r := (c.recording tag).Delete (name o) acc.2
          if r.1 ≠ [] && !IsNotFound r.1 then (errorsJoin acc.1 r.1, r.2) else (acc.1, r.2)
        else acc) ([], s)) := by
  intro s
  obtain ⟨new, h1, h2⟩ := foldl_gc_errors c tag P name l ([], s)
  refine ⟨new, h1, fun e he hard => ?_⟩
  have hmem : e ∈ new.filter (fun e => decide (e.2 ≠ []) && !IsNotFound e.2) := by
    rw [List.mem_filter]
    refine ⟨he, ?_⟩
    simp [hard.1, hard.2.1]
  have hinf := infix_flatMap_of_mem _ e hmem
  exact (congrArg (fun x => e.2 <:+: x) (h2.trans (List.nil_append _))).mpr hinf

theorem appends_of_surfaces {σ : Type}
    (f : σ × List (StoreCall × GoError) → GoError × (σ × List (StoreCall × GoError)))
    (h : ReportsEveryFailure f) : AppendsToLog (fun s => (f s).2) := by
  intro s
  obtain ⟨new, h1, _⟩ := h s
  exact ⟨new, h1⟩

theorem issues_then_appends {σ : Type}
    (F G : σ × List (StoreCall × GoError) → σ × List (StoreCall × GoError)) (c : StoreCall)
    (hF : IssuesCall F c) (hG : AppendsToLog G) : IssuesCall (fun s => G (F s)) c := by
  intro s
  obtain ⟨n₁, h₁, hc⟩ := hF s
  obtain ⟨n₂, h₂⟩ := hG (F s)
  refine ⟨n₁ ++ n₂, by simp only [h₂, h₁, List.append_assoc], ?_⟩
  simp only [calls, List.map_append, List.mem_append] at hc ⊢
  exact Or.inl hc

theorem appends_then_issues {σ : Type}
    (F G : σ × List (StoreCall × GoError) → σ × List (StoreCall × GoError)) (c : StoreCall)
    (hF : AppendsToLog F) (hG : IssuesCall G c) : IssuesCall (fun s => G (F s)) c := by
  intro s
  obtain ⟨n₁, h₁⟩ := hF s
  obtain ⟨n₂, h₂, hc⟩ := hG (F s)
  refine ⟨n₁ ++ n₂, by simp only [h₂, h₁, List.append_assoc], ?_⟩
  simp only [calls, List.map_append, List.mem_append] at hc ⊢
  exact Or.inr hc

theorem appends_foldl {σ X : Type}
    (step : X → σ × List (StoreCall × GoError) → σ × List (StoreCall × GoError))
    (happ : ∀ x, AppendsToLog (step x)) (xs : List X) :
    AppendsToLog (fun s => xs.foldl (fun s x => step x s) s) := by
  induction xs with
  | nil => intro s; exact ⟨[], by simp⟩
  | cons x xs ih =>
    intro s
    obtain ⟨n₁, h₁⟩ := happ x s
    obtain ⟨n₂, h₂⟩ := ih (step x s)
    exact ⟨n₁ ++ n₂, by simp only [List.foldl_cons, h₂, h₁, List.append_assoc]⟩

/-- A loop issues the call that one of its steps issues, when every step only
appends to the log. -/
theorem issues_foldl {σ X : Type}
    (step : X → σ × List (StoreCall × GoError) → σ × List (StoreCall × GoError))
    (happ : ∀ x, AppendsToLog (step x)) (c : StoreCall) :
    ∀ (xs : List X) (x : X), x ∈ xs → IssuesCall (step x) c →
      IssuesCall (fun s => xs.foldl (fun s x => step x s) s) c := by
  intro xs
  induction xs with
  | nil => intro x hx; simp at hx
  | cons y ys ih =>
    intro x hx hiss
    rcases List.mem_cons.mp hx with rfl | hx
    · exact issues_then_appends (step x) (fun s => ys.foldl (fun s x => step x s) s) c hiss
        (appends_foldl step happ ys)
    · exact appends_then_issues (step y) (fun s => ys.foldl (fun s x => step x s) s) c
        (happ y) (ih x hx hiss)

theorem updateAdvertisement_issues_create {σ : Type} (b : BGPResourceManager σ)
    (bgpp : CiliumBGPPeeringPolicy) (name : String) (adverts : List Advertisement)
    (hmiss : b.advertStore.GetByKey name = Except.ok none) (hne : adverts.length ≠ 0) :
    IssuesCall (fun s => (updateAdvertisement b.recording bgpp name adverts s).2)
      (StoreCall.advert (Call.Create (newAdvertisement bgpp name adverts))) := by
  intro sl
  obtain ⟨s, log⟩ := sl
  by_cases hnil : (b.advertClient.Create (newAdvertisement bgpp name adverts) s).1 = []
  · exact ⟨[(StoreCall.advert (Call.Create (newAdvertisement bgpp name adverts)), [])],
      by simp [updateAdvertisement, BGPResourceManager.recording, Client.recording, hmiss, hne,
        hnil], by simp [calls]⟩
  · by_cases hex : IsAlreadyExists
        (b.advertClient.Create (newAdvertisement bgpp name adverts) s).1 = true
    · cases hg : (b.advertClient.Get name
          (b.advertClient.Create (newAdvertisement bgpp name adverts) s).2).1 with
      | error e =>
        exact ⟨[(StoreCall.advert (Call.Create (newAdvertisement bgpp name adverts)),
            (b.advertClient.Create (newAdvertisement bgpp name adverts) s).1),
          (StoreCall.advert (Call.Get name), e)],
          by simp [updateAdvertisement, BGPResourceManager.recording, Client.recording, hmiss,
            hne, hnil, hex, hg, getError], by simp [calls]⟩
      | ok prev =>
        by_cases hs : prev.Spec = { Advertisements := adverts }
        · exact ⟨[(StoreCall.advert (Call.Create (newAdvertisement bgpp name adverts)),
              (b.advertClient.Create (newAdvertisement bgpp name adverts) s).1),
            (StoreCall.advert (Call.Get name), [])],
            by simp [updateAdvertisement, BGPResourceManager.recording, Client.recording,
              hmiss, hne, hnil, hex, hg, hs, getError], by simp [calls]⟩
        · exact ⟨[(StoreCall.advert (Call.Create (newAdvertisement bgpp name adverts)),
              (b.advertClient.Create (newAdvertisement bgpp name adverts) s).1),
            (StoreCall.advert (Call.Get name), []),
            (StoreCall.advert (Call.Update
                { prev with Spec := { Advertisements := adverts } }),
              (b.advertClient.Update { prev with Spec := { Advertisements := adverts } }
                (b.advertClient.Get name
                  (b.advertClient.Create (newAdvertisement bgpp name adverts) s).2).2).1)],
            by simp [updateAdvertisement, BGPResourceManager.recording, Client.recording,
              hmiss, hne, hnil, hex, hg, hs, getError], by simp [calls]⟩
    · exact ⟨[(StoreCall.advert (Call.Create (newAdvertisement bgpp name adverts)),
          (b.advertClient.Create (newAdvertisement bgpp name adverts) s).1)],
        by simp [updateAdvertisement, BGPResourceManager.recording, Client.recording, hmiss,
          hne, hnil, hex], by simp [calls]⟩

theorem updatePeerConfig_issues_create {σ : Type} (b : BGPResourceManager σ)
    (bgpp : CiliumBGPPeeringPolicy) (name : String) (spec : CiliumBGPPeerConfigSpec)
    (hmiss : b.peerConfigStore.GetByKey name = Except.ok none) :
    IssuesCall (fun s => (updatePeerConfig b.recording bgpp name spec s).2)
      (StoreCall.peerConfig (Call.Create (newPeerConfig bgpp name spec))) := by
  intro sl
  obtain ⟨s, log⟩ := sl
  by_cases hnil : (b.peerConfigClient.Create (newPeerConfig bgpp name spec) s).1 = []
  · exact ⟨[(StoreCall.peerConfig (Call.Create (newPeerConfig bgpp name spec)), [])],
      by simp [updatePeerConfig, BGPResourceManager.recording, Client.recording, hmiss, hnil], by simp [calls]⟩
  · by_cases hex : IsAlreadyExists
        (b.peerConfigClient.Create (newPeerConfig bgpp name spec) s).1 = true
    · cases hg : (b.peerConfigClient.Get name
          (b.peerConfigClient.Create (newPeerConfig bgpp name spec) s).2).1 with
      | error e =>
        exact ⟨[(StoreCall.peerConfig (Call.Create (newPeerConfig bgpp name spec)),
            (b.peerConfigClient.Create (newPeerConfig bgpp name spec) s).1),
          (StoreCall.peerConfig (Call.Get name), e)],
          by simp [updatePeerConfig, BGPResourceManager.recording, Client.recording, hmiss,
            hnil, hex, hg, getError], by simp [calls]⟩
      | ok prev =>
        by_cases hs : prev.Spec = spec
        · exact ⟨[(StoreCall.peerConfig (Call.Create (newPeerConfig bgpp name spec)),
              (b.peerConfigClient.Create (newPeerConfig bgpp name spec) s).1),
            (StoreCall.peerConfig (Call.Get name), [])],
            by simp [updatePeerConfig, BGPResourceManager.recording, Client.recording,
              hmiss, hnil, hex, hg, hs, getError], by simp [calls]⟩
        · exact ⟨[(StoreCall.peerConfig (Call.Create (newPeerConfig bgpp name spec)),
              (b.peerConfigClient.Create (newPeerConfig bgpp name spec) s).1),
            (StoreCall.peerConfig (Call.Get name), []),
            (StoreCall.peerConfig (Call.Update
                { prev with Spec := spec }),
              (b.peerConfigClient.Update { prev with Spec := spec }
                (b.peerConfigClient.Get name
                  (b.peerConfigClient.Create (newPeerConfig bgpp name spec) s).2).2).1)],
            by simp [updatePeerConfig, BGPResourceManager.recording, Client.recording,
              hmiss, hnil, hex, hg, hs, getError], by simp [calls]⟩
    · exact ⟨[(StoreCall.peerConfig (Call.Create (newPeerConfig bgpp name spec)),
          (b.peerConfigClient.Create (newPeerConfig bgpp name spec) s).1)],
        by simp [updatePeerConfig, BGPResourceManager.recording, Client.recording, hmiss,
          hnil, hex], by simp [calls]⟩

theorem deleteStaleAdvertisement_surfaces {σ : Type}
    (isOwner : List OwnerReference → String → Bool) (b : BGPResourceManager σ)
    (expected : List String) (bgppName : String) :
    ReportsEveryFailure (deleteStaleAdvertisement isOwner b.recording expected bgppName) :=
  foldl_gc_surfaces b.advertClient StoreCall.advert
    (fun o => !decide (o.Name ∈ expected) && isOwner o.OwnerReferences bgppName)
    (fun o => o.Name) b.advertStore.List

theorem deleteStalePeerConfig_surfaces {σ : Type}
    (isOwner : List OwnerReference → String → Bool) (b : BGPResourceManager σ)
    (expected : List String) (bgppName : String) :
    ReportsEveryFailure (deleteStalePeerConfig isOwner b.recording expected bgppName) :=
  foldl_gc_surfaces b.peerConfigClient StoreCall.peerConfig
    (fun o => !decide (o.Name ∈ expected) && isOwner o.OwnerReferences bgppName)
    (fun o => o.Name) b.peerConfigStore.List

theorem reconcileBGPPAdvertisement_issues {σ : Type} (t : Char → Char)
    (isOwner : List OwnerReference → String → Bool) (b : BGPResourceManager σ)
    (bgpp : CiliumBGPPeeringPolicy) (p : CiliumBGPVirtualRouter × CiliumBGPNeighbor)
    (hp : p ∈ neighborPairs bgpp)
    (hmiss : b.advertStore.GetByKey (peerKeyFromBGPP t bgpp.Name p.1.LocalASN p.2.PeerAddress)
      = Except.ok none)
    (hne : (neighborAdvertisements p.1 p.2).length ≠ 0) :
    IssuesCall (fun s => (reconcileBGPPAdvertisement t isOwner b.recording bgpp s).2)
      (StoreCall.advert (Call.Create (newAdvertisement bgpp
        (peerKeyFromBGPP t bgpp.Name p.1.LocalASN p.2.PeerAddress)
        (neighborAdvertisements p.1 p.2)))) := by
  have hF := issues_foldl
    (fun (p : CiliumBGPVirtualRouter × CiliumBGPNeighbor) s => (updateAdvertisement b.recording bgpp
      (peerKeyFromBGPP t bgpp.Name p.1.LocalASN p.2.PeerAddress)
      (neighborAdvertisements p.1 p.2) s).2)
    (fun (q : CiliumBGPVirtualRouter × CiliumBGPNeighbor) => appends_of_surfaces
      (updateAdvertisement b.recording bgpp
        (peerKeyFromBGPP t bgpp.Name q.1.LocalASN q.2.PeerAddress)
        (neighborAdvertisements q.1 q.2))
      (updateAdvertisement_surfaces b bgpp
        (peerKeyFromBGPP t bgpp.Name q.1.LocalASN q.2.PeerAddress)
        (neighborAdvertisements q.1 q.2)))
    (StoreCall.advert (Call.Create (newAdvertisement bgpp
      (peerKeyFromBGPP t bgpp.Name p.1.LocalASN p.2.PeerAddress)
      (neighborAdvertisements p.1 p.2))))
    (neighborPairs bgpp) p hp
    (updateAdvertisement_issues_create b bgpp
      (peerKeyFromBGPP t bgpp.Name p.1.LocalASN p.2.PeerAddress)
      (neighborAdvertisements p.1 p.2) hmiss hne)
  have hG : AppendsToLog (fun s => (deleteStaleAdvertisement isOwner b.recording
      (peerKeys t bgpp).reverse bgpp.Name s).2) :=
    appends_of_surfaces
      (deleteStaleAdvertisement isOwner b.recording (peerKeys t bgpp).reverse bgpp.Name)
      (deleteStaleAdvertisement_surfaces isOwner b _ _)
  have h := issues_then_appends _ _ _ hF hG
  intro s
  beta_reduce
  rw [advertPhase_state]
  exact h s

theorem reconcileBGPPPeerConfig_issues {σ : Type} (t : Char → Char)
    (isOwner : List OwnerReference → String → Bool) (b : BGPResourceManager σ)
    (bgpp : CiliumBGPPeeringPolicy) (p : CiliumBGPVirtualRouter × CiliumBGPNeighbor)
    (hp : p ∈ neighborPairs bgpp)
    (hmiss : b.peerConfigStore.GetByKey
      (peerKeyFromBGPP t bgpp.Name p.1.LocalASN p.2.PeerAddress) = Except.ok none) :
    IssuesCall (fun s => (reconcileBGPPPeerConfig t isOwner b.recording bgpp s).2)
      (StoreCall.peerConfig (Call.Create (newPeerConfig bgpp
        (peerKeyFromBGPP t bgpp.Name p.1.LocalASN p.2.PeerAddress)
        (neighborPeerSpec t bgpp p.1 p.2)))) := by
  have hF := issues_foldl
    (fun (p : CiliumBGPVirtualRouter × CiliumBGPNeighbor) s => (updatePeerConfig b.recording bgpp
      (peerKeyFromBGPP t bgpp.Name p.1.LocalASN p.2.PeerAddress)
      (neighborPeerSpec t bgpp p.1 p.2) s).2)
    (fun (q : CiliumBGPVirtualRouter × CiliumBGPNeighbor) => appends_of_surfaces
      (updatePeerConfig b.recording bgpp
        (peerKeyFromBGPP t bgpp.Name q.1.LocalASN q.2.PeerAddress)
        (neighborPeerSpec t bgpp q.1 q.2))
      (updatePeerConfig_surfaces b bgpp
        (peerKeyFromBGPP t bgpp.Name q.1.LocalASN q.2.PeerAddress)
        (neighborPeerSpec t bgpp q.1 q.2)))
    (StoreCall.peerConfig (Call.Create (newPeerConfig bgpp
      (peerKeyFromBGPP t bgpp.Name p.1.LocalASN p.2.PeerAddress)
      (neighborPeerSpec t bgpp p.1 p.2))))
    (neighborPairs bgpp) p hp
    (updatePeerConfig_issues_create b bgpp
      (peerKeyFromBGPP t bgpp.Name p.1.LocalASN p.2.PeerAddress)
      (neighborPeerSpec t bgpp p.1 p.2) hmiss)
  have hG : AppendsToLog (fun s => (deleteStalePeerConfig isOwner b.recording
      (peerKeys t bgpp).reverse bgpp.Name s).2) :=
    appends_of_surfaces
      (deleteStalePeerConfig isOwner b.recording (peerKeys t bgpp).reverse bgpp.Name)
      (deleteStalePeerConfig_surfaces isOwner b _ _)
  have h := issues_then_appends _ _ _ hF hG
  intro s
  beta_reduce
  rw [peerConfigPhase_state]
  exact h s

theorem issues_from_start {σ : Type}
    (F : σ × List (StoreCall × GoError) → σ × List (StoreCall × GoError)) (c : StoreCall)
    (h : IssuesCall F c) (s : σ) : c ∈ calls (F (s, [])).2 := by
  obtain ⟨new, h1, hc⟩ := h (s, [])
  rw [h1]
  simpa using hc

theorem nodeBGPInstancesFromBGPP_eq (caseTable : Char → Char)
    (parsePrefix : String → Except GoError String) (bgpp : CiliumBGPPeeringPolicy) :
    nodeBGPInstancesFromBGPP caseTable parsePrefix bgpp
      = nodeInstancesSpec caseTable parsePrefix bgpp := by
  have h := nodeInstances_foldl caseTable parsePrefix bgpp bgpp.Spec.VirtualRouters []
  simp only [List.nil_append] at h
  exact h

theorem mem_neighborPairs (bgpp : CiliumBGPPeeringPolicy) (vr : CiliumBGPVirtualRouter)
    (neigh : CiliumBGPNeighbor) (hvr : vr ∈ bgpp.Spec.VirtualRouters)
    (hn : neigh ∈ vr.Neighbors) : (vr, neigh) ∈ neighborPairs bgpp := by
  simp only [neighborPairs, List.mem_flatMap, List.mem_map]
  exact ⟨vr, hvr, neigh, hn, rfl⟩

/-- C25, refuted as stated: in `aliasPolicy` the neighbor `10.0.0.5-32` does
not parse, and the neighbor `10.0.0.5/32` derives the same peer key; the
resolver produces a peer, that of the second neighbor, whose name and
PeerConfig reference are the key of the first. -/
theorem C25_counterexample :
    (prefixToAddr ipv4OnlyPrefixAddr "10.0.0.5-32").toBool = false
      ∧ peerKeyFromBGPP id aliasPolicy.Name 100 "10.0.0.5-32" = "rack-100-10.0.0.5-32"
      ∧ (nodeBGPInstancesFromBGPP id ipv4OnlyPrefixAddr aliasPolicy).flatMap
          (fun inst => inst.Peers.map (fun peer =>
            (peer.Name, peer.PeerConfigRef.map (fun ref => ref.Name), peer.PeerAddress)))
        = [("rack-100-10.0.0.5-32", some "rack-100-10.0.0.5-32", some "10.0.0.5")] := by
  refine ⟨by decide, by decide, by decide⟩

/-- C25, amended: a neighbor whose peer address does not parse is skipped by
the node-config resolver only. The advertisement and the peer-config phase
derive its peer key from the address string as it is, record it as expected
and hand it to `updateAdvertisement` and `updatePeerConfig`; they issue the
`Create` of its PeerConfig, and of its Advertisement when the entry list is
not empty, when the cache holds no object of the key. Every peer of `nodeBGPInstancesFromBGPP` whose name or PeerConfig
reference is that key comes from a neighbor whose address parses and which
derives the same key; there is no such peer when no such neighbor exists. -/
theorem C25_unparsable_neighbor_keeps_its_derived_objects {σ : Type} (caseTable : Char → Char)
    (IsOwner : List OwnerReference → String → Bool)
    (parsePrefix : String → Except GoError String) (b : BGPResourceManager σ)
    (bgpp : CiliumBGPPeeringPolicy) (vr : CiliumBGPVirtualRouter) (neigh : CiliumBGPNeighbor)
    (s : σ) (hvr : vr ∈ bgpp.Spec.VirtualRouters) (hn : neigh ∈ vr.Neighbors)
    (herr : ∃ err, prefixToAddr parsePrefix neigh.PeerAddress = Except.error err) :
    peerKeyFromBGPP caseTable bgpp.Name vr.LocalASN neigh.PeerAddress
        ∈ (reconcileBGPPAdvertisementLoop caseTable b bgpp s).2.1
      ∧ peerKeyFromBGPP caseTable bgpp.Name vr.LocalASN neigh.PeerAddress
        ∈ (reconcileBGPPPeerConfigLoop caseTable b bgpp s).2.1
      ∧ (∀ acc, (reconcileBGPPAdvertisementBody caseTable b bgpp vr acc neigh).2
          = (peerKeyFromBGPP caseTable bgpp.Name vr.LocalASN neigh.PeerAddress :: acc.2.1,
              (updateAdvertisement b bgpp
                (peerKeyFromBGPP caseTable bgpp.Name vr.LocalASN neigh.PeerAddress)
                (neighborAdvertisements vr neigh) acc.2.2).2))
      ∧ (∀ acc, (reconcileBGPPPeerConfigBody caseTable b bgpp vr acc neigh).2
          = (peerKeyFromBGPP caseTable bgpp.Name vr.LocalASN neigh.PeerAddress :: acc.2.1,
              (updatePeerConfig b bgpp
                (peerKeyFromBGPP caseTable bgpp.Name vr.LocalASN neigh.PeerAddress)
                (neighborPeerSpec caseTable bgpp vr neigh) acc.2.2).2))
      ∧ (b.peerConfigStore.GetByKey
            (peerKeyFromBGPP caseTable bgpp.Name vr.LocalASN neigh.PeerAddress) = Except.ok none →
          StoreCall.peerConfig (Call.Create (newPeerConfig bgpp
              (peerKeyFromBGPP caseTable bgpp.Name vr.LocalASN neigh.PeerAddress)
              (neighborPeerSpec caseTable bgpp vr neigh)))
            ∈ calls (reconcileBGPPPeerConfig caseTable IsOwner b.recording bgpp (s, [])).2.2)
      ∧ (b.advertStore.GetByKey
            (peerKeyFromBGPP caseTable bgpp.Name vr.LocalASN neigh.PeerAddress) = Except.ok none →
          (neighborAdvertisements vr neigh).length ≠ 0 →
          StoreCall.advert (Call.Create (newAdvertisement bgpp
              (peerKeyFromBGPP caseTable bgpp.Name vr.LocalASN neigh.PeerAddress)
              (neighborAdvertisements vr neigh)))
            ∈ calls (reconcileBGPPAdvertisement caseTable IsOwner b.recording bgpp (s, [])).2.2)
      ∧ (∀ inst ∈ nodeBGPInstancesFromBGPP caseTable parsePrefix bgpp, ∀ peer ∈ inst.Peers,
          (peer.Name = peerKeyFromBGPP caseTable bgpp.Name vr.LocalASN neigh.PeerAddress
            ∨ peer.PeerConfigRef.map (fun ref => ref.Name)
              = some (peerKeyFromBGPP caseTable bgpp.Name vr.LocalASN neigh.PeerAddress)) →
          ∃ vr₂ ∈ bgpp.Spec.VirtualRouters, ∃ n₂ ∈ vr₂.Neighbors,
            (∃ addr, prefixToAddr parsePrefix n₂.PeerAddress = Except.ok addr)
              ∧ n₂ ≠ neigh
              ∧ peerKeyFromBGPP caseTable bgpp.Name vr₂.LocalASN n₂.PeerAddress
                = peerKeyFromBGPP caseTable bgpp.Name vr.LocalASN neigh.PeerAddress)
      ∧ ((∀ vr₂ ∈ bgpp.Spec.VirtualRouters, ∀ n₂ ∈ vr₂.Neighbors,
            (prefixToAddr parsePrefix n₂.PeerAddress).toBool = true →
            peerKeyFromBGPP caseTable bgpp.Name vr₂.LocalASN n₂.PeerAddress
              ≠ peerKeyFromBGPP caseTable bgpp.Name vr.LocalASN neigh.PeerAddress) →
          ∀ inst ∈ nodeBGPInstancesFromBGPP caseTable parsePrefix bgpp, ∀ peer ∈ inst.Peers,
            peer.Name ≠ peerKeyFromBGPP caseTable bgpp.Name vr.LocalASN neigh.PeerAddress
              ∧ peer.PeerConfigRef.map (fun ref => ref.Name)
                ≠ some (peerKeyFromBGPP caseTable bgpp.Name vr.LocalASN neigh.PeerAddress)) := by
  have hp := mem_neighborPairs bgpp vr neigh hvr hn
  have hkey : peerKeyFromBGPP caseTable bgpp.Name vr.LocalASN neigh.PeerAddress
      ∈ (peerKeys caseTable bgpp).reverse := by
    rw [List.mem_reverse]
    exact List.mem_map.mpr ⟨(vr, neigh), hp, rfl⟩
  have hpeers : ∀ inst ∈ nodeBGPInstancesFromBGPP caseTable parsePrefix bgpp,
      ∀ peer ∈ inst.Peers,
      (peer.Name = peerKeyFromBGPP caseTable bgpp.Name vr.LocalASN neigh.PeerAddress
        ∨ peer.PeerConfigRef.map (fun ref => ref.Name)
          = some (peerKeyFromBGPP caseTable bgpp.Name vr.LocalASN neigh.PeerAddress)) →
      ∃ vr₂ ∈ bgpp.Spec.VirtualRouters, ∃ n₂ ∈ vr₂.Neighbors,
        (∃ addr, prefixToAddr parsePrefix n₂.PeerAddress = Except.ok addr)
          ∧ n₂ ≠ neigh
          ∧ peerKeyFromBGPP caseTable bgpp.Name vr₂.LocalASN n₂.PeerAddress
            = peerKeyFromBGPP caseTable bgpp.Name vr.LocalASN neigh.PeerAddress := by
    intro inst hinst peer hpeer hname
    rw [nodeBGPInstancesFromBGPP_eq] at hinst
    simp only [nodeInstancesSpec, List.mem_map] at hinst
    obtain ⟨vr₂, hvr₂, rfl⟩ := hinst
    simp only [nodePeersSpec, List.mem_filterMap] at hpeer
    obtain ⟨n₂, hn₂, hsome⟩ := hpeer
    cases hpa : prefixToAddr parsePrefix n₂.PeerAddress with
    | error e => rw [hpa] at hsome; cases hsome
    | ok addr =>
      rw [hpa] at hsome
      simp only [Option.some.injEq] at hsome
      subst hsome
      refine ⟨vr₂, hvr₂, n₂, hn₂, ⟨addr, hpa⟩, ?_, ?_⟩
      · rintro rfl
        obtain ⟨err, herr⟩ := herr
        rw [herr] at hpa
        cases hpa
      · rcases hname with h | h
        · exact h
        · simpa using h
  refine ⟨?_, ?_, fun acc => ?_, fun acc => ?_, fun hmiss => ?_, fun hmiss hne => ?_, hpeers,
    fun hnone inst hinst peer hpeer => ?_⟩
  · rw [advertLoop_expected]; exact hkey
  · rw [peerConfigLoop_expected]; exact hkey
  · simp only [reconcileBGPPAdvertisementBody]
    split <;> rfl
  · simp only [reconcileBGPPPeerConfigBody]
    split <;> rfl
  · exact issues_from_start _ _
      (reconcileBGPPPeerConfig_issues caseTable IsOwner b bgpp (vr, neigh) hp hmiss) s
  · exact issues_from_start _ _
      (reconcileBGPPAdvertisement_issues caseTable IsOwner b bgpp (vr, neigh) hp hmiss hne) s
  · constructor
    · intro h
      obtain ⟨vr₂, hvr₂, n₂, hn₂, ⟨addr, hok⟩, _, hk⟩ := hpeers inst hinst peer hpeer (Or.inl h)
      exact hnone vr₂ hvr₂ n₂ hn₂ (by rw [hok]; rfl) hk
    · intro h
      obtain ⟨vr₂, hvr₂, n₂, hn₂, ⟨addr, hok⟩, _, hk⟩ := hpeers inst hinst peer hpeer (Or.inr h)
      exact hnone vr₂ hvr₂ n₂ hn₂ (by rw [hok]; rfl) hk

/-- Witness of the amended C25 at `mixedPolicy`, whose neighbor `bogus` does
not parse: its key is expected in both phases, the `Create` of its PeerConfig
and of its Advertisement are issued, and no peer of the resolver names the
key. -/
theorem C25_unparsable_neighbor_keeps_its_derived_objects_witness :
    (prefixToAddr ipv4OnlyPrefixAddr "bogus").toBool = false
      ∧ "rack-100-bogus" ∈ (reconcileBGPPPeerConfigLoop id (memManager emptyStore) mixedPolicy
          emptyStore).2.1
      ∧ StoreCall.peerConfig (Call.Create (newPeerConfig mixedPolicy "rack-100-bogus"
            (neighborPeerSpec id mixedPolicy exampleRouter
              { exampleNeighbor with PeerAddress := "bogus" })))
          ∈ calls (reconcileBGPPPeerConfig id IsOwner (memManager emptyStore).recording
              mixedPolicy (emptyStore, [])).2.2
      ∧ ∀ inst ∈ nodeBGPInstancesFromBGPP id ipv4OnlyPrefixAddr mixedPolicy,
          ∀ peer ∈ inst.Peers, peer.Name ≠ "rack-100-bogus"
            ∧ peer.PeerConfigRef.map (fun ref => ref.Name) ≠ some "rack-100-bogus" :=
  have h := C25_unparsable_neighbor_keeps_its_derived_objects id IsOwner ipv4OnlyPrefixAddr
    (memManager emptyStore) mixedPolicy
    { exampleRouter with
      Neighbors := [{ exampleNeighbor with PeerAddress := "bogus" }, exampleNeighbor] }
    { exampleNeighbor with PeerAddress := "bogus" } emptyStore
    (by decide) (by decide) ⟨_, rfl⟩
  ⟨by decide, h.2.1, h.2.2.2.2.1 rfl, h.2.2.2.2.2.2.2 (by decide)⟩

/-! ## Pairing of Advertisements and PeerConfigs, on the store calls -/

theorem updateAdvertisement_calls {σ : Type} (b : BGPResourceManager σ)
    (bgpp : CiliumBGPPeeringPolicy) (name : String) (adverts : List Advertisement) (s : σ) :
    ∀ sc ∈ calls (updateAdvertisement b.recording bgpp name adverts (s, [])).2.2,
      ∃ c, sc = StoreCall.advert c
        ∧ IsUpsertCallFor b.advertStore b.advertClient
            (fun (o : CiliumBGPAdvertisement) (sp : CiliumBGPAdvertisementSpec) =>
              { o with Spec := sp })
            name (newAdvertisement bgpp name adverts) { Advertisements := adverts } c := by
  intro sc
  have hN : (newAdvertisement bgpp name adverts).Name = name := rfl
  have hS : (newAdvertisement bgpp name adverts).Spec = { Advertisements := adverts } := rfl
  cases hget : b.advertStore.GetByKey name with
  | error e => simp [updateAdvertisement, BGPResourceManager.recording, hget, calls]
  | ok found =>
    by_cases hlen : adverts.length = 0
    · cases found with
      | none => simp [updateAdvertisement, BGPResourceManager.recording, hget, hlen, calls]
      | some prev =>
        simp only [updateAdvertisement, BGPResourceManager.recording, hget, hlen, if_true]
        split <;> simp only [Client.recording, calls, List.nil_append, List.map_cons,
          List.map_nil, List.mem_singleton] <;> rintro rfl <;> exact ⟨_, rfl, rfl⟩
    · cases found with
      | some prev =>
        simp only [updateAdvertisement, BGPResourceManager.recording, hget, hlen, if_false]
        split
        · simp [calls]
        · simp only [Client.recording, calls, List.nil_append, List.map_cons, List.map_nil,
            List.mem_singleton]
          rintro rfl
          exact ⟨_, rfl, prev, rfl, Or.inl hget⟩
      | none =>
        by_cases hnil : (b.advertClient.Create (newAdvertisement bgpp name adverts) s).1 = []
        · simp [updateAdvertisement, BGPResourceManager.recording, Client.recording, hget,
            hlen, hnil, calls]
          rintro rfl
          exact ⟨_, rfl, rfl⟩
        · by_cases hex : IsAlreadyExists
              (b.advertClient.Create (newAdvertisement bgpp name adverts) s).1 = true
          · cases hg : (b.advertClient.Get name
                (b.advertClient.Create (newAdvertisement bgpp name adverts) s).2).1 with
            | error e =>
              simp [updateAdvertisement, BGPResourceManager.recording, Client.recording, hget,
                hlen, hnil, hex, hg, calls, hN, hS]
              rintro (rfl | rfl)
              · exact ⟨_, rfl, rfl⟩
              · exact ⟨_, rfl, rfl⟩
            | ok prev =>
              by_cases hs : prev.Spec = { Advertisements := adverts }
              · simp [updateAdvertisement, BGPResourceManager.recording, Client.recording,
                  hget, hlen, hnil, hex, hg, hs, calls, hN, hS]
                rintro (rfl | rfl)
                · exact ⟨_, rfl, rfl⟩
                · exact ⟨_, rfl, rfl⟩
              · simp [updateAdvertisement, BGPResourceManager.recording, Client.recording,
                  hget, hlen, hnil, hex, hg, hs, calls, hN, hS]
                rintro (rfl | rfl | rfl)
                · exact ⟨_, rfl, rfl⟩
                · exact ⟨_, rfl, rfl⟩
                · exact ⟨_, rfl, prev, rfl, Or.inr ⟨_, hg⟩⟩
          · simp [updateAdvertisement, BGPResourceManager.recording, Client.recording, hget,
              hlen, hnil, hex, calls]
            rintro rfl
            exact ⟨_, rfl, rfl⟩

theorem updatePeerConfig_calls {σ : Type} (b : BGPResourceManager σ)
    (bgpp : CiliumBGPPeeringPolicy) (name : String) (spec : CiliumBGPPeerConfigSpec) (s : σ) :
    ∀ sc ∈ calls (updatePeerConfig b.recording bgpp name spec (s, [])).2.2,
      ∃ c, sc = StoreCall.peerConfig c
        ∧ IsUpsertCallFor b.peerConfigStore b.peerConfigClient
            (fun (o : CiliumBGPPeerConfig) (sp : CiliumBGPPeerConfigSpec) =>
              { o with Spec := sp })
            name (newPeerConfig bgpp name spec) spec c := by
  intro sc
  have hN : (newPeerConfig bgpp name spec).Name = name := rfl
  have hS : (newPeerConfig bgpp name spec).Spec = spec := rfl
  cases hget : b.peerConfigStore.GetByKey name with
  | error e => simp [updatePeerConfig, BGPResourceManager.recording, hget, calls]
  | ok found =>
    cases found with
    | some prev =>
      simp only [updatePeerConfig, BGPResourceManager.recording, hget]
      split
      · simp [calls]
      · simp only [Client.recording, calls, List.nil_append, List.map_cons, List.map_nil,
          List.mem_singleton]
        rintro rfl
        exact ⟨_, rfl, prev, rfl, Or.inl hget⟩
    | none =>
      by_cases hnil : (b.peerConfigClient.Create (newPeerConfig bgpp name spec) s).1 = []
      · simp [updatePeerConfig, BGPResourceManager.recording, Client.recording, hget,
          hnil, calls]
        rintro rfl
        exact ⟨_, rfl, rfl⟩
      · by_cases hex : IsAlreadyExists
            (b.peerConfigClient.Create (newPeerConfig bgpp name spec) s).1 = true
        · cases hg : (b.peerConfigClient.Get name
              (b.peerConfigClient.Create (newPeerConfig bgpp name spec) s).2).1 with
          | error e =>
            simp [updatePeerConfig, BGPResourceManager.recording, Client.recording, hget,
              hnil, hex, hg, calls, hN, hS]
            rintro (rfl | rfl)
            · exact ⟨_, rfl, rfl⟩
            · exact ⟨_, rfl, rfl⟩
          | ok prev =>
            by_cases hs : prev.Spec = spec
            · simp [updatePeerConfig, BGPResourceManager.recording, Client.recording,
                hget, hnil, hex, hg, hs, calls, hN, hS]
              rintro (rfl | rfl)
              · exact ⟨_, rfl, rfl⟩
              · exact ⟨_, rfl, rfl⟩
            · simp [updatePeerConfig, BGPResourceManager.recording, Client.recording,
                hget, hnil, hex, hg, hs, calls, hN, hS]
              rintro (rfl | rfl | rfl)
              · exact ⟨_, rfl, rfl⟩
              · exact ⟨_, rfl, rfl⟩
              · exact ⟨_, rfl, prev, rfl, Or.inr ⟨_, hg⟩⟩
        · simp [updatePeerConfig, BGPResourceManager.recording, Client.recording, hget,
            hnil, hex, calls]
          rintro rfl
          exact ⟨_, rfl, rfl⟩

/-- C18: for every policy, virtual router and neighbor, with `k` the peer key
of the neighbor. Both loop bodies invoke their upsert helper under the name
`k`. Every call the Advertisement helper issues is a `Create` of the
Advertisement built for `k`, a `Get` or `Delete` of `k`, or an `Update` of the
object found under `k` with the entry list of the neighbor, and likewise every
call of the PeerConfig helper with the PeerConfig built for `k` and the peer
spec of the neighbor. The Advertisement built for creation is named `k` and
carries the one label `bgpPeeringPolicy.advertise = k`; the PeerConfig built
for creation is named `k` and carries the peer spec. The upserts happen: when
the neighbor is one of the policy and the cache does not hold `k`, the
Advertisement phase issues the `Create` of that Advertisement (if the entry
list is not empty) and the PeerConfig phase the `Create` of that PeerConfig,
whatever other calls return; when the cache holds `k` with another spec, the
helper issues one `Update` of the cached object with the desired spec, and
none when the specs are equal. Every address-family entry of the peer spec
carries the selector with the one match label `bgpPeeringPolicy.advertise =
k`, which matches the labels of that Advertisement. And the expected
Advertisement keys are the expected PeerConfig keys. -/
theorem C18_advertisement_peer_config_pairing {σ : Type} (caseTable : Char → Char)
    (IsOwner : List OwnerReference → String → Bool)
    (b : BGPResourceManager σ) (bgpp : CiliumBGPPeeringPolicy) (vr : CiliumBGPVirtualRouter)
    (neigh : CiliumBGPNeighbor) (accA accP : GoError × List String × σ) (s s₁ s₂ : σ) :
    (reconcileBGPPAdvertisementBody caseTable b bgpp vr accA neigh).2
        = (peerKeyFromBGPP caseTable bgpp.Name vr.LocalASN neigh.PeerAddress :: accA.2.1,
            (updateAdvertisement b bgpp
              (peerKeyFromBGPP caseTable bgpp.Name vr.LocalASN neigh.PeerAddress)
              (neighborAdvertisements vr neigh) accA.2.2).2)
      ∧ (reconcileBGPPPeerConfigBody caseTable b bgpp vr accP neigh).2
        = (peerKeyFromBGPP caseTable bgpp.Name vr.LocalASN neigh.PeerAddress :: accP.2.1,
            (updatePeerConfig b bgpp
              (peerKeyFromBGPP caseTable bgpp.Name vr.LocalASN neigh.PeerAddress)
              (neighborPeerSpec caseTable bgpp vr neigh) accP.2.2).2)
      ∧ (∀ sc ∈ calls (updateAdvertisement b.recording bgpp
            (peerKeyFromBGPP caseTable bgpp.Name vr.LocalASN neigh.PeerAddress)
            (neighborAdvertisements vr neigh) (s, [])).2.2,
          ∃ c, sc = StoreCall.advert c
            ∧ IsUpsertCallFor b.advertStore b.advertClient
                (fun (o : CiliumBGPAdvertisement) (sp : CiliumBGPAdvertisementSpec) =>
                  { o with Spec := sp })
                (peerKeyFromBGPP caseTable bgpp.Name vr.LocalASN neigh.PeerAddress)
                (newAdvertisement bgpp
                  (peerKeyFromBGPP caseTable bgpp.Name vr.LocalASN neigh.PeerAddress)
                  (neighborAdvertisements vr neigh))
                { Advertisements := neighborAdvertisements vr neigh } c)
      ∧ (∀ sc ∈ calls (updatePeerConfig b.recording bgpp
            (peerKeyFromBGPP caseTable bgpp.Name vr.LocalASN neigh.PeerAddress)
            (neighborPeerSpec caseTable bgpp vr neigh) (s, [])).2.2,
          ∃ c, sc = StoreCall.peerConfig c
            ∧ IsUpsertCallFor b.peerConfigStore b.peerConfigClient
                (fun (o : CiliumBGPPeerConfig) (sp : CiliumBGPPeerConfigSpec) =>
                  { o with Spec := sp })
                (peerKeyFromBGPP caseTable bgpp.Name vr.LocalASN neigh.PeerAddress)
                (newPeerConfig bgpp
                  (peerKeyFromBGPP caseTable bgpp.Name vr.LocalASN neigh.PeerAddress)
                  (neighborPeerSpec caseTable bgpp vr neigh))
                (neighborPeerSpec caseTable bgpp vr neigh) c)
      ∧ ((newAdvertisement bgpp
            (peerKeyFromBGPP caseTable bgpp.Name vr.LocalASN neigh.PeerAddress)
            (neighborAdvertisements vr neigh)).Name
          = peerKeyFromBGPP caseTable bgpp.Name vr.LocalASN neigh.PeerAddress
        ∧ (newAdvertisement bgpp
            (peerKeyFromBGPP caseTable bgpp.Name vr.LocalASN neigh.PeerAddress)
            (neighborAdvertisements vr neigh)).Labels
          = [(bgpPPAdvertisementLabel,
              peerKeyFromBGPP caseTable bgpp.Name vr.LocalASN neigh.PeerAddress)]
        ∧ (newPeerConfig bgpp
            (peerKeyFromBGPP caseTable bgpp.Name vr.LocalASN neigh.PeerAddress)
            (neighborPeerSpec caseTable bgpp vr neigh)).Name
          = peerKeyFromBGPP caseTable bgpp.Name vr.LocalASN neigh.PeerAddress
        ∧ (newPeerConfig bgpp
            (peerKeyFromBGPP caseTable bgpp.Name vr.LocalASN neigh.PeerAddress)
            (neighborPeerSpec caseTable bgpp vr neigh)).Spec
          = neighborPeerSpec caseTable bgpp vr neigh)
      ∧ ((vr, neigh) ∈ neighborPairs bgpp →
          (b.advertStore.GetByKey
              (peerKeyFromBGPP caseTable bgpp.Name vr.LocalASN neigh.PeerAddress)
              = Except.ok none →
            neighborAdvertisements vr neigh ≠ [] →
            StoreCall.advert (Call.Create (newAdvertisement bgpp
                (peerKeyFromBGPP caseTable bgpp.Name vr.LocalASN neigh.PeerAddress)
                (neighborAdvertisements vr neigh)))
              ∈ calls (reconcileBGPPAdvertisement caseTable IsOwner b.recording bgpp
                  (s, [])).2.2)
          ∧ (b.peerConfigStore.GetByKey
              (peerKeyFromBGPP caseTable bgpp.Name vr.LocalASN neigh.PeerAddress)
              = Except.ok none →
            StoreCall.peerConfig (Call.Create (newPeerConfig bgpp
                (peerKeyFromBGPP caseTable bgpp.Name vr.LocalASN neigh.PeerAddress)
                (neighborPeerSpec caseTable bgpp vr neigh)))
              ∈ calls (reconcileBGPPPeerConfig caseTable IsOwner b.recording bgpp
                  (s, [])).2.2))
      ∧ (∀ prev, b.advertStore.GetByKey
            (peerKeyFromBGPP caseTable bgpp.Name vr.LocalASN neigh.PeerAddress)
            = Except.ok (some prev) →
          neighborAdvertisements vr neigh ≠ [] →
          UpsertsCached b.advertClient StoreCall.advert (fun o => o.toObjectMeta)
            (fun o => o.Spec) prev { Advertisements := neighborAdvertisements vr neigh } s
            (updateAdvertisement b.recording bgpp
              (peerKeyFromBGPP caseTable bgpp.Name vr.LocalASN neigh.PeerAddress)
              (neighborAdvertisements vr neigh) (s, [])))
      ∧ (∀ prev, b.peerConfigStore.GetByKey
            (peerKeyFromBGPP caseTable bgpp.Name vr.LocalASN neigh.PeerAddress)
            = Except.ok (some prev) →
          UpsertsCached b.peerConfigClient StoreCall.peerConfig (fun o => o.toObjectMeta)
            (fun o => o.Spec) prev (neighborPeerSpec caseTable bgpp vr neigh) s
            (updatePeerConfig b.recording bgpp
              (peerKeyFromBGPP caseTable bgpp.Name vr.LocalASN neigh.PeerAddress)
              (neighborPeerSpec caseTable bgpp vr neigh) (s, [])))
      ∧ (∀ f ∈ (neighborPeerSpec caseTable bgpp vr neigh).Families,
          f.Advertisements = some
            { MatchLabels := [(bgpPPAdvertisementLabel,
                peerKeyFromBGPP caseTable bgpp.Name vr.LocalASN neigh.PeerAddress)]
              MatchExpressions := [] }
          ∧ ∀ sel, f.Advertisements = some sel →
            selectorMatches sel (newAdvertisement bgpp
              (peerKeyFromBGPP caseTable bgpp.Name vr.LocalASN neigh.PeerAddress)
              (neighborAdvertisements vr neigh)).Labels = true)
      ∧ (reconcileBGPPAdvertisementLoop caseTable b bgpp s₁).2.1
        = (reconcileBGPPPeerConfigLoop caseTable b bgpp s₂).2.1 := by
  refine ⟨?_, ?_, updateAdvertisement_calls b bgpp _ _ s, updatePeerConfig_calls b bgpp _ _ s,
    ⟨rfl, rfl, rfl, rfl⟩, ?_, ?_, ?_, ?_, ?_⟩
  · simp only [reconcileBGPPAdvertisementBody]
    split <;> rfl
  · simp only [reconcileBGPPPeerConfigBody]
    split <;> rfl
  · intro hp
    constructor
    · intro hmiss hne
      exact issues_from_start _ _
        (reconcileBGPPAdvertisement_issues caseTable IsOwner b bgpp (vr, neigh) hp hmiss
          (fun h => hne (List.length_eq_zero.mp h))) s
    · intro hmiss
      exact issues_from_start _ _
        (reconcileBGPPPeerConfig_issues caseTable IsOwner b bgpp (vr, neigh) hp hmiss) s
  · intro prev hc hne
    exact updateAdvertisement_cached b bgpp _ _ prev s hc hne
  · intro prev hc
    exact updatePeerConfig_cached b bgpp _ _ prev s hc
  · intro f hf
    rw [neighborPeerSpec_eq] at hf
    simp only [List.mem_map] at hf
    obtain ⟨fam, _, rfl⟩ := hf
    refine ⟨rfl, ?_⟩
    intro sel hsel
    simp only [Option.some.injEq] at hsel
    subst hsel
    simp [selectorMatches, newAdvertisement, List.lookup]
  · rw [advertLoop_expected, peerConfigLoop_expected]

/-- An instance of C18 at `examplePolicy` on the empty store with empty
caches: the Advertisement phase creates the Advertisement named
`rack-100-10.0.0.5-32` with the label `bgpPeeringPolicy.advertise` of that
value, and the PeerConfig phase creates the PeerConfig of the same name. -/
theorem C18_advertisement_peer_config_pairing_witness :
    calls (reconcileBGPPAdvertisement id IsOwner (memManager emptyStore).recording examplePolicy
        (emptyStore, [])).2.2
        = [StoreCall.advert (Call.Create
            (newAdvertisement examplePolicy "rack-100-10.0.0.5-32" [exampleEntry]))]
      ∧ calls (reconcileBGPPPeerConfig id IsOwner (memManager emptyStore).recording examplePolicy
        (emptyStore, [])).2.2
        = [StoreCall.peerConfig (Call.Create
            (newPeerConfig examplePolicy "rack-100-10.0.0.5-32"
              (neighborPeerSpec id examplePolicy exampleRouter exampleNeighbor)))]
      ∧ StoreCall.advert (Call.Create
            (newAdvertisement examplePolicy "rack-100-10.0.0.5-32" [exampleEntry]))
          ∈ calls (reconcileBGPPAdvertisement id IsOwner (memManager emptyStore).recording
              examplePolicy (emptyStore, [])).2.2
      ∧ StoreCall.peerConfig (Call.Create
            (newPeerConfig examplePolicy "rack-100-10.0.0.5-32"
              (neighborPeerSpec id examplePolicy exampleRouter exampleNeighbor)))
          ∈ calls (reconcileBGPPPeerConfig id IsOwner (memManager emptyStore).recording
              examplePolicy (emptyStore, [])).2.2 :=
  have h := (C18_advertisement_peer_config_pairing id IsOwner (memManager emptyStore)
    examplePolicy exampleRouter exampleNeighbor ([], [], emptyStore) ([], [], emptyStore)
    emptyStore emptyStore emptyStore).2.2.2.2.2.1 (by decide)
  ⟨rfl, rfl, h.1 rfl (by decide), h.2 rfl⟩

/-! ## Well-formed CIDRs -/

theorem toDigitsCore_fuel : ∀ (f n : Nat) (ds : List Char), n < f →
    Nat.toDigitsCore 10 f n ds = Nat.toDigitsCore 10 (n + 1) n ds := by
  intro f
  induction f using Nat.strong_induction_on with
  | _ f ih =>
    intro n ds hn
    cases f with
    | zero => omega
    | succ f =>
      simp only [Nat.toDigitsCore]
      by_cases h0 : n / 10 = 0
      · simp [h0]
      · simp only [h0, if_false]
        have h1 : n / 10 < n := by omega
        rw [ih f (by omega) (n / 10) _ (by omega)]
        by_cases hnf : n = f
        · subst hnf
          rw [ih n (by omega) (n / 10) _ h1]
        · rw [ih n (by omega) (n / 10) _ h1]

theorem toDigits_snoc (n d : Nat) (hn : 1 ≤ n) (hd : d < 10) :
    Nat.toDigits 10 (n * 10 + d) = Nat.toDigits 10 n ++ [Nat.digitChar d] := by
  have hdiv : (n * 10 + d) / 10 = n := by omega
  have hmod : (n * 10 + d) % 10 = d := by omega
  have hne : ¬ n = 0 := by omega
  show Nat.toDigitsCore 10 (n * 10 + d + 1) (n * 10 + d) []
    = Nat.toDigitsCore 10 (n + 1) n [] ++ [Nat.digitChar d]
  simp only [Nat.toDigitsCore, hdiv, hmod, hne, if_false]
  rw [toDigitsCore_append, toDigitsCore_fuel (n * 10 + d) n [] (by omega)]
  simp only [Nat.toDigitsCore]

theorem digit_table : ∀ n : Fin 128,
    isDigitRune (Char.ofNat n) = true →
      Nat.toDigits 10 ((Char.ofNat n).toNat - 48) = [Char.ofNat n]
        ∧ Nat.digitChar ((Char.ofNat n).toNat - 48) = Char.ofNat n
        ∧ (Char.ofNat n).toNat - 48 < 10
        ∧ (Char.ofNat n ≠ '0' → 1 ≤ (Char.ofNat n).toNat - 48) := by
  decide

theorem digit_facts (c : Char) (h : isDigitRune c = true) :
    Nat.toDigits 10 (c.toNat - 48) = [c] ∧ Nat.digitChar (c.toNat - 48) = c
      ∧ c.toNat - 48 < 10 ∧ (c ≠ '0' → 1 ≤ c.toNat - 48) := by
  have hc : c.toNat ≤ 127 := by
    simp only [isDigitRune, decide_eq_true_eq] at h
    have : '9'.toNat = 57 := by decide
    omega
  exact ascii_cases (fun c => isDigitRune c = true →
    Nat.toDigits 10 (c.toNat - 48) = [c] ∧ Nat.digitChar (c.toNat - 48) = c
      ∧ c.toNat - 48 < 10 ∧ (c ≠ '0' → 1 ≤ c.toNat - 48)) digit_table c hc h

theorem toDigits_decode (c₀ : Char) (h₀ : isDigitRune c₀ = true) (hz : c₀ ≠ '0') :
    ∀ l : List Char, (∀ c ∈ l, isDigitRune c = true) →
      Nat.toDigits 10 (decodeDecimal (c₀ :: l)) = c₀ :: l ∧ 1 ≤ decodeDecimal (c₀ :: l) := by
  intro l
  induction l using List.reverseRecOn with
  | nil =>
    intro _
    obtain ⟨h1, _, _, h4⟩ := digit_facts c₀ h₀
    have : decodeDecimal [c₀] = c₀.toNat - 48 := by simp [decodeDecimal]
    rw [this]
    exact ⟨h1, h4 hz⟩
  | append_singleton l c ih =>
    intro hl
    obtain ⟨ih1, ih2⟩ := ih (fun x hx => hl x (by simp [hx]))
    obtain ⟨_, h2, h3, _⟩ := digit_facts c (hl c (by simp))
    have hsn : decodeDecimal (c₀ :: (l ++ [c])) = decodeDecimal (c₀ :: l) * 10 + (c.toNat - 48) := by
      rw [← List.cons_append, decodeDecimal_snoc]
    rw [hsn, toDigits_snoc _ _ ih2 h3, ih1, h2]
    refine ⟨by simp, by omega⟩

theorem parseBits_canonical (b : List Char) (n : Nat) (h : parseBits b = Except.ok n) :
    b = Nat.toDigits 10 n := by
  unfold parseBits at h
  cases b with
  | nil => simp at h
  | cons c rest =>
    cases rest with
    | nil =>
      simp only [Bool.false_eq_true, if_false] at h
      split at h
      · cases h
      · rename_i hd
        split at h
        · cases h
        · simp only [Except.ok.injEq] at h
          subst h
          have hc : isDigitRune c = true := by
            simp only [isDigitRune, decide_eq_true_eq]
            by_contra hcon
            exact hd (Or.inr (by simpa using hcon))
          have : decodeDecimal [c] = c.toNat - 48 := by simp [decodeDecimal]
          rw [this]
          exact (digit_facts c hc).1.symm
    | cons x xs =>
      simp only at h
      split at h
      · cases h
      · rename_i hg
        split at h
        · cases h
        · rename_i hd
          split at h
          · cases h
          · simp only [Except.ok.injEq] at h
            subst h
            have hall : ∀ y ∈ c :: x :: xs, isDigitRune y = true := by
              intro y hy
              simp only [isDigitRune, decide_eq_true_eq]
              by_contra hcon
              exact hd (Or.inr (fun hh => hcon (hh y hy)))
            have hz : c ≠ '0' := by
              rintro rfl
              exact hg (by decide)
            exact ((toDigits_decode c (hall c (by simp)) hz (x :: xs)
              (fun y hy => hall y (by simp [hy]))).1).symm

/-- The octets scanned so far, each followed by its `.`. -/
theorem octetsText_append (fs : List Nat) (v : Nat) :
    (fs ++ [v]).flatMap (fun f => Nat.toDigits 10 f ++ ['.'])
      = fs.flatMap (fun f => Nat.toDigits 10 f ++ ['.']) ++ (Nat.toDigits 10 v ++ ['.']) := by
  simp [List.flatMap_append]

theorem toDigits_zero : Nat.toDigits 10 0 = ['0'] := by decide

theorem parseIPv4Loop_scanned (len : Nat) :
    ∀ (rest pre : List Char) (i : Nat) (prev : Char) (st st' : IPv4Scan) (cur : List Char),
      i = pre.length → len = pre.length + rest.length →
      pre = st.fields.flatMap (fun f => Nat.toDigits 10 f ++ ['.']) ++ cur →
      (∀ f ∈ st.fields, f ≤ 255) → st.fields.length ≤ 3 → st.digLen = cur.length →
      ((cur = [] ∧ st.val = 0 ∧ prev = '.' ∧ (pre = [] ∨ rest ≠ []))
        ∨ (cur = Nat.toDigits 10 st.val ∧ st.val ≤ 255 ∧ prev ≠ '.')) →
      parseIPv4Loop len rest i prev st = Except.ok st' →
      ∃ cur', pre ++ rest = st'.fields.flatMap (fun f => Nat.toDigits 10 f ++ ['.']) ++ cur'
        ∧ (∀ f ∈ st'.fields, f ≤ 255) ∧ st'.fields.length ≤ 3
        ∧ ((cur' = [] ∧ pre ++ rest = []) ∨ (cur' = Nat.toDigits 10 st'.val ∧ st'.val ≤ 255)) := by
  intro rest
  induction rest with
  | nil =>
    intro pre i prev st st' cur _ _ hpre hf hlen _ hcur h
    simp only [parseIPv4Loop, Except.ok.injEq] at h
    subst h
    refine ⟨cur, by simpa using hpre, hf, hlen, ?_⟩
    rcases hcur with ⟨h1, _, _, h4⟩ | ⟨h1, h2, _⟩
    · rcases h4 with h4 | h4
      · exact Or.inl ⟨h1, by simpa using h4⟩
      · exact absurd rfl h4
    · exact Or.inr ⟨h1, h2⟩
  | cons c rest ih =>
    intro pre i prev st st' cur hi hl hpre hf hlen hdig hcur h
    simp only [parseIPv4Loop] at h
    by_cases hc : '0'.toNat ≤ c.toNat ∧ c.toNat ≤ '9'.toNat
    · rw [if_pos hc] at h
      have hcd : isDigitRune c = true := by simpa [isDigitRune] using hc
      obtain ⟨d1, d2, d3, _⟩ := digit_facts c hcd
      have h48 : '0'.toNat = 48 := by decide
      by_cases hz : st.digLen = 1 ∧ st.val = 0
      · rw [if_pos hz] at h; cases h
      · rw [if_neg hz] at h
        by_cases hv : st.val * 10 + (c.toNat - '0'.toNat) > 255
        · rw [if_pos hv] at h; cases h
        · rw [if_neg hv] at h
          have hres := ih (pre ++ [c]) (i + 1) c
            { st with val := st.val * 10 + (c.toNat - '0'.toNat), digLen := st.digLen + 1 } st'
            (cur ++ [c]) (by simp [hi]) (by simp [hl]; omega)
            (by simp [hpre]) hf hlen (by simp [hdig])
            (Or.inr (by
              refine ⟨?_, by simpa using hv, ?_⟩
              · rcases hcur with ⟨h1, h2, _, _⟩ | ⟨h1, h2, _⟩
                · simp only [h1, h2, h48, Nat.zero_mul, Nat.zero_add, List.nil_append]
                  exact d1.symm
                · have hv1 : 1 ≤ st.val := by
                    by_contra hcon
                    have hv0 : st.val = 0 := by omega
                    apply hz
                    refine ⟨?_, hv0⟩
                    rw [hdig, h1, hv0, toDigits_zero]
                    rfl
                  simp only [h48]
                  rw [toDigits_snoc _ _ hv1 d3, d2, ← h1]
              · intro hdot
                rw [hdot] at hcd
                exact absurd hcd (by decide))) h
          simpa using hres
    · rw [if_neg hc] at h
      by_cases hdot : c = '.'
      · rw [if_pos hdot] at h
        by_cases hbad : i = 0 ∨ i = len - 1 ∨ prev = '.'
        · rw [if_pos hbad] at h; cases h
        · rw [if_neg hbad] at h
          by_cases h3 : st.fields.length = 3
          · rw [if_pos h3] at h; cases h
          · rw [if_neg h3] at h
            have hprev : prev ≠ '.' := fun hp => hbad (Or.inr (Or.inr hp))
            have hrest : rest ≠ [] := by
              intro hr
              apply hbad
              right; left
              simp [hl, hi, hr]
            rcases hcur with ⟨_, _, hp, _⟩ | ⟨h1, h2, _⟩
            · exact absurd hp hprev
            · have hres := ih (pre ++ [c]) (i + 1) c
                { fields := st.fields ++ [st.val], val := 0, digLen := 0 } st' []
                (by simp [hi]) (by simp [hl]; omega)
                (by
                  simp only [octetsText_append, List.append_nil]
                  rw [hpre, h1, hdot]
                  simp)
                (by
                  intro f hfm
                  rcases List.mem_append.mp hfm with hfm | hfm
                  · exact hf f hfm
                  · simp only [List.mem_singleton] at hfm
                    omega)
                (by simp; omega) rfl
                (Or.inl ⟨rfl, rfl, hdot, Or.inr hrest⟩) h
              simpa using hres
      · rw [if_neg hdot] at h
        cases h

theorem parseIPv4_wellFormed (t : List Char) (ip : Addr) (h : parseIPv4 ⟨t⟩ = Except.ok ip) :
    IsDottedQuad t ∧ ∃ fields, ip = Addr.v4 fields := by
  unfold parseIPv4 at h
  cases hl : parseIPv4Loop t.length t 0 '.' { fields := [], val := 0, digLen := 0 } with
  | error e => simp [hl] at h
  | ok st =>
    simp only [hl] at h
    by_cases h3 : st.fields.length < 3
    · rw [if_pos h3] at h; cases h
    · rw [if_neg h3] at h
      simp only [Except.ok.injEq] at h
      refine ⟨?_, _, h.symm⟩
      obtain ⟨cur, htext, hf, hlen, hcur⟩ := parseIPv4Loop_scanned t.length t [] 0 '.'
        { fields := [], val := 0, digLen := 0 } st [] rfl (by simp) (by simp) (by simp)
        (by simp) rfl (Or.inl ⟨rfl, rfl, rfl, Or.inl rfl⟩) hl
      simp only [List.nil_append] at htext hcur
      have hlen3 : st.fields.length = 3 := by omega
      obtain ⟨a, b, c, hfs⟩ : ∃ a b c, st.fields = [a, b, c] := by
        match hs : st.fields, hlen3 with
        | [a, b, c], _ => exact ⟨a, b, c, rfl⟩
      rw [hfs] at htext hf
      rcases hcur with ⟨_, ht⟩ | ⟨hc1, hc2⟩
      · rw [ht] at htext
        simp at htext
      · refine ⟨a, b, c, st.val, hf a (by simp), hf b (by simp), hf c (by simp), hc2, ?_⟩
        rw [htext, hc1]
        simp [dottedQuad]

theorem hexDigitValue_isHexDigit (c : Char) (d : Nat) (h : hexDigitValue c = some d) :
    isHexDigit c = true := by
  unfold hexDigitValue at h
  simp only [isHexDigit, Bool.or_eq_true, Bool.and_eq_true, decide_eq_true_eq]
  split at h
  · rename_i h1; exact Or.inl (Or.inl h1)
  · split at h
    · rename_i h2; exact Or.inl (Or.inr h2)
    · split at h
      · rename_i h3; exact Or.inr h3
      · cases h

theorem parseIPv6Hex_scanned :
    ∀ (s : List Char) (off acc off' acc' : Nat),
      parseIPv6Hex s off acc = Except.ok (off', acc') →
      ∃ k, off' = off + k ∧ k ≤ s.length ∧ (∀ c ∈ s.take k, isHexDigit c = true)
        ∧ (1 ≤ k → off' ≤ 4) := by
  intro s
  induction s with
  | nil =>
    intro off acc off' acc' h
    simp only [parseIPv6Hex, Except.ok.injEq, Prod.mk.injEq] at h
    exact ⟨0, by omega, by simp, by simp, by omega⟩
  | cons c rest ih =>
    intro off acc off' acc' h
    simp only [parseIPv6Hex] at h
    cases hv : hexDigitValue c with
    | none =>
      simp only [hv, Except.ok.injEq, Prod.mk.injEq] at h
      exact ⟨0, by omega, by simp, by simp, by omega⟩
    | some d =>
      simp only [hv] at h
      by_cases h3 : off > 3
      · rw [if_pos h3] at h; cases h
      · rw [if_neg h3] at h
        by_cases hacc : acc * 16 + d > 65535
        · rw [if_pos hacc] at h; cases h
        · rw [if_neg hacc] at h
          obtain ⟨k, hk1, hk2, hk3, hk4⟩ := ih _ _ _ _ h
          refine ⟨k + 1, by omega, by simp; omega, ?_, ?_⟩
          · intro x hx
            simp only [List.take_succ_cons, List.mem_cons] at hx
            rcases hx with rfl | hx
            · exact hexDigitValue_isHexDigit _ _ hv
            · exact hk3 x hx
          · intro _
            by_cases hk : 1 ≤ k
            · exact hk4 hk
            · omega

theorem joinColon_singleton (g : List Char) : joinColon [g] = g := rfl

theorem joinColon_cons (g : List Char) (l : List (List Char)) (hl : l ≠ []) :
    joinColon (g :: l) = g ++ ':' :: joinColon l := by
  cases l with
  | nil => exact absurd rfl hl
  | cons x xs => rfl

theorem parseIPv6Loop_scanned :
    ∀ (n : Nat) (st st' : IPv6Scan),
      parseIPv6Loop n st = Except.ok st' → st'.s = [] → st.s ≠ [] → st.i % 2 = 0 →
      ∃ (pre post : List (List Char)) (quad : Option (List Char)),
        (∀ g ∈ pre, IsHexGroup g) ∧ (∀ g ∈ post, IsHexGroup g)
          ∧ (∀ q, quad = some q → IsDottedQuad q)
          ∧ st'.i = st.i + 2 * (pre.length + post.length) + 4 * quad.toList.length
          ∧ st'.i ≤ 16
          ∧ ((st'.ellipsis = st.ellipsis ∧ pre = [] ∧ post ++ quad.toList ≠ []
              ∧ st.s = joinColon (post ++ quad.toList))
            ∨ (st.ellipsis = none ∧ st'.ellipsis ≠ none ∧ pre ≠ []
              ∧ st.s = joinColon pre ++ ':' :: ':' :: joinColon (post ++ quad.toList))) := by
  intro n
  induction n with
  | zero =>
    intro st st' h hs' hs _
    simp only [parseIPv6Loop, Except.ok.injEq] at h
    subst h
    exact absurd hs' hs
  | succ n ih =>
    intro st st' h hs' hs hpar
    simp only [parseIPv6Loop] at h
    by_cases hi : st.i < 16
    · simp only [hi, not_true_eq_false, if_false] at h
      cases hhex : parseIPv6Hex st.s 0 0 with
      | error e => simp [hhex] at h
      | ok r =>
        obtain ⟨off, acc⟩ := r
        simp only [hhex] at h
        by_cases hoff : off = 0
        · rw [if_pos hoff] at h; cases h
        · rw [if_neg hoff] at h
          obtain ⟨k, hk1, hk2, hk3, hk4⟩ := parseIPv6Hex_scanned _ _ _ _ _ hhex
          have hk : k = off := by omega
          subst hk
          have hg : IsHexGroup (st.s.take k) :=
            ⟨by simp; omega, by simp; omega, hk3⟩
          have hsplit : st.s = st.s.take k ++ st.s.drop k := (List.take_append_drop k st.s).symm
          cases hd : st.s.drop k with
          | nil =>
            simp only [hd, Except.ok.injEq] at h
            subst h
            refine ⟨[], [st.s.take k], none, by simp, by simpa using hg, by simp, by simp,
              by simp; omega, Or.inl ⟨rfl, rfl, by simp, ?_⟩⟩
            simp only [Option.toList, List.append_nil, joinColon_singleton]
            rw [hd, List.append_nil] at hsplit
            exact hsplit
          | cons c rest =>
            simp only [hd] at h
            by_cases hdot : c = '.'
            · rw [if_pos hdot] at h
              by_cases h12 : st.ellipsis = none ∧ st.i ≠ 12
              · rw [if_pos h12] at h; cases h
              · rw [if_neg h12] at h
                by_cases h16 : st.i + 4 > 16
                · rw [if_pos h16] at h; cases h
                · rw [if_neg h16] at h
                  cases h4 : parseIPv4 ⟨st.s⟩ with
                  | error e => simp [h4] at h
                  | ok ip =>
                    obtain ⟨hq, fields, rfl⟩ := parseIPv4_wellFormed st.s ip h4
                    simp only [h4, Except.ok.injEq] at h
                    subst h
                    refine ⟨[], [], some st.s, by simp, by simp, ?_, by simp, by simp; omega,
                      Or.inl ⟨rfl, rfl, by simp, by simp [joinColon_singleton]⟩⟩
                    intro q hq'
                    simp only [Option.some.injEq] at hq'
                    subst hq'
                    exact hq
            · rw [if_neg hdot] at h
              by_cases hcol : c ≠ ':'
              · rw [if_pos hcol] at h; cases h
              · rw [if_neg hcol] at h
                have hc : c = ':' := by simpa using hcol
                subst hc
                cases rest with
                | nil => simp at h
                | cons c₂ rest₂ =>
                  simp only at h
                  rw [hd] at hsplit
                  by_cases h2 : c₂ = ':'
                  · rw [if_pos h2] at h
                    subst h2
                    by_cases he : st.ellipsis ≠ none
                    · rw [if_pos he] at h; cases h
                    · rw [if_neg he] at h
                      have he' : st.ellipsis = none := by simpa using he
                      by_cases hr : rest₂ = []
                      · rw [if_pos hr] at h
                        simp only [Except.ok.injEq] at h
                        subst h
                        subst hr
                        refine ⟨[st.s.take k], [], none, by simpa using hg, by simp, by simp,
                          by simp, by simp; omega, Or.inr ⟨he', by simp, by simp, ?_⟩⟩
                        simpa [joinColon] using hsplit
                      · rw [if_neg hr] at h
                        obtain ⟨pre, post, quad, h1, h2, h3, h4, h5, h6⟩ :=
                          ih _ st' h hs' hr (by simp; omega)
                        rcases h6 with ⟨e1, e2, e3, e4⟩ | ⟨e1, _⟩
                        · subst e2
                          refine ⟨[st.s.take k], post, quad, by simpa using hg, h2, h3,
                            by simp at h4 ⊢; omega, h5, Or.inr ⟨he', ?_, by simp, ?_⟩⟩
                          · rw [e1]; simp
                          · simp only at e4
                            rw [joinColon_singleton, ← e4]
                            exact hsplit
                        · simp at e1
                  · rw [if_neg h2] at h
                    obtain ⟨pre, post, quad, h1, h2', h3, h4, h5, h6⟩ :=
                      ih _ st' h hs' (by simp) (by simp; omega)
                    rcases h6 with ⟨e1, e2, e3, e4⟩ | ⟨e1, e2, e3, e4⟩
                    · subst e2
                      refine ⟨[], st.s.take k :: post, quad, by simp, ?_, h3,
                        by simp at h4 ⊢; omega, h5, Or.inl ⟨e1, rfl, by simp, ?_⟩⟩
                      · intro g hgm
                        rcases List.mem_cons.mp hgm with rfl | hgm
                        · exact hg
                        · exact h2' g hgm
                      · simp only at e4
                        rw [List.cons_append, joinColon_cons _ _ e3, ← e4]
                        exact hsplit
                    · refine ⟨st.s.take k :: pre, post, quad, ?_, h2', h3,
                        by simp at h4 ⊢; omega, h5, Or.inr ⟨e1, e2, by simp, ?_⟩⟩
                      · intro g hgm
                        rcases List.mem_cons.mp hgm with rfl | hgm
                        · exact hg
                        · exact h1 g hgm
                      · simp only at e4
                        rw [joinColon_cons _ _ e3, List.append_assoc, List.cons_append, ← e4]
                        exact hsplit
    · simp only [hi, not_false_eq_true, if_true, Except.ok.injEq] at h
      subst h
      exact absurd hs' hs

theorem takeWhile_not_percent (t : List Char) (h : '%' ∉ t) :
    t.takeWhile (fun c => c ≠ '%') = t := by
  rw [List.takeWhile_eq_self_iff]
  intro c hc
  simp only [ne_eq, decide_not, Bool.not_eq_true', decide_eq_false_iff_not]
  rintro rfl
  exact h hc

theorem parseIPv6_zone (string6 : List Nat → String) (input : String) (text zone : String)
    (h : parseIPv6 string6 input = Except.ok (text, zone)) :
    zone = ⟨(input.data.dropWhile (fun c => c ≠ '%')).drop 1⟩
      ∧ ('%' ∈ input.data → (input.data.dropWhile (fun c => c ≠ '%')).drop 1 ≠ []) := by
  unfold parseIPv6 at h
  simp only at h
  split at h
  · cases h
  · rename_i hz
    refine ⟨?_, fun hm hnil => hz ⟨hm, hnil⟩⟩
    split at h
    · simp only [Except.ok.injEq, Prod.mk.injEq] at h
      exact h.2.symm
    · split at h
      · cases h
      · split at h
        · cases h
        · split at h
          · split at h
            · cases h
            · simp only [Except.ok.injEq, Prod.mk.injEq] at h
              exact h.2.symm
          · split at h
            · cases h
            · simp only [Except.ok.injEq, Prod.mk.injEq] at h
              exact h.2.symm

theorem parseIPv6_wellFormed (string6 : List Nat → String) (t : List Char) (text : String)
    (h : parseIPv6 string6 ⟨t⟩ = Except.ok (text, "")) : IsIPv6Text t := by
  obtain ⟨hz1, hz2⟩ := parseIPv6_zone string6 ⟨t⟩ text "" h
  have hzone : (t.dropWhile (fun c => c ≠ '%')).drop 1 = [] := by
    have := congrArg String.data hz1
    exact this.symm
  have hnot : '%' ∉ t := fun hm => hz2 hm hzone
  unfold parseIPv6 at h
  simp only [takeWhile_not_percent t hnot] at h
  have hfalse : ¬ ('%' ∈ t ∧ (t.dropWhile (fun c => c ≠ '%')).drop 1 = []) := fun hh => hnot hh.1
  rw [if_neg hfalse] at h
  -- the leading ellipsis
  by_cases hlead : ∃ rest, t = ':' :: ':' :: rest
  · obtain ⟨rest, rfl⟩ := hlead
    simp only [and_self, if_true] at h
    by_cases hr : rest = []
    · subst hr
      exact ⟨[], [], none, by simp, by simp, by simp, Or.inr ⟨rfl, by simp⟩⟩
    · have hcond : ¬ ((some 0 : Option Nat) ≠ none ∧ rest = []) := fun hh => hr hh.2
      rw [if_neg hcond] at h
      cases hl : parseIPv6Loop 8 { s := rest, i := 0, ip := [], ellipsis := some 0 } with
      | error e => simp [hl] at h
      | ok st =>
        simp only [hl] at h
        by_cases hs : st.s ≠ []
        · rw [if_pos hs] at h; cases h
        · rw [if_neg hs] at h
          have hs' : st.s = [] := by simpa using hs
          obtain ⟨pre, post, quad, h1, h2, h3, h4, h5, h6⟩ :=
            parseIPv6Loop_scanned 8 _ st hl hs' hr rfl
          rcases h6 with ⟨e1, e2, e3, e4⟩ | ⟨e1, _⟩
          · subst e2
            have hi : st.i < 16 := by
              by_contra hcon
              rw [if_neg hcon] at h
              simp only at e1
              rw [e1] at h
              simp at h
            refine ⟨[], post, quad, by simp, h2, h3, Or.inr ⟨?_, ?_⟩⟩
            · simp only at e4
              rw [e4]
              rfl
            · simp at h4 ⊢
              omega
          · simp at e1
  · have hl0 : (match t with
        | c₁ :: c₂ :: rest => if c₁ = ':' ∧ c₂ = ':' then ((some 0 : Option Nat), rest) else (none, t)
        | _ => (none, t)) = (none, t) := by
      match t, hlead with
      | [], _ => rfl
      | [_], _ => rfl
      | c₁ :: c₂ :: rest, hlead =>
        have : ¬ (c₁ = ':' ∧ c₂ = ':') := by
          rintro ⟨rfl, rfl⟩
          exact hlead ⟨rest, rfl⟩
        simp [this]
    rw [hl0] at h
    simp only [ne_eq, not_true_eq_false, false_and, if_false] at h
    by_cases ht : t = []
    · subst ht
      simp [parseIPv6Loop, parseIPv6Hex] at h
    · cases hl : parseIPv6Loop 8 { s := t, i := 0, ip := [], ellipsis := none } with
      | error e => simp [hl] at h
      | ok st =>
        simp only [hl] at h
        by_cases hs : st.s = []
        · simp only [hs, not_true_eq_false, if_false] at h
          obtain ⟨pre, post, quad, h1, h2, h3, h4, h5, h6⟩ :=
            parseIPv6Loop_scanned 8 _ st hl hs ht rfl
          rcases h6 with ⟨e1, e2, e3, e4⟩ | ⟨e1, e2, e3, e4⟩
          · subst e2
            simp only at e1
            have hi : ¬ st.i < 16 := by
              intro hcon
              rw [if_pos hcon, e1] at h
              cases h
            refine ⟨[], post, quad, by simp, h2, h3, Or.inl ⟨rfl, e4, ?_⟩⟩
            simp at h4
            omega
          · have hi : st.i < 16 := by
              by_contra hcon
              rw [if_neg hcon] at h
              simp [e2] at h
            refine ⟨pre, post, quad, h1, h2, h3, Or.inr ⟨e4, ?_⟩⟩
            simp at h4
            omega
        · simp [hs] at h

theorem parseIPv4Loop_error (len : Nat) :
    ∀ (rest : List Char) (i : Nat) (prev : Char) (st : IPv4Scan) (e : GoError),
      parseIPv4Loop len rest i prev st = Except.error e → e ≠ [] := by
  intro rest
  induction rest with
  | nil => intro i prev st e h; simp [parseIPv4Loop] at h
  | cons c rest ih =>
    intro i prev st e h
    simp only [parseIPv4Loop] at h
    split at h
    · split at h
      · cases h; simp
      · split at h
        · cases h; simp
        · exact ih _ _ _ _ h
    · split at h
      · split at h
        · cases h; simp
        · split at h
          · cases h; simp
          · exact ih _ _ _ _ h
      · cases h; simp

theorem parseIPv4_error (s : String) (e : GoError) (h : parseIPv4 s = Except.error e) :
    e ≠ [] := by
  unfold parseIPv4 at h
  split at h
  · rename_i err hl
    cases h
    exact parseIPv4Loop_error _ _ _ _ _ _ hl
  · split at h
    · cases h; simp
    · cases h

theorem parseIPv6Hex_error :
    ∀ (s : List Char) (off acc : Nat) (e : GoError),
      parseIPv6Hex s off acc = Except.error e → e ≠ [] := by
  intro s
  induction s with
  | nil => intro off acc e h; simp [parseIPv6Hex] at h
  | cons c rest ih =>
    intro off acc e h
    simp only [parseIPv6Hex] at h
    split at h
    · cases h
    · split at h
      · cases h; simp
      · split at h
        · cases h; simp
        · exact ih _ _ _ h

theorem parseIPv6Loop_error :
    ∀ (n : Nat) (st : IPv6Scan) (e : GoError),
      parseIPv6Loop n st = Except.error e → e ≠ [] := by
  intro n
  induction n with
  | zero => intro st e h; simp [parseIPv6Loop] at h
  | succ n ih =>
    intro st e h
    simp only [parseIPv6Loop] at h
    split at h
    · cases h
    · split at h
      · rename_i err hh
        cases h
        exact parseIPv6Hex_error _ _ _ _ hh
      · split at h
        · cases h; simp
        · split at h
          · cases h
          · split at h
            · split at h
              · cases h; simp
              · split at h
                · cases h; simp
                · split at h
                  · rename_i err h4
                    cases h
                    exact parseIPv4_error _ _ h4
                  · cases h
                  · cases h; simp
            · split at h
              · cases h; simp
              · split at h
                · cases h; simp
                · split at h
                  · split at h
                    · cases h; simp
                    · split at h
                      · cases h
                      · exact ih _ _ h
                  · exact ih _ _ h

theorem parseIPv6_error (string6 : List Nat → String) (input : String) (e : GoError)
    (h : parseIPv6 string6 input = Except.error e) : e ≠ [] := by
  unfold parseIPv6 at h
  simp only at h
  split at h
  · cases h; simp
  · split at h
    · cases h
    · split at h
      · rename_i err hl
        cases h
        exact parseIPv6Loop_error _ _ _ hl
      · split at h
        · cases h; simp
        · split at h
          · split at h
            · cases h; simp
            · cases h
          · split at h
            · cases h; simp
            · cases h

theorem parseBits_error (b : List Char) (e : GoError) (h : parseBits b = Except.error e) :
    e ≠ [] := by
  unfold parseBits at h
  simp only at h
  split at h
  · cases h; simp
  · split at h
    · cases h; simp
    · split at h
      · cases h; simp
      · cases h

theorem ParseAddrScan_error (p6 : String → Except GoError (String × String))
    (hp6 : ∀ s e, p6 s = Except.error e → e ≠ []) (s : String) :
    ∀ (l : List Char) (e : GoError), ParseAddrScan p6 s l = Except.error e → e ≠ [] := by
  intro l
  induction l with
  | nil => intro e h; simp only [ParseAddrScan] at h; cases h; simp
  | cons c rest ih =>
    intro e h
    simp only [ParseAddrScan] at h
    split at h
    · exact parseIPv4_error _ _ h
    · split at h
      · split at h
        · rename_i err h6
          cases h
          exact hp6 _ _ h6
        · cases h
      · split at h
        · cases h; simp
        · exact ih _ h

theorem ParsePrefix_error (p6 : String → Except GoError (String × String))
    (hp6 : ∀ s e, p6 s = Except.error e → e ≠ []) (s : String) (e : GoError)
    (h : ParsePrefix p6 s = Except.error e) : e ≠ [] := by
  unfold ParsePrefix at h
  split at h
  · cases h; simp
  · split at h
    · rename_i err ha
      cases h
      exact ParseAddrScan_error p6 hp6 _ _ _ ha
    · split at h
      · split at h
        · cases h; simp
        · split at h
          · rename_i err hb
            cases h
            exact parseBits_error _ _ hb
          · split at h
            · cases h; simp
            · cases h
      · split at h
        · rename_i err hb
          cases h
          exact parseBits_error _ _ hb
        · split at h
          · cases h; simp
          · cases h

theorem ParseAddrScan_ok (p6 : String → Except GoError (String × String)) (s : String) :
    ∀ (l : List Char) (ip : Addr), ParseAddrScan p6 s l = Except.ok ip →
      parseIPv4 s = Except.ok ip ∨ ∃ text zone, ip = Addr.v6 text zone ∧ p6 s = Except.ok (text, zone) := by
  intro l
  induction l with
  | nil => intro ip h; simp [ParseAddrScan] at h
  | cons c rest ih =>
    intro ip h
    simp only [ParseAddrScan] at h
    split at h
    · exact Or.inl h
    · split at h
      · split at h
        · cases h
        · rename_i r h6
          simp only [Except.ok.injEq] at h
          exact Or.inr ⟨r.1, r.2, h.symm, h6⟩
      · split at h
        · cases h
        · exact ih _ h

theorem ParsePrefix_ok (p6 : String → Except GoError (String × String)) (s : String)
    (ip : Addr) (bits : Nat) (h : ParsePrefix p6 s = Except.ok (ip, bits)) :
    ∃ i, s.data = s.data.take i ++ '/' :: s.data.drop (i + 1)
      ∧ ParseAddr p6 ⟨s.data.take i⟩ = Except.ok ip
      ∧ parseBits (s.data.drop (i + 1)) = Except.ok bits
      ∧ ((∃ fields, ip = Addr.v4 fields ∧ bits ≤ 32)
        ∨ (∃ text, ip = Addr.v6 text "" ∧ bits ≤ 128)) := by
  unfold ParsePrefix at h
  split at h
  · cases h
  · rename_i i hi
    obtain ⟨hsplit, _⟩ := LastIndexByteString_some '/' s.data i hi
    split at h
    · cases h
    · rename_i ip' ha
      split at h
      · rename_i text zone
        split at h
        · cases h
        · rename_i hz
          split at h
          · cases h
          · rename_i b hb
            split at h
            · cases h
            · rename_i hr
              simp only [Except.ok.injEq, Prod.mk.injEq] at h
              obtain ⟨rfl, rfl⟩ := h
              have hz' : zone = "" := by simpa using hz
              subst hz'
              exact ⟨i, hsplit, ha, hb, Or.inr ⟨text, rfl, by omega⟩⟩
      · rename_i fields
        split at h
        · cases h
        · rename_i b hb
          split at h
          · cases h
          · rename_i hr
            simp only [Except.ok.injEq, Prod.mk.injEq] at h
            obtain ⟨rfl, rfl⟩ := h
            exact ⟨i, hsplit, ha, hb, Or.inl ⟨fields, rfl, by omega⟩⟩

theorem ParsePrefix_wellFormed (string6 : List Nat → String) (cidr : String) (ip : Addr)
    (bits : Nat) (h : ParsePrefix (parseIPv6 string6) cidr = Except.ok (ip, bits)) :
    WellFormedCIDR cidr := by
  obtain ⟨i, hsplit, ha, hb, hr⟩ := ParsePrefix_ok _ _ _ _ h
  have hbits := parseBits_canonical _ _ hb
  refine ⟨cidr.data.take i, bits, by rw [← hbits]; exact hsplit, ?_⟩
  rcases ParseAddrScan_ok _ _ _ _ ha with h4 | ⟨text, zone, hip, h6⟩
  · obtain ⟨hq, fields, hf⟩ := parseIPv4_wellFormed _ _ h4
    rcases hr with ⟨_, _, hb32⟩ | ⟨text, hv6, _⟩
    · exact Or.inl ⟨hq, hb32⟩
    · rw [hf] at hv6; cases hv6
  · rcases hr with ⟨fields, hv4, _⟩ | ⟨text', hv6, hb128⟩
    · rw [hip] at hv4; cases hv4
    · rw [hip] at hv6
      simp only [Addr.v6.injEq] at hv6
      obtain ⟨rfl, rfl⟩ := hv6
      exact Or.inr ⟨parseIPv6_wellFormed string6 _ _ h6, hb128⟩

theorem hexDigit_table : ∀ n : Fin 128,
    (isHexDigit (Char.ofNat n) = true →
        ∃ d, d < 16 ∧ hexDigitValue (Char.ofNat n) = some d)
      ∧ (isHexDigit (Char.ofNat n) = false → hexDigitValue (Char.ofNat n) = none)
      ∧ (isDigitRune (Char.ofNat n) = true → isHexDigit (Char.ofNat n) = true) := by
  decide

theorem isHexDigit_ascii (c : Char) (h : isHexDigit c = true) : c.toNat ≤ 127 := by
  simp only [isHexDigit, Bool.or_eq_true, Bool.and_eq_true, decide_eq_true_eq] at h
  have h1 : '9'.toNat = 57 := by decide
  have h2 : 'f'.toNat = 102 := by decide
  have h3 : 'F'.toNat = 70 := by decide
  omega

theorem hexDigitValue_some (c : Char) (h : isHexDigit c = true) :
    ∃ d, d < 16 ∧ hexDigitValue c = some d :=
  (ascii_cases (fun c => isHexDigit c = true → ∃ d, d < 16 ∧ hexDigitValue c = some d)
    (fun n => (hexDigit_table n).1) c (isHexDigit_ascii c h)) h

theorem hexDigitValue_none (c : Char) (h : isHexDigit c = false) : hexDigitValue c = none := by
  unfold hexDigitValue
  simp only [isHexDigit, Bool.or_eq_false_iff, Bool.and_eq_false_iff, decide_eq_false_iff_not]
    at h
  obtain ⟨⟨h1, h2⟩, h3⟩ := h
  have e1 : ¬ ('0'.toNat ≤ c.toNat ∧ c.toNat ≤ '9'.toNat) := by
    rintro ⟨a, b⟩; rcases h1 with h | h <;> contradiction
  have e2 : ¬ ('a'.toNat ≤ c.toNat ∧ c.toNat ≤ 'f'.toNat) := by
    rintro ⟨a, b⟩; rcases h2 with h | h <;> contradiction
  have e3 : ¬ ('A'.toNat ≤ c.toNat ∧ c.toNat ≤ 'F'.toNat) := by
    rintro ⟨a, b⟩; rcases h3 with h | h <;> contradiction
  rw [if_neg e1, if_neg e2, if_neg e3]

theorem isHexDigit_of_digit (c : Char) (h : isDigitRune c = true) : isHexDigit c = true := by
  have hc : c.toNat ≤ 127 := by
    simp only [isDigitRune, decide_eq_true_eq] at h
    have : '9'.toNat = 57 := by decide
    omega
  exact (ascii_cases (fun c => isDigitRune c = true → isHexDigit c = true)
    (fun n => (hexDigit_table n).2.2) c hc) h

theorem parseIPv6Hex_group :
    ∀ (g rest : List Char) (off acc : Nat),
      (∀ c ∈ g, isHexDigit c = true) → off + g.length ≤ 4 → acc < 16 ^ off →
      (∀ c ∈ rest.head?, isHexDigit c = false) →
      ∃ acc', parseIPv6Hex (g ++ rest) off acc = Except.ok (off + g.length, acc') := by
  intro g
  induction g with
  | nil =>
    intro rest off acc _ _ _ hrest
    cases rest with
    | nil => exact ⟨acc, by simp [parseIPv6Hex]⟩
    | cons c r =>
      have := hexDigitValue_none c (hrest c (by simp))
      exact ⟨acc, by simp [parseIPv6Hex, this]⟩
  | cons c cs ih =>
    intro rest off acc hg hlen hacc hrest
    obtain ⟨d, hd, hv⟩ := hexDigitValue_some c (hg c (by simp))
    have h3 : ¬ off > 3 := by simp at hlen; omega
    have hpow : 16 ^ (off + 1) ≤ 16 ^ 4 :=
      Nat.pow_le_pow_right (by omega) (by simp at hlen; omega)
    have hnew : acc * 16 + d < 16 ^ (off + 1) := by
      rw [Nat.pow_succ]
      omega
    have hacc' : ¬ acc * 16 + d > 65535 := by
      have : (16 : Nat) ^ 4 = 65536 := by norm_num
      omega
    obtain ⟨acc', h⟩ := ih rest (off + 1) (acc * 16 + d) (fun x hx => hg x (by simp [hx]))
      (by simp at hlen ⊢; omega) hnew hrest
    refine ⟨acc', ?_⟩
    have hl : off + 1 + cs.length = off + (cs.length + 1) := by omega
    rw [hl] at h
    simp only [List.cons_append, parseIPv6Hex, hv, h3, hacc', if_false, List.length_cons]
    exact h

theorem dottedQuad_data (a b c d : Nat) :
    (dottedQuad a b c d).data
      = Nat.toDigits 10 a ++ '.' :: (Nat.toDigits 10 b ++ '.' :: (Nat.toDigits 10 c
          ++ '.' :: Nat.toDigits 10 d)) := rfl

set_option maxRecDepth 100000 in
theorem octet_length_table : ∀ n : Fin 256, (Nat.toDigits 10 n).length ≤ 3 := by
  decide

theorem octet_hex (n : Nat) (hn : n ≤ 255) :
    (∀ c ∈ Nat.toDigits 10 n, isHexDigit c = true) ∧ 1 ≤ (Nat.toDigits 10 n).length
      ∧ (Nat.toDigits 10 n).length ≤ 3 := by
  obtain ⟨h1, h2, h3⟩ := octet_table ⟨n, hn.trans_lt (by omega)⟩
  simp only at h1 h2 h3
  refine ⟨fun c hc => isHexDigit_of_digit c (h1 c hc), ?_, ?_⟩
  · cases h : Nat.toDigits 10 n with
    | nil => exact absurd h h2
    | cons x xs => simp
  · have := octet_length_table ⟨n, hn.trans_lt (by omega)⟩
    exact this

theorem colon_not_hex : isHexDigit ':' = false := by decide

theorem dot_not_hex : isHexDigit '.' = false := by decide

theorem joinColon_head (post : List (List Char)) (quad : Option (List Char))
    (hpost : ∀ g ∈ post, IsHexGroup g) (hquad : ∀ q, quad = some q → IsDottedQuad q)
    (hne : post ++ quad.toList ≠ []) :
    ∃ c rest, joinColon (post ++ quad.toList) = c :: rest ∧ isHexDigit c = true := by
  cases post with
  | nil =>
    cases quad with
    | none => exact absurd rfl hne
    | some q =>
      obtain ⟨a, b, c, d, ha, _, _, _, rfl⟩ := hquad q rfl
      obtain ⟨h1, h2, _⟩ := octet_hex a ha
      simp only [List.nil_append, Option.toList, joinColon_singleton, dottedQuad_data]
      cases hd : Nat.toDigits 10 a with
      | nil => rw [hd] at h2; simp at h2
      | cons x xs =>
        rw [hd] at h1
        exact ⟨x, _, rfl, h1 x (by simp)⟩
  | cons g post' =>
    obtain ⟨h1, _, h3⟩ := hpost g (by simp)
    cases g with
    | nil => simp at h1
    | cons x xs =>
      refine ⟨x, ?_, ?_, h3 x (by simp)⟩
      · exact (joinColon ((x :: xs) :: post' ++ quad.toList)).tail
      · cases hL : post' ++ quad.toList with
        | nil => simp [hL, joinColon]
        | cons y ys => simp [hL, joinColon]

theorem parseIPv6Loop_tail :
    ∀ (post : List (List Char)) (quad : Option (List Char)) (n : Nat) (st : IPv6Scan),
      (∀ g ∈ post, IsHexGroup g) → (∀ q, quad = some q → IsDottedQuad q) →
      post ++ quad.toList ≠ [] → st.s = joinColon (post ++ quad.toList) →
      st.i + 2 * n = 16 → st.i + 2 * post.length + 4 * quad.toList.length ≤ 16 →
      (quad ≠ none → st.ellipsis ≠ none ∨ st.i + 2 * post.length = 12) →
      ∃ st', parseIPv6Loop n st = Except.ok st' ∧ st'.s = []
        ∧ st'.i = st.i + 2 * post.length + 4 * quad.toList.length
        ∧ st'.ellipsis = st.ellipsis := by
  intro post
  induction post with
  | nil =>
    intro quad n st _ hquad hne hs hn hroom hq
    cases quad with
    | none => exact absurd rfl hne
    | some q =>
      obtain ⟨a, b, c, d, ha, hb, hc, hd, rfl⟩ := hquad q rfl
      obtain ⟨h1, h2, h3⟩ := octet_hex a ha
      simp only [List.nil_append, Option.toList, joinColon_singleton] at hs
      simp only [Option.toList, List.length_singleton, List.length_nil] at hroom
      obtain ⟨m, rfl⟩ : ∃ m, n = m + 1 := ⟨n - 1, by omega⟩
      have hi : st.i < 16 := by omega
      obtain ⟨acc, hhex⟩ := parseIPv6Hex_group (Nat.toDigits 10 a)
        ('.' :: (Nat.toDigits 10 b ++ '.' :: (Nat.toDigits 10 c ++ '.' :: Nat.toDigits 10 d)))
        0 0 h1 (by omega) (by simp) (by simp [dot_not_hex])
      rw [← dottedQuad_data, ← hs, Nat.zero_add] at hhex
      have hdrop : st.s.drop (Nat.toDigits 10 a).length
          = '.' :: (Nat.toDigits 10 b ++ '.' :: (Nat.toDigits 10 c ++ '.' :: Nat.toDigits 10 d)) := by
        rw [hs, dottedQuad_data]
        simp
      have hoff : ¬ (Nat.toDigits 10 a).length = 0 := by omega
      have h12 : ¬ (st.ellipsis = none ∧ st.i ≠ 12) := by
        rintro ⟨e1, e2⟩
        rcases hq (by simp) with h | h
        · exact h e1
        · simp at h; exact e2 h
      have h16 : ¬ st.i + 4 > 16 := by omega
      have h4 : parseIPv4 ⟨st.s⟩ = Except.ok (Addr.v4 [a, b, c, d]) := by
        rw [hs]
        exact parseIPv4_dottedQuad a b c d ha hb hc hd
      refine ⟨{ s := [], i := st.i + 4, ip := st.ip ++ [a, b, c, d], ellipsis := st.ellipsis },
        ?_, rfl, by simp, rfl⟩
      simp only [parseIPv6Loop, hi, not_true_eq_false, if_false, hhex, hoff, hdrop, if_true,
        h12, h16, h4]
  | cons g post' ih =>
    intro quad n st hpost hquad _ hs hn hroom hq
    obtain ⟨hg1, hg2, hg3⟩ := hpost g (by simp)
    simp only [List.length_cons] at hroom
    obtain ⟨m, rfl⟩ : ∃ m, n = m + 1 := ⟨n - 1, by omega⟩
    have hi : st.i < 16 := by omega
    by_cases hL : post' ++ quad.toList = []
    · have hp : post' = [] := (List.append_eq_nil.mp hL).1
      have hqn : quad.toList = [] := (List.append_eq_nil.mp hL).2
      subst hp
      simp only [List.cons_append, List.nil_append, hqn, joinColon_singleton] at hs
      obtain ⟨acc, hhex0⟩ := parseIPv6Hex_group g [] 0 0 hg3 (by omega) (by simp) (by simp)
      have hhex : parseIPv6Hex st.s 0 0 = Except.ok (g.length, acc) := by
        rw [hs]
        simpa using hhex0
      have hoff : ¬ g.length = 0 := by omega
      have hdrop : st.s.drop g.length = [] := by rw [hs]; simp
      refine ⟨{ s := [], i := st.i + 2, ip := st.ip ++ [acc / 256, acc % 256],
                ellipsis := st.ellipsis }, ?_, rfl, by simp [hqn], rfl⟩
      simp only [parseIPv6Loop, hi, not_true_eq_false, if_false, hhex, hoff, hdrop]
    · obtain ⟨c₂, rest₂, hjoin, hc₂⟩ := joinColon_head post' quad
        (fun x hx => hpost x (by simp [hx])) hquad hL
      have hs' : st.s = g ++ ':' :: c₂ :: rest₂ := by
        rw [hs, List.cons_append, joinColon_cons _ _ hL, hjoin]
      obtain ⟨acc, hhex0⟩ := parseIPv6Hex_group g (':' :: c₂ :: rest₂) 0 0 hg3 (by omega)
        (by simp) (by simp [colon_not_hex])
      have hhex : parseIPv6Hex st.s 0 0 = Except.ok (g.length, acc) := by
        rw [hs']
        simpa using hhex0
      have hoff : ¬ g.length = 0 := by omega
      have hdrop : st.s.drop g.length = ':' :: c₂ :: rest₂ := by rw [hs']; simp
      have hc2 : ¬ c₂ = ':' := by
        rintro rfl
        rw [colon_not_hex] at hc₂
        cases hc₂
      obtain ⟨st', h1, h2, h3, h4⟩ := ih quad m
        { s := c₂ :: rest₂, i := st.i + 2, ip := st.ip ++ [acc / 256, acc % 256],
          ellipsis := st.ellipsis }
        (fun x hx => hpost x (by simp [hx])) hquad hL hjoin.symm (by simp; omega)
        (by simp; omega)
        (by
          intro hqq
          rcases hq hqq with h | h
          · exact Or.inl h
          · right; simp at h ⊢; omega)
      refine ⟨st', ?_, h2, by simp at h3 ⊢; omega, h4⟩
      have hcd : ¬ (':' : Char) = '.' := by decide
      simp only [parseIPv6Loop, hi, not_true_eq_false, if_false, hhex, hoff, hdrop, hcd,
        ne_eq, not_true_eq_false, hc2]
      exact h1

theorem joinColon_head_groups (pre : List (List Char)) (hpre : ∀ g ∈ pre, IsHexGroup g)
    (hne : pre ≠ []) : ∃ c rest, joinColon pre = c :: rest ∧ isHexDigit c = true := by
  have h := joinColon_head pre none hpre (by simp) (by simpa using hne)
  simpa using h

theorem parseIPv6Loop_head :
    ∀ (pre post : List (List Char)) (quad : Option (List Char)) (n : Nat) (st : IPv6Scan),
      pre ≠ [] → (∀ g ∈ pre, IsHexGroup g) → (∀ g ∈ post, IsHexGroup g) →
      (∀ q, quad = some q → IsDottedQuad q) →
      st.s = joinColon pre ++ ':' :: ':' :: joinColon (post ++ quad.toList) →
      st.ellipsis = none → st.i + 2 * n = 16 →
      st.i + 2 * (pre.length + post.length) + 4 * quad.toList.length ≤ 14 →
      ∃ st', parseIPv6Loop n st = Except.ok st' ∧ st'.s = []
        ∧ st'.i = st.i + 2 * (pre.length + post.length) + 4 * quad.toList.length
        ∧ st'.ellipsis ≠ none := by
  intro pre
  induction pre with
  | nil => intro post quad n st hne; exact absurd rfl hne
  | cons g pre' ih =>
    intro post quad n st _ hpre hpost hquad hs he hn hroom
    obtain ⟨hg1, hg2, hg3⟩ := hpre g (by simp)
    simp only [List.length_cons] at hroom
    obtain ⟨m, rfl⟩ : ∃ m, n = m + 1 := ⟨n - 1, by omega⟩
    have hi : st.i < 16 := by omega
    have hcd : ¬ (':' : Char) = '.' := by decide
    have he' : ¬ st.ellipsis ≠ none := by simp [he]
    by_cases hp : pre' = []
    · subst hp
      simp only [joinColon_singleton] at hs
      obtain ⟨acc, hhex0⟩ := parseIPv6Hex_group g
        (':' :: ':' :: joinColon (post ++ quad.toList)) 0 0 hg3 (by omega)
        (by simp) (by simp [colon_not_hex])
      have hhex : parseIPv6Hex st.s 0 0 = Except.ok (g.length, acc) := by
        rw [hs]
        simpa using hhex0
      have hoff : ¬ g.length = 0 := by omega
      have hdrop : st.s.drop g.length = ':' :: ':' :: joinColon (post ++ quad.toList) := by
        rw [hs]; simp
      by_cases hL : post ++ quad.toList = []
      · have hp0 : post = [] := (List.append_eq_nil.mp hL).1
        have hq0 : quad.toList = [] := (List.append_eq_nil.mp hL).2
        refine ⟨{ s := [], i := st.i + 2, ip := st.ip ++ [acc / 256, acc % 256],
                  ellipsis := some (st.i + 2) }, ?_, rfl, by simp [hp0, hq0], by simp⟩
        simp only [parseIPv6Loop, hi, not_true_eq_false, if_false, hhex, hoff, hdrop, hcd,
          ne_eq, not_true_eq_false, if_true, he', hL, joinColon]
      · obtain ⟨c₂, rest₂, hjoin, _⟩ := joinColon_head post quad hpost hquad hL
        obtain ⟨st', h1, h2, h3, h4⟩ := parseIPv6Loop_tail post quad m
          { s := c₂ :: rest₂, i := st.i + 2, ip := st.ip ++ [acc / 256, acc % 256],
            ellipsis := some (st.i + 2) }
          hpost hquad hL hjoin.symm (by simp; omega) (by simp; omega)
          (fun _ => Or.inl (by simp))
        refine ⟨st', ?_, h2, by simp at h3 ⊢; omega, by rw [h4]; simp⟩
        rw [hjoin] at hdrop
        simp only [parseIPv6Loop, hi, not_true_eq_false, if_false, hhex, hoff, hdrop, hcd,
          ne_eq, not_true_eq_false, if_true, he']
        simp only [he, not_true_eq_false, if_false, reduceCtorEq, not_false_eq_true]
        exact h1
    · obtain ⟨c₂, rest₂, hjoin, hc₂⟩ := joinColon_head_groups pre'
        (fun x hx => hpre x (by simp [hx])) hp
      have hs' : st.s = g ++ ':' :: c₂ ::
          (rest₂ ++ ':' :: ':' :: joinColon (post ++ quad.toList)) := by
        rw [hs, joinColon_cons _ _ hp, hjoin]
        simp
      obtain ⟨acc, hhex0⟩ := parseIPv6Hex_group g
        (':' :: c₂ :: (rest₂ ++ ':' :: ':' :: joinColon (post ++ quad.toList))) 0 0 hg3
        (by omega) (by simp) (by simp [colon_not_hex])
      have hhex : parseIPv6Hex st.s 0 0 = Except.ok (g.length, acc) := by
        rw [hs']
        simpa using hhex0
      have hoff : ¬ g.length = 0 := by omega
      have hdrop : st.s.drop g.length
          = ':' :: c₂ :: (rest₂ ++ ':' :: ':' :: joinColon (post ++ quad.toList)) := by
        rw [hs']; simp
      have hc2 : ¬ c₂ = ':' := by
        rintro rfl
        rw [colon_not_hex] at hc₂
        cases hc₂
      obtain ⟨st', h1, h2, h3, h4⟩ := ih post quad m
        { s := c₂ :: (rest₂ ++ ':' :: ':' :: joinColon (post ++ quad.toList)), i := st.i + 2,
          ip := st.ip ++ [acc / 256, acc % 256], ellipsis := st.ellipsis }
        hp (fun x hx => hpre x (by simp [hx])) hpost hquad (by simp [hjoin]) he
        (by simp; omega) (by simp; omega)
      refine ⟨st', ?_, h2, by simp at h3 ⊢; omega, h4⟩
      simp only [parseIPv6Loop, hi, not_true_eq_false, if_false, hhex, hoff, hdrop, hcd,
        ne_eq, not_true_eq_false, hc2]
      exact h1

theorem joinColon_chars : ∀ (l : List (List Char)) (c : Char),
    c ∈ joinColon l → c = ':' ∨ ∃ p ∈ l, c ∈ p := by
  intro l
  induction l with
  | nil => intro c hc; simp [joinColon] at hc
  | cons g rest ih =>
    intro c hc
    cases rest with
    | nil =>
      rw [joinColon_singleton] at hc
      exact Or.inr ⟨g, by simp, hc⟩
    | cons x xs =>
      rw [joinColon_cons _ _ (by simp)] at hc
      rcases List.mem_append.mp hc with h | h
      · exact Or.inr ⟨g, by simp, h⟩
      · rcases List.mem_cons.mp h with h | h
        · exact Or.inl h
        · rcases ih c h with h | ⟨p, hp, hcp⟩
          · exact Or.inl h
          · exact Or.inr ⟨p, by simp [hp], hcp⟩

theorem dottedQuad_chars (a b c d : Nat) (ha : a ≤ 255) (hb : b ≤ 255) (hc : c ≤ 255)
    (hd : d ≤ 255) : ∀ x ∈ (dottedQuad a b c d).data, isHexDigit x = true ∨ x = '.' := by
  intro x hx
  simp only [dottedQuad_data, List.mem_append, List.mem_cons] at hx
  rcases hx with h | h | h | h | h | h | h
  · exact Or.inl ((octet_hex a ha).1 x h)
  · exact Or.inr h
  · exact Or.inl ((octet_hex b hb).1 x h)
  · exact Or.inr h
  · exact Or.inl ((octet_hex c hc).1 x h)
  · exact Or.inr h
  · exact Or.inl ((octet_hex d hd).1 x h)

theorem pieces_chars (post : List (List Char)) (quad : Option (List Char))
    (hpost : ∀ g ∈ post, IsHexGroup g) (hquad : ∀ q, quad = some q → IsDottedQuad q) :
    ∀ x ∈ joinColon (post ++ quad.toList), isHexDigit x = true ∨ x = '.' ∨ x = ':' := by
  intro x hx
  rcases joinColon_chars _ x hx with h | ⟨p, hp, hxp⟩
  · exact Or.inr (Or.inr h)
  · rcases List.mem_append.mp hp with hp | hp
    · exact Or.inl ((hpost p hp).2.2 x hxp)
    · cases quad with
      | none => simp at hp
      | some q =>
        simp only [Option.toList, List.mem_singleton] at hp
        subst hp
        obtain ⟨a, b, c, d, ha, hb, hc, hd, rfl⟩ := hquad p rfl
        rcases dottedQuad_chars a b c d ha hb hc hd x hxp with h | h
        · exact Or.inl h
        · exact Or.inr (Or.inl h)

theorem ipv6Text_chars (t : List Char) (h : IsIPv6Text t) :
    ∀ x ∈ t, isHexDigit x = true ∨ x = '.' ∨ x = ':' := by
  obtain ⟨pre, post, quad, hpre, hpost, hquad, hcase⟩ := h
  intro x hx
  rcases hcase with ⟨_, ht, _⟩ | ⟨ht, _⟩
  · rw [ht] at hx
    exact pieces_chars post quad hpost hquad x hx
  · rw [ht] at hx
    simp only [List.mem_append, List.mem_cons] at hx
    rcases hx with h | h | h | h
    · have := pieces_chars pre none hpre (by simp) x (by simpa using h)
      exact this
    · exact Or.inr (Or.inr h)
    · exact Or.inr (Or.inr h)
    · exact pieces_chars post quad hpost hquad x h

theorem ipv6Text_no_percent (t : List Char) (h : IsIPv6Text t) : '%' ∉ t := by
  intro hm
  rcases ipv6Text_chars t h _ hm with h | h | h
  · exact absurd h (by decide)
  · exact absurd h (by decide)
  · exact absurd h (by decide)

theorem lead_of_hex (c : Char) (rest : List Char) (hc : isHexDigit c = true) :
    (match c :: rest with
      | c₁ :: c₂ :: r => if c₁ = ':' ∧ c₂ = ':' then ((some 0 : Option Nat), r)
          else (none, c :: rest)
      | _ => (none, c :: rest)) = (none, c :: rest) := by
  have hne : c ≠ ':' := by
    rintro rfl
    rw [colon_not_hex] at hc
    cases hc
  cases rest with
  | nil => rfl
  | cons x xs => simp [hne]

theorem parseIPv6_accepts (string6 : List Nat → String) (t : List Char) (h : IsIPv6Text t) :
    ∃ text, parseIPv6 string6 ⟨t⟩ = Except.ok (text, "") := by
  have hnot := ipv6Text_no_percent t h
  have hdw : t.dropWhile (fun c => c ≠ '%') = [] := by
    rw [List.dropWhile_eq_nil_iff]
    intro c hc
    simp only [ne_eq, decide_not, Bool.not_eq_true', decide_eq_false_iff_not]
    rintro rfl
    exact hnot hc
  have hfalse : ¬ ('%' ∈ t ∧ (t.dropWhile (fun c => c ≠ '%')).drop 1 = []) := fun hh => hnot hh.1
  obtain ⟨pre, post, quad, hpre, hpost, hquad, hcase⟩ := h
  unfold parseIPv6
  simp only [takeWhile_not_percent t hnot, hdw, List.drop_nil]
  rw [if_neg (by simpa using hnot)]
  rcases hcase with ⟨_, ht, hcount⟩ | ⟨ht, hcount⟩
  · have hL : post ++ quad.toList ≠ [] := by
      intro hL
      have h1 := (List.append_eq_nil.mp hL).1
      have h2 := (List.append_eq_nil.mp hL).2
      simp [h1, h2] at hcount
    obtain ⟨c, rest, hjoin, hc⟩ := joinColon_head post quad hpost hquad hL
    obtain ⟨st', h1, h2, h3, h4⟩ := parseIPv6Loop_tail post quad 8
      { s := t, i := 0, ip := [], ellipsis := none } hpost hquad hL ht rfl
      (by simp; omega)
      (by
        intro hq
        right
        cases quad with
        | none => exact absurd rfl hq
        | some q => simp at hcount ⊢; omega)
    have htc : t = c :: rest := by rw [ht, hjoin]
    rw [htc, lead_of_hex c rest hc, ← htc]
    simp only [ne_eq, not_true_eq_false, false_and, if_false, h1, h2]
    simp only at h3 h4
    have hi : ¬ st'.i < 16 := by omega
    simp only [hi, if_false, h4, not_true_eq_false]
    exact ⟨_, rfl⟩
  · by_cases hp : pre = []
    · subst hp
      simp only [joinColon, List.nil_append] at ht
      rw [ht]
      simp only [and_self, if_true]
      by_cases hL : post ++ quad.toList = []
      · simp only [hL, joinColon, ne_eq, reduceCtorEq, not_false_eq_true, and_self, if_true]
        exact ⟨_, rfl⟩
      · obtain ⟨c, rest, hjoin, hc⟩ := joinColon_head post quad hpost hquad hL
        obtain ⟨st', h1, h2, h3, h4⟩ := parseIPv6Loop_tail post quad 8
          { s := joinColon (post ++ quad.toList), i := 0, ip := [], ellipsis := some 0 }
          hpost hquad hL rfl rfl (by simp at hcount ⊢; omega) (fun _ => Or.inl (by simp))
        have hne : ¬ ((some 0 : Option Nat) ≠ none ∧ joinColon (post ++ quad.toList) = []) := by
          rw [hjoin]
          simp
        rw [if_neg hne]
        simp only [h1, h2, ne_eq, not_true_eq_false, if_false]
        simp only [List.length_nil, Nat.zero_add] at hcount
        simp only at h3 h4
        have hi : st'.i < 16 := by omega
        simp only [hi, if_true, h4]
        exact ⟨_, rfl⟩
    · obtain ⟨c, rest, hjoin, hc⟩ := joinColon_head_groups pre hpre hp
      obtain ⟨st', h1, h2, h3, h4⟩ := parseIPv6Loop_head pre post quad 8
        { s := t, i := 0, ip := [], ellipsis := none } hp hpre hpost hquad ht rfl rfl
        (by simp; omega)
      have htc : t = c :: (rest ++ ':' :: ':' :: joinColon (post ++ quad.toList)) := by
        rw [ht, hjoin]
        simp
      rw [htc, lead_of_hex c _ hc, ← htc]
      simp only [ne_eq, not_true_eq_false, false_and, if_false, h1, h2]
      simp only at h3
      have hi : st'.i < 16 := by omega
      simp only [hi, if_true]
      cases he : st'.ellipsis with
      | none => exact absurd he h4
      | some e => exact ⟨_, rfl⟩

theorem ParseAddrScan_hex (p6 : String → Except GoError (String × String)) (s : String)
    (rest : List Char) :
    ∀ g : List Char, (∀ c ∈ g, isHexDigit c = true) →
      ParseAddrScan p6 s (g ++ ':' :: rest)
        = (match p6 s with
          | Except.error err => Except.error err
          | Except.ok ip => Except.ok (Addr.v6 ip.1 ip.2)) := by
  intro g
  induction g with
  | nil =>
    intro _
    simp only [List.nil_append, ParseAddrScan]
    cases p6 s <;> simp
  | cons c cs ih =>
    intro hg
    have hc := hg c (by simp)
    have h1 : c ≠ '.' := by intro h; rw [h] at hc; exact absurd hc (by decide)
    have h2 : c ≠ ':' := by intro h; rw [h] at hc; exact absurd hc (by decide)
    have h3 : c ≠ '%' := by intro h; rw [h] at hc; exact absurd hc (by decide)
    simp only [List.cons_append, ParseAddrScan, h1, h2, h3, if_false]
    exact ih fun x hx => hg x (by simp [hx])

theorem ipv6Text_first_colon (t : List Char) (h : IsIPv6Text t) :
    ∃ g rest, t = g ++ ':' :: rest ∧ ∀ c ∈ g, isHexDigit c = true := by
  obtain ⟨pre, post, quad, hpre, hpost, hquad, hcase⟩ := h
  rcases hcase with ⟨_, ht, hcount⟩ | ⟨ht, _⟩
  · cases post with
    | nil =>
      cases quad with
      | none => simp at hcount
      | some q => simp at hcount
    | cons g post' =>
      have hL : post' ++ quad.toList ≠ [] := by
        intro hL
        have h1 := (List.append_eq_nil.mp hL).1
        have h2 := (List.append_eq_nil.mp hL).2
        simp [h1, h2] at hcount
      rw [List.cons_append, joinColon_cons _ _ hL] at ht
      exact ⟨g, _, ht, (hpost g (by simp)).2.2⟩
  · cases pre with
    | nil => exact ⟨[], _, by simpa [joinColon] using ht, by simp⟩
    | cons g pre' =>
      by_cases hp : pre' = []
      · subst hp
        rw [joinColon_singleton] at ht
        exact ⟨g, _, ht, (hpre g (by simp)).2.2⟩
      · rw [joinColon_cons _ _ hp, List.append_assoc, List.cons_append] at ht
        exact ⟨g, _, ht, (hpre g (by simp)).2.2⟩

theorem ParsePrefix_accepts (string6 : List Nat → String) (cidr : String)
    (h : WellFormedCIDR cidr) :
    ∃ ip bits, ParsePrefix (parseIPv6 string6) cidr = Except.ok (ip, bits) := by
  obtain ⟨addr, bits, hdata, hcase⟩ := h
  rcases hcase with ⟨⟨a, b, c, d, ha, hb, hc, hd, rfl⟩, hbits⟩ | ⟨h6, hbits⟩
  · have hcidr : cidr = dottedQuad a b c d ++ "/" ++ ⟨Nat.toDigits 10 bits⟩ := by
      apply String.ext
      rw [hdata]
      simp [String.data_append]
    rw [hcidr]
    exact ⟨_, _, ParsePrefix_dottedQuad _ a b c d ha hb hc hd bits hbits⟩
  · have hb0 : '/' ∉ Nat.toDigits 10 bits := digits_no_slash bits (by omega)
    have hpb : parseBits (Nat.toDigits 10 bits) = Except.ok bits :=
      parseBits_table ⟨bits, by omega⟩
    have hle : ¬ bits > 128 := by omega
    obtain ⟨text, h6ok⟩ := parseIPv6_accepts string6 addr h6
    obtain ⟨g, rest, hsplit, hg⟩ := ipv6Text_first_colon addr h6
    have hpa : ParseAddr (parseIPv6 string6) ⟨addr⟩ = Except.ok (Addr.v6 text "") := by
      unfold ParseAddr
      simp only
      rw [hsplit, ParseAddrScan_hex _ _ rest g hg, ← hsplit, h6ok]
    refine ⟨Addr.v6 text "", bits, ?_⟩
    unfold ParsePrefix
    rw [hdata, LastIndexByteString_last '/' _ hb0]
    simp only [take_before, drop_after, hpa, hpb, hle, if_false, ne_eq, not_true_eq_false]

/-- C23: `prefixToAddr`, run on the parser `netip.ParsePrefix`, fails on every
string that is not a well-formed CIDR, with a non-nil error and no address; in
particular it fails on every string without `/`, whatever the IPv6 half of the
parser answers. It succeeds on every well-formed CIDR, so that the strings it
rejects are exactly the malformed ones. -/
theorem C23_malformed_prefix_is_rejected (string6 : List Nat → String) (cidr : String) :
    (¬ WellFormedCIDR cidr →
        ∃ err, err ≠ []
          ∧ prefixToAddr (netipPrefixAddr (parseIPv6 string6)) cidr = Except.error err)
      ∧ (∀ parseIPv6 : String → Except GoError (String × String), '/' ∉ cidr.data →
        ∃ err, err ≠ [] ∧ prefixToAddr (netipPrefixAddr parseIPv6) cidr = Except.error err)
      ∧ (WellFormedCIDR cidr →
        ∃ addr, prefixToAddr (netipPrefixAddr (parseIPv6 string6)) cidr = Except.ok addr) := by
  refine ⟨?_, ?_, ?_⟩
  · intro hwf
    cases hp : ParsePrefix (parseIPv6 string6) cidr with
    | error e =>
      refine ⟨e, ParsePrefix_error _ (parseIPv6_error string6) _ _ hp, ?_⟩
      simp [prefixToAddr, netipPrefixAddr, hp]
    | ok r =>
      obtain ⟨ip, bits⟩ := r
      exact absurd (ParsePrefix_wellFormed string6 cidr ip bits hp) hwf
  · intro p6 h
    refine ⟨[ErrorLeaf.plain "no slash"], by simp, ?_⟩
    simp only [prefixToAddr, netipPrefixAddr, ParsePrefix, LastIndexByteString_none '/' _ h]
  · intro hwf
    obtain ⟨ip, bits, hp⟩ := ParsePrefix_accepts string6 cidr hwf
    exact ⟨addrString ip, by simp [prefixToAddr, netipPrefixAddr, hp]⟩

/-- Instances of C23: the strings `10.0.0.5/99` (prefix length above 32),
`999.0.0.1/32` (octet above 255), `zz:not-an-address/5` (no IPv6 text),
`fe80::1%eth0/64` (zone), `10.0.0.5` and the empty string (no `/`) are no
well-formed CIDRs and are rejected; `10.0.0.5/32` and `fe80::1/128` are
well-formed and accepted. -/
theorem C23_malformed_prefix_is_rejected_witness :
    (¬ WellFormedCIDR "10.0.0.5/99" ∧ ¬ WellFormedCIDR "999.0.0.1/32"
        ∧ ¬ WellFormedCIDR "zz:not-an-address/5" ∧ ¬ WellFormedCIDR "fe80::1%eth0/64"
        ∧ ¬ WellFormedCIDR "10.0.0.5" ∧ ¬ WellFormedCIDR "")
      ∧ (∀ string6 : List Nat → String,
          prefixToAddr (netipPrefixAddr (parseIPv6 string6)) "10.0.0.5/99"
              = Except.error [ErrorLeaf.plain "prefix length out of range"]
            ∧ prefixToAddr (netipPrefixAddr (parseIPv6 string6)) "999.0.0.1/32"
              = Except.error [ErrorLeaf.plain "IPv4 field has value >255"]
            ∧ prefixToAddr (netipPrefixAddr (parseIPv6 string6)) "zz:not-an-address/5"
              = Except.error
                  [ErrorLeaf.plain "each colon-separated field must have at least one digit"]
            ∧ prefixToAddr (netipPrefixAddr (parseIPv6 string6)) "10.0.0.5"
              = Except.error [ErrorLeaf.plain "no slash"]
            ∧ prefixToAddr (netipPrefixAddr (parseIPv6 string6)) ""
              = Except.error [ErrorLeaf.plain "no slash"])
      ∧ (WellFormedCIDR "10.0.0.5/32" ∧ WellFormedCIDR "fe80::1/128")
      ∧ (∃ err, err ≠ []
          ∧ prefixToAddr (netipPrefixAddr (parseIPv6 (fun _ => ""))) "10.0.0.5/99"
            = Except.error err) :=
  have hrej : ∀ cidr : String, (∃ err,
      prefixToAddr (netipPrefixAddr (parseIPv6 (fun _ => ""))) cidr = Except.error err) →
      ¬ WellFormedCIDR cidr := by
    intro cidr herr hwf
    obtain ⟨err, herr⟩ := herr
    obtain ⟨addr, hok⟩ := (C23_malformed_prefix_is_rejected (fun _ => "") cidr).2.2 hwf
    rw [hok] at herr
    cases herr
  have h99 : ¬ WellFormedCIDR "10.0.0.5/99" := hrej _ ⟨_, rfl⟩
  ⟨⟨h99, hrej _ ⟨_, rfl⟩, hrej _ ⟨_, rfl⟩, hrej _ ⟨_, rfl⟩, hrej _ ⟨_, rfl⟩, hrej _ ⟨_, rfl⟩⟩,
    fun _ => ⟨rfl, rfl, rfl, rfl, rfl⟩,
    ⟨⟨"10.0.0.5".data, 32, rfl, Or.inl ⟨⟨10, 0, 0, 5, by decide, by decide, by decide,
        by decide, rfl⟩, by decide⟩⟩,
      ⟨"fe80::1".data, 128, rfl, Or.inr ⟨⟨["fe80".data], ["1".data], none,
        by simp [IsHexGroup, isHexDigit], by simp [IsHexGroup, isHexDigit], by simp,
        Or.inr ⟨rfl, by decide⟩⟩, by decide⟩⟩⟩,
    (C23_malformed_prefix_is_rejected (fun _ => "") "10.0.0.5/99").1 h99⟩

end BGPv2
